import Mathlib

/-!
# focus-spot-api: productivity analytics

A shallow embedding of the productivity analytics of the focus session service:
the per-session score (`entity.FocusSession.CalculateProductivityScore`), the
day-part classifier (`entity.GetTimeOfDay`), the statistics pass
(`GetProductivityStats`) and the trend pass (`GetProductivityTrends`) of the
MongoDB repository, and of the session use cases (`CreateSession`, `GetSessionByID`,
`UpdateSession`, `StartSession`, `EndSession`, `CancelSession`, `DeleteSession`) over the
CRUD methods of the repository.

Modelling conventions.

* Go `int` is `Int`; no sum in the analytics comes near the 64-bit range for
  durations in minutes and ratings, so wrap-around is not modelled.
* Go `float64` is modelled twice. In the score and the two passes of the first part a
  `float64` is a rational number and every operation is exact; the properties that
  rounding does not touch are stated of these: bounds, zero cases, which sessions count,
  key sets, integer sums, orders, monotonicity. The part "The analytics in binary64"
  gives the score and the two passes once more with every operation rounded to binary64
  (to nearest, ties to even); the properties that depend on the value of a score or on
  the comparison of two averages are stated of these.
* A pointer field (`*int`, `*LocationDetails`) is an `Option`.
* A `time.Time` is the wall clock reading in its own location, counted in
  nanoseconds from 1970-01-01 00:00; locations are fixed offsets (no daylight
  saving transitions), so a calendar day has `nsPerDay` nanoseconds.
* A Go map is an association list in insertion order; the order in which a
  `range` loop visits a map is not specified by the language, so the passes that
  range over a map take the visiting order as an argument.
* An object identifier is a natural number, a Go `error` is its message, and a use
  case is a function from the stored collection to its result and the collection it
  leaves.
-/

namespace FocusSpot

/-! ## Data model (`domain/entity`) -/

/-- Wall clock instant: nanoseconds since 1970-01-01 00:00 in the location of the value. -/
structure Time where
  wall : Int
deriving DecidableEq, Repr

/-- Go type `SessionStatus` is a string type. -/
abbrev SessionStatus := String

def StatusPlanned : SessionStatus := "planned"
def StatusActive : SessionStatus := "active"
def StatusCompleted : SessionStatus := "completed"
def StatusCancelled : SessionStatus := "cancelled"

structure LocationDetails where
  Name : String
  Address : String
  Latitude : ℚ
  Longitude : ℚ
  LocType : String
deriving DecidableEq, Repr

structure FocusSession where
  ID : Nat
  UserID : Nat
  Title : String
  Description : String
  StartTime : Time
  EndTime : Option Time
  Duration : Int
  ActualDuration : Option Int
  Status : SessionStatus
  LocationID : Option Nat
  LocationDetails : Option LocationDetails
  Tags : List String
  Notes : String
  Rating : Option Int
  Distractions : Option Int
  Focus : Option Int
  Energy : Option Int
  Mood : Option Int
  CreatedAt : Time
  UpdatedAt : Time
  Active : Bool
  DeletedAt : Option Time
deriving DecidableEq, Repr

/-- Score of one session (`FocusSession.CalculateProductivityScore`). -/
def CalculateProductivityScore (s : FocusSession) : ℚ :=
  match s.ActualDuration, s.Rating with
  | some actual, some rating =>
    if s.Status ≠ StatusCompleted then 0
    else
      let score : ℚ := (rating : ℚ)
      let score : ℚ :=
        if s.Duration > 0 then
          if (actual : ℚ) / (s.Duration : ℚ) > 1.2 then score + 1 else score - 1
        else score
      let score : ℚ :=
        match s.Focus with
        | some focus => score + (focus : ℚ) / 10 * 2
        | none => score
      let score : ℚ :=
        match s.Distractions with
        | some distractions =>
          if distractions > 0 then score - min ((distractions : ℚ) / 10) 1 else score
        | none => score
      max 0 (min 10 score)
  | _, _ => 0

/-! ### The score as the specification words it -/

/-- Duration adjustment of the specification: `+1` above ratio 1.2, `-1` at or below,
nothing when the planned duration is not positive. -/
def specDurationAdjust (planned actual : Int) : ℚ :=
  if planned ≤ 0 then 0
  else if (actual : ℚ) / (planned : ℚ) > 6 / 5 then 1 else -1

/-- Focus bonus of the specification. -/
def specFocusBonus : Option Int → ℚ
  | some f => (f : ℚ) / 10 * 2
  | none => 0

/-- Distraction penalty of the specification. -/
def specDistractionPenalty : Option Int → ℚ
  | some d => if d > 0 then min ((d : ℚ) / 10) 1 else 0
  | none => 0

/-- Clamp to the interval from 0 to 10. -/
def clamp10 (x : ℚ) : ℚ := max 0 (min 10 x)

/-- Score of a completed session with rating and actual duration, as the specification
words it. -/
def specScore (rating planned actual : Int) (focus distractions : Option Int) : ℚ :=
  clamp10 ((rating : ℚ) + specDurationAdjust planned actual + specFocusBonus focus
    - specDistractionPenalty distractions)

/-- A session in which only the fields read by the analytics are set. -/
def mkSession (start : Time) (planned : Int) (status : SessionStatus)
    (actual rating focus distractions : Option Int) : FocusSession :=
  { ID := 0, UserID := 0, Title := "", Description := "", StartTime := start, EndTime := none,
    Duration := planned, ActualDuration := actual, Status := status, LocationID := none,
    LocationDetails := none, Tags := [], Notes := "", Rating := rating,
    Distractions := distractions, Focus := focus, Energy := none, Mood := none,
    CreatedAt := ⟨0⟩, UpdatedAt := ⟨0⟩, Active := true, DeletedAt := none }

/-! ## Calendar (Go standard library `time`, proleptic Gregorian calendar)

The package `time` is not part of the repository. It is modelled by its documented
behaviour: `Date` normalises month and day overflow, `AddDate` goes through `Date`,
`ISOWeek` is the year and week of the Thursday of the week. -/

def nsPerSecond : Int := 1000000000
def nsPerMinute : Int := 60 * nsPerSecond
def nsPerHour : Int := 60 * nsPerMinute
def nsPerDay : Int := 24 * nsPerHour

/-- Go type `time.Weekday`, `Sunday = 0` up to `Saturday = 6`. -/
inductive Weekday where
  | Sunday | Monday | Tuesday | Wednesday | Thursday | Friday | Saturday
deriving DecidableEq, Repr

/-- The integer value of a weekday. -/
def Weekday.toInt : Weekday → Int
  | .Sunday => 0 | .Monday => 1 | .Tuesday => 2 | .Wednesday => 3
  | .Thursday => 4 | .Friday => 5 | .Saturday => 6

/-- The weekday with a given value modulo 7. -/
def Weekday.ofInt (i : Int) : Weekday :=
  match (i % 7).toNat with
  | 0 => .Sunday | 1 => .Monday | 2 => .Tuesday | 3 => .Wednesday
  | 4 => .Thursday | 5 => .Friday | _ => .Saturday

/-- The seven weekdays in the order of `for day := time.Sunday; day <= time.Saturday; day++`. -/
def allWeekdays : List Weekday :=
  [.Sunday, .Monday, .Tuesday, .Wednesday, .Thursday, .Friday, .Saturday]

/-- Year of era (0..399) and March based day of year of a day of a 400 year era. -/
def yearOfEra (doe : Int) : Int × Int :=
  let c := min (doe / 36524) 3
  let r1 := doe - c * 36524
  let q := min (r1 / 1461) 24
  let r2 := r1 - q * 1461
  let yr := min (r2 / 365) 3
  (c * 100 + q * 4 + yr, r2 - yr * 365)

/-- Month (1..12) and day of month of a March based day of year. -/
def monthOfYear (doy : Int) : Int × Int :=
  let mp := (5 * doy + 2) / 153
  (if mp < 10 then mp + 3 else mp - 9, doy - (153 * mp + 2) / 5 + 1)

/-- Year, month and day of the day with number `n` (days since 1970-01-01). -/
def civilFromDays (n : Int) : Int × Int × Int :=
  let z := n + 719468
  let era := z / 146097
  let ye := yearOfEra (z % 146097)
  let md := monthOfYear ye.2
  (ye.1 + era * 400 + (if md.1 ≤ 2 then 1 else 0), md.1, md.2)

/-- Day number of year `y`, month `m` (1..12) and day `d`; `d` may lie outside the
month, the count is linear in it. -/
def daysFromCivil (y m d : Int) : Int :=
  let y1 := if m ≤ 2 then y - 1 else y
  let era := y1 / 400
  let yoe := y1 % 400
  let mp := if m > 2 then m - 3 else m + 9
  let doy := (153 * mp + 2) / 5 + d - 1
  let doe := yoe * 365 + yoe / 4 - yoe / 100 + doy
  era * 146097 + doe - 719468

/-- Day number of the calendar day of `t`. -/
def Time.dayNumber (t : Time) : Int := t.wall / nsPerDay

/-- Nanoseconds since midnight. -/
def Time.nsOfDay (t : Time) : Int := t.wall % nsPerDay

def Time.Year (t : Time) : Int := (civilFromDays t.dayNumber).1
def Time.Month (t : Time) : Int := (civilFromDays t.dayNumber).2.1
def Time.Day (t : Time) : Int := (civilFromDays t.dayNumber).2.2
def Time.Hour (t : Time) : Int := t.nsOfDay / nsPerHour
def Time.Minute (t : Time) : Int := t.nsOfDay % nsPerHour / nsPerMinute
def Time.Second (t : Time) : Int := t.nsOfDay % nsPerMinute / nsPerSecond
def Time.Nanosecond (t : Time) : Int := t.nsOfDay % nsPerSecond

/-- Weekday of `t`; 1970-01-01 was a Thursday. -/
def Time.Weekday (t : Time) : Weekday := Weekday.ofInt (t.dayNumber + 4)

/-- Zero based day of the year of day number `n`. -/
def yearDay (n : Int) : Int := n - daysFromCivil (civilFromDays n).1 1 1

/-- ISO 8601 year and week of `t`: those of the Thursday of the week of `t`. -/
def Time.ISOWeek (t : Time) : Int × Int :=
  let d := Weekday.toInt .Thursday - t.Weekday.toInt
  let d := if d = 4 then -3 else d
  let thursday := t.dayNumber + d
  ((civilFromDays thursday).1, yearDay thursday / 7 + 1)

/-- Go `time.Date`: values outside their usual ranges are normalised. -/
def Date (year month day hour min sec nsec : Int) : Time :=
  let m0 := month - 1
  ⟨daysFromCivil (year + m0 / 12) (m0 % 12 + 1) day * nsPerDay
    + hour * nsPerHour + min * nsPerMinute + sec * nsPerSecond + nsec⟩

/-- Go `Time.AddDate`. -/
def Time.AddDate (t : Time) (years months days : Int) : Time :=
  Date (t.Year + years) (t.Month + months) (t.Day + days) t.Hour t.Minute t.Second t.Nanosecond

def Time.Before (t u : Time) : Prop := t.wall < u.wall
def Time.Equal (t u : Time) : Prop := t.wall = u.wall

instance (t u : Time) : Decidable (t.Before u) := by unfold Time.Before; infer_instance
instance (t u : Time) : Decidable (t.Equal u) := by unfold Time.Equal; infer_instance

/-! ## Day parts (`domain/entity/time_of_day.go`) -/

/-- Go type `TimeOfDay` is a string type. -/
abbrev TimeOfDay := String

def EarlyMorning : TimeOfDay := "early_morning"
def LateMorning : TimeOfDay := "late_morning"
def Afternoon : TimeOfDay := "afternon"
def Evening : TimeOfDay := "evening"
def Night : TimeOfDay := "night"

/-- Day part of a timestamp (`GetTimeOfDay`). -/
def GetTimeOfDay (t : Time) : TimeOfDay :=
  let hour := t.Hour
  if hour ≥ 5 ∧ hour < 9 then EarlyMorning
  else if hour ≥ 9 ∧ hour < 12 then LateMorning
  else if hour ≥ 12 ∧ hour < 17 then Afternoon
  else if hour ≥ 17 ∧ hour < 21 then Evening
  else Night

/-! ## Go maps -/

/-- Go map as an association list with distinct keys, in insertion order. -/
abbrev GoMap (κ ν : Type) := List (κ × ν)

section GoMapOps
variable {κ ν : Type} [DecidableEq κ]

/-- Lookup `m[k]` with the comma-ok result as an `Option`. -/
def GoMap.get? (m : GoMap κ ν) (k : κ) : Option ν :=
  match m with
  | [] => none
  | e :: rest => if e.1 = k then some e.2 else GoMap.get? rest k

/-- Assignment `m[k] = v`: replaces the value of an existing key, adds a new key otherwise. -/
def GoMap.set (m : GoMap κ ν) (k : κ) (v : ν) : GoMap κ ν :=
  match m with
  | [] => [(k, v)]
  | e :: rest => if e.1 = k then (k, v) :: rest else e :: GoMap.set rest k v

/-- Update through the pointer stored under an existing key: `m[k].f = ...`. -/
def GoMap.update (m : GoMap κ ν) (k : κ) (f : ν → ν) : GoMap κ ν :=
  match m with
  | [] => []
  | e :: rest => if e.1 = k then (e.1, f e.2) :: rest else e :: GoMap.update rest k f

/-- The keys of the map. -/
def GoMap.keys (m : GoMap κ ν) : List κ := m.map Prod.fst

end GoMapOps

/-! ## Statistics pass (`GetProductivityStats`) -/

structure MetricCounter where
  Count : Int := 0
  TotalScore : ℚ := 0
  TotalRating : Int := 0
  TotalFocus : Int := 0
  TotalEnergy : Int := 0
  TotalMood : Int := 0
  TotalDistract : Int := 0
  TotalDuration : Int := 0
deriving DecidableEq, Repr

structure ProductivityStats where
  TotalSessions : Int
  CompletedSessions : Int
  CancelledSessions : Int
  TotalDuration : Int
  AverageRating : ℚ
  AverageFocus : ℚ
  AverageEnergy : ℚ
  AverageMood : ℚ
  AverageDistractions : ℚ
  ProductivityByDay : GoMap Weekday ℚ
  MostProductiveDay : Weekday
  ProductivityByTime : GoMap TimeOfDay ℚ
  MostProductiveTime : TimeOfDay
  ProductivityByLocation : GoMap String ℚ
  MostProductiveLocation : String
  ProductivityByLocationType : GoMap String ℚ
  MostProductiveLocationType : String
deriving DecidableEq, Repr

/-- Sum with an optional metric: `if p != nil { total += *p }`. -/
def addOpt (total : Int) : Option Int → Int
  | some v => total + v
  | none => total

/-- Presence count of an optional metric: `if p != nil { count++ }`. -/
def countOpt (count : Int) : Option Int → Int
  | some _ => count + 1
  | none => count

/-- Everything the loop body adds to one counter the session falls in: `Count`,
`TotalScore` and `TotalDuration` where the session is classified, and each present metric
in the "Collect metrics" part. -/
def MetricCounter.record (c : MetricCounter) (session : FocusSession) (actual : Int)
    (prodScore : ℚ) : MetricCounter :=
  { Count := c.Count + 1
    TotalScore := c.TotalScore + prodScore
    TotalDuration := c.TotalDuration + actual
    TotalRating := addOpt c.TotalRating session.Rating
    TotalFocus := addOpt c.TotalFocus session.Focus
    TotalEnergy := addOpt c.TotalEnergy session.Energy
    TotalMood := addOpt c.TotalMood session.Mood
    TotalDistract := addOpt c.TotalDistract session.Distractions }

/-- Create the counter of a key on first encounter:
`if _, exists := m[k]; !exists { m[k] = &MetricCounter{} }`. -/
def ensureCounter (m : GoMap String MetricCounter) (k : String) : GoMap String MetricCounter :=
  match m.get? k with
  | some _ => m
  | none => m.set k {}

/-- The local variables of the loop over the sessions. -/
structure StatsAcc where
  dayCounter : GoMap Weekday MetricCounter
  timeCounter : GoMap TimeOfDay MetricCounter
  locationCounter : GoMap String MetricCounter
  locationTypeCounter : GoMap String MetricCounter
  completedCount : Int
  cancelledCount : Int
  totalRating : Int
  ratingCount : Int
  totalFocus : Int
  focusCount : Int
  totalEnergy : Int
  energyCount : Int
  totalMood : Int
  moodCount : Int
  totalDistract : Int
  distractCount : Int
  totalDuration : Int
deriving DecidableEq, Repr

/-- The state before the loop: a counter for each weekday and each day part. -/
def StatsAcc.init : StatsAcc :=
  { dayCounter := allWeekdays.map (fun d => (d, {}))
    timeCounter := [EarlyMorning, LateMorning, Afternoon, Evening, Night].map (fun t => (t, {}))
    locationCounter := []
    locationTypeCounter := []
    completedCount := 0, cancelledCount := 0, totalRating := 0, ratingCount := 0
    totalFocus := 0, focusCount := 0, totalEnergy := 0, energyCount := 0
    totalMood := 0, moodCount := 0, totalDistract := 0, distractCount := 0
    totalDuration := 0 }

/-- One iteration of `for _, session := range sessions`. -/
def statsStep (acc : StatsAcc) (session : FocusSession) : StatsAcc :=
  match session.ActualDuration with
  | some actual =>
    let prodScore := CalculateProductivityScore session
    let day := session.StartTime.Weekday
    let tod := GetTimeOfDay session.StartTime
    let record := fun (c : MetricCounter) => c.record session actual prodScore
    { dayCounter := acc.dayCounter.update day record
      timeCounter := acc.timeCounter.update tod record
      locationCounter :=
        match session.LocationDetails with
        | some loc => (ensureCounter acc.locationCounter loc.Name).update loc.Name record
        | none => acc.locationCounter
      locationTypeCounter :=
        match session.LocationDetails with
        | some loc =>
          if loc.LocType ≠ "" then
            (ensureCounter acc.locationTypeCounter loc.LocType).update loc.LocType record
          else acc.locationTypeCounter
        | none => acc.locationTypeCounter
      completedCount := acc.completedCount + 1
      cancelledCount := acc.cancelledCount
      totalDuration := acc.totalDuration + actual
      totalRating := addOpt acc.totalRating session.Rating
      ratingCount := countOpt acc.ratingCount session.Rating
      totalFocus := addOpt acc.totalFocus session.Focus
      focusCount := countOpt acc.focusCount session.Focus
      totalEnergy := addOpt acc.totalEnergy session.Energy
      energyCount := countOpt acc.energyCount session.Energy
      totalMood := addOpt acc.totalMood session.Mood
      moodCount := countOpt acc.moodCount session.Mood
      totalDistract := addOpt acc.totalDistract session.Distractions
      distractCount := countOpt acc.distractCount session.Distractions }
  | none =>
    if session.Status = StatusCancelled then
      { acc with cancelledCount := acc.cancelledCount + 1 }
    else acc

/-- The local variables of one "Calculate productivity by ..." loop. -/
structure BestAcc (κ : Type) where
  byKey : GoMap κ ℚ
  maxScore : ℚ
  best : κ

/-- One iteration of `for key, counter := range counters`. -/
def bestStep {κ : Type} [DecidableEq κ] (acc : BestAcc κ) (e : κ × MetricCounter) : BestAcc κ :=
  if e.2.Count > 0 then
    let avgScore := e.2.TotalScore / (e.2.Count : ℚ)
    { byKey := acc.byKey.set e.1 avgScore
      maxScore := if avgScore > acc.maxScore then avgScore else acc.maxScore
      best := if avgScore > acc.maxScore then e.1 else acc.best }
  else acc

/-- A "Calculate productivity by ..." loop over the counters in the order `visited`;
`zero` is the zero value of the most-productive field. -/
def bestPass {κ : Type} [DecidableEq κ] (zero : κ) (visited : GoMap κ MetricCounter) :
    BestAcc κ :=
  visited.foldl bestStep { byKey := [], maxScore := 0, best := zero }

/-- The order in which the four `range` loops visit their counter maps. -/
structure RangeOrder where
  day : GoMap Weekday MetricCounter → GoMap Weekday MetricCounter
  time : GoMap TimeOfDay MetricCounter → GoMap TimeOfDay MetricCounter
  location : GoMap String MetricCounter → GoMap String MetricCounter
  locationType : GoMap String MetricCounter → GoMap String MetricCounter

/-- A `range` loop visits every entry of the map exactly once. -/
def RangeOrder.Valid (o : RangeOrder) : Prop :=
  (∀ m, (o.day m).Perm m) ∧ (∀ m, (o.time m).Perm m) ∧
  (∀ m, (o.location m).Perm m) ∧ (∀ m, (o.locationType m).Perm m)

/-- The visiting order that follows insertion order. -/
def RangeOrder.insertion : RangeOrder := ⟨id, id, id, id⟩

/-- Average `float64(total) / float64(count)`, left at zero when nothing was counted. -/
def averageOf (total count : Int) : ℚ :=
  if count > 0 then (total : ℚ) / (count : ℚ) else 0

/-- The `stats` value as created before the loop, returned as it is for an empty list. -/
def emptyStats (total : Int) : ProductivityStats :=
  { TotalSessions := total
    CompletedSessions := 0, CancelledSessions := 0, TotalDuration := 0
    AverageRating := 0, AverageFocus := 0, AverageEnergy := 0, AverageMood := 0
    AverageDistractions := 0
    ProductivityByDay := [], MostProductiveDay := .Sunday
    ProductivityByTime := [], MostProductiveTime := ""
    ProductivityByLocation := [], MostProductiveLocation := ""
    ProductivityByLocationType := [], MostProductiveLocationType := "" }

/-- The part of `GetProductivityStats` after the loop over the sessions: "Set overall
stats", "Calculate averages" and the four "Calculate productivity by ..." loops. -/
def finishStats (o : RangeOrder) (total : Int) (acc : StatsAcc) : ProductivityStats :=
  let byDay := bestPass Weekday.Sunday (o.day acc.dayCounter)
  let byTime := bestPass "" (o.time acc.timeCounter)
  let byLocation := bestPass "" (o.location acc.locationCounter)
  let byLocationType := bestPass "" (o.locationType acc.locationTypeCounter)
  { emptyStats total with
    CompletedSessions := acc.completedCount
    CancelledSessions := acc.cancelledCount
    TotalDuration := acc.totalDuration
    AverageRating := averageOf acc.totalRating acc.ratingCount
    AverageFocus := averageOf acc.totalFocus acc.focusCount
    AverageEnergy := averageOf acc.totalEnergy acc.energyCount
    AverageMood := averageOf acc.totalMood acc.moodCount
    AverageDistractions := averageOf acc.totalDistract acc.distractCount
    ProductivityByDay := byDay.byKey
    MostProductiveDay := byDay.best
    ProductivityByTime := byTime.byKey
    MostProductiveTime := byTime.best
    ProductivityByLocation := byLocation.byKey
    MostProductiveLocation := byLocation.best
    ProductivityByLocationType := byLocationType.byKey
    MostProductiveLocationType := byLocationType.best }

/-- The statistics of `GetProductivityStats` once the sessions are fetched. -/
def aggregateStats (o : RangeOrder) (sessions : List FocusSession) : ProductivityStats :=
  if sessions.length = 0 then emptyStats sessions.length
  else finishStats o sessions.length (sessions.foldl statsStep StatsAcc.init)

/-- The query of `GetProductivityStats`: the caller's active completed sessions that
start inside the range. -/
def statsQuery (collection : List FocusSession) (userID : Nat) (startDate endDate : Time) :
    List FocusSession :=
  collection.filter (fun s =>
    decide (s.UserID = userID) && decide (startDate.wall ≤ s.StartTime.wall)
      && decide (s.StartTime.wall ≤ endDate.wall) && decide (s.Status = StatusCompleted)
      && s.Active)

/-- Repository method `GetProductivityStats`. -/
def GetProductivityStats (o : RangeOrder) (collection : List FocusSession) (userID : Nat)
    (startDate endDate : Time) : ProductivityStats :=
  aggregateStats o (statsQuery collection userID startDate endDate)

/-! ## Text formatting (`time.Time.Format`, `fmt.Sprintf`) -/

/-- Decimal digits of `n`, padded with zeros on the left to `width` characters. -/
def padNat (width : Nat) (n : Nat) : String :=
  let digits := Nat.repr n
  String.mk (List.replicate (width - digits.length) '0') ++ digits

/-- A number in a `time` layout (`2006`, `01`, `02`): sign, then zero padded digits. -/
def appendInt (x : Int) (width : Nat) : String :=
  if x < 0 then "-" ++ padNat width x.natAbs else padNat width x.natAbs

/-- The verb `%02d` of `fmt`: zero padded to two characters, the sign included. -/
def sprintf02d (x : Int) : String :=
  if x < 0 then "-" ++ padNat 1 x.natAbs else padNat 2 x.natAbs

/-- The verb `%d` of `fmt`. -/
def sprintfd (x : Int) : String :=
  if x < 0 then "-" ++ Nat.repr x.natAbs else Nat.repr x.natAbs

/-- Layout element `Jan`. -/
def monthAbbrev (m : Int) : String :=
  match m.toNat with
  | 1 => "Jan" | 2 => "Feb" | 3 => "Mar" | 4 => "Apr" | 5 => "May" | 6 => "Jun"
  | 7 => "Jul" | 8 => "Aug" | 9 => "Sep" | 10 => "Oct" | 11 => "Nov" | _ => "Dec"

/-- Layout `2006-01-02`. -/
def Time.formatYMD (t : Time) : String :=
  appendInt t.Year 4 ++ "-" ++ appendInt t.Month 2 ++ "-" ++ appendInt t.Day 2

/-- Layout `2006-01`. -/
def Time.formatYM (t : Time) : String :=
  appendInt t.Year 4 ++ "-" ++ appendInt t.Month 2

/-- Layout `Jan 02`. -/
def Time.formatJan02 (t : Time) : String :=
  monthAbbrev t.Month ++ " " ++ appendInt t.Day 2

/-- Layout `Jan 2006`. -/
def Time.formatJan2006 (t : Time) : String :=
  monthAbbrev t.Month ++ " " ++ appendInt t.Year 4

/-! ## Trend pass (`GetProductivityTrends`) -/

/-- Go type `Period` is a string type. -/
abbrev Period := String

def Daily : Period := "daily"
def Weekly : Period := "weekly"
def Monthly : Period := "monthly"

structure ProductivityTrends where
  Period : Period
  Dates : List String
  Durations : List Int
  Ratings : List ℚ
  Focus : List ℚ
  Energy : List ℚ
  Mood : List ℚ
  Productivity : List ℚ
deriving DecidableEq, Repr

structure PeriodData where
  StartDate : Time
  Sessions : List FocusSession
  TotalDuration : Int := 0
  TotalRating : Int := 0
  RatingCount : Int := 0
  TotalFocus : Int := 0
  FocusCount : Int := 0
  TotalEnergy : Int := 0
  EnergyCount : Int := 0
  TotalMood : Int := 0
  MoodCount : Int := 0
  TotalProductivity : ℚ := 0
  ProductivityCount : Int := 0
deriving DecidableEq, Repr

/-- The first `switch period`: an unrecognised period is replaced by weekly. -/
def resolvePeriod (period : Period) : Period :=
  if period = Daily then Daily
  else if period = Weekly then Weekly
  else if period = Monthly then Monthly
  else Weekly

/-- The start of the date range, counted back from `endDate := time.Now()`. -/
def rangeStart (period : Period) (endDate : Time) : Time :=
  if period = Daily then endDate.AddDate 0 0 (-30)
  else if period = Weekly then endDate.AddDate 0 0 (-12 * 7)
  else if period = Monthly then endDate.AddDate (-1) 0 0
  else endDate.AddDate 0 0 (-12 * 7)

/-- The closure `truncateFunc` chosen by the second `switch period`; `period` is one of
the three constants there, the last branch is `case entity.Monthly`. -/
def truncateFunc (period : Period) (t : Time) : Time :=
  if period = Daily then Date t.Year t.Month t.Day 0 0 0 0
  else if period = Weekly then
    let year := t.ISOWeek.1
    let daysToSubtract := t.Weekday.toInt
    let daysToSubtract := if daysToSubtract = 0 then 6 else daysToSubtract - 1
    Date year t.Month (t.Day - daysToSubtract) 0 0 0 0
  else Date t.Year t.Month 1 0 0 0 0

/-- The key of the period that starts at `t`. For weekly the format string
`"2006-W%02d"` has one verb for the two arguments `year, week`, so `fmt.Sprintf` prints
the year at the verb and reports the week as an extra argument. -/
def periodKeyOf (period : Period) (t : Time) : String :=
  if period = Weekly then
    "2006-W" ++ sprintf02d t.ISOWeek.1 ++ "%!(EXTRA int=" ++ sprintfd t.ISOWeek.2 ++ ")"
  else if period = Daily then t.formatYMD
  else t.formatYM

/-- The third `switch period`: advance to the next period. -/
def nextPeriod (period : Period) (t : Time) : Time :=
  if period = Daily then t.AddDate 0 0 1
  else if period = Weekly then t.AddDate 0 0 7
  else if period = Monthly then t.AddDate 0 1 0
  else t

/-- The loop that creates an entry for every period of the range,
`for currentDate.Before(endTruncated) || currentDate.Equal(endTruncated)`, run for at
most `fuel` iterations; `none` when the loop has not left by then. -/
def seedPeriods (period : Period) (endTruncated : Time) :
    Nat → Time → GoMap String PeriodData → Option (GoMap String PeriodData)
  | 0, currentDate, periodMap =>
    if currentDate.Before endTruncated ∨ currentDate.Equal endTruncated then none
    else some periodMap
  | fuel + 1, currentDate, periodMap =>
    if currentDate.Before endTruncated ∨ currentDate.Equal endTruncated then
      seedPeriods period endTruncated fuel (nextPeriod period currentDate)
        (periodMap.set (periodKeyOf period currentDate)
          { StartDate := currentDate, Sessions := [] })
    else some periodMap

/-- A bound on the number of iterations of the seeding loop: every step advances by a
day at least. -/
def seedFuel (currentDate endTruncated : Time) : Nat :=
  ((endTruncated.wall - currentDate.wall) / nsPerDay).toNat + 1

/-- "Accumulate metrics": what a session adds to the data of its period. -/
def PeriodData.add (data : PeriodData) (session : FocusSession) (actual : Int) : PeriodData :=
  let prodScore := CalculateProductivityScore session
  { data with
    Sessions := data.Sessions ++ [session]
    TotalDuration := data.TotalDuration + actual
    TotalRating := addOpt data.TotalRating session.Rating
    RatingCount := countOpt data.RatingCount session.Rating
    TotalFocus := addOpt data.TotalFocus session.Focus
    FocusCount := countOpt data.FocusCount session.Focus
    TotalEnergy := addOpt data.TotalEnergy session.Energy
    EnergyCount := countOpt data.EnergyCount session.Energy
    TotalMood := addOpt data.TotalMood session.Mood
    MoodCount := countOpt data.MoodCount session.Mood
    TotalProductivity :=
      if prodScore > 0 then data.TotalProductivity + prodScore else data.TotalProductivity
    ProductivityCount :=
      if prodScore > 0 then data.ProductivityCount + 1 else data.ProductivityCount }

/-- One iteration of "Group sessions into periods". -/
def groupStep (period : Period) (periodMap : GoMap String PeriodData)
    (session : FocusSession) : GoMap String PeriodData :=
  match session.ActualDuration with
  | none => periodMap
  | some actual =>
    if session.Status ≠ StatusCompleted then periodMap
    else
      let periodStart := truncateFunc period session.StartTime
      let periodKey := periodKeyOf period periodStart
      match periodMap.get? periodKey with
      | some _ => periodMap.update periodKey (fun data => data.add session actual)
      | none => periodMap

/-- The start date stored under a key (`periodMap[key].StartDate`). -/
def startDateOf (periodMap : GoMap String PeriodData) (key : String) : Time :=
  match periodMap.get? key with
  | some data => data.StartDate
  | none => ⟨0⟩

/-- Sorting of the keys by the start date of their period (`sort.Slice`). -/
def sortPeriodKeys (periodMap : GoMap String PeriodData) (periodKeys : List String) :
    List String :=
  periodKeys.insertionSort
    (fun a b => (startDateOf periodMap a).wall ≤ (startDateOf periodMap b).wall)

/-- "Format date display". -/
def displayDate (period : Period) (data : PeriodData) : String :=
  if period = Daily then data.StartDate.formatJan02
  else if period = Weekly then
    let weekEnd := data.StartDate.AddDate 0 0 6
    if data.StartDate.Month = weekEnd.Month then
      monthAbbrev data.StartDate.Month ++ " " ++ sprintfd data.StartDate.Day ++ "-"
        ++ sprintfd weekEnd.Day
    else data.StartDate.formatJan02 ++ "-" ++ weekEnd.formatJan02
  else if period = Monthly then data.StartDate.formatJan2006
  else ""

/-- One iteration of "Build result": the entries appended for one period. -/
def appendPeriod (period : Period) (trends : ProductivityTrends) (data : PeriodData) :
    ProductivityTrends :=
  { trends with
    Dates := trends.Dates ++ [displayDate period data]
    Durations := trends.Durations ++ [if data.Sessions.length > 0 then data.TotalDuration else 0]
    Ratings := trends.Ratings ++ [averageOf data.TotalRating data.RatingCount]
    Focus := trends.Focus ++ [averageOf data.TotalFocus data.FocusCount]
    Energy := trends.Energy ++ [averageOf data.TotalEnergy data.EnergyCount]
    Mood := trends.Mood ++ [averageOf data.TotalMood data.MoodCount]
    Productivity := trends.Productivity ++
      [if data.ProductivityCount > 0 then
        data.TotalProductivity / (data.ProductivityCount : ℚ) else 0] }

/-- The periods of the range with their accumulated data, in the order of the result:
seeding, grouping, then sorting of the keys that `range periodMap` yields in the order
`keyOrder`. -/
def trendPeriods (keyOrder : List String → List String) (period : Period)
    (startDate endDate : Time) (sessions : List FocusSession) : Option (List PeriodData) :=
  let currentDate := truncateFunc period startDate
  let endTruncated := truncateFunc period endDate
  match seedPeriods period endTruncated (seedFuel currentDate endTruncated) currentDate [] with
  | none => none
  | some seeded =>
    let periodMap := sessions.foldl (groupStep period) seeded
    let periodKeys := sortPeriodKeys periodMap (keyOrder periodMap.keys)
    some (periodKeys.filterMap (fun key => periodMap.get? key))

/-- The body of `GetProductivityTrends` after the sessions of the range are fetched. -/
def buildTrends (keyOrder : List String → List String) (period : Period)
    (startDate endDate : Time) (sessions : List FocusSession) : Option ProductivityTrends :=
  match trendPeriods keyOrder period startDate endDate sessions with
  | none => none
  | some periods =>
    some (periods.foldl (appendPeriod period)
      { Period := period, Dates := [], Durations := [], Ratings := [], Focus := [],
        Energy := [], Mood := [], Productivity := [] })

/-- Repository method `GetSessionsByDateRange`: the caller's active sessions that start
inside the range, latest first. -/
def GetSessionsByDateRange (collection : List FocusSession) (userID : Nat)
    (startDate endDate : Time) : List FocusSession :=
  (collection.filter (fun s =>
    decide (s.UserID = userID) && decide (startDate.wall ≤ s.StartTime.wall)
      && decide (s.StartTime.wall ≤ endDate.wall) && s.Active)).insertionSort
    (fun a b => b.StartTime.wall ≤ a.StartTime.wall)

/-- Repository method `GetProductivityTrends`; `now` is the reading of `time.Now()`. -/
def GetProductivityTrends (keyOrder : List String → List String) (now : Time)
    (collection : List FocusSession) (userID : Nat) (period : Period) :
    Option ProductivityTrends :=
  let endDate := now
  let startDate := rangeStart period endDate
  let period := resolvePeriod period
  buildTrends keyOrder period startDate endDate
    (GetSessionsByDateRange collection userID startDate endDate)

/-! ## Response (`application/dto/response.go`, `domain/entity/productivity_stats.go`) -/

/-- Method `ProductivityStats.GetAverageDuration`. -/
def ProductivityStats.GetAverageDuration (s : ProductivityStats) : ℚ :=
  if s.CompletedSessions = 0 then 0
  else (s.TotalDuration : ℚ) / (s.CompletedSessions : ℚ)

structure DateRange where
  StartDate : Time
  EndDate : Time
deriving DecidableEq, Repr

structure ProductivityStatsResponse where
  TotalSessions : Int
  CompletedSessions : Int
  CancelledSessions : Int
  TotalDuration : Int
  AverageDuration : ℚ
  AverageRating : ℚ
  AverageFocus : ℚ
  AverageEnergy : ℚ
  AverageMood : ℚ
  AverageDistractions : ℚ
  ProductivityByDay : GoMap String ℚ
  MostProductiveDay : String
  ProductivityByTime : GoMap String ℚ
  MostProductiveTime : String
  ProductivityByLocation : GoMap String ℚ
  MostProductiveLocation : String
  ProductivityByLocationType : GoMap String ℚ
  MostProductiveLocationType : String
  DateRange : DateRange
deriving DecidableEq, Repr

/-- The map `dayNames` of `ToProductivityStatsResponse`. -/
def dayNames : GoMap Weekday String :=
  [(.Sunday, "Sunday"), (.Monday, "Monday"), (.Tuesday, "Tuesday"),
   (.Wednesday, "Wednesday"), (.Thursday, "Thursday"), (.Friday, "Friday"),
   (.Saturday, "Saturday")]

/-- The map `timeNames` of `ToProductivityStatsResponse`. -/
def timeNames : GoMap TimeOfDay String :=
  [(EarlyMorning, "Early Morning (5:00-8:59)"), (LateMorning, "Late Morning (9:00-11:59)"),
   (Afternoon, "Afternoon (12:00-16:59)"), (Evening, "Evening (17:00-20:59)"),
   (Night, "Night (21:00-4:59)")]

/-- Lookup `names[k]` in a map of strings: the empty string for a missing key. -/
def nameOf {κ : Type} [DecidableEq κ] (names : GoMap κ String) (k : κ) : String :=
  match names.get? k with
  | some name => name
  | none => ""

/-- The loop `for k, score := range m { out[names[k]] = score }`, the entries of `m`
taken in the order `visited`. -/
def renameKeys {κ : Type} [DecidableEq κ] (names : GoMap κ String) (visited : GoMap κ ℚ) :
    GoMap String ℚ :=
  visited.foldl (fun out e => out.set (nameOf names e.1) e.2) []

/-- Function `ToProductivityStatsResponse`; `dayOrder` and `timeOrder` are the orders in
which its two `range` loops visit the maps of the statistics. -/
def ToProductivityStatsResponse (dayOrder : GoMap Weekday ℚ → GoMap Weekday ℚ)
    (timeOrder : GoMap TimeOfDay ℚ → GoMap TimeOfDay ℚ)
    (stats : ProductivityStats) (dateRange : DateRange) : ProductivityStatsResponse :=
  let productivityByDay := renameKeys dayNames (dayOrder stats.ProductivityByDay)
  let productivityByTime := renameKeys timeNames (timeOrder stats.ProductivityByTime)
  let avgDuration : ℚ :=
    if stats.CompletedSessions > 0 then
      (stats.TotalDuration : ℚ) / (stats.CompletedSessions : ℚ)
    else 0
  { TotalSessions := stats.TotalSessions
    CompletedSessions := stats.CompletedSessions
    CancelledSessions := stats.CancelledSessions
    TotalDuration := stats.TotalDuration
    AverageDuration := avgDuration
    AverageRating := stats.AverageRating
    AverageFocus := stats.AverageFocus
    AverageEnergy := stats.AverageEnergy
    AverageMood := stats.AverageMood
    AverageDistractions := stats.AverageDistractions
    ProductivityByDay := productivityByDay
    MostProductiveDay := nameOf dayNames stats.MostProductiveDay
    ProductivityByTime := productivityByTime
    MostProductiveTime := nameOf timeNames stats.MostProductiveTime
    ProductivityByLocation := stats.ProductivityByLocation
    MostProductiveLocation := stats.MostProductiveLocation
    ProductivityByLocationType := stats.ProductivityByLocationType
    MostProductiveLocationType := stats.MostProductiveLocationType
    DateRange := dateRange }

/-! ## Notions used to state the properties -/

/-- The sessions the statistics loop counts: those with an actual duration. -/
def countedSessions (sessions : List FocusSession) : List FocusSession :=
  sessions.filter (fun s => s.ActualDuration.isSome)

/-- The sessions the statistics loop counts as cancelled. -/
def cancelledSessions (sessions : List FocusSession) : List FocusSession :=
  sessions.filter (fun s => s.ActualDuration.isNone && decide (s.Status = StatusCancelled))

/-- Statistics with the two coarse counters `TotalSessions` and `CancelledSessions`
blanked: the completed count, the total duration, the averages, the maps and the
most-productive fields remain. -/
def ProductivityStats.metrics (st : ProductivityStats) : ProductivityStats :=
  { st with TotalSessions := 0, CancelledSessions := 0 }

/-- Loop state with the cancelled counter blanked. -/
def StatsAcc.core (acc : StatsAcc) : StatsAcc :=
  { acc with cancelledCount := 0 }

/-- The counted sessions that start on weekday `d`. -/
def sessionsOnDay (sessions : List FocusSession) (d : Weekday) : List FocusSession :=
  (countedSessions sessions).filter (fun s => decide (s.StartTime.Weekday = d))

/-- Arithmetic mean of the scores of a list of sessions. -/
def averageScore (l : List FocusSession) : ℚ :=
  (l.map CalculateProductivityScore).sum / (l.length : ℚ)

/-- The average that a "Calculate productivity by ..." loop computes from a counter. -/
def counterAverage (c : MetricCounter) : ℚ := c.TotalScore / (c.Count : ℚ)

/-- A visiting order in which the weekday loop takes the counters from Saturday back
to Sunday. -/
def saturdayFirst : RangeOrder :=
  { day := List.reverse, time := id, location := id, locationType := id }

/-- A session passes the gate of the trend pass: completed, with an actual duration. -/
def qualifies (s : FocusSession) : Bool :=
  decide (s.Status = StatusCompleted) && s.ActualDuration.isSome

/-- The period key under which the trend pass looks a session up. -/
def sessionKey (period : Period) (s : FocusSession) : String :=
  periodKeyOf period (truncateFunc period s.StartTime)

/-- The positive scores of a list of sessions. -/
def positiveScores (l : List FocusSession) : List ℚ :=
  (l.map CalculateProductivityScore).filter (fun x => decide (x > 0))

/-- The sessions of a list that belong to the period with key `key`. -/
def sessionsOfKey (period : Period) (sessions : List FocusSession) (key : String) :
    List FocusSession :=
  sessions.filter (fun s => qualifies s && decide (sessionKey period s = key))

/-- What holds of the period map once the sessions `done` are grouped: distinct keys, each
entry stored under the key of its start date, holding the sessions of its key and the
sum and the number of their positive scores. -/
def PeriodInv (period : Period) (done : List FocusSession) (m : GoMap String PeriodData) :
    Prop :=
  m.keys.Nodup ∧ ∀ e ∈ m,
    e.1 = periodKeyOf period e.2.StartDate ∧
    e.2.Sessions = sessionsOfKey period done e.1 ∧
    e.2.TotalProductivity = (positiveScores e.2.Sessions).sum ∧
    e.2.ProductivityCount = ((positiveScores e.2.Sessions).length : Int)

/-- The trend pass is entered with one of the three periods. -/
def Period.Known (period : Period) : Prop :=
  period = Daily ∨ period = Weekly ∨ period = Monthly

/-- The values of an optional metric that the sessions of a list supplied. -/
def suppliedValues (f : FocusSession → Option Int) (l : List FocusSession) : List Int :=
  l.filterMap f

/-- Arithmetic mean of an optional metric over the sessions that supplied it, 0 if none
did. -/
def meanSupplied (f : FocusSession → Option Int) (l : List FocusSession) : ℚ :=
  if (suppliedValues f l).length > 0 then
    ((suppliedValues f l).sum : ℚ) / ((suppliedValues f l).length : ℚ)
  else 0

/-- Sum of `Count` over the counters of a map. -/
def countSum {κ : Type} (m : GoMap κ MetricCounter) : Int :=
  (m.map (fun e => e.2.Count)).sum

/-- The five day parts in the order in which their counters are created. -/
def allTimesOfDay : List TimeOfDay := [EarlyMorning, LateMorning, Afternoon, Evening, Night]

/-- Category of a session in the day-part dimension. -/
def timeOfDayOf (s : FocusSession) : Option TimeOfDay := some (GetTimeOfDay s.StartTime)

/-- Category of a session in the location dimension: the name in its location details. -/
def locationOf (s : FocusSession) : Option String :=
  match s.LocationDetails with
  | some loc => some loc.Name
  | none => none

/-- Category of a session in the location-type dimension: the type in its location
details, unless it is empty. -/
def locationTypeOf (s : FocusSession) : Option String :=
  match s.LocationDetails with
  | some loc => if loc.LocType ≠ "" then some loc.LocType else none
  | none => none

/-- The counted sessions that fall in category `c` of a dimension. -/
def sessionsIn {κ : Type} [DecidableEq κ] (category : FocusSession → Option κ)
    (sessions : List FocusSession) (c : κ) : List FocusSession :=
  (countedSessions sessions).filter (fun s => decide (category s = some c))

/-- The categories of the counted sessions, one entry per session that has one. -/
def categoriesOf {κ : Type} (category : FocusSession → Option κ)
    (sessions : List FocusSession) : List κ :=
  (countedSessions sessions).filterMap category

/-- The distinct elements of a list in the order of their first occurrence, after those
of `seen`. -/
def firstSeenFrom {κ : Type} [DecidableEq κ] (seen : List κ) (l : List κ) : List κ :=
  l.foldl (fun seen c => if c ∈ seen then seen else seen ++ [c]) seen

/-- The distinct elements of a list in the order of their first occurrence. -/
def firstSeen {κ : Type} [DecidableEq κ] (l : List κ) : List κ := firstSeenFrom [] l

/-- What one iteration of the statistics loop does to the counter map of a dimension: for
a session with an actual duration that has a category, create the counter of the category
if it is missing, then record the session in it. -/
def dimStep {κ : Type} [DecidableEq κ] (category : FocusSession → Option κ)
    (m : GoMap κ MetricCounter) (s : FocusSession) : GoMap κ MetricCounter :=
  match s.ActualDuration, category s with
  | some a, some k =>
    (match m.get? k with
      | some _ => m
      | none => m.set k {}).update k (fun c => c.record s a (CalculateProductivityScore s))
  | _, _ => m

/-- What holds of the counter map of a dimension once the sessions `done` are processed:
distinct keys, each counter holding the number and the score sum of the counted sessions
of its category, and a counter for every category that has a counted session. -/
def DimInv {κ : Type} [DecidableEq κ] (category : FocusSession → Option κ)
    (done : List FocusSession) (m : GoMap κ MetricCounter) : Prop :=
  m.keys.Nodup ∧
  (∀ e ∈ m, e.2.Count = ((sessionsIn category done e.1).length : Int) ∧
    e.2.TotalScore = ((sessionsIn category done e.1).map CalculateProductivityScore).sum) ∧
  ∀ c, sessionsIn category done c ≠ [] → c ∈ m.keys

/-- A session with location details of the given name and type. -/
def atLocation (s : FocusSession) (name kind : String) : FocusSession :=
  { s with
    LocationDetails := some
      { Name := name, Address := "", Latitude := 0, Longitude := 0, LocType := kind } }

/-- A visiting order in which the two location loops take the counters from the last
inserted back to the first. -/
def lastLocationFirst : RangeOrder :=
  { day := id, time := id, location := List.reverse, locationType := List.reverse }

/-- The pre-built periods: the map after the seeding loop, before any session is
examined. -/
def seededPeriods (period : Period) (startDate endDate : Time) :
    Option (GoMap String PeriodData) :=
  seedPeriods period (truncateFunc period endDate)
    (seedFuel (truncateFunc period startDate) (truncateFunc period endDate))
    (truncateFunc period startDate) []

/-- The period map after the sessions are grouped into it. -/
def groupedPeriods (period : Period) (startDate endDate : Time)
    (sessions : List FocusSession) : Option (GoMap String PeriodData) :=
  match seededPeriods period startDate endDate with
  | none => none
  | some seeded => some (sessions.foldl (groupStep period) seeded)

/-- The entries that "Build result" appends for the periods, as seven parallel arrays. -/
def entriesOf (period : Period) (periods : List PeriodData) : ProductivityTrends :=
  { Period := period
    Dates := periods.map (displayDate period)
    Durations := periods.map (fun data => if data.Sessions.length > 0 then data.TotalDuration else 0)
    Ratings := periods.map (fun data => averageOf data.TotalRating data.RatingCount)
    Focus := periods.map (fun data => averageOf data.TotalFocus data.FocusCount)
    Energy := periods.map (fun data => averageOf data.TotalEnergy data.EnergyCount)
    Mood := periods.map (fun data => averageOf data.TotalMood data.MoodCount)
    Productivity := periods.map (fun data =>
      if data.ProductivityCount > 0 then
        data.TotalProductivity / (data.ProductivityCount : ℚ) else 0) }

/-! ## Use cases (`application/usecases/focus_session_usecase.go`) -/

/-- A Go `error`, identified by its message. -/
abbrev GoError := String

def ErrInvalidUserID : GoError := "invalid user ID"
def ErrInvalidSessionID : GoError := "invalid session ID"
def ErrNoSessionFound : GoError := "no session found"
def ErrNoActiveSessionFound : GoError := "no active session found"
def ErrNoSessionFoundAccessDenied : GoError := "no session found or access denied"
def ErrInvalidDateRange : GoError := "invalid date range"
def ErrInvalidDuration : GoError := "invalid duration"
def ErrAlreadyHaveActiveSession : GoError := "you already have an active session"

/-- Value of a hexadecimal digit, in either case. -/
def hexValue (c : Char) : Option Nat :=
  if '0' ≤ c ∧ c ≤ '9' then some (c.toNat - '0'.toNat)
  else if 'a' ≤ c ∧ c ≤ 'f' then some (c.toNat - 'a'.toNat + 10)
  else if 'A' ≤ c ∧ c ≤ 'F' then some (c.toNat - 'A'.toNat + 10)
  else none

/-- Driver function `primitive.ObjectIDFromHex`: the twelve bytes written as 24
hexadecimal digits, read as one number; `none` is the error result. -/
def ObjectIDFromHex (s : String) : Option Nat :=
  if s.length ≠ 24 then none
  else s.data.foldl (fun acc c =>
    match acc, hexValue c with
    | some n, some d => some (16 * n + d)
    | _, _ => none) (some 0)

structure GetProductivityTrendsRequest where
  Period : Period
  Limit : Int
deriving DecidableEq, Repr

structure ProductivityTrendsResponse where
  Period : Period
  Dates : List String
  Durations : List Int
  Ratings : List ℚ
  Focus : List ℚ
  Energy : List ℚ
  Mood : List ℚ
  Productivity : List ℚ
deriving DecidableEq, Repr

/-- Use case `GetProductivityTrends`. The outer `Option` is `none` when the seeding loop
of the repository method has not ended within its bound. -/
def UseCase.GetProductivityTrends (keyOrder : List String → List String) (now : Time)
    (collection : List FocusSession) (userID : String) (req : GetProductivityTrendsRequest) :
    Option (Except GoError ProductivityTrendsResponse) :=
  match ObjectIDFromHex userID with
  | none => some (.error "invalid user ID")
  | some userObjID =>
    let req := if req.Period = "" then { req with Period := Weekly } else req
    let req := if req.Limit ≤ 0 then { req with Limit := 12 } else req
    match FocusSpot.GetProductivityTrends keyOrder now collection userObjID req.Period with
    | none => none
    | some trends =>
      some (.ok
        { Period := trends.Period
          Dates := trends.Dates
          Durations := trends.Durations
          Ratings := trends.Ratings
          Focus := trends.Focus
          Energy := trends.Energy
          Mood := trends.Mood
          Productivity := trends.Productivity })

/-- Two statistics agree on the four counts, on the five metric averages and, key by
key, on the four productivity maps. -/
def ProductivityStats.SameFigures (a b : ProductivityStats) : Prop :=
  a.TotalSessions = b.TotalSessions ∧ a.CompletedSessions = b.CompletedSessions ∧
  a.CancelledSessions = b.CancelledSessions ∧ a.TotalDuration = b.TotalDuration ∧
  a.AverageRating = b.AverageRating ∧ a.AverageFocus = b.AverageFocus ∧
  a.AverageEnergy = b.AverageEnergy ∧ a.AverageMood = b.AverageMood ∧
  a.AverageDistractions = b.AverageDistractions ∧
  (∀ d, a.ProductivityByDay.get? d = b.ProductivityByDay.get? d) ∧
  (∀ c, a.ProductivityByTime.get? c = b.ProductivityByTime.get? c) ∧
  (∀ c, a.ProductivityByLocation.get? c = b.ProductivityByLocation.get? c) ∧
  (∀ c, a.ProductivityByLocationType.get? c = b.ProductivityByLocationType.get? c)

/-- Two winners of a productivity map that differ are tied: both are keys of the map with
the same positive average, the highest of the map. -/
def TiedIfDifferent {κ : Type} [DecidableEq κ] (map : GoMap κ ℚ) (w w' : κ) : Prop :=
  w ≠ w' → ∃ v, 0 < v ∧ map.get? w = some v ∧ map.get? w' = some v ∧
    ∀ c u, map.get? c = some u → u ≤ v

/-- The most-productive fields of two statistics differ under ties only. -/
def ProductivityStats.WinnersDifferUnderTiesOnly (a b : ProductivityStats) : Prop :=
  TiedIfDifferent a.ProductivityByDay a.MostProductiveDay b.MostProductiveDay ∧
  TiedIfDifferent a.ProductivityByTime a.MostProductiveTime b.MostProductiveTime ∧
  TiedIfDifferent a.ProductivityByLocation a.MostProductiveLocation
    b.MostProductiveLocation ∧
  TiedIfDifferent a.ProductivityByLocationType a.MostProductiveLocationType
    b.MostProductiveLocationType

/-! ## Session store (`infrastructure/persistence/mongodb`, the CRUD methods)

The collection `focus_sessions` is the list of its documents in storage order, a document
being a session record; the BSON encoding (dates kept to the millisecond) is not modelled.
The database answers every request: connection failures are left out. `FindOne` returns
the first document that matches, `UpdateOne` and `ReplaceOne` change the first document
that matches and report no error when there is none. Successive readings of `time.Now()`
within a call are `clock 0`, `clock 1`, ...; successive results of
`primitive.NewObjectID()` are `newID 0`, `newID 1`, ... -/

/-- Driver call `FindOne`. -/
def findOne (filter : FocusSession → Bool) (collection : List FocusSession) :
    Option FocusSession :=
  collection.find? filter

/-- Driver calls `UpdateOne` and `ReplaceOne`. -/
def updateOne (filter : FocusSession → Bool) (update : FocusSession → FocusSession) :
    List FocusSession → List FocusSession
  | [] => []
  | d :: rest => if filter d then update d :: rest else d :: updateOne filter update rest

/-- Repository method `Create`; `InsertOne` refuses a document whose `_id` is taken. The
session comes back with the identifier it was stored under. -/
def Repository.Create (newID : Nat → Nat) (collection : List FocusSession)
    (session : FocusSession) : Except GoError FocusSession × List FocusSession :=
  let session := if session.ID = 0 then { session with ID := newID 1 } else session
  if collection.any (fun d => decide (d.ID = session.ID)) then
    (.error "duplicate key error", collection)
  else (.ok session, collection ++ [session])

/-- Repository method `GetByID`. -/
def Repository.GetByID (collection : List FocusSession) (id : Nat) :
    Except GoError FocusSession :=
  match findOne (fun d => decide (d.ID = id)) collection with
  | some session => .ok session
  | none => .error "session not found"

/-- Repository method `GetActiveByUserID`; `none` is the result `nil, nil`. -/
def Repository.GetActiveByUserID (collection : List FocusSession) (userID : Nat) :
    Option FocusSession :=
  findOne (fun d => decide (d.UserID = userID) && decide (d.Status = StatusActive) && d.Active)
    collection

/-- Repository method `Update`; the session comes back with the `UpdatedAt` it was stored
with. -/
def Repository.Update (now : Time) (collection : List FocusSession) (session : FocusSession) :
    FocusSession × List FocusSession :=
  let session := { session with UpdatedAt := now }
  (session, updateOne (fun d => decide (d.ID = session.ID)) (fun _ => session) collection)

/-- Repository method `UpdateStatus`. -/
def Repository.UpdateStatus (now : Time) (collection : List FocusSession) (id : Nat)
    (status : SessionStatus) : List FocusSession :=
  updateOne (fun d => decide (d.ID = id))
    (fun d => { d with Status := status, UpdatedAt := now }) collection

/-- Conversion `int(d.Minutes())` of a difference of two instants in nanoseconds: whole
minutes, rounded toward zero. -/
def wholeMinutes (ns : Int) : Int := Int.tdiv ns nsPerMinute

/-- Repository method `EndSession`. -/
def Repository.EndSession (now : Time) (collection : List FocusSession) (id : Nat)
    (endTime : Time) (notes : String) (rating focus energy mood distractions : Option Int) :
    Except GoError Unit × List FocusSession :=
  match findOne (fun d => decide (d.ID = id)) collection with
  | none => (.error "mongo: no documents in result", collection)
  | some session =>
    let actualDuration := wholeMinutes (endTime.wall - session.StartTime.wall)
    (.ok (), updateOne (fun d => decide (d.ID = id))
      (fun d =>
        { d with
          Status := StatusCompleted
          EndTime := some endTime
          ActualDuration := some actualDuration
          UpdatedAt := now
          Notes := if notes ≠ "" then notes else d.Notes
          Rating := if rating.isSome then rating else d.Rating
          Focus := if focus.isSome then focus else d.Focus
          Energy := if energy.isSome then energy else d.Energy
          Mood := if mood.isSome then mood else d.Mood
          Distractions := if distractions.isSome then distractions else d.Distractions })
      collection)

/-- Repository method `Delete`: the document stays, its `active` flag is cleared. -/
def Repository.Delete (collection : List FocusSession) (id : Nat) : List FocusSession :=
  updateOne (fun d => decide (d.ID = id)) (fun d => { d with Active := false }) collection

/-! ## Requests and responses (`application/dto`) -/

structure LocationDetailsRequest where
  Name : String
  Address : String
  Latitude : ℚ
  Longitude : ℚ
  LocType : String
deriving DecidableEq, Repr

structure CreateSessionRequest where
  Title : String
  Description : String
  StartTime : Time
  Duration : Int
  LocationID : String
  LocationDetails : Option LocationDetailsRequest
  Tags : List String
deriving DecidableEq, Repr

/-- In `Tags` the value `none` is the nil slice. -/
structure UpdateSessionRequest where
  Title : String
  Description : String
  StartTime : Option Time
  Duration : Option Int
  LocationID : String
  LocationDetails : Option LocationDetailsRequest
  Tags : Option (List String)
  Status : String
deriving DecidableEq, Repr

structure EndSessionRequest where
  Notes : String
  Rating : Option Int
  Focus : Option Int
  Energy : Option Int
  Mood : Option Int
  Distractions : Option Int
deriving DecidableEq, Repr

structure LocationDetailsResponse where
  Name : String
  Address : String
  Latitude : ℚ
  Longitude : ℚ
  LocType : String
deriving DecidableEq, Repr

structure FocusSessionResponse where
  ID : String
  UserID : String
  Title : String
  Description : String
  StartTime : Time
  EndTime : Option Time
  Duration : Int
  ActualDuration : Option Int
  Status : String
  LocationID : String
  LocationDetails : Option LocationDetailsResponse
  Tags : List String
  Notes : String
  Rating : Option Int
  Focus : Option Int
  Energy : Option Int
  Mood : Option Int
  Distractions : Option Int
  ProductivityScore : Option ℚ
  CreatedAt : Time
  UpdatedAt : Time
deriving DecidableEq, Repr

/-- Driver method `ObjectID.Hex`: the twelve bytes as 24 lower case hexadecimal digits. -/
def Hex (id : Nat) : String :=
  String.mk ((List.range 24).reverse.map (fun i => Nat.digitChar (id / 16 ^ i % 16)))

/-- Conversion `LocationDetailsRequest` to `entity.LocationDetails`, field by field. -/
def LocationDetailsRequest.toEntity (r : LocationDetailsRequest) : LocationDetails :=
  { Name := r.Name, Address := r.Address, Latitude := r.Latitude, Longitude := r.Longitude,
    LocType := r.LocType }

/-- Function `ToFocusSessionResponse`. -/
def ToFocusSessionResponse (session : FocusSession) : FocusSessionResponse :=
  { ID := Hex session.ID
    UserID := Hex session.UserID
    Title := session.Title
    Description := session.Description
    StartTime := session.StartTime
    EndTime := session.EndTime
    Duration := session.Duration
    ActualDuration := session.ActualDuration
    Status := session.Status
    Tags := session.Tags
    Notes := session.Notes
    Rating := session.Rating
    Focus := session.Focus
    Energy := session.Energy
    Mood := session.Mood
    Distractions := session.Distractions
    CreatedAt := session.CreatedAt
    UpdatedAt := session.UpdatedAt
    ProductivityScore :=
      if session.Status = StatusCompleted then some (CalculateProductivityScore session)
      else none
    LocationID :=
      match session.LocationID with
      | some id => Hex id
      | none => ""
    LocationDetails :=
      match session.LocationDetails with
      | some loc =>
        some { Name := loc.Name, Address := loc.Address, Latitude := loc.Latitude,
               Longitude := loc.Longitude, LocType := loc.LocType }
      | none => none }

/-! ## Session use cases (`application/usecases/focus_session_usecase.go`)

A use case returns its result together with the collection it leaves. -/

/-- Use case `CreateSession`. -/
def UseCase.CreateSession (clock : Nat → Time) (newID : Nat → Nat)
    (collection : List FocusSession) (userID : String) (req : CreateSessionRequest) :
    Except GoError FocusSessionResponse × List FocusSession :=
  match ObjectIDFromHex userID with
  | none => (.error "invalid user ID", collection)
  | some userObjID =>
    match (if req.LocationID ≠ "" then (ObjectIDFromHex req.LocationID).map some
           else some none) with
    | none => (.error "invalid location ID", collection)
    | some locationObjID =>
      let locationDetails := req.LocationDetails.map LocationDetailsRequest.toEntity
      let now := clock 0
      let session : FocusSession :=
        { ID := newID 0
          UserID := userObjID
          Title := req.Title
          Description := req.Description
          StartTime := req.StartTime
          EndTime := none
          Duration := req.Duration
          ActualDuration := none
          Status := StatusPlanned
          LocationID := locationObjID
          LocationDetails := locationDetails
          Tags := req.Tags
          Notes := ""
          Rating := none
          Distractions := none
          Focus := none
          Energy := none
          Mood := none
          CreatedAt := now
          UpdatedAt := now
          Active := false
          DeletedAt := none }
      let session :=
        if req.StartTime.wall < now.wall
            ∧ req.StartTime.wall + req.Duration * nsPerMinute > now.wall then
          { session with Status := StatusActive }
        else session
      match Repository.Create newID collection session with
      | (.error err, collection) => (.error err, collection)
      | (.ok session, collection) => (.ok (ToFocusSessionResponse session), collection)

/-- Use case `GetSessionByID`. -/
def UseCase.GetSessionByID (collection : List FocusSession) (id userID : String) :
    Except GoError FocusSessionResponse :=
  match ObjectIDFromHex id with
  | none => .error ErrInvalidSessionID
  | some sessionID =>
    match Repository.GetByID collection sessionID with
    | .error err => .error err
    | .ok session =>
      match ObjectIDFromHex userID with
      | none => .error ErrNoSessionFoundAccessDenied
      | some userObjID =>
        if session.UserID ≠ userObjID then .error ErrNoSessionFoundAccessDenied
        else .ok (ToFocusSessionResponse session)

/-- Use case `UpdateSession`. -/
def UseCase.UpdateSession (clock : Nat → Time) (collection : List FocusSession)
    (id userID : String) (req : UpdateSessionRequest) :
    Except GoError FocusSessionResponse × List FocusSession :=
  match ObjectIDFromHex id with
  | none => (.error ErrInvalidSessionID, collection)
  | some sessionID =>
    match ObjectIDFromHex userID with
    | none => (.error ErrInvalidUserID, collection)
    | some userObjID =>
      match Repository.GetByID collection sessionID with
      | .error err => (.error err, collection)
      | .ok session =>
        if session.UserID ≠ userObjID then (.error ErrNoSessionFoundAccessDenied, collection)
        else
          let session := if req.Title ≠ "" then { session with Title := req.Title } else session
          let session :=
            if req.Description ≠ "" then { session with Description := req.Description }
            else session
          let session :=
            match req.StartTime with
            | some t => { session with StartTime := t }
            | none => session
          let session :=
            match req.Duration with
            | some d => { session with Duration := d }
            | none => session
          match (if req.LocationID ≠ "" then (ObjectIDFromHex req.LocationID).map some
                 else some session.LocationID) with
          | none => (.error "invalid location ID", collection)
          | some locationID =>
            let session := { session with LocationID := locationID }
            let session :=
              match req.LocationDetails with
              | some r => { session with LocationDetails := some r.toEntity }
              | none => session
            let session :=
              match req.Tags with
              | some tags => { session with Tags := tags }
              | none => session
            let session :=
              if req.Status ≠ "" then { session with Status := req.Status } else session
            let session := { session with UpdatedAt := clock 0 }
            let stored := Repository.Update (clock 1) collection session
            (.ok (ToFocusSessionResponse stored.1), stored.2)

/-- Use case `StartSession`. -/
def UseCase.StartSession (clock : Nat → Time) (collection : List FocusSession)
    (id userID : String) : Except GoError FocusSessionResponse × List FocusSession :=
  match ObjectIDFromHex id with
  | none => (.error ErrInvalidSessionID, collection)
  | some sessionID =>
    match ObjectIDFromHex userID with
    | none => (.error ErrInvalidUserID, collection)
    | some userObjID =>
      match Repository.GetActiveByUserID collection userObjID with
      | some _ => (.error ErrAlreadyHaveActiveSession, collection)
      | none =>
        match Repository.GetByID collection sessionID with
        | .error err => (.error err, collection)
        | .ok session =>
          if session.UserID ≠ userObjID then
            (.error ErrNoSessionFoundAccessDenied, collection)
          else
            let collection :=
              Repository.UpdateStatus (clock 0) collection sessionID StatusActive
            let session :=
              { session with Status := StatusActive, UpdatedAt := clock 1, StartTime := clock 2 }
            (.ok (ToFocusSessionResponse session), collection)

/-- Use case `EndSession`. -/
def UseCase.EndSession (clock : Nat → Time) (collection : List FocusSession)
    (id userID : String) (req : EndSessionRequest) :
    Except GoError FocusSessionResponse × List FocusSession :=
  match ObjectIDFromHex id with
  | none => (.error ErrInvalidSessionID, collection)
  | some sessionID =>
    match ObjectIDFromHex userID with
    | none => (.error ErrInvalidUserID, collection)
    | some userObjID =>
      match Repository.GetByID collection sessionID with
      | .error err => (.error err, collection)
      | .ok session =>
        if session.UserID ≠ userObjID then (.error ErrNoSessionFoundAccessDenied, collection)
        else if session.Status ≠ StatusActive then
          (.error "only active session can be ended", collection)
        else
          let endTime := clock 0
          match Repository.EndSession (clock 1) collection sessionID endTime req.Notes
              req.Rating req.Focus req.Energy req.Mood req.Distractions with
          | (.error err, collection) => (.error err, collection)
          | (.ok _, collection) =>
            let session :=
              { session with
                Status := StatusCompleted
                UpdatedAt := clock 2
                EndTime := some endTime
                Notes := req.Notes
                Rating := req.Rating
                Focus := req.Focus
                Energy := req.Energy
                Mood := req.Mood
                Distractions := req.Distractions
                ActualDuration := some (wholeMinutes (endTime.wall - session.StartTime.wall)) }
            (.ok (ToFocusSessionResponse session), collection)

/-- Use case `CancelSession`. -/
def UseCase.CancelSession (clock : Nat → Time) (collection : List FocusSession)
    (id userID : String) : Except GoError FocusSessionResponse × List FocusSession :=
  match ObjectIDFromHex id with
  | none => (.error ErrInvalidSessionID, collection)
  | some sessionID =>
    match ObjectIDFromHex userID with
    | none => (.error ErrInvalidUserID, collection)
    | some userObjID =>
      match Repository.GetByID collection sessionID with
      | .error err => (.error err, collection)
      | .ok session =>
        if session.UserID ≠ userObjID then (.error ErrNoSessionFoundAccessDenied, collection)
        else if session.Status ≠ StatusCancelled then
          (.error "only active sessions can be cancelled", collection)
        else
          let collection :=
            Repository.UpdateStatus (clock 0) collection sessionID StatusCancelled
          let session := { session with Status := StatusCancelled, UpdatedAt := clock 1 }
          (.ok (ToFocusSessionResponse session), collection)

/-- Use case `DeleteSession`; the result `.ok ()` is the `nil` error. -/
def UseCase.DeleteSession (collection : List FocusSession) (id userID : String) :
    Except GoError Unit × List FocusSession :=
  match ObjectIDFromHex id with
  | none => (.error ErrInvalidSessionID, collection)
  | some sessionID =>
    match ObjectIDFromHex userID with
    | none => (.error ErrInvalidUserID, collection)
    | some userObjID =>
      match Repository.GetByID collection sessionID with
      | .error err => (.error err, collection)
      | .ok session =>
        if session.UserID ≠ userObjID then (.error ErrNoSessionFoundAccessDenied, collection)
        else (.ok (), Repository.Delete collection sessionID)

/-! ### Sample data for the session use cases -/

/-- A stored session with the given identifier, owner and status, its `active` flag
set. -/
def storedSession (id userID : Nat) (status : SessionStatus) : FocusSession :=
  { mkSession ⟨0⟩ 60 status none none none none with ID := id, UserID := userID }

/-- The hexadecimal form of the object identifier 1. -/
def hexOne : String := "000000000000000000000001"

/-- The hexadecimal form of the object identifier 2. -/
def hexTwo : String := "000000000000000000000002"

/-- A clock that stands at the instant 0. -/
def clockZero : Nat → Time := fun _ => ⟨0⟩

/-- The sessions of a user that have the status active. -/
def activeSessionsOf (collection : List FocusSession) (userID : Nat) : List FocusSession :=
  collection.filter (fun s => decide (s.UserID = userID) && decide (s.Status = StatusActive))

/-- Every user has at most one session with status active. -/
def AtMostOneActive (collection : List FocusSession) : Prop :=
  ∀ userID, (activeSessionsOf collection userID).length ≤ 1

/-- A request for a session of 60 minutes that starts at the instant 0. -/
def sampleCreateRequest : CreateSessionRequest :=
  { Title := "reading", Description := "", StartTime := ⟨0⟩, Duration := 60, LocationID := "",
    LocationDetails := none, Tags := [] }

/-- An update request that sets the status to active and nothing else. -/
def activateRequest : UpdateSessionRequest :=
  { Title := "", Description := "", StartTime := none, Duration := none, LocationID := "",
    LocationDetails := none, Tags := none, Status := "active" }

/-- A clock that stands one minute after the instant 0. -/
def clockOneMinute : Nat → Time := fun _ => ⟨nsPerMinute⟩

/-- Number of days from 0000-03-01 to the first of March of year `y`. -/
def marchYearStart (y : Int) : Int :=
  y / 400 * 146097 + (y % 400 * 365 + y % 400 / 4 - y % 400 / 100)

/-- The year that begins on the first of March in which a date of year `y` and month `m`
lies. -/
def marchYear (y m : Int) : Int := if m ≤ 2 then y - 1 else y

/-- Zero based day of the year that begins on the first of March. -/
def marchYearDay (m d : Int) : Int := (153 * (if m > 2 then m - 3 else m + 9) + 2) / 5 + d - 1

/-- Leap years of the Gregorian calendar. -/
def isLeapYear (y : Int) : Prop := y % 4 = 0 ∧ (y % 100 ≠ 0 ∨ y % 400 = 0)

instance (y : Int) : Decidable (isLeapYear y) := by unfold isLeapYear; infer_instance

/-- Number of days of month `m` of year `y`. -/
def daysIn (y m : Int) : Int :=
  if m = 2 then (if isLeapYear y then 29 else 28)
  else if m = 4 ∨ m = 6 ∨ m = 9 ∨ m = 11 then 30
  else 31

/-! ### The display label as the specification words it -/

/-- Two instants lie in the same month: same year, same month of the year. -/
def sameMonth (a b : Time) : Prop := a.Year = b.Year ∧ a.Month = b.Month

instance (a b : Time) : Decidable (sameMonth a b) := by unfold sameMonth; infer_instance

/-- The instant `days` days after `t`. -/
def Time.plusDays (t : Time) (days : Int) : Time := ⟨t.wall + days * nsPerDay⟩

/-- Display label of the period that starts at `periodStart`, in the words of the
specification. Daily: month name and two-digit day (`Jan 02`). Monthly: month name and
four-digit year (`Jan 2006`). Weekly: when `periodStart` and `periodStart + 6 days` lie in
the same month, the month once and the two day numbers joined by `-` (`Jan 6-12`),
otherwise month and two-digit day of both ends (`Jan 29-Feb 04`). -/
def specLabel (period : Period) (periodStart : Time) : String :=
  if period = Daily then
    monthAbbrev periodStart.Month ++ " " ++ appendInt periodStart.Day 2
  else if period = Monthly then
    monthAbbrev periodStart.Month ++ " " ++ appendInt periodStart.Year 4
  else
    let weekEnd := periodStart.plusDays 6
    if sameMonth periodStart weekEnd then
      monthAbbrev periodStart.Month ++ " " ++ sprintfd periodStart.Day ++ "-"
        ++ sprintfd weekEnd.Day
    else
      monthAbbrev periodStart.Month ++ " " ++ appendInt periodStart.Day 2 ++ "-"
        ++ monthAbbrev weekEnd.Month ++ " " ++ appendInt weekEnd.Day 2

/-- Value of a decimal digit character. -/
def digitValue (c : Char) : Nat := c.toNat - 48

/-- Value of a string of decimal digits. -/
def digitsValue (cs : List Char) : Nat := cs.foldl (fun acc c => 10 * acc + digitValue c) 0

/-- Value of a string of decimal digits with an optional minus sign in front. -/
def signedValue (cs : List Char) : Int :=
  match cs with
  | '-' :: rest => -(digitsValue rest : Int)
  | _ => (digitsValue cs : Int)

/-- A trend result has `n` entries: each of its seven arrays has length `n`. -/
def ProductivityTrends.HasEntries (t : ProductivityTrends) (n : Nat) : Prop :=
  t.Dates.length = n ∧ t.Durations.length = n ∧ t.Ratings.length = n ∧ t.Focus.length = n ∧
  t.Energy.length = n ∧ t.Mood.length = n ∧ t.Productivity.length = n

instance (t : ProductivityTrends) (n : Nat) : Decidable (t.HasEntries n) := by
  unfold ProductivityTrends.HasEntries; infer_instance

/-- Midnight at the start of day number `n`. -/
def midnight (n : Int) : Time := ⟨n * nsPerDay⟩

/-- Number of the month of `t`, counted from January of the year 0. -/
def monthIndex (t : Time) : Int := 12 * t.Year + (t.Month - 1)

/-- Midnight at the start of the first day of the month with the given number. -/
def firstOfMonth (idx : Int) : Time := midnight (daysFromCivil (idx / 12) (idx % 12 + 1) 1)

/-! ## Binary64 arithmetic (Go `float64`, IEEE 754)

A `float64` value is represented by the rational number it denotes, and an operation is
the exact operation followed by rounding to the nearest binary64 number, a tie going to the
one with an even significand. Infinities, NaN and the sign of zero are not represented:
the analytics compute sums, differences and ratios of 64-bit integers and of scores
between 0 and 10, which stay far inside the exponent range, every division has a divisor
tested positive, and no operation of the analytics tells the two zeros apart. The only
product is a multiplication by 2, which is exact, so a fused multiply-add gives the same
result as the two operations. -/

/-- Nearest integer to `n / d` for a positive `d`, a tie going to the even one. -/
def nearestEven (n : Int) (d : Nat) : Int :=
  let q := n / (d : Int)
  let r := n % (d : Int)
  if 2 * r < d then q
  else if 2 * r > d then q + 1
  else if q % 2 = 0 then q else q + 1

/-- Number of binary digits of `n`, counted in at most `fuel` halvings. -/
def binaryDigits : Nat → Nat → Nat
  | 0, _ => 0
  | fuel + 1, n => if n = 0 then 0 else binaryDigits fuel (n / 2) + 1

/-- The exponent `e` of the leading binary digit of a rational other than 0:
`2 ^ e ≤ |q| < 2 ^ (e + 1)`. -/
def binaryExponent (q : ℚ) : Int :=
  let a := binaryDigits q.num.natAbs q.num.natAbs
  let b := binaryDigits q.den q.den
  if q.num.natAbs * 2 ^ b < q.den * 2 ^ a then (a : Int) - (b : Int) - 1
  else (a : Int) - (b : Int)

/-- Rounding of a rational to binary64, to nearest with ties to even: 53 significant binary
digits for the normal numbers, steps of `2 ^ (-1074)` below `2 ^ (-1022)`. -/
def F64.round (q : ℚ) : ℚ :=
  if q = 0 then 0
  else
    let k : Int := max (binaryExponent q - 52) (-1074)
    if k ≥ 0 then
      ((nearestEven q.num (q.den * 2 ^ k.toNat) * (2 ^ k.toNat : Nat) : Int) : ℚ)
    else
      (nearestEven (q.num * (2 ^ (-k).toNat : Nat)) q.den : ℚ) / ((2 ^ (-k).toNat : Nat) : ℚ)

/-- Conversion `float64(x)` of an integer. -/
def F64.ofInt (x : Int) : ℚ := F64.round (x : ℚ)

/-- The sum `a + b` of two binary64 numbers. -/
def F64.add (a b : ℚ) : ℚ := F64.round (a + b)

/-- The difference `a - b` of two binary64 numbers. -/
def F64.sub (a b : ℚ) : ℚ := F64.round (a - b)

/-- The product `a * b` of two binary64 numbers. -/
def F64.mul (a b : ℚ) : ℚ := F64.round (a * b)

/-- The quotient `a / b` of two binary64 numbers, `b` other than 0. -/
def F64.div (a b : ℚ) : ℚ := F64.round (a / b)

/-! ## The analytics in binary64

The score, the statistics pass and the trend pass once more, with every `float64`
operation of the source rounded. The integer counters and sums, the maps, the seeding and
the sorting are those of the passes above. -/

/-- Score of one session (`FocusSession.CalculateProductivityScore`) in binary64; the
constant `1.2` of the source is the binary64 number nearest to 6/5. -/
def F64.CalculateProductivityScore (s : FocusSession) : ℚ :=
  match s.ActualDuration, s.Rating with
  | some actual, some rating =>
    if s.Status ≠ StatusCompleted then 0
    else
      let score : ℚ := F64.ofInt rating
      let score : ℚ :=
        if s.Duration > 0 then
          let completionRatio := F64.div (F64.ofInt actual) (F64.ofInt s.Duration)
          if completionRatio > F64.round (6 / 5) then F64.add score 1 else F64.sub score 1
        else score
      let score : ℚ :=
        match s.Focus with
        | some focus =>
          let focusBonus := F64.mul (F64.div (F64.ofInt focus) 10) 2
          F64.add score focusBonus
        | none => score
      let score : ℚ :=
        match s.Distractions with
        | some distractions =>
          if distractions > 0 then
            let distractionPenalty := min (F64.div (F64.ofInt distractions) 10) 1
            F64.sub score distractionPenalty
          else score
        | none => score
      max 0 (min 10 score)
  | _, _ => 0

/-! ### The score in binary64 as the specification words it -/

/-- The rating with the duration adjustment of the specification: plus 1 when the ratio of
actual to planned duration exceeds 1.2, minus 1 when it does not, no adjustment when the
planned duration is not positive; ratio, threshold and sum are binary64 numbers. -/
def F64.specAdjusted (rating planned actual : Int) : ℚ :=
  if planned ≤ 0 then F64.ofInt rating
  else if F64.div (F64.ofInt actual) (F64.ofInt planned) > F64.round (6 / 5) then
    F64.add (F64.ofInt rating) 1
  else F64.sub (F64.ofInt rating) 1

/-- Adding the focus bonus of the specification, `(focus / 10) * 2`, when a focus is
present. -/
def F64.specPlusFocus (score : ℚ) : Option Int → ℚ
  | some f => F64.add score (F64.mul (F64.div (F64.ofInt f) 10) 2)
  | none => score

/-- Subtracting the distraction penalty of the specification, `min (distractions / 10) 1`,
when distractions are present and positive. -/
def F64.specMinusDistractions (score : ℚ) : Option Int → ℚ
  | some d => if d > 0 then F64.sub score (min (F64.div (F64.ofInt d) 10) 1) else score
  | none => score

/-- Score of a completed session with rating and actual duration, as the specification
words it, evaluated in binary64 from left to right. -/
def F64.specScore (rating planned actual : Int) (focus distractions : Option Int) : ℚ :=
  clamp10 (F64.specMinusDistractions
    (F64.specPlusFocus (F64.specAdjusted rating planned actual) focus) distractions)

/-! ### Statistics pass in binary64 -/

/-- Everything the loop body adds to one counter the session falls in, the score sum
being a binary64 sum. -/
def F64.record (c : MetricCounter) (session : FocusSession) (actual : Int)
    (prodScore : ℚ) : MetricCounter :=
  { Count := c.Count + 1
    TotalScore := F64.add c.TotalScore prodScore
    TotalDuration := c.TotalDuration + actual
    TotalRating := addOpt c.TotalRating session.Rating
    TotalFocus := addOpt c.TotalFocus session.Focus
    TotalEnergy := addOpt c.TotalEnergy session.Energy
    TotalMood := addOpt c.TotalMood session.Mood
    TotalDistract := addOpt c.TotalDistract session.Distractions }

/-- One iteration of `for _, session := range sessions`. -/
def F64.statsStep (acc : StatsAcc) (session : FocusSession) : StatsAcc :=
  match session.ActualDuration with
  | some actual =>
    let prodScore := F64.CalculateProductivityScore session
    let day := session.StartTime.Weekday
    let tod := GetTimeOfDay session.StartTime
    let record := fun (c : MetricCounter) => F64.record c session actual prodScore
    { dayCounter := acc.dayCounter.update day record
      timeCounter := acc.timeCounter.update tod record
      locationCounter :=
        match session.LocationDetails with
        | some loc => (ensureCounter acc.locationCounter loc.Name).update loc.Name record
        | none => acc.locationCounter
      locationTypeCounter :=
        match session.LocationDetails with
        | some loc =>
          if loc.LocType ≠ "" then
            (ensureCounter acc.locationTypeCounter loc.LocType).update loc.LocType record
          else acc.locationTypeCounter
        | none => acc.locationTypeCounter
      completedCount := acc.completedCount + 1
      cancelledCount := acc.cancelledCount
      totalDuration := acc.totalDuration + actual
      totalRating := addOpt acc.totalRating session.Rating
      ratingCount := countOpt acc.ratingCount session.Rating
      totalFocus := addOpt acc.totalFocus session.Focus
      focusCount := countOpt acc.focusCount session.Focus
      totalEnergy := addOpt acc.totalEnergy session.Energy
      energyCount := countOpt acc.energyCount session.Energy
      totalMood := addOpt acc.totalMood session.Mood
      moodCount := countOpt acc.moodCount session.Mood
      totalDistract := addOpt acc.totalDistract session.Distractions
      distractCount := countOpt acc.distractCount session.Distractions }
  | none =>
    if session.Status = StatusCancelled then
      { acc with cancelledCount := acc.cancelledCount + 1 }
    else acc

/-- One iteration of `for key, counter := range counters`:
`avgScore := counter.TotalScore / float64(counter.Count)`. -/
def F64.bestStep {κ : Type} [DecidableEq κ] (acc : BestAcc κ) (e : κ × MetricCounter) :
    BestAcc κ :=
  if e.2.Count > 0 then
    let avgScore := F64.div e.2.TotalScore (F64.ofInt e.2.Count)
    { byKey := acc.byKey.set e.1 avgScore
      maxScore := if avgScore > acc.maxScore then avgScore else acc.maxScore
      best := if avgScore > acc.maxScore then e.1 else acc.best }
  else acc

/-- A "Calculate productivity by ..." loop over the counters in the order `visited`;
`zero` is the zero value of the most-productive field. -/
def F64.bestPass {κ : Type} [DecidableEq κ] (zero : κ) (visited : GoMap κ MetricCounter) :
    BestAcc κ :=
  visited.foldl F64.bestStep { byKey := [], maxScore := 0, best := zero }

/-- Average `float64(total) / float64(count)`, left at zero when nothing was counted. -/
def F64.averageOf (total count : Int) : ℚ :=
  if count > 0 then F64.div (F64.ofInt total) (F64.ofInt count) else 0

/-- The part of `GetProductivityStats` after the loop over the sessions. -/
def F64.finishStats (o : RangeOrder) (total : Int) (acc : StatsAcc) : ProductivityStats :=
  let byDay := F64.bestPass Weekday.Sunday (o.day acc.dayCounter)
  let byTime := F64.bestPass "" (o.time acc.timeCounter)
  let byLocation := F64.bestPass "" (o.location acc.locationCounter)
  let byLocationType := F64.bestPass "" (o.locationType acc.locationTypeCounter)
  { emptyStats total with
    CompletedSessions := acc.completedCount
    CancelledSessions := acc.cancelledCount
    TotalDuration := acc.totalDuration
    AverageRating := F64.averageOf acc.totalRating acc.ratingCount
    AverageFocus := F64.averageOf acc.totalFocus acc.focusCount
    AverageEnergy := F64.averageOf acc.totalEnergy acc.energyCount
    AverageMood := F64.averageOf acc.totalMood acc.moodCount
    AverageDistractions := F64.averageOf acc.totalDistract acc.distractCount
    ProductivityByDay := byDay.byKey
    MostProductiveDay := byDay.best
    ProductivityByTime := byTime.byKey
    MostProductiveTime := byTime.best
    ProductivityByLocation := byLocation.byKey
    MostProductiveLocation := byLocation.best
    ProductivityByLocationType := byLocationType.byKey
    MostProductiveLocationType := byLocationType.best }

/-- The statistics of `GetProductivityStats` once the sessions are fetched. -/
def F64.aggregateStats (o : RangeOrder) (sessions : List FocusSession) : ProductivityStats :=
  if sessions.length = 0 then emptyStats sessions.length
  else F64.finishStats o sessions.length (sessions.foldl F64.statsStep StatsAcc.init)

/-- Repository method `GetProductivityStats` in binary64. -/
def F64.GetProductivityStats (o : RangeOrder) (collection : List FocusSession) (userID : Nat)
    (startDate endDate : Time) : ProductivityStats :=
  F64.aggregateStats o (statsQuery collection userID startDate endDate)

/-! ### Trend pass in binary64 -/

/-- "Accumulate metrics": what a session adds to the data of its period. -/
def F64.accumulate (data : PeriodData) (session : FocusSession) (actual : Int) : PeriodData :=
  let prodScore := F64.CalculateProductivityScore session
  { data with
    Sessions := data.Sessions ++ [session]
    TotalDuration := data.TotalDuration + actual
    TotalRating := addOpt data.TotalRating session.Rating
    RatingCount := countOpt data.RatingCount session.Rating
    TotalFocus := addOpt data.TotalFocus session.Focus
    FocusCount := countOpt data.FocusCount session.Focus
    TotalEnergy := addOpt data.TotalEnergy session.Energy
    EnergyCount := countOpt data.EnergyCount session.Energy
    TotalMood := addOpt data.TotalMood session.Mood
    MoodCount := countOpt data.MoodCount session.Mood
    TotalProductivity :=
      if prodScore > 0 then F64.add data.TotalProductivity prodScore
      else data.TotalProductivity
    ProductivityCount :=
      if prodScore > 0 then data.ProductivityCount + 1 else data.ProductivityCount }

/-- One iteration of "Group sessions into periods". -/
def F64.groupStep (period : Period) (periodMap : GoMap String PeriodData)
    (session : FocusSession) : GoMap String PeriodData :=
  match session.ActualDuration with
  | none => periodMap
  | some actual =>
    if session.Status ≠ StatusCompleted then periodMap
    else
      let periodStart := truncateFunc period session.StartTime
      let periodKey := periodKeyOf period periodStart
      match periodMap.get? periodKey with
      | some _ => periodMap.update periodKey (fun data => F64.accumulate data session actual)
      | none => periodMap

/-- One iteration of "Build result": the entries appended for one period. -/
def F64.appendPeriod (period : Period) (trends : ProductivityTrends) (data : PeriodData) :
    ProductivityTrends :=
  { trends with
    Dates := trends.Dates ++ [displayDate period data]
    Durations := trends.Durations ++ [if data.Sessions.length > 0 then data.TotalDuration else 0]
    Ratings := trends.Ratings ++ [F64.averageOf data.TotalRating data.RatingCount]
    Focus := trends.Focus ++ [F64.averageOf data.TotalFocus data.FocusCount]
    Energy := trends.Energy ++ [F64.averageOf data.TotalEnergy data.EnergyCount]
    Mood := trends.Mood ++ [F64.averageOf data.TotalMood data.MoodCount]
    Productivity := trends.Productivity ++
      [if data.ProductivityCount > 0 then
        F64.div data.TotalProductivity (F64.ofInt data.ProductivityCount) else 0] }

/-- The periods of the range with their accumulated data, in the order of the result:
seeding, grouping, then sorting of the keys that `range periodMap` yields in the order
`keyOrder`. -/
def F64.trendPeriods (keyOrder : List String → List String) (period : Period)
    (startDate endDate : Time) (sessions : List FocusSession) : Option (List PeriodData) :=
  let currentDate := truncateFunc period startDate
  let endTruncated := truncateFunc period endDate
  match seedPeriods period endTruncated (seedFuel currentDate endTruncated) currentDate [] with
  | none => none
  | some seeded =>
    let periodMap := sessions.foldl (F64.groupStep period) seeded
    let periodKeys := sortPeriodKeys periodMap (keyOrder periodMap.keys)
    some (periodKeys.filterMap (fun key => periodMap.get? key))

/-- The body of `GetProductivityTrends` after the sessions of the range are fetched. -/
def F64.buildTrends (keyOrder : List String → List String) (period : Period)
    (startDate endDate : Time) (sessions : List FocusSession) : Option ProductivityTrends :=
  match F64.trendPeriods keyOrder period startDate endDate sessions with
  | none => none
  | some periods =>
    some (periods.foldl (F64.appendPeriod period)
      { Period := period, Dates := [], Durations := [], Ratings := [], Focus := [],
        Energy := [], Mood := [], Productivity := [] })

/-- Repository method `GetProductivityTrends` in binary64; `now` is the reading of
`time.Now()`. -/
def F64.GetProductivityTrends (keyOrder : List String → List String) (now : Time)
    (collection : List FocusSession) (userID : Nat) (period : Period) :
    Option ProductivityTrends :=
  let endDate := now
  let startDate := rangeStart period endDate
  let period := resolvePeriod period
  F64.buildTrends keyOrder period startDate endDate
    (GetSessionsByDateRange collection userID startDate endDate)

/-! ### Notions used to state the properties in binary64 -/

/-- Sum of binary64 numbers in the order of the list, as a loop `total += x` forms it. -/
def F64.sum (l : List ℚ) : ℚ := l.foldl F64.add 0

/-- Average score of a list of sessions as the statistics pass forms it: the binary64 sum
of the scores in the order of the list, divided by their number. -/
def F64.averageScore (l : List FocusSession) : ℚ :=
  F64.div (F64.sum (l.map F64.CalculateProductivityScore)) (F64.ofInt l.length)

/-- The average that a "Calculate productivity by ..." loop computes from a counter. -/
def F64.counterAverage (c : MetricCounter) : ℚ := F64.div c.TotalScore (F64.ofInt c.Count)

/-- The positive scores of a list of sessions. -/
def F64.positiveScores (l : List FocusSession) : List ℚ :=
  (l.map F64.CalculateProductivityScore).filter (fun x => decide (x > 0))

/-- Mean of the positive scores of a list of sessions as the trend pass forms it: their
binary64 sum in the order of the list, divided by their number; 0 if there is none. -/
def F64.positiveMean (l : List FocusSession) : ℚ :=
  if (F64.positiveScores l).length > 0 then
    F64.div (F64.sum (F64.positiveScores l)) (F64.ofInt (F64.positiveScores l).length)
  else 0

/-- What holds of the period map once the sessions `done` are grouped: distinct keys, each
entry stored under the key of its start date, holding the sessions of its key and the
binary64 sum and the number of their positive scores. -/
def F64.PeriodInv (period : Period) (done : List FocusSession) (m : GoMap String PeriodData) :
    Prop :=
  m.keys.Nodup ∧ ∀ e ∈ m,
    e.1 = periodKeyOf period e.2.StartDate ∧
    e.2.Sessions = sessionsOfKey period done e.1 ∧
    e.2.TotalProductivity = F64.sum (F64.positiveScores e.2.Sessions) ∧
    e.2.ProductivityCount = ((F64.positiveScores e.2.Sessions).length : Int)

/-- What one iteration of the statistics loop does to the counter map of a dimension: for
a session with an actual duration that has a category, create the counter of the category
if it is missing, then record the session in it. -/
def F64.dimStep {κ : Type} [DecidableEq κ] (category : FocusSession → Option κ)
    (m : GoMap κ MetricCounter) (s : FocusSession) : GoMap κ MetricCounter :=
  match s.ActualDuration, category s with
  | some a, some k =>
    (match m.get? k with
      | some _ => m
      | none => m.set k {}).update k
        (fun c => F64.record c s a (F64.CalculateProductivityScore s))
  | _, _ => m

/-- What holds of the counter map of a dimension once the sessions `done` are processed:
distinct keys, each counter holding the number and the binary64 score sum of the counted
sessions of its category, and a counter for every category that has a counted session. -/
def F64.DimInv {κ : Type} [DecidableEq κ] (category : FocusSession → Option κ)
    (done : List FocusSession) (m : GoMap κ MetricCounter) : Prop :=
  m.keys.Nodup ∧
  (∀ e ∈ m, e.2.Count = ((sessionsIn category done e.1).length : Int) ∧
    e.2.TotalScore
      = F64.sum ((sessionsIn category done e.1).map F64.CalculateProductivityScore)) ∧
  ∀ c, sessionsIn category done c ≠ [] → c ∈ m.keys

/-- What the most-productive field `winner` of a dimension with string categories
satisfies, `visited` being the counters in the order in which the `range` loop takes them;
the averages are the binary64 numbers the pass compares. When no category has a positive
average score the field keeps its zero value, the empty string. Otherwise it is a category
with a counted session whose average is the highest, and the first such category in the
visiting order; if the loop visits the map in insertion order, it is the first such
category in the order in which the categories first occur in the session list. -/
def F64.OpenWinnerSpec (category : FocusSession → Option String)
    (sessions : List FocusSession) (visited : GoMap String MetricCounter)
    (insertionOrder : Prop) (winner : String) : Prop :=
  ((∀ c, sessionsIn category sessions c ≠ [] →
      F64.averageScore (sessionsIn category sessions c) ≤ 0) → winner = "") ∧
  ((∃ c, sessionsIn category sessions c ≠ [] ∧
      0 < F64.averageScore (sessionsIn category sessions c)) →
    sessionsIn category sessions winner ≠ [] ∧
    (∀ c, sessionsIn category sessions c ≠ [] →
      F64.averageScore (sessionsIn category sessions c)
        ≤ F64.averageScore (sessionsIn category sessions winner)) ∧
    (∃ l1 x l2, visited = l1 ++ (winner, x) :: l2 ∧
      ∀ y ∈ l1, sessionsIn category sessions y.1 ≠ [] →
        F64.averageScore (sessionsIn category sessions y.1)
          < F64.averageScore (sessionsIn category sessions winner)) ∧
    (insertionOrder →
      ∃ k1 k2, firstSeen (categoriesOf category sessions) = k1 ++ winner :: k2 ∧
        ∀ y ∈ k1, F64.averageScore (sessionsIn category sessions y)
          < F64.averageScore (sessionsIn category sessions winner)))

/-- Two completed sessions whose scores are both 32/5 in exact arithmetic and differ in
binary64: rating 4, planned 60, actual 75, focus 8, distractions 2 on Sunday 2024-12-29 at
"A", score 6.3999999999999995; rating 5, planned 60, actual 75, focus 2 on Monday
2024-12-30 at "B", score 6.4. -/
def nearTie : List FocusSession :=
  [atLocation (mkSession (Date 2024 12 29 10 0 0 0) 60 StatusCompleted (some 75) (some 4)
      (some 8) (some 2)) "A" "a",
   atLocation (mkSession (Date 2024 12 30 10 0 0 0) 60 StatusCompleted (some 75) (some 5)
      (some 2) none) "B" "b"]

/-- Two completed sessions with the same score 3, the first on Sunday 2024-12-29 at
"Cafe", the second on Monday 2024-12-30 at "Library". -/
def exactTie : List FocusSession :=
  [atLocation (mkSession (Date 2024 12 29 10 0 0 0) 50 StatusCompleted (some 50) (some 4)
      none none) "Cafe" "coffee shop",
   atLocation (mkSession (Date 2024 12 30 10 0 0 0) 50 StatusCompleted (some 50) (some 4)
      none none) "Library" "library"]

/-- One completed session with score 0, on Monday 2024-12-30 at "Cafe". -/
def zeroScored : List FocusSession :=
  [atLocation (mkSession (Date 2024 12 30 10 0 0 0) 50 StatusCompleted (some 50) (some 1)
      none none) "Cafe" "coffee shop"]

/-- What the statistics `aggregate` forms from a list of sessions owe to which session:
every session counts in `TotalSessions`, every cancelled session in `CancelledSessions`,
whether or not it carries an actual duration, and the completed count, the total duration,
the averages, the maps and the most-productive fields are those of the completed sessions
with an actual duration. -/
def OnlyQualifyingCount (aggregate : List FocusSession → ProductivityStats)
    (sessions : List FocusSession) : Prop :=
  (aggregate sessions).TotalSessions = sessions.length ∧
  (aggregate sessions).CancelledSessions
    = (sessions.filter (fun s => decide (s.Status = StatusCancelled))).length ∧
  (aggregate sessions).CompletedSessions = (sessions.filter qualifies).length ∧
  (aggregate sessions).TotalDuration
    = ((sessions.filter qualifies).map (fun s => s.ActualDuration.getD 0)).sum ∧
  (aggregate sessions).metrics = (aggregate (sessions.filter qualifies)).metrics

/-- A stored collection: of caller 0, inside December 2024, a completed session of 40
minutes, a completed session without actual duration, a cancelled session that carries an
actual duration, and a planned session; a completed session of caller 1; and a completed
session of caller 0 in November. -/
def sampleCollection : List FocusSession :=
  [mkSession (Date 2024 12 30 10 0 0 0) 50 StatusCompleted (some 40) (some 3) none none,
   mkSession (Date 2024 12 30 12 0 0 0) 50 StatusCompleted none none none none,
   mkSession (Date 2024 12 30 14 0 0 0) 50 StatusCancelled (some 30) (some 4) none none,
   mkSession (Date 2024 12 30 16 0 0 0) 50 StatusPlanned none none none none,
   { mkSession (Date 2024 12 30 18 0 0 0) 50 StatusCompleted (some 25) (some 5) none none with
     UserID := 1 },
   mkSession (Date 2024 11 30 10 0 0 0) 50 StatusCompleted (some 35) (some 2) none none]

/-! ## Theorems -/

theorem score_eq_spec (s : FocusSession) (a r : Int)
    (hs : s.Status = StatusCompleted) (ha : s.ActualDuration = some a) (hr : s.Rating = some r) :
    CalculateProductivityScore s = specScore r s.Duration a s.Focus s.Distractions := by
  unfold CalculateProductivityScore specScore clamp10 specDurationAdjust
  rw [ha, hr]
  simp only [hs, ne_eq, not_true_eq_false, if_false]
  have h12 : (1.2 : ℚ) = 6 / 5 := by norm_num
  rw [h12]
  cases hf : s.Focus <;> cases hdi : s.Distractions <;>
    simp only [specFocusBonus, specDistractionPenalty] <;>
    split_ifs <;>
    first
      | (exfalso; omega)
      | (congr 2 <;> ring)

/-! ### Score -/

/-- C2: the score of every session lies between 0 and 10, whatever its status and
whatever integers its fields hold. -/
theorem C2_score_bounds (s : FocusSession) :
    0 ≤ CalculateProductivityScore s ∧ CalculateProductivityScore s ≤ 10 := by
  unfold CalculateProductivityScore
  split
  · split_ifs <;>
      first
        | exact ⟨le_refl _, by norm_num⟩
        | exact ⟨le_max_left _ _, max_le (by norm_num) (min_le_left _ _)⟩
  · exact ⟨le_refl _, by norm_num⟩

/-- C3: the score is exactly 0 whenever the status is not completed, or the rating is
absent, or the actual duration is absent. -/
theorem C3_score_zero (s : FocusSession)
    (h : s.Status ≠ StatusCompleted ∨ s.Rating = none ∨ s.ActualDuration = none) :
    CalculateProductivityScore s = 0 := by
  unfold CalculateProductivityScore
  split
  · next actual rating ha hr =>
    rcases h with h | h | h
    · simp [h]
    · simp [hr] at h
    · simp [ha] at h
  · rfl

theorem C3_score_zero_witness :
    CalculateProductivityScore
      (mkSession ⟨0⟩ 60 StatusCancelled (some 75) (some 4) (some 8) (some 2)) = 0 :=
  C3_score_zero _ (Or.inl (by decide))

/-! ### Statistics: which sessions count -/

theorem statsStep_core_skipped (acc : StatsAcc) (s : FocusSession)
    (h : s.ActualDuration = none) :
    (statsStep acc s).core = acc.core := by
  simp only [statsStep, h]
  split_ifs <;> rfl

theorem statsStep_core (acc : StatsAcc) (s : FocusSession) :
    (statsStep acc s).core = (statsStep acc.core s).core := by
  cases ha : s.ActualDuration with
  | none => rw [statsStep_core_skipped acc s ha, statsStep_core_skipped acc.core s ha]; rfl
  | some a => simp [statsStep, ha, StatsAcc.core]

theorem foldl_statsStep_core_inv (l : List FocusSession) :
    ∀ acc : StatsAcc, (l.foldl statsStep acc).core = (l.foldl statsStep acc.core).core := by
  induction l with
  | nil => intro acc; rfl
  | cons s rest ih =>
    intro acc
    rw [List.foldl_cons, List.foldl_cons, ih (statsStep acc s), ih (statsStep acc.core s),
      statsStep_core acc s]

theorem foldl_statsStep_core (sessions : List FocusSession) :
    ∀ acc : StatsAcc, (sessions.foldl statsStep acc).core
      = ((countedSessions sessions).foldl statsStep acc).core := by
  induction sessions with
  | nil => intro acc; rfl
  | cons s rest ih =>
    intro acc
    cases ha : s.ActualDuration with
    | some a =>
      have hf : countedSessions (s :: rest) = s :: countedSessions rest := by
        simp [countedSessions, List.filter_cons, ha]
      rw [hf, List.foldl_cons, List.foldl_cons, ih]
    | none =>
      have hf : countedSessions (s :: rest) = countedSessions rest := by
        simp [countedSessions, List.filter_cons, ha]
      rw [hf, List.foldl_cons, foldl_statsStep_core_inv rest (statsStep acc s),
        statsStep_core_skipped acc s ha, ← foldl_statsStep_core_inv rest acc, ih]

theorem statsStep_cancelledCount (acc : StatsAcc) (s : FocusSession) :
    (statsStep acc s).cancelledCount = acc.cancelledCount
      + (cancelledSessions [s]).length := by
  cases ha : s.ActualDuration with
  | some a => simp [statsStep, ha, cancelledSessions]
  | none =>
    simp only [statsStep, ha, cancelledSessions]
    split_ifs with hc <;> simp [List.filter_cons, ha, hc]

theorem foldl_statsStep_cancelledCount (sessions : List FocusSession) :
    ∀ acc : StatsAcc, (sessions.foldl statsStep acc).cancelledCount
      = acc.cancelledCount + (cancelledSessions sessions).length := by
  induction sessions with
  | nil => intro acc; simp [cancelledSessions]
  | cons s rest ih =>
    intro acc
    rw [List.foldl_cons, ih, statsStep_cancelledCount]
    simp only [cancelledSessions, List.filter_cons, List.filter_nil]
    split_ifs <;> simp only [List.length_cons, List.length_nil] <;> omega

theorem foldl_bestStep_of_no_count {κ : Type} [DecidableEq κ] (l : GoMap κ MetricCounter)
    (h : ∀ e ∈ l, ¬ e.2.Count > 0) :
    ∀ acc : BestAcc κ, l.foldl bestStep acc = acc := by
  induction l with
  | nil => intro acc; rfl
  | cons e rest ih =>
    intro acc
    have he : ¬ e.2.Count > 0 := h e (List.mem_cons_self _ _)
    rw [List.foldl_cons]
    have hs : bestStep acc e = acc := by simp [bestStep, he]
    rw [hs]
    exact ih (fun x hx => h x (List.mem_cons_of_mem _ hx)) acc

theorem bestPass_of_no_count {κ : Type} [DecidableEq κ] (zero : κ) (l m : GoMap κ MetricCounter)
    (hp : l.Perm m) (h : ∀ e ∈ m, ¬ e.2.Count > 0) :
    bestPass zero l = { byKey := [], maxScore := 0, best := zero } :=
  foldl_bestStep_of_no_count l (fun e he => h e (hp.mem_iff.mp he)) _

theorem finishStats_metrics_congr (o : RangeOrder) (n n' : Int) (acc acc' : StatsAcc)
    (h : acc.core = acc'.core) :
    (finishStats o n acc).metrics = (finishStats o n' acc').metrics := by
  simp only [StatsAcc.core, StatsAcc.mk.injEq] at h
  obtain ⟨h1, h2, h3, h4, h5, -, h7, h8, h9, h10, h11, h12, h13, h14, h15, h16, h17⟩ := h
  simp only [finishStats, ProductivityStats.metrics, emptyStats, h1, h2, h3, h4, h5, h7, h8, h9,
    h10, h11, h12, h13, h14, h15, h16, h17]

theorem finishStats_init (o : RangeOrder) (hv : o.Valid) (n n' : Int) :
    (finishStats o n StatsAcc.init).metrics = (emptyStats n').metrics := by
  obtain ⟨hd, ht, hl, hlt⟩ := hv
  have e1 := bestPass_of_no_count Weekday.Sunday _ _ (hd StatsAcc.init.dayCounter)
    (by simp [StatsAcc.init, allWeekdays])
  have e2 := bestPass_of_no_count ("" : TimeOfDay) _ _ (ht StatsAcc.init.timeCounter)
    (by simp [StatsAcc.init])
  have e3 := bestPass_of_no_count ("" : String) _ _ (hl StatsAcc.init.locationCounter)
    (by simp [StatsAcc.init])
  have e4 := bestPass_of_no_count ("" : String) _ _ (hlt StatsAcc.init.locationTypeCounter)
    (by simp [StatsAcc.init])
  simp only [finishStats, e1, e2, e3, e4]
  simp [ProductivityStats.metrics, emptyStats, StatsAcc.init, averageOf]

theorem foldl_statsStep_completedCount (sessions : List FocusSession) :
    ∀ acc : StatsAcc, (sessions.foldl statsStep acc).completedCount
      = acc.completedCount + (countedSessions sessions).length := by
  induction sessions with
  | nil => intro acc; simp [countedSessions]
  | cons s rest ih =>
    intro acc
    rw [List.foldl_cons, ih]
    cases ha : s.ActualDuration with
    | some a => simp [statsStep, ha, countedSessions, List.filter_cons]; omega
    | none =>
      have hstep : (statsStep acc s).completedCount = acc.completedCount := by
        simp only [statsStep, ha]
        split_ifs <;> rfl
      have hf : countedSessions (s :: rest) = countedSessions rest := by
        simp [countedSessions, List.filter_cons, ha]
      rw [hstep, hf]

theorem foldl_statsStep_totalDuration (sessions : List FocusSession) :
    ∀ acc : StatsAcc, (sessions.foldl statsStep acc).totalDuration
      = acc.totalDuration
        + ((countedSessions sessions).map (fun s => s.ActualDuration.getD 0)).sum := by
  induction sessions with
  | nil => intro acc; simp [countedSessions]
  | cons s rest ih =>
    intro acc
    rw [List.foldl_cons, ih]
    cases ha : s.ActualDuration with
    | some a => simp [statsStep, ha, countedSessions, List.filter_cons]; omega
    | none =>
      have hstep : (statsStep acc s).totalDuration = acc.totalDuration := by
        simp only [statsStep, ha]
        split_ifs <;> rfl
      have hf : countedSessions (s :: rest) = countedSessions rest := by
        simp [countedSessions, List.filter_cons, ha]
      rw [hstep, hf]

theorem RangeOrder.insertion_valid : RangeOrder.insertion.Valid :=
  ⟨fun _ => List.Perm.refl _, fun _ => List.Perm.refl _, fun _ => List.Perm.refl _,
    fun _ => List.Perm.refl _⟩

theorem aggregateStats_counted_only (o : RangeOrder) (hv : o.Valid)
    (sessions : List FocusSession) :
    (aggregateStats o sessions).TotalSessions = sessions.length ∧
    (aggregateStats o sessions).CancelledSessions = (cancelledSessions sessions).length ∧
    (aggregateStats o sessions).CompletedSessions = (countedSessions sessions).length ∧
    (aggregateStats o sessions).TotalDuration
      = ((countedSessions sessions).map (fun s => s.ActualDuration.getD 0)).sum ∧
    (aggregateStats o sessions).metrics
      = (aggregateStats o (countedSessions sessions)).metrics := by
  by_cases h0 : sessions.length = 0
  · have hnil : sessions = [] := List.length_eq_zero.mp h0
    subst hnil
    simp [aggregateStats, emptyStats, cancelledSessions, countedSessions]
  · have hL : aggregateStats o sessions
        = finishStats o sessions.length (sessions.foldl statsStep StatsAcc.init) := by
      simp [aggregateStats, h0]
    rw [hL]
    refine ⟨rfl, ?_, ?_, ?_, ?_⟩
    · simp [finishStats, foldl_statsStep_cancelledCount, StatsAcc.init]
    · simp [finishStats, foldl_statsStep_completedCount, StatsAcc.init]
    · simp [finishStats, foldl_statsStep_totalDuration, StatsAcc.init]
    · have hc := foldl_statsStep_core sessions StatsAcc.init
      by_cases h1 : (countedSessions sessions).length = 0
      · have hnil : countedSessions sessions = [] := List.length_eq_zero.mp h1
        rw [hnil] at hc ⊢
        have hR : aggregateStats o [] = emptyStats 0 := by simp [aggregateStats]
        rw [hR, ← finishStats_init o hv 0 0]
        exact finishStats_metrics_congr o _ _ _ _ hc
      · have hR : aggregateStats o (countedSessions sessions)
            = finishStats o (countedSessions sessions).length
                ((countedSessions sessions).foldl statsStep StatsAcc.init) := by
          simp [aggregateStats, h1]
        rw [hR]
        exact finishStats_metrics_congr o _ _ _ _ hc

/-! ### Go maps -/

theorem GoMap.keys_update {κ ν : Type} [DecidableEq κ] (m : GoMap κ ν) (k : κ) (f : ν → ν) :
    (m.update k f).keys = m.keys := by
  induction m with
  | nil => rfl
  | cons e rest ih =>
    simp only [GoMap.update]
    split_ifs with h
    · simp [GoMap.keys]
    · simp only [GoMap.keys, List.map_cons] at ih ⊢
      rw [ih]

theorem GoMap.mem_update {κ ν : Type} [DecidableEq κ] (m : GoMap κ ν) (k : κ) (f : ν → ν)
    (hn : m.keys.Nodup) (e : κ × ν) :
    e ∈ m.update k f ↔
      (e.1 ≠ k ∧ e ∈ m) ∨ (e.1 = k ∧ ∃ c, (k, c) ∈ m ∧ e.2 = f c) := by
  induction m with
  | nil => simp [GoMap.update]
  | cons x rest ih =>
    have hn' : (GoMap.keys rest).Nodup := by
      simp only [GoMap.keys, List.map_cons, List.nodup_cons] at hn ⊢
      exact hn.2
    have hx : ∀ c, (x.1, c) ∉ rest := by
      intro c hc
      simp only [GoMap.keys, List.map_cons, List.nodup_cons] at hn
      exact hn.1 (List.mem_map.mpr ⟨(x.1, c), hc, rfl⟩)
    simp only [GoMap.update]
    split_ifs with h
    · subst h
      constructor
      · intro he
        rcases List.mem_cons.mp he with he | he
        · right
          exact ⟨by rw [he], x.2, List.mem_cons_self _ _, by rw [he]⟩
        · left
          refine ⟨?_, List.mem_cons_of_mem _ he⟩
          intro h1
          exact hx e.2 (by rw [← h1]; exact he)
      · rintro (⟨h1, he⟩ | ⟨h1, c, hc, h2⟩)
        · rcases List.mem_cons.mp he with he | he
          · exact absurd (by rw [he]) h1
          · exact List.mem_cons_of_mem _ he
        · rcases List.mem_cons.mp hc with hc | hc
          · have : c = x.2 := by rw [← hc]
            subst this
            have : e = (x.1, f x.2) := Prod.ext h1 h2
            rw [this]
            exact List.mem_cons_self _ _
          · exact absurd hc (hx c)
    · rw [List.mem_cons, ih hn']
      constructor
      · rintro (he | ⟨h1, he⟩ | ⟨h1, c, hc, h2⟩)
        · left
          exact ⟨by rw [he]; exact h, by rw [he]; exact List.mem_cons_self _ _⟩
        · left
          exact ⟨h1, List.mem_cons_of_mem _ he⟩
        · right
          exact ⟨h1, c, List.mem_cons_of_mem _ hc, h2⟩
      · rintro (⟨h1, he⟩ | ⟨h1, c, hc, h2⟩)
        · rcases List.mem_cons.mp he with he | he
          · left; exact he
          · right; left; exact ⟨h1, he⟩
        · rcases List.mem_cons.mp hc with hc | hc
          · exact absurd (by rw [← hc]) h
          · right; right; exact ⟨h1, c, hc, h2⟩

/-! ### The "Calculate productivity by ..." loops -/

theorem bestStep_maxScore {κ : Type} [DecidableEq κ] (acc : BestAcc κ)
    (e : κ × MetricCounter) :
    (bestStep acc e).maxScore
      = if e.2.Count > 0 ∧ counterAverage e.2 > acc.maxScore then counterAverage e.2
        else acc.maxScore := by
  unfold bestStep counterAverage
  by_cases hc : e.2.Count > 0 <;> by_cases h : e.2.TotalScore / (e.2.Count : ℚ) > acc.maxScore <;>
    simp [hc, h]

theorem bestStep_best {κ : Type} [DecidableEq κ] (acc : BestAcc κ) (e : κ × MetricCounter) :
    (bestStep acc e).best
      = if e.2.Count > 0 ∧ counterAverage e.2 > acc.maxScore then e.1 else acc.best := by
  unfold bestStep counterAverage
  by_cases hc : e.2.Count > 0 <;> by_cases h : e.2.TotalScore / (e.2.Count : ℚ) > acc.maxScore <;>
    simp [hc, h]

theorem foldl_bestStep_spec {κ : Type} [DecidableEq κ] (l : GoMap κ MetricCounter) :
    ∀ acc : BestAcc κ,
      (∀ e ∈ l, e.2.Count > 0 → counterAverage e.2 ≤ (l.foldl bestStep acc).maxScore) ∧
      acc.maxScore ≤ (l.foldl bestStep acc).maxScore ∧
      (((l.foldl bestStep acc).maxScore = acc.maxScore ∧
          (l.foldl bestStep acc).best = acc.best) ∨
        (acc.maxScore < (l.foldl bestStep acc).maxScore ∧
          ∃ l1 e l2, l = l1 ++ e :: l2 ∧ e.2.Count > 0 ∧
            counterAverage e.2 = (l.foldl bestStep acc).maxScore ∧
            (l.foldl bestStep acc).best = e.1 ∧
            ∀ x ∈ l1, x.2.Count > 0 → counterAverage x.2 < (l.foldl bestStep acc).maxScore)) := by
  induction l with
  | nil =>
    intro acc
    exact ⟨fun e he => absurd he (List.not_mem_nil e), le_refl _, Or.inl ⟨rfl, rfl⟩⟩
  | cons e rest ih =>
    intro acc
    rw [List.foldl_cons]
    obtain ⟨ih1, ih2, ih3⟩ := ih (bestStep acc e)
    have hmono : acc.maxScore ≤ (bestStep acc e).maxScore := by
      rw [bestStep_maxScore]
      split_ifs with h
      · exact le_of_lt h.2
      · exact le_refl _
    have hle : e.2.Count > 0 → counterAverage e.2 ≤ (bestStep acc e).maxScore := by
      intro hc
      rw [bestStep_maxScore]
      split_ifs with h
      · exact le_refl _
      · exact not_lt.mp (fun hlt => h ⟨hc, hlt⟩)
    have hcase : ((bestStep acc e).maxScore = acc.maxScore ∧ (bestStep acc e).best = acc.best) ∨
        (e.2.Count > 0 ∧ acc.maxScore < counterAverage e.2 ∧
          (bestStep acc e).maxScore = counterAverage e.2 ∧ (bestStep acc e).best = e.1) := by
      rw [bestStep_maxScore, bestStep_best]
      split_ifs with h
      · right; exact ⟨h.1, h.2, rfl, rfl⟩
      · left; exact ⟨rfl, rfl⟩
    refine ⟨?_, le_trans hmono ih2, ?_⟩
    · intro x hx hc
      rcases List.mem_cons.mp hx with hx | hx
      · subst hx
        exact le_trans (hle hc) ih2
      · exact ih1 x hx hc
    · rcases ih3 with ⟨h1, h2⟩ | ⟨h1, l1, x, l2, hl, hc, hav, hb, hfirst⟩
      · rcases hcase with ⟨c1, c2⟩ | ⟨c1, c2, c3, c4⟩
        · left; exact ⟨h1.trans c1, h2.trans c2⟩
        · right
          refine ⟨by rw [h1, c3]; exact c2, [], e, rest, rfl, c1, by rw [h1, c3],
            h2.trans c4, ?_⟩
          intro y hy
          exact absurd hy (List.not_mem_nil y)
      · right
        refine ⟨lt_of_le_of_lt hmono h1, e :: l1, x, l2, by rw [hl]; rfl, hc, hav, hb, ?_⟩
        intro y hy hyc
        rcases List.mem_cons.mp hy with hy | hy
        · subst hy
          exact lt_of_le_of_lt (hle hyc) h1
        · exact hfirst y hy hyc

/-! ### The weekday counters after the loop -/

theorem sessionsOnDay_append_singleton (l : List FocusSession) (s : FocusSession)
    (d : Weekday) :
    sessionsOnDay (l ++ [s]) d = sessionsOnDay l d ++
      (if s.ActualDuration.isSome = true ∧ s.StartTime.Weekday = d then [s] else []) := by
  simp only [sessionsOnDay, countedSessions, List.filter_append, List.filter_filter]
  congr 1
  by_cases h1 : s.ActualDuration.isSome = true <;> by_cases h2 : s.StartTime.Weekday = d <;>
    simp [List.filter_cons, h1, h2]

theorem statsStep_dayCounter_skipped (acc : StatsAcc) (s : FocusSession)
    (h : s.ActualDuration = none) : (statsStep acc s).dayCounter = acc.dayCounter := by
  simp only [statsStep, h]
  split_ifs <;> rfl

theorem statsStep_dayCounter_counted (acc : StatsAcc) (s : FocusSession) (a : Int)
    (h : s.ActualDuration = some a) :
    (statsStep acc s).dayCounter = acc.dayCounter.update s.StartTime.Weekday
      (fun c => c.record s a (CalculateProductivityScore s)) := by
  simp only [statsStep, h]

theorem dayCounter_spec (sessions : List FocusSession) :
    (sessions.foldl statsStep StatsAcc.init).dayCounter.keys = allWeekdays ∧
    ∀ e ∈ (sessions.foldl statsStep StatsAcc.init).dayCounter,
      e.2.Count = ((sessionsOnDay sessions e.1).length : Int) ∧
      e.2.TotalScore = ((sessionsOnDay sessions e.1).map CalculateProductivityScore).sum := by
  induction sessions using List.reverseRecOn with
  | nil =>
    refine ⟨rfl, ?_⟩
    intro e he
    simp only [List.foldl_nil, StatsAcc.init, allWeekdays, List.map_cons, List.map_nil,
      List.mem_cons, List.mem_singleton, List.not_mem_nil, or_false] at he
    rcases he with h | h | h | h | h | h | h <;> subst h <;>
      simp [sessionsOnDay, countedSessions]
  | append_singleton l s ih =>
    obtain ⟨ihk, ihe⟩ := ih
    rw [List.foldl_append, List.foldl_cons, List.foldl_nil]
    cases ha : s.ActualDuration with
    | none =>
      rw [statsStep_dayCounter_skipped _ s ha]
      refine ⟨ihk, ?_⟩
      intro e he
      rw [sessionsOnDay_append_singleton]
      simp only [ha, Option.isSome_none, Bool.false_eq_true, false_and, if_false,
        List.append_nil]
      exact ihe e he
    | some a =>
      rw [statsStep_dayCounter_counted _ s a ha]
      refine ⟨by rw [GoMap.keys_update, ihk], ?_⟩
      intro e he
      have hn : (GoMap.keys (l.foldl statsStep StatsAcc.init).dayCounter).Nodup := by
        rw [ihk]; decide
      rw [GoMap.mem_update _ _ _ hn] at he
      rw [sessionsOnDay_append_singleton]
      rcases he with ⟨h1, he⟩ | ⟨h1, c, hc, h2⟩
      · have h1' : ¬ (s.ActualDuration.isSome = true ∧ s.StartTime.Weekday = e.1) :=
          fun h => h1 h.2.symm
        simp only [h1', if_false, List.append_nil]
        exact ihe e he
      · have h1' : s.ActualDuration.isSome = true ∧ s.StartTime.Weekday = e.1 :=
          ⟨by simp [ha], h1.symm⟩
        obtain ⟨hcc, hcs⟩ := ihe _ hc
        simp only [h1', and_self, if_true, List.length_append, List.length_singleton,
          List.map_append, List.map_cons, List.map_nil, List.sum_append, List.sum_cons,
          List.sum_nil, add_zero]
        rw [h2]
        simp only [MetricCounter.record]
        rw [h1] 
        constructor
        · rw [hcc]; push_cast; ring
        · rw [hcs]

theorem mem_allWeekdays (d : Weekday) : d ∈ allWeekdays := by
  cases d <;> simp [allWeekdays]

/-! ### Calendar -/

theorem yearOfEra_spec (doe : Int) (h0 : 0 ≤ doe) (h1 : doe < 146097) :
    0 ≤ (yearOfEra doe).1 ∧ (yearOfEra doe).1 ≤ 399 ∧
    0 ≤ (yearOfEra doe).2 ∧ (yearOfEra doe).2 ≤ 365 ∧
    doe = (yearOfEra doe).1 * 365 + (yearOfEra doe).1 / 4 - (yearOfEra doe).1 / 100
      + (yearOfEra doe).2 := by
  simp only [yearOfEra]
  generalize hc : min (doe / 36524) 3 = c
  have hc0 : 0 ≤ c ∧ c ≤ 3 ∧ c * 36524 ≤ doe ∧ doe - c * 36524 ≤ 36524 := by omega
  generalize hr1 : doe - c * 36524 = r1 at *
  generalize hq : min (r1 / 1461) 24 = q
  have hq0 : 0 ≤ q ∧ q ≤ 24 ∧ q * 1461 ≤ r1 ∧ r1 - q * 1461 ≤ 1460 := by omega
  generalize hr2 : r1 - q * 1461 = r2 at *
  generalize hyr : min (r2 / 365) 3 = yr
  have hy0 : 0 ≤ yr ∧ yr ≤ 3 ∧ yr * 365 ≤ r2 ∧ r2 - yr * 365 ≤ 365 := by omega
  have e4 : (c * 100 + q * 4 + yr) / 4 = c * 25 + q := by omega
  have e100 : (c * 100 + q * 4 + yr) / 100 = c := by omega
  rw [e4, e100]
  omega

theorem monthOfYear_spec (doy : Int) (h0 : 0 ≤ doy) (h1 : doy ≤ 365) :
    1 ≤ (monthOfYear doy).1 ∧ (monthOfYear doy).1 ≤ 12 ∧
    (153 * (if (monthOfYear doy).1 > 2 then (monthOfYear doy).1 - 3 else (monthOfYear doy).1 + 9)
      + 2) / 5 + (monthOfYear doy).2 - 1 = doy := by
  simp only [monthOfYear]
  split_ifs <;> omega

theorem civil_month_range (n : Int) :
    1 ≤ (civilFromDays n).2.1 ∧ (civilFromDays n).2.1 ≤ 12 := by
  have hz0 : 0 ≤ (n + 719468) % 146097 := Int.emod_nonneg _ (by norm_num)
  have hz1 : (n + 719468) % 146097 < 146097 := Int.emod_lt_of_pos _ (by norm_num)
  obtain ⟨-, -, b0, b1, -⟩ := yearOfEra_spec _ hz0 hz1
  obtain ⟨m0, m1, -⟩ := monthOfYear_spec _ b0 b1
  exact ⟨m0, m1⟩

theorem daysFromCivil_civilFromDays (n : Int) :
    daysFromCivil (civilFromDays n).1 (civilFromDays n).2.1 (civilFromDays n).2.2 = n := by
  have hz0 : 0 ≤ (n + 719468) % 146097 := Int.emod_nonneg _ (by norm_num)
  have hz1 : (n + 719468) % 146097 < 146097 := Int.emod_lt_of_pos _ (by norm_num)
  obtain ⟨a0, a1, b0, b1, hdoe⟩ := yearOfEra_spec _ hz0 hz1
  obtain ⟨m0, m1, hdoy⟩ := monthOfYear_spec _ b0 b1
  simp only [civilFromDays, daysFromCivil]
  generalize (yearOfEra ((n + 719468) % 146097)).1 = yoe at *
  generalize (yearOfEra ((n + 719468) % 146097)).2 = doy at *
  generalize (monthOfYear doy).1 = m at *
  generalize (monthOfYear doy).2 = d at *
  generalize hE : (n + 719468) / 146097 = E at *
  have hn : n = E * 146097 + (n + 719468) % 146097 - 719468 := by omega
  have e1 : (yoe + E * 400) / 400 = E := by omega
  have e2 : (yoe + E * 400) % 400 = yoe := by omega
  split_ifs at hdoy ⊢
  all_goals first
    | omega
    | (simp only [add_sub_cancel_right, add_zero, e1, e2]; omega)

theorem daysFromCivil_add_day (y m d k : Int) :
    daysFromCivil y m (d + k) = daysFromCivil y m d + k := by
  simp only [daysFromCivil]
  omega

theorem daysFromCivil_next_month (y m d : Int) (h1 : 1 ≤ m) (h12 : m ≤ 12) :
    daysFromCivil y m d + 28 ≤ daysFromCivil (y + m / 12) (m % 12 + 1) d := by
  have hcases : m = 1 ∨ m = 2 ∨ m = 3 ∨ m = 4 ∨ m = 5 ∨ m = 6 ∨ m = 7 ∨ m = 8 ∨ m = 9 ∨
      m = 10 ∨ m = 11 ∨ m = 12 := by omega
  rcases hcases with h | h | h | h | h | h | h | h | h | h | h | h <;> subst h <;>
    simp only [daysFromCivil] <;> norm_num <;> omega

theorem clock_sum (t : Time) :
    t.Hour * nsPerHour + t.Minute * nsPerMinute + t.Second * nsPerSecond + t.Nanosecond
      = t.nsOfDay := by
  simp only [Time.Hour, Time.Minute, Time.Second, Time.Nanosecond, nsPerHour, nsPerMinute,
    nsPerSecond]
  norm_num
  omega

theorem Time.wall_eq (t : Time) : t.dayNumber * nsPerDay + t.nsOfDay = t.wall := by
  simp only [Time.dayNumber, Time.nsOfDay]
  exact Int.ediv_add_emod' t.wall nsPerDay

theorem AddDate_days (t : Time) (k : Int) :
    (t.AddDate 0 0 k).wall = t.wall + k * nsPerDay := by
  obtain ⟨m1, m12⟩ := civil_month_range t.dayNumber
  have hr := daysFromCivil_civilFromDays t.dayNumber
  have h1 : ((civilFromDays t.dayNumber).2.1 - 1) / 12 = 0 := by omega
  have h2 : ((civilFromDays t.dayNumber).2.1 - 1) % 12 + 1 = (civilFromDays t.dayNumber).2.1 := by
    omega
  simp only [Time.AddDate, Date, Time.Year, Time.Month, Time.Day, add_zero, h1, h2,
    daysFromCivil_add_day, hr]
  have hc := clock_sum t
  have hw := t.wall_eq
  linarith

theorem AddDate_month (t : Time) :
    t.wall + 28 * nsPerDay ≤ (t.AddDate 0 1 0).wall := by
  obtain ⟨m1, m12⟩ := civil_month_range t.dayNumber
  have hr := daysFromCivil_civilFromDays t.dayNumber
  have hm := daysFromCivil_next_month t.Year t.Month t.Day m1 m12
  simp only [Time.AddDate, Date, add_zero, add_sub_cancel_right]
  simp only [Time.Year, Time.Month, Time.Day] at hm ⊢
  rw [hr] at hm
  have hc := clock_sum t
  have hw := t.wall_eq
  have hpos : (0 : Int) < nsPerDay := by decide
  nlinarith

/-! ### The seeding loop ends -/

theorem nextPeriod_advances (period : Period) (hp : period.Known) (t : Time) :
    t.wall + nsPerDay ≤ (nextPeriod period t).wall := by
  have hpos : (0 : Int) < nsPerDay := by decide
  rcases hp with h | h | h
  · subst h
    have : nextPeriod Daily t = t.AddDate 0 0 1 := by simp [nextPeriod]
    rw [this, AddDate_days]
    linarith
  · subst h
    have : nextPeriod Weekly t = t.AddDate 0 0 7 := by
      simp only [nextPeriod]
      rw [if_neg (by decide), if_pos trivial]
    rw [this, AddDate_days]
    linarith
  · subst h
    have : nextPeriod Monthly t = t.AddDate 0 1 0 := by
      simp only [nextPeriod]
      rw [if_neg (by decide), if_neg (by decide), if_pos trivial]
    rw [this]
    have := AddDate_month t
    linarith

theorem seedPeriods_isSome (period : Period) (hp : period.Known) (endTruncated : Time) :
    ∀ (fuel : Nat) (currentDate : Time) (m : GoMap String PeriodData),
      endTruncated.wall - currentDate.wall < fuel * nsPerDay →
      ∃ m', seedPeriods period endTruncated fuel currentDate m = some m' := by
  intro fuel
  induction fuel with
  | zero =>
    intro cur m h
    have hc : ¬ (cur.Before endTruncated ∨ cur.Equal endTruncated) := by
      simp only [Time.Before, Time.Equal]
      simp only [Nat.cast_zero, zero_mul] at h
      omega
    exact ⟨m, by simp [seedPeriods, hc]⟩
  | succ n ih =>
    intro cur m h
    by_cases hc : cur.Before endTruncated ∨ cur.Equal endTruncated
    · simp only [seedPeriods, hc, if_true]
      apply ih
      have := nextPeriod_advances period hp cur
      push_cast at h
      linarith
    · exact ⟨m, by simp [seedPeriods, hc]⟩

theorem seedFuel_enough (currentDate endTruncated : Time) :
    endTruncated.wall - currentDate.wall < (seedFuel currentDate endTruncated : Nat) * nsPerDay := by
  simp only [seedFuel, nsPerDay, nsPerHour, nsPerMinute, nsPerSecond]
  norm_num
  omega

/-! ### Go maps: assignment -/

theorem GoMap.keys_set {κ ν : Type} [DecidableEq κ] (m : GoMap κ ν) (k : κ) (v : ν) :
    (m.set k v).keys = if k ∈ m.keys then m.keys else m.keys ++ [k] := by
  induction m with
  | nil => simp [GoMap.set, GoMap.keys]
  | cons e rest ih =>
    simp only [GoMap.set]
    by_cases h : e.1 = k
    · simp [h, GoMap.keys]
    · simp only [h, if_false, GoMap.keys, List.map_cons, List.mem_cons] at ih ⊢
      rw [ih]
      have hk : ¬ k = e.1 := fun h1 => h h1.symm
      simp only [hk, false_or]
      split_ifs <;> simp

theorem GoMap.nodup_set {κ ν : Type} [DecidableEq κ] (m : GoMap κ ν) (k : κ) (v : ν)
    (hn : m.keys.Nodup) : (m.set k v).keys.Nodup := by
  rw [GoMap.keys_set]
  split_ifs with h
  · exact hn
  · exact List.Nodup.append hn (List.nodup_singleton k) (by simpa using h)

theorem GoMap.mem_set {κ ν : Type} [DecidableEq κ] (m : GoMap κ ν) (k : κ) (v : ν)
    (e : κ × ν) (he : e ∈ m.set k v) : e = (k, v) ∨ e ∈ m := by
  induction m with
  | nil => simpa [GoMap.set] using he
  | cons x rest ih =>
    simp only [GoMap.set] at he
    split_ifs at he with h
    · rcases List.mem_cons.mp he with he | he
      · left; exact he
      · right; exact List.mem_cons_of_mem _ he
    · rcases List.mem_cons.mp he with he | he
      · right; rw [he]; exact List.mem_cons_self _ _
      · rcases ih he with h1 | h1
        · left; exact h1
        · right; exact List.mem_cons_of_mem _ h1

theorem GoMap.mem_of_get? {κ ν : Type} [DecidableEq κ] (m : GoMap κ ν) (k : κ) (v : ν)
    (h : m.get? k = some v) : (k, v) ∈ m := by
  induction m with
  | nil => simp [GoMap.get?] at h
  | cons x rest ih =>
    simp only [GoMap.get?] at h
    split_ifs at h with hx
    · have : x = (k, v) := Prod.ext hx (Option.some.inj h)
      rw [this]
      exact List.mem_cons_self _ _
    · exact List.mem_cons_of_mem _ (ih h)

theorem GoMap.not_mem_of_get?_none {κ ν : Type} [DecidableEq κ] (m : GoMap κ ν) (k : κ)
    (h : m.get? k = none) : ∀ e ∈ m, e.1 ≠ k := by
  induction m with
  | nil => intro e he; exact absurd he (List.not_mem_nil e)
  | cons x rest ih =>
    simp only [GoMap.get?] at h
    split_ifs at h with hx
    intro e he
    rcases List.mem_cons.mp he with he | he
    · rw [he]; exact hx
    · exact ih h e he

/-! ### What the period map holds -/

theorem sessionsOfKey_append_singleton (period : Period) (done : List FocusSession)
    (s : FocusSession) (key : String) :
    sessionsOfKey period (done ++ [s]) key = sessionsOfKey period done key ++
      (if qualifies s = true ∧ sessionKey period s = key then [s] else []) := by
  simp only [sessionsOfKey, List.filter_append]
  congr 1
  by_cases h1 : qualifies s = true <;> by_cases h2 : sessionKey period s = key <;>
    simp [List.filter_cons, h1, h2]

theorem positiveScores_append_singleton (l : List FocusSession) (s : FocusSession) :
    positiveScores (l ++ [s]) = positiveScores l ++
      (if CalculateProductivityScore s > 0 then [CalculateProductivityScore s] else []) := by
  simp only [positiveScores, List.map_append, List.filter_append, List.map_cons, List.map_nil]
  congr 1
  by_cases h : CalculateProductivityScore s > 0 <;> simp [List.filter_cons, h]

theorem PeriodInv.nil (period : Period) : PeriodInv period [] [] :=
  ⟨List.nodup_nil, fun e he => absurd he (List.not_mem_nil e)⟩

theorem seedPeriods_inv (period : Period) (endTruncated : Time) :
    ∀ (fuel : Nat) (currentDate : Time) (m m' : GoMap String PeriodData),
      PeriodInv period [] m →
      seedPeriods period endTruncated fuel currentDate m = some m' →
      PeriodInv period [] m' := by
  intro fuel
  induction fuel with
  | zero =>
    intro cur m m' hinv h
    simp only [seedPeriods] at h
    split_ifs at h
    rw [← Option.some.inj h]
    exact hinv
  | succ n ih =>
    intro cur m m' hinv h
    simp only [seedPeriods] at h
    split_ifs at h
    · refine ih _ _ _ ?_ h
      refine ⟨GoMap.nodup_set _ _ _ hinv.1, ?_⟩
      intro e he
      rcases GoMap.mem_set _ _ _ _ he with he | he
      · subst he
        simp [sessionsOfKey, positiveScores]
      · exact hinv.2 e he
    · rw [← Option.some.inj h]
      exact hinv

theorem groupStep_skipped (period : Period) (m : GoMap String PeriodData) (s : FocusSession)
    (h : qualifies s = false) : groupStep period m s = m := by
  unfold groupStep
  cases ha : s.ActualDuration with
  | none => rfl
  | some a =>
    have hs : s.Status ≠ StatusCompleted := by
      intro hc
      simp [qualifies, hc, ha] at h
    simp [hs]

theorem groupStep_qualified (period : Period) (m : GoMap String PeriodData) (s : FocusSession)
    (h : qualifies s = true) :
    ∃ a, s.ActualDuration = some a ∧
      groupStep period m s =
        match m.get? (sessionKey period s) with
        | some _ => m.update (sessionKey period s) (fun data => data.add s a)
        | none => m := by
  simp only [qualifies, Bool.and_eq_true, decide_eq_true_eq] at h
  obtain ⟨hs, ha⟩ := h
  obtain ⟨a, ha⟩ := Option.isSome_iff_exists.mp ha
  refine ⟨a, ha, ?_⟩
  simp only [groupStep, ha, hs, ne_eq, not_true_eq_false, if_false, sessionKey]

theorem PeriodData.add_inv (period : Period) (done : List FocusSession) (key : String)
    (c : PeriodData) (s : FocusSession) (a : Int)
    (hq : qualifies s = true) (hk : sessionKey period s = key)
    (hc : key = periodKeyOf period c.StartDate ∧
      c.Sessions = sessionsOfKey period done key ∧
      c.TotalProductivity = (positiveScores c.Sessions).sum ∧
      c.ProductivityCount = ((positiveScores c.Sessions).length : Int)) :
    key = periodKeyOf period (c.add s a).StartDate ∧
      (c.add s a).Sessions = sessionsOfKey period (done ++ [s]) key ∧
      (c.add s a).TotalProductivity = (positiveScores (c.add s a).Sessions).sum ∧
      (c.add s a).ProductivityCount = ((positiveScores (c.add s a).Sessions).length : Int) := by
  obtain ⟨h1, h2, h3, h4⟩ := hc
  have hS : (c.add s a).Sessions = c.Sessions ++ [s] := rfl
  refine ⟨h1, ?_, ?_, ?_⟩
  · rw [hS, sessionsOfKey_append_singleton, h2]
    simp [hq, hk]
  · rw [hS, positiveScores_append_singleton]
    simp only [PeriodData.add]
    split_ifs with hp
    · rw [h3]; simp
    · rw [h3]; simp
  · rw [hS, positiveScores_append_singleton]
    simp only [PeriodData.add]
    split_ifs with hp
    · rw [h4]; simp
    · rw [h4]; simp

theorem groupStep_inv (period : Period) (done : List FocusSession)
    (m : GoMap String PeriodData) (s : FocusSession) (hinv : PeriodInv period done m) :
    PeriodInv period (done ++ [s]) (groupStep period m s) := by
  obtain ⟨hn, he⟩ := hinv
  by_cases hq : qualifies s = true
  · obtain ⟨a, ha, hstep⟩ := groupStep_qualified period m s hq
    rw [hstep]
    cases hg : m.get? (sessionKey period s) with
    | none =>
      refine ⟨hn, ?_⟩
      intro e hem
      obtain ⟨h1, h2, h3, h4⟩ := he e hem
      have hne : ¬ (qualifies s = true ∧ sessionKey period s = e.1) :=
        fun h => GoMap.not_mem_of_get?_none m _ hg e hem h.2.symm
      refine ⟨h1, ?_, h3, h4⟩
      rw [sessionsOfKey_append_singleton, if_neg hne, List.append_nil]
      exact h2
    | some d =>
      refine ⟨by rw [GoMap.keys_update]; exact hn, ?_⟩
      intro e hem
      rw [GoMap.mem_update _ _ _ hn] at hem
      rcases hem with ⟨hk, hem⟩ | ⟨hk, c, hc, h2⟩
      · obtain ⟨h1, h2, h3, h4⟩ := he e hem
        have hne : ¬ (qualifies s = true ∧ sessionKey period s = e.1) :=
          fun h => hk h.2.symm
        refine ⟨h1, ?_, h3, h4⟩
        rw [sessionsOfKey_append_singleton, if_neg hne, List.append_nil]
        exact h2
      · have hcinv := he _ hc
        have := PeriodData.add_inv period done (sessionKey period s) c s a hq rfl hcinv
        rw [hk, h2]
        exact this
  · have hq' : qualifies s = false := by simpa using hq
    rw [groupStep_skipped period m s hq']
    refine ⟨hn, ?_⟩
    intro e hem
    obtain ⟨h1, h2, h3, h4⟩ := he e hem
    refine ⟨h1, ?_, h3, h4⟩
    rw [sessionsOfKey_append_singleton]
    simp only [hq', Bool.false_eq_true, false_and, if_false, List.append_nil]
    exact h2

theorem foldl_groupStep_inv (period : Period) (sessions : List FocusSession) :
    ∀ (done : List FocusSession) (m : GoMap String PeriodData),
      PeriodInv period done m →
      PeriodInv period (done ++ sessions) (sessions.foldl (groupStep period) m) := by
  induction sessions with
  | nil => intro done m h; simpa using h
  | cons s rest ih =>
    intro done m h
    have := ih (done ++ [s]) (groupStep period m s) (groupStep_inv period done m s h)
    simpa using this

/-! ### The periods of the result -/

theorem trendPeriods_spec (keyOrder : List String → List String) (period : Period)
    (hp : period.Known) (startDate endDate : Time) (sessions : List FocusSession) :
    ∃ periodMap, PeriodInv period sessions periodMap ∧
      trendPeriods keyOrder period startDate endDate sessions
        = some ((sortPeriodKeys periodMap (keyOrder periodMap.keys)).filterMap
            (fun key => periodMap.get? key)) := by
  obtain ⟨seeded, hseed⟩ := seedPeriods_isSome period hp (truncateFunc period endDate)
    (seedFuel (truncateFunc period startDate) (truncateFunc period endDate))
    (truncateFunc period startDate) [] (seedFuel_enough _ _)
  have hinv0 := seedPeriods_inv period _ _ _ _ _ (PeriodInv.nil period) hseed
  have hinv := foldl_groupStep_inv period sessions [] seeded hinv0
  rw [List.nil_append] at hinv
  refine ⟨sessions.foldl (groupStep period) seeded, hinv, ?_⟩
  simp only [trendPeriods, hseed]

theorem resolvePeriod_known (period : Period) : (resolvePeriod period).Known := by
  unfold resolvePeriod Period.Known
  split_ifs
  · exact Or.inl rfl
  · exact Or.inr (Or.inl rfl)
  · exact Or.inr (Or.inr rfl)
  · exact Or.inr (Or.inl rfl)

/-! ### Weekly truncation and the weeks that straddle a year boundary -/

theorem Weekday.toInt_ofInt (x : Int) : (Weekday.ofInt x).toInt = x % 7 := by
  have h0 : 0 ≤ x % 7 := Int.emod_nonneg _ (by norm_num)
  have h7 : x % 7 < 7 := Int.emod_lt_of_pos _ (by norm_num)
  obtain ⟨n, hn⟩ := Int.eq_ofNat_of_zero_le h0
  have hn7 : n < 7 := by omega
  unfold Weekday.ofInt
  rw [hn, Int.toNat_ofNat]
  interval_cases n <;> rfl

theorem Weekday.ofInt_eq_Monday (x : Int) (h : x % 7 = 1) : Weekday.ofInt x = Weekday.Monday := by
  unfold Weekday.ofInt
  rw [h]
  rfl

theorem Date_midnight (y m d : Int) (h1 : 1 ≤ m) (h12 : m ≤ 12) :
    Date y m d 0 0 0 0 = ⟨daysFromCivil y m d * nsPerDay⟩ := by
  have e1 : (m - 1) / 12 = 0 := by omega
  have e2 : (m - 1) % 12 + 1 = m := by omega
  simp only [Date, e1, e2, add_zero, zero_mul]

theorem dayNumber_midnight (n : Int) : (⟨n * nsPerDay⟩ : Time).dayNumber = n := by
  simp only [Time.dayNumber]
  exact Int.mul_ediv_cancel n (by decide)

/-- Inside a year, where the ISO week-year of `t` is its calendar year, the weekly
truncation returns 00:00 of the Monday of the week of `t`. -/
theorem truncateFunc_weekly_of_same_year (t : Time) (h : t.ISOWeek.1 = t.Year) :
    (truncateFunc Weekly t).Weekday = Weekday.Monday ∧
    (truncateFunc Weekly t).nsOfDay = 0 ∧
    (truncateFunc Weekly t).wall ≤ t.wall ∧
    t.wall < (truncateFunc Weekly t).wall + 7 * nsPerDay := by
  obtain ⟨m1, m12⟩ := civil_month_range t.dayNumber
  have hr := daysFromCivil_civilFromDays t.dayNumber
  have hw := Weekday.toInt_ofInt (t.dayNumber + 4)
  have htr : truncateFunc Weekly t
      = ⟨(t.dayNumber - (t.dayNumber + 3) % 7) * nsPerDay⟩ := by
    have hk : (if t.Weekday.toInt = 0 then (6 : Int) else t.Weekday.toInt - 1)
        = (t.dayNumber + 3) % 7 := by
      simp only [Time.Weekday, hw]
      split_ifs <;> omega
    simp only [truncateFunc]
    rw [if_neg (by decide), if_pos trivial, h, hk]
    simp only [Time.Year, Time.Month, Time.Day]
    rw [Date_midnight _ _ _ m1 m12, sub_eq_add_neg, daysFromCivil_add_day, hr, ← sub_eq_add_neg]
  have hwall := t.wall_eq
  have hns0 : 0 ≤ t.nsOfDay := Int.emod_nonneg _ (by decide)
  have hns1 : t.nsOfDay < nsPerDay := Int.emod_lt_of_pos _ (by decide)
  have hk0 : 0 ≤ (t.dayNumber + 3) % 7 := Int.emod_nonneg _ (by norm_num)
  have hk7 : (t.dayNumber + 3) % 7 < 7 := Int.emod_lt_of_pos _ (by norm_num)
  have hpos : (0 : Int) < nsPerDay := by decide
  rw [htr]
  refine ⟨?_, ?_, ?_, ?_⟩
  · simp only [Time.Weekday, dayNumber_midnight]
    exact Weekday.ofInt_eq_Monday _ (by omega)
  · simp only [Time.nsOfDay]
    exact Int.mul_emod_left _ _
  · simp only []
    nlinarith
  · simp only []
    nlinarith

/-- C6: the weekly truncation takes the year from `ISOWeek` and the month and day from the
calendar date. Tuesday 31 Dec 2024 (ISO week 1 of 2025) is sent to 30 Dec 2025, a Tuesday
after the timestamp, not to Monday 30 Dec 2024; Friday 1 Jan 2021 (ISO week 53 of 2020)
is sent to Saturday 28 Dec 2019, more than a year before it, not to Monday 28 Dec 2020.
Inside a year the function does return the Monday of the week (Sunday 12 Jan 2025 is sent
to Monday 6 Jan 2025). -/
theorem C6_weekly_truncation_at_year_boundary :
    ((Date 2024 12 31 10 0 0 0).Weekday = Weekday.Tuesday ∧
      (Date 2024 12 31 10 0 0 0).ISOWeek = (2025, 1) ∧
      truncateFunc Weekly (Date 2024 12 31 10 0 0 0) = Date 2025 12 30 0 0 0 0 ∧
      (truncateFunc Weekly (Date 2024 12 31 10 0 0 0)).Weekday = Weekday.Tuesday ∧
      (Date 2024 12 31 10 0 0 0).wall < (truncateFunc Weekly (Date 2024 12 31 10 0 0 0)).wall) ∧
    ((Date 2021 1 1 10 0 0 0).Weekday = Weekday.Friday ∧
      (Date 2021 1 1 10 0 0 0).ISOWeek = (2020, 53) ∧
      truncateFunc Weekly (Date 2021 1 1 10 0 0 0) = Date 2019 12 28 0 0 0 0 ∧
      (truncateFunc Weekly (Date 2021 1 1 10 0 0 0)).Weekday = Weekday.Saturday ∧
      (truncateFunc Weekly (Date 2021 1 1 10 0 0 0)).wall + 7 * nsPerDay
        ≤ (Date 2021 1 1 10 0 0 0).wall) ∧
    ((Date 2025 1 12 10 0 0 0).Weekday = Weekday.Sunday ∧
      truncateFunc Weekly (Date 2025 1 12 10 0 0 0) = Date 2025 1 6 0 0 0 0 ∧
      (Date 2025 1 6 0 0 0 0).Weekday = Weekday.Monday) := by
  refine ⟨⟨?_, ?_, ?_, ?_, ?_⟩, ⟨?_, ?_, ?_, ?_, ?_⟩, ⟨?_, ?_, ?_⟩⟩ <;> decide

/-- C7: with the current time 25 Mar 2025 10:00 the weekly range starts on 31 Dec 2024,
which the weekly truncation sends to 30 Dec 2025, after the truncated end 24 Mar 2025: the
seeding loop creates no period and all seven arrays are empty, where the range holds 13
ISO weeks. With the current time 25 Jun 2025 the same call returns 13 entries. -/
theorem C7_weekly_range_from_year_boundary_is_empty :
    rangeStart Weekly (Date 2025 3 25 10 0 0 0) = Date 2024 12 31 10 0 0 0 ∧
    truncateFunc Weekly (Date 2025 3 25 10 0 0 0) = Date 2025 3 24 0 0 0 0 ∧
    GetProductivityTrends id (Date 2025 3 25 10 0 0 0) [] 0 Weekly
      = some { Period := Weekly, Dates := [], Durations := [], Ratings := [], Focus := [],
               Energy := [], Mood := [], Productivity := [] } ∧
    (GetProductivityTrends id (Date 2025 6 25 10 0 0 0) [] 0 Weekly).map
      (fun trends => trends.Dates.length) = some 13 := by
  refine ⟨?_, ?_, ?_, ?_⟩ <;> decide!

/-- C8: with the current time 23 Feb 2025 10:00 and one completed session of 30 minutes
that starts on 31 Dec 2024 10:00, inside the weekly range, the weekly trend has 13 entries
whose durations are all 0 (the session is truncated to 30 Dec 2025 and finds no period),
while the statistics over the same range give a total duration of 30. -/
theorem C8_weekly_duration_lost_at_year_boundary :
    rangeStart Weekly (Date 2025 2 23 10 0 0 0) = Date 2024 12 1 10 0 0 0 ∧
    (GetProductivityTrends id (Date 2025 2 23 10 0 0 0)
      [mkSession (Date 2024 12 31 10 0 0 0) 50 StatusCompleted (some 30) (some 4) none none]
      0 Weekly).map (fun trends => (trends.Durations.length, trends.Durations.sum))
      = some (13, 0) ∧
    (GetProductivityStats RangeOrder.insertion
      [mkSession (Date 2024 12 31 10 0 0 0) 50 StatusCompleted (some 30) (some 4) none none]
      0 (Date 2024 12 1 10 0 0 0) (Date 2025 2 23 10 0 0 0)).TotalDuration = 30 := by
  refine ⟨?_, ?_, ?_⟩ <;> decide!

/-- C9: with the current time 26 Mar 2021 10:00 the weekly range starts on Friday
1 Jan 2021, which the weekly truncation sends to Saturday 28 Dec 2019, so the periods
start on Saturdays. A completed session of 30 minutes that starts on Tuesday 5 Jan 2021 is
truncated to Monday 4 Jan 2021, yet its duration is entered in the period that starts on
Saturday 9 Jan 2021, the only period with a duration other than 0. -/
theorem C9_weekly_period_holds_session_of_other_start :
    rangeStart Weekly (Date 2021 3 26 10 0 0 0) = Date 2021 1 1 10 0 0 0 ∧
    truncateFunc Weekly (Date 2021 1 5 10 0 0 0) = Date 2021 1 4 0 0 0 0 ∧
    (trendPeriods id Weekly (Date 2021 1 1 10 0 0 0) (Date 2021 3 26 10 0 0 0)
      (GetSessionsByDateRange
        [mkSession (Date 2021 1 5 10 0 0 0) 50 StatusCompleted (some 30) (some 4) none none]
        0 (Date 2021 1 1 10 0 0 0) (Date 2021 3 26 10 0 0 0))).map
      (fun periods => (periods.length,
        (periods.filter (fun data => decide (data.TotalDuration ≠ 0))).map
          (fun data => (data.StartDate, data.StartDate.Weekday, data.TotalDuration))))
      = some (65, [(Date 2021 1 9 0 0 0 0, Weekday.Saturday, 30)]) := by
  refine ⟨?_, ?_, ?_⟩ <;> decide!

/-! ### Day parts -/

theorem Time.hour_range (t : Time) : 0 ≤ t.Hour ∧ t.Hour ≤ 23 := by
  have h0 : 0 ≤ t.nsOfDay := Int.emod_nonneg _ (by decide)
  have h1 : t.nsOfDay < nsPerDay := Int.emod_lt_of_pos _ (by decide)
  simp only [Time.Hour, nsPerDay, nsPerHour, nsPerMinute, nsPerSecond] at h1 ⊢
  norm_num at h1 ⊢
  omega

/-- C17: the hour of day of a timestamp lies in 0..23, and `GetTimeOfDay` returns
`EarlyMorning` iff 5 <= h < 9, `LateMorning` iff 9 <= h < 12, `Afternoon` iff
12 <= h < 17, `Evening` iff 17 <= h < 21 and `Night` iff h >= 21 or h < 5; the result is
one of these five values, which are pairwise distinct. -/
theorem C17_time_of_day (t : Time) :
    (0 ≤ t.Hour ∧ t.Hour ≤ 23) ∧
    (GetTimeOfDay t = EarlyMorning ↔ 5 ≤ t.Hour ∧ t.Hour < 9) ∧
    (GetTimeOfDay t = LateMorning ↔ 9 ≤ t.Hour ∧ t.Hour < 12) ∧
    (GetTimeOfDay t = Afternoon ↔ 12 ≤ t.Hour ∧ t.Hour < 17) ∧
    (GetTimeOfDay t = Evening ↔ 17 ≤ t.Hour ∧ t.Hour < 21) ∧
    (GetTimeOfDay t = Night ↔ 21 ≤ t.Hour ∨ t.Hour < 5) ∧
    GetTimeOfDay t ∈ [EarlyMorning, LateMorning, Afternoon, Evening, Night] ∧
    [EarlyMorning, LateMorning, Afternoon, Evening, Night].Nodup := by
  have hr := t.hour_range
  refine ⟨hr, ?_, ?_, ?_, ?_, ?_, ?_, by decide⟩ <;>
    (unfold GetTimeOfDay
     simp only [ge_iff_le]
     split_ifs <;>
       simp only [EarlyMorning, LateMorning, Afternoon, Evening, Night, List.mem_cons,
         List.mem_singleton, List.not_mem_nil, String.reduceEq, true_iff, false_iff,
         true_or, or_true, or_false, false_or] <;>
       omega)

/-! ### The fields the score reads -/

/-- C18: two sessions that agree on status, planned duration, actual duration, rating,
focus and distractions have the same score, whatever their other fields hold. -/
theorem C18_score_reads_six_fields (s₁ s₂ : FocusSession)
    (hs : s₁.Status = s₂.Status) (hd : s₁.Duration = s₂.Duration)
    (ha : s₁.ActualDuration = s₂.ActualDuration) (hr : s₁.Rating = s₂.Rating)
    (hf : s₁.Focus = s₂.Focus) (hx : s₁.Distractions = s₂.Distractions) :
    CalculateProductivityScore s₁ = CalculateProductivityScore s₂ := by
  simp only [CalculateProductivityScore, hs, hd, ha, hr, hf, hx]

theorem C18_score_reads_six_fields_witness :
    CalculateProductivityScore
      { mkSession (Date 2025 2 3 9 0 0 0) 60 StatusCompleted (some 75) (some 4) (some 8)
          (some 2) with
        Energy := some 9, Mood := some 1, Notes := "deep work", Tags := ["a", "b"]
        EndTime := some (Date 2025 2 3 10 15 0 0), ID := 7, UserID := 3
        LocationDetails := some
          { Name := "Library", Address := "", Latitude := 0, Longitude := 0,
            LocType := "library" } }
      = CalculateProductivityScore
          (mkSession (Date 2021 1 1 23 0 0 0) 60 StatusCompleted (some 75) (some 4) (some 8)
            (some 2)) :=
  C18_score_reads_six_fields _ _ rfl rfl rfl rfl rfl rfl

/-! ### Average duration of the response -/

/-- C20 (as amended): `ToProductivityStatsResponse` sets `AverageDuration` to
`TotalDuration / CompletedSessions` when `CompletedSessions > 0` and to 0 otherwise, for
every statistics value; this is the value of `GetAverageDuration` on the same statistics
whenever `CompletedSessions` is not negative, as in every value that
`GetProductivityStats` returns. -/
theorem C20_average_duration (dayOrder : GoMap Weekday ℚ → GoMap Weekday ℚ)
    (timeOrder : GoMap TimeOfDay ℚ → GoMap TimeOfDay ℚ)
    (stats : ProductivityStats) (dateRange : DateRange) :
    (ToProductivityStatsResponse dayOrder timeOrder stats dateRange).AverageDuration
      = (if stats.CompletedSessions > 0 then
          (stats.TotalDuration : ℚ) / (stats.CompletedSessions : ℚ) else 0) ∧
    (0 ≤ stats.CompletedSessions →
      (ToProductivityStatsResponse dayOrder timeOrder stats dateRange).AverageDuration
        = stats.GetAverageDuration) ∧
    (∀ (o : RangeOrder) (sessions : List FocusSession),
      (ToProductivityStatsResponse dayOrder timeOrder (aggregateStats o sessions)
          dateRange).AverageDuration
        = (aggregateStats o sessions).GetAverageDuration) := by
  have key : ∀ st : ProductivityStats, 0 ≤ st.CompletedSessions →
      (ToProductivityStatsResponse dayOrder timeOrder st dateRange).AverageDuration
        = st.GetAverageDuration := by
    intro st h
    simp only [ToProductivityStatsResponse, ProductivityStats.GetAverageDuration]
    by_cases h0 : st.CompletedSessions = 0
    · simp [h0]
    · have hpos : st.CompletedSessions > 0 := by omega
      simp [h0, hpos]
  refine ⟨rfl, key stats, ?_⟩
  intro o sessions
  apply key
  by_cases h0 : sessions.length = 0
  · simp [aggregateStats, h0, emptyStats]
  · simp only [aggregateStats, h0, if_false, finishStats, foldl_statsStep_completedCount,
      StatsAcc.init]
    omega

theorem C20_average_duration_witness :
    (ToProductivityStatsResponse id id
      { emptyStats 3 with CompletedSessions := 2, TotalDuration := 90 }
      ⟨Date 2025 1 1 0 0 0 0, Date 2025 2 1 0 0 0 0⟩).AverageDuration
      = ProductivityStats.GetAverageDuration
          { emptyStats 3 with CompletedSessions := 2, TotalDuration := 90 } :=
  (C20_average_duration id id { emptyStats 3 with CompletedSessions := 2, TotalDuration := 90 }
    ⟨Date 2025 1 1 0 0 0 0, Date 2025 2 1 0 0 0 0⟩).2.1 (by decide)

/-- C20 (as stated) fails on a statistics value with a negative `CompletedSessions`: the
response has average duration 0, `GetAverageDuration` returns -30. -/
theorem C20_negative_count_differs :
    (ToProductivityStatsResponse id id
      { emptyStats 0 with CompletedSessions := -1, TotalDuration := 30 }
      ⟨Date 2025 1 1 0 0 0 0, Date 2025 2 1 0 0 0 0⟩).AverageDuration = 0 ∧
    ProductivityStats.GetAverageDuration
      { emptyStats 0 with CompletedSessions := -1, TotalDuration := 30 } = -30 := by
  constructor <;> decide!

/-! ### Metric averages -/

theorem suppliedValues_cons (f : FocusSession → Option Int) (s : FocusSession)
    (l : List FocusSession) :
    suppliedValues f (s :: l) = (match f s with | some v => [v] | none => []) ++
      suppliedValues f l := by
  unfold suppliedValues
  cases h : f s <;> simp [List.filterMap_cons, h]

theorem foldl_statsStep_total (tot : StatsAcc → Int) (f : FocusSession → Option Int)
    (hstep : ∀ acc s a, s.ActualDuration = some a →
      tot (statsStep acc s) = addOpt (tot acc) (f s))
    (hskip : ∀ acc s, s.ActualDuration = none → tot (statsStep acc s) = tot acc)
    (sessions : List FocusSession) :
    ∀ acc : StatsAcc, tot (sessions.foldl statsStep acc)
      = tot acc + (suppliedValues f (countedSessions sessions)).sum := by
  induction sessions with
  | nil => intro acc; simp [countedSessions, suppliedValues]
  | cons s rest ih =>
    intro acc
    rw [List.foldl_cons, ih]
    cases ha : s.ActualDuration with
    | some a =>
      have hf : countedSessions (s :: rest) = s :: countedSessions rest := by
        simp [countedSessions, List.filter_cons, ha]
      rw [hf, suppliedValues_cons, hstep acc s a ha]
      cases hv : f s <;> simp [addOpt]
      omega
    | none =>
      have hf : countedSessions (s :: rest) = countedSessions rest := by
        simp [countedSessions, List.filter_cons, ha]
      rw [hf, hskip acc s ha]

theorem foldl_statsStep_count (cnt : StatsAcc → Int) (f : FocusSession → Option Int)
    (hstep : ∀ acc s a, s.ActualDuration = some a →
      cnt (statsStep acc s) = countOpt (cnt acc) (f s))
    (hskip : ∀ acc s, s.ActualDuration = none → cnt (statsStep acc s) = cnt acc)
    (sessions : List FocusSession) :
    ∀ acc : StatsAcc, cnt (sessions.foldl statsStep acc)
      = cnt acc + ((suppliedValues f (countedSessions sessions)).length : Int) := by
  induction sessions with
  | nil => intro acc; simp [countedSessions, suppliedValues]
  | cons s rest ih =>
    intro acc
    rw [List.foldl_cons, ih]
    cases ha : s.ActualDuration with
    | some a =>
      have hf : countedSessions (s :: rest) = s :: countedSessions rest := by
        simp [countedSessions, List.filter_cons, ha]
      rw [hf, suppliedValues_cons, hstep acc s a ha]
      cases hv : f s <;> simp [countOpt]
      omega
    | none =>
      have hf : countedSessions (s :: rest) = countedSessions rest := by
        simp [countedSessions, List.filter_cons, ha]
      rw [hf, hskip acc s ha]

theorem statsStep_skipped (acc : StatsAcc) (s : FocusSession) (h : s.ActualDuration = none) :
    statsStep acc s = acc ∨
      statsStep acc s = { acc with cancelledCount := acc.cancelledCount + 1 } := by
  simp only [statsStep, h]
  split_ifs
  · right; rfl
  · left; rfl

theorem averageOf_eq_meanSupplied (total count : Int) (f : FocusSession → Option Int)
    (l : List FocusSession) (ht : total = (suppliedValues f l).sum)
    (hc : count = ((suppliedValues f l).length : Int)) :
    averageOf total count = meanSupplied f l := by
  unfold averageOf meanSupplied
  rw [ht, hc]
  by_cases h : (suppliedValues f l).length > 0
  · have h' : ((suppliedValues f l).length : Int) > 0 := by exact_mod_cast h
    simp only [h, h', if_true]
    norm_cast
  · have h' : ¬ ((suppliedValues f l).length : Int) > 0 := by
      intro hc'; exact h (by exact_mod_cast hc')
    simp only [h, h', if_false]

/-- C12: `GetProductivityStats` sets each of the five averages (rating, focus, energy,
mood, distractions) to the sum of the metric over the counted sessions that supplied it
divided by the number of those sessions, its own presence count, and to 0 when no counted
session supplied it. -/
theorem C12_metric_averages (o : RangeOrder) (sessions : List FocusSession) :
    (aggregateStats o sessions).AverageRating
      = meanSupplied (fun s => s.Rating) (countedSessions sessions) ∧
    (aggregateStats o sessions).AverageFocus
      = meanSupplied (fun s => s.Focus) (countedSessions sessions) ∧
    (aggregateStats o sessions).AverageEnergy
      = meanSupplied (fun s => s.Energy) (countedSessions sessions) ∧
    (aggregateStats o sessions).AverageMood
      = meanSupplied (fun s => s.Mood) (countedSessions sessions) ∧
    (aggregateStats o sessions).AverageDistractions
      = meanSupplied (fun s => s.Distractions) (countedSessions sessions) := by
  by_cases h0 : sessions.length = 0
  · have hnil : sessions = [] := List.length_eq_zero.mp h0
    subst hnil
    simp [aggregateStats, emptyStats, countedSessions, meanSupplied, suppliedValues]
  · have hskip : ∀ (g : StatsAcc → Int),
        (∀ acc : StatsAcc, g { acc with cancelledCount := acc.cancelledCount + 1 } = g acc) →
        ∀ acc s, s.ActualDuration = none → g (statsStep acc s) = g acc := by
      intro g hg acc s h
      rcases statsStep_skipped acc s h with e | e <;> rw [e]
      exact hg acc
    simp only [aggregateStats, h0, if_false, finishStats]
    refine ⟨?_, ?_, ?_, ?_, ?_⟩
    · refine averageOf_eq_meanSupplied _ _ _ _ ?_ ?_
      · rw [foldl_statsStep_total (fun a => a.totalRating) (fun s => s.Rating)
          (fun acc s a h => by simp [statsStep, h])
          (hskip (fun a => a.totalRating) (fun _ => rfl))]
        simp [StatsAcc.init]
      · rw [foldl_statsStep_count (fun a => a.ratingCount) (fun s => s.Rating)
          (fun acc s a h => by simp [statsStep, h])
          (hskip (fun a => a.ratingCount) (fun _ => rfl))]
        simp [StatsAcc.init]
    · refine averageOf_eq_meanSupplied _ _ _ _ ?_ ?_
      · rw [foldl_statsStep_total (fun a => a.totalFocus) (fun s => s.Focus)
          (fun acc s a h => by simp [statsStep, h])
          (hskip (fun a => a.totalFocus) (fun _ => rfl))]
        simp [StatsAcc.init]
      · rw [foldl_statsStep_count (fun a => a.focusCount) (fun s => s.Focus)
          (fun acc s a h => by simp [statsStep, h])
          (hskip (fun a => a.focusCount) (fun _ => rfl))]
        simp [StatsAcc.init]
    · refine averageOf_eq_meanSupplied _ _ _ _ ?_ ?_
      · rw [foldl_statsStep_total (fun a => a.totalEnergy) (fun s => s.Energy)
          (fun acc s a h => by simp [statsStep, h])
          (hskip (fun a => a.totalEnergy) (fun _ => rfl))]
        simp [StatsAcc.init]
      · rw [foldl_statsStep_count (fun a => a.energyCount) (fun s => s.Energy)
          (fun acc s a h => by simp [statsStep, h])
          (hskip (fun a => a.energyCount) (fun _ => rfl))]
        simp [StatsAcc.init]
    · refine averageOf_eq_meanSupplied _ _ _ _ ?_ ?_
      · rw [foldl_statsStep_total (fun a => a.totalMood) (fun s => s.Mood)
          (fun acc s a h => by simp [statsStep, h])
          (hskip (fun a => a.totalMood) (fun _ => rfl))]
        simp [StatsAcc.init]
      · rw [foldl_statsStep_count (fun a => a.moodCount) (fun s => s.Mood)
          (fun acc s a h => by simp [statsStep, h])
          (hskip (fun a => a.moodCount) (fun _ => rfl))]
        simp [StatsAcc.init]
    · refine averageOf_eq_meanSupplied _ _ _ _ ?_ ?_
      · rw [foldl_statsStep_total (fun a => a.totalDistract) (fun s => s.Distractions)
          (fun acc s a h => by simp [statsStep, h])
          (hskip (fun a => a.totalDistract) (fun _ => rfl))]
        simp [StatsAcc.init]
      · rw [foldl_statsStep_count (fun a => a.distractCount) (fun s => s.Distractions)
          (fun acc s a h => by simp [statsStep, h])
          (hskip (fun a => a.distractCount) (fun _ => rfl))]
        simp [StatsAcc.init]

/-! ### The counters add up to the completed count -/

theorem countSum_update {κ : Type} [DecidableEq κ] (m : GoMap κ MetricCounter) (k : κ)
    (f : MetricCounter → MetricCounter) (hf : ∀ c, (f c).Count = c.Count + 1)
    (hk : k ∈ m.keys) : countSum (m.update k f) = countSum m + 1 := by
  induction m with
  | nil => simp [GoMap.keys] at hk
  | cons e rest ih =>
    simp only [GoMap.update]
    split_ifs with h
    · simp only [countSum, List.map_cons, List.sum_cons, hf]
      omega
    · have hk' : k ∈ GoMap.keys rest := by
        simp only [GoMap.keys, List.map_cons, List.mem_cons] at hk
        rcases hk with hk | hk
        · exact absurd hk.symm h
        · exact hk
      have := ih hk'
      simp only [countSum, List.map_cons, List.sum_cons] at this ⊢
      omega

theorem GetTimeOfDay_mem (t : Time) : GetTimeOfDay t ∈ allTimesOfDay := by
  unfold GetTimeOfDay allTimesOfDay
  simp only []
  split_ifs <;> simp

theorem statsStep_timeCounter_skipped (acc : StatsAcc) (s : FocusSession)
    (h : s.ActualDuration = none) : (statsStep acc s).timeCounter = acc.timeCounter := by
  simp only [statsStep, h]
  split_ifs <;> rfl

theorem statsStep_timeCounter_counted (acc : StatsAcc) (s : FocusSession) (a : Int)
    (h : s.ActualDuration = some a) :
    (statsStep acc s).timeCounter = acc.timeCounter.update (GetTimeOfDay s.StartTime)
      (fun c => c.record s a (CalculateProductivityScore s)) := by
  simp only [statsStep, h]

theorem statsStep_completedCount_counted (acc : StatsAcc) (s : FocusSession) (a : Int)
    (h : s.ActualDuration = some a) :
    (statsStep acc s).completedCount = acc.completedCount + 1 := by
  simp only [statsStep, h]

theorem statsStep_completedCount_skipped (acc : StatsAcc) (s : FocusSession)
    (h : s.ActualDuration = none) :
    (statsStep acc s).completedCount = acc.completedCount := by
  simp only [statsStep, h]
  split_ifs <;> rfl

theorem counters_add_up (sessions : List FocusSession) :
    ∀ acc : StatsAcc, acc.dayCounter.keys = allWeekdays →
      acc.timeCounter.keys = allTimesOfDay →
      countSum acc.dayCounter = acc.completedCount →
      countSum acc.timeCounter = acc.completedCount →
      (sessions.foldl statsStep acc).dayCounter.keys = allWeekdays ∧
      (sessions.foldl statsStep acc).timeCounter.keys = allTimesOfDay ∧
      countSum (sessions.foldl statsStep acc).dayCounter
        = (sessions.foldl statsStep acc).completedCount ∧
      countSum (sessions.foldl statsStep acc).timeCounter
        = (sessions.foldl statsStep acc).completedCount := by
  induction sessions with
  | nil => intro acc h1 h2 h3 h4; exact ⟨h1, h2, h3, h4⟩
  | cons s rest ih =>
    intro acc h1 h2 h3 h4
    rw [List.foldl_cons]
    cases ha : s.ActualDuration with
    | none =>
      apply ih
      · rw [statsStep_dayCounter_skipped acc s ha]; exact h1
      · rw [statsStep_timeCounter_skipped acc s ha]; exact h2
      · rw [statsStep_dayCounter_skipped acc s ha, statsStep_completedCount_skipped acc s ha]
        exact h3
      · rw [statsStep_timeCounter_skipped acc s ha, statsStep_completedCount_skipped acc s ha]
        exact h4
    | some a =>
      apply ih
      · rw [statsStep_dayCounter_counted acc s a ha, GoMap.keys_update]; exact h1
      · rw [statsStep_timeCounter_counted acc s a ha, GoMap.keys_update]; exact h2
      · rw [statsStep_dayCounter_counted acc s a ha, statsStep_completedCount_counted acc s a ha,
          countSum_update _ _ _ (fun c => rfl) (by rw [h1]; exact mem_allWeekdays _), h3]
      · rw [statsStep_timeCounter_counted acc s a ha, statsStep_completedCount_counted acc s a ha,
          countSum_update _ _ _ (fun c => rfl) (by rw [h2]; exact GetTimeOfDay_mem _), h4]

/-- C13: for a non-empty session list, after the loop of `GetProductivityStats` the seven
weekday counters are those of Sunday..Saturday and the five day-part counters those of
the five day parts, and the sum of `Count` over the weekday counters, like the sum over
the day-part counters, equals `CompletedSessions`. -/
theorem C13_counters_add_up (o : RangeOrder) (sessions : List FocusSession)
    (hne : sessions ≠ []) :
    (sessions.foldl statsStep StatsAcc.init).dayCounter.keys = allWeekdays ∧
    (sessions.foldl statsStep StatsAcc.init).timeCounter.keys = allTimesOfDay ∧
    countSum (sessions.foldl statsStep StatsAcc.init).dayCounter
      = (aggregateStats o sessions).CompletedSessions ∧
    countSum (sessions.foldl statsStep StatsAcc.init).timeCounter
      = (aggregateStats o sessions).CompletedSessions := by
  have h0 : ¬ sessions.length = 0 := fun h => hne (List.length_eq_zero.mp h)
  have hC : (aggregateStats o sessions).CompletedSessions
      = (sessions.foldl statsStep StatsAcc.init).completedCount := by
    simp [aggregateStats, h0, finishStats]
  rw [hC]
  exact counters_add_up sessions StatsAcc.init rfl rfl (by decide) (by decide)

theorem C13_counters_add_up_witness :
    countSum ([mkSession (Date 2024 12 30 10 0 0 0) 50 StatusCompleted (some 40) (some 3) none none,
        mkSession (Date 2024 12 31 22 0 0 0) 50 StatusCompleted (some 10) none none none,
        mkSession (Date 2024 12 31 23 0 0 0) 50 StatusPlanned none none none none].foldl
          statsStep StatsAcc.init).dayCounter = 2 := by
  have h := (C13_counters_add_up RangeOrder.insertion
    [mkSession (Date 2024 12 30 10 0 0 0) 50 StatusCompleted (some 40) (some 3) none none,
     mkSession (Date 2024 12 31 22 0 0 0) 50 StatusCompleted (some 10) none none none,
     mkSession (Date 2024 12 31 23 0 0 0) 50 StatusPlanned none none none none]
    (by simp)).2.2.1
  rw [h]
  decide!

/-! ### Nothing counted -/

theorem aggregateStats_metrics_of_none_counted (o : RangeOrder) (hv : o.Valid)
    (sessions : List FocusSession) (hc : countedSessions sessions = []) :
    (aggregateStats o sessions).metrics = (emptyStats 0).metrics := by
  by_cases h0 : sessions.length = 0
  · simp [aggregateStats, h0, emptyStats, ProductivityStats.metrics]
  · have hL : aggregateStats o sessions
        = finishStats o sessions.length (sessions.foldl statsStep StatsAcc.init) := by
      simp [aggregateStats, h0]
    have hcore := foldl_statsStep_core sessions StatsAcc.init
    rw [hc] at hcore
    rw [hL, ← finishStats_init o hv 0 0]
    exact finishStats_metrics_congr o _ _ _ _ hcore

/-- C19: for the empty session list the statistics are all zero with four empty maps; and
for every list in which no session is counted as completed (`CompletedSessions` is 0)
the four productivity maps are empty, the total duration and the five averages are 0, and
the most-productive fields are Sunday and three empty strings. -/
theorem C19_nothing_counted (o : RangeOrder) (hv : o.Valid) (sessions : List FocusSession) :
    aggregateStats o [] = emptyStats 0 ∧
    ((aggregateStats o sessions).CompletedSessions = 0 →
      (aggregateStats o sessions).TotalSessions = sessions.length ∧
      (aggregateStats o sessions).TotalDuration = 0 ∧
      (aggregateStats o sessions).AverageRating = 0 ∧
      (aggregateStats o sessions).AverageFocus = 0 ∧
      (aggregateStats o sessions).AverageEnergy = 0 ∧
      (aggregateStats o sessions).AverageMood = 0 ∧
      (aggregateStats o sessions).AverageDistractions = 0 ∧
      (aggregateStats o sessions).ProductivityByDay = [] ∧
      (aggregateStats o sessions).ProductivityByTime = [] ∧
      (aggregateStats o sessions).ProductivityByLocation = [] ∧
      (aggregateStats o sessions).ProductivityByLocationType = [] ∧
      (aggregateStats o sessions).MostProductiveDay = Weekday.Sunday ∧
      (aggregateStats o sessions).MostProductiveTime = "" ∧
      (aggregateStats o sessions).MostProductiveLocation = "" ∧
      (aggregateStats o sessions).MostProductiveLocationType = "") := by
  refine ⟨by simp [aggregateStats], ?_⟩
  intro hzero
  have hT : (aggregateStats o sessions).TotalSessions = sessions.length := by
    by_cases h0 : sessions.length = 0
    · simp [aggregateStats, h0, emptyStats]
    · simp [aggregateStats, h0, finishStats, emptyStats]
  have hcount : ((countedSessions sessions).length : Int) = 0 := by
    by_cases h0 : sessions.length = 0
    · have hnil : sessions = [] := List.length_eq_zero.mp h0
      subst hnil
      simp [countedSessions]
    · have : (aggregateStats o sessions).CompletedSessions
          = (sessions.foldl statsStep StatsAcc.init).completedCount := by
        simp [aggregateStats, h0, finishStats]
      rw [this, foldl_statsStep_completedCount] at hzero
      simpa [StatsAcc.init] using hzero
  have hc : countedSessions sessions = [] :=
    List.length_eq_zero.mp (by exact_mod_cast hcount)
  have hm := aggregateStats_metrics_of_none_counted o hv sessions hc
  simp only [ProductivityStats.metrics, emptyStats, ProductivityStats.mk.injEq] at hm
  obtain ⟨-, -, -, h4, h5, h6, h7, h8, h9, h10, h11, h12, h13, h14, h15, h16, h17⟩ := hm
  exact ⟨hT, h4, h5, h6, h7, h8, h9, h10, h12, h14, h16, h11, h13, h15, h17⟩

theorem C19_nothing_counted_witness :
    (aggregateStats RangeOrder.insertion
      [mkSession (Date 2024 12 30 10 0 0 0) 50 StatusCancelled none none none none,
       mkSession (Date 2024 12 31 10 0 0 0) 50 StatusPlanned none none none none]).TotalSessions
      = 2 :=
  ((C19_nothing_counted RangeOrder.insertion RangeOrder.insertion_valid
    [mkSession (Date 2024 12 30 10 0 0 0) 50 StatusCancelled none none none none,
     mkSession (Date 2024 12 31 10 0 0 0) 50 StatusPlanned none none none none]).2
    (by decide!)).1

/-! ### Go maps: lookup -/

theorem GoMap.get?_eq_none_iff {κ ν : Type} [DecidableEq κ] (m : GoMap κ ν) (k : κ) :
    m.get? k = none ↔ k ∉ m.keys := by
  induction m with
  | nil => simp [GoMap.get?, GoMap.keys]
  | cons e rest ih =>
    simp only [GoMap.get?, GoMap.keys, List.map_cons, List.mem_cons, not_or]
    split_ifs with h
    · simp [h]
    · simp only [GoMap.keys] at ih
      rw [ih]
      constructor
      · intro h1; exact ⟨fun h2 => h h2.symm, h1⟩
      · intro h1; exact h1.2

theorem GoMap.get?_of_mem {κ ν : Type} [DecidableEq κ] (m : GoMap κ ν) (k : κ) (v : ν)
    (hn : m.keys.Nodup) (h : (k, v) ∈ m) : m.get? k = some v := by
  induction m with
  | nil => exact absurd h (List.not_mem_nil _)
  | cons e rest ih =>
    simp only [GoMap.keys, List.map_cons, List.nodup_cons] at hn
    simp only [GoMap.get?]
    rcases List.mem_cons.mp h with h | h
    · rw [← h]; simp
    · have hne : e.1 ≠ k := by
        intro he
        exact hn.1 (List.mem_map.mpr ⟨(k, v), h, he.symm⟩)
      rw [if_neg hne]
      exact ih hn.2 h

theorem GoMap.get?_set {κ ν : Type} [DecidableEq κ] (m : GoMap κ ν) (k k' : κ) (v : ν) :
    (m.set k v).get? k' = if k = k' then some v else m.get? k' := by
  induction m with
  | nil => simp [GoMap.set, GoMap.get?]
  | cons e rest ih =>
    simp only [GoMap.set]
    by_cases h : e.1 = k
    · simp only [h, if_true, GoMap.get?]
      split_ifs <;> rfl
    · simp only [h, if_false, GoMap.get?, ih]
      by_cases h1 : e.1 = k'
      · have : ¬ k = k' := fun h2 => h (h1.trans h2.symm)
        simp [h1, this]
      · simp [h1]

theorem GoMap.mem_set_iff {κ ν : Type} [DecidableEq κ] (m : GoMap κ ν) (k : κ) (v : ν)
    (hk : k ∉ m.keys) (e : κ × ν) : e ∈ m.set k v ↔ e ∈ m ∨ e = (k, v) := by
  induction m with
  | nil => simp [GoMap.set]
  | cons x rest ih =>
    have hx : ¬ x.1 = k := by
      intro h
      exact hk (by simp [GoMap.keys, h])
    have hk' : k ∉ GoMap.keys rest := by
      intro h
      exact hk (by simp only [GoMap.keys, List.map_cons, List.mem_cons]; right; exact h)
    simp only [GoMap.set, hx, if_false, List.mem_cons, ih hk']
    tauto

/-! ### The counter map of a dimension -/

theorem sessionsIn_append_singleton {κ : Type} [DecidableEq κ]
    (category : FocusSession → Option κ) (l : List FocusSession) (s : FocusSession) (c : κ) :
    sessionsIn category (l ++ [s]) c = sessionsIn category l c ++
      (if s.ActualDuration.isSome = true ∧ category s = some c then [s] else []) := by
  simp only [sessionsIn, countedSessions, List.filter_append, List.filter_filter]
  congr 1
  by_cases h1 : s.ActualDuration.isSome = true <;> by_cases h2 : category s = some c <;>
    simp [List.filter_cons, h1, h2]

theorem DimInv.frame {κ : Type} [DecidableEq κ] (category : FocusSession → Option κ)
    (done : List FocusSession) (m : GoMap κ MetricCounter) (s : FocusSession)
    (hs : ∀ c, ¬ (s.ActualDuration.isSome = true ∧ category s = some c))
    (h : DimInv category done m) : DimInv category (done ++ [s]) m := by
  have he : ∀ c, sessionsIn category (done ++ [s]) c = sessionsIn category done c := by
    intro c
    rw [sessionsIn_append_singleton, if_neg (hs c), List.append_nil]
  obtain ⟨h1, h2, h3⟩ := h
  refine ⟨h1, ?_, ?_⟩
  · intro e hem; rw [he]; exact h2 e hem
  · intro c hc; rw [he] at hc; exact h3 c hc

theorem DimInv.ensure {κ : Type} [DecidableEq κ] (category : FocusSession → Option κ)
    (done : List FocusSession) (m : GoMap κ MetricCounter) (k : κ)
    (h : DimInv category done m) :
    DimInv category done (match m.get? k with | some _ => m | none => m.set k {}) ∧
    k ∈ GoMap.keys (match m.get? k with | some _ => m | none => m.set k {}) ∧
    GoMap.keys (match m.get? k with | some _ => m | none => m.set k {})
      = if k ∈ m.keys then m.keys else m.keys ++ [k] := by
  obtain ⟨h1, h2, h3⟩ := h
  cases hg : m.get? k with
  | some c =>
    have hk : k ∈ m.keys := by
      by_contra hk
      rw [(GoMap.get?_eq_none_iff m k).mpr hk] at hg
      exact Option.noConfusion hg
    refine ⟨⟨h1, h2, h3⟩, hk, ?_⟩
    rw [if_pos hk]
  | none =>
    have hk : k ∉ m.keys := (GoMap.get?_eq_none_iff m k).mp hg
    have hkeys : (m.set k ({} : MetricCounter)).keys = m.keys ++ [k] := by
      rw [GoMap.keys_set, if_neg hk]
    have hempty : sessionsIn category done k = [] := by
      by_contra hne
      exact hk (h3 k hne)
    simp only [hk, if_false]
    refine ⟨⟨GoMap.nodup_set _ _ _ h1, ?_, ?_⟩, ?_, hkeys⟩
    · intro e hem
      rcases (GoMap.mem_set_iff m k {} hk e).mp hem with hem | hem
      · exact h2 e hem
      · subst hem
        simp [hempty]
    · intro c hc
      rw [hkeys]
      exact List.mem_append_left _ (h3 c hc)
    · rw [hkeys]; simp

theorem DimInv.record {κ : Type} [DecidableEq κ] (category : FocusSession → Option κ)
    (done : List FocusSession) (m : GoMap κ MetricCounter) (s : FocusSession) (a : Int)
    (k : κ) (ha : s.ActualDuration = some a) (hk : category s = some k) (hmem : k ∈ m.keys)
    (h : DimInv category done m) :
    DimInv category (done ++ [s])
      (m.update k (fun c => c.record s a (CalculateProductivityScore s))) := by
  obtain ⟨h1, h2, h3⟩ := h
  have hsome : s.ActualDuration.isSome = true := by simp [ha]
  refine ⟨by rw [GoMap.keys_update]; exact h1, ?_, ?_⟩
  · intro e hem
    rw [GoMap.mem_update _ _ _ h1] at hem
    rw [sessionsIn_append_singleton]
    rcases hem with ⟨hne, hem⟩ | ⟨heq, c, hc, h2'⟩
    · have hno : ¬ (s.ActualDuration.isSome = true ∧ category s = some e.1) := by
        rintro ⟨-, hc⟩
        rw [hk] at hc
        exact hne (Option.some.inj hc).symm
      rw [if_neg hno, List.append_nil]
      exact h2 e hem
    · have hyes : s.ActualDuration.isSome = true ∧ category s = some e.1 := by
        rw [heq]; exact ⟨hsome, hk⟩
      obtain ⟨hcc, hcs⟩ := h2 _ hc
      rw [if_pos hyes, h2', heq]
      simp only [MetricCounter.record, List.length_append, List.length_singleton,
        List.map_append, List.map_cons, List.map_nil, List.sum_append, List.sum_cons,
        List.sum_nil, add_zero]
      constructor
      · rw [hcc]; push_cast; ring
      · rw [hcs]
  · intro c hc
    rw [GoMap.keys_update]
    rw [sessionsIn_append_singleton] at hc
    by_cases hcase : s.ActualDuration.isSome = true ∧ category s = some c
    · have : c = k := by
        have := hcase.2
        rw [hk] at this
        exact (Option.some.inj this).symm
      rw [this]; exact hmem
    · rw [if_neg hcase, List.append_nil] at hc
      exact h3 c hc

theorem dimStep_inv {κ : Type} [DecidableEq κ] (category : FocusSession → Option κ)
    (done : List FocusSession) (m : GoMap κ MetricCounter) (s : FocusSession)
    (h : DimInv category done m) : DimInv category (done ++ [s]) (dimStep category m s) := by
  unfold dimStep
  cases ha : s.ActualDuration with
  | none =>
    exact DimInv.frame category done m s (fun c hc => by simp [ha] at hc) h
  | some a =>
    cases hk : category s with
    | none =>
      exact DimInv.frame category done m s (fun c hc => by simp [hk] at hc) h
    | some k =>
      obtain ⟨he, hmem, -⟩ := DimInv.ensure category done m k h
      exact DimInv.record category done _ s a k ha hk hmem he

theorem foldl_dimStep_inv {κ : Type} [DecidableEq κ] (category : FocusSession → Option κ)
    (sessions : List FocusSession) :
    ∀ (done : List FocusSession) (m : GoMap κ MetricCounter), DimInv category done m →
      DimInv category (done ++ sessions) (sessions.foldl (dimStep category) m) := by
  induction sessions with
  | nil => intro done m h; simpa using h
  | cons s rest ih =>
    intro done m h
    have := ih (done ++ [s]) (dimStep category m s) (dimStep_inv category done m s h)
    simpa using this

theorem statsStep_locationCounter (acc : StatsAcc) (s : FocusSession) :
    (statsStep acc s).locationCounter = dimStep locationOf acc.locationCounter s := by
  unfold statsStep dimStep locationOf ensureCounter
  cases ha : s.ActualDuration with
  | none => simp only []; split_ifs <;> rfl
  | some a => cases hl : s.LocationDetails <;> rfl

theorem statsStep_locationTypeCounter (acc : StatsAcc) (s : FocusSession) :
    (statsStep acc s).locationTypeCounter
      = dimStep locationTypeOf acc.locationTypeCounter s := by
  unfold statsStep dimStep locationTypeOf ensureCounter
  cases ha : s.ActualDuration with
  | none => simp only []; split_ifs <;> rfl
  | some a =>
    cases hl : s.LocationDetails with
    | none => rfl
    | some loc =>
      simp only []
      split_ifs <;> rfl

theorem statsStep_timeCounter (acc : StatsAcc) (s : FocusSession)
    (hk : acc.timeCounter.keys = allTimesOfDay) :
    (statsStep acc s).timeCounter = dimStep timeOfDayOf acc.timeCounter s := by
  cases ha : s.ActualDuration with
  | none =>
    rw [statsStep_timeCounter_skipped acc s ha]
    simp [dimStep, ha]
  | some a =>
    rw [statsStep_timeCounter_counted acc s a ha]
    have hmem : GetTimeOfDay s.StartTime ∈ acc.timeCounter.keys := by
      rw [hk]; exact GetTimeOfDay_mem _
    cases hg : acc.timeCounter.get? (GetTimeOfDay s.StartTime) with
    | none => exact absurd hmem ((GoMap.get?_eq_none_iff _ _).mp hg)
    | some c => simp only [dimStep, ha, timeOfDayOf, hg]

theorem foldl_statsStep_locationCounter (sessions : List FocusSession) :
    ∀ acc : StatsAcc, (sessions.foldl statsStep acc).locationCounter
      = sessions.foldl (dimStep locationOf) acc.locationCounter := by
  induction sessions with
  | nil => intro acc; rfl
  | cons s rest ih =>
    intro acc
    rw [List.foldl_cons, List.foldl_cons, ih, statsStep_locationCounter]

theorem foldl_statsStep_locationTypeCounter (sessions : List FocusSession) :
    ∀ acc : StatsAcc, (sessions.foldl statsStep acc).locationTypeCounter
      = sessions.foldl (dimStep locationTypeOf) acc.locationTypeCounter := by
  induction sessions with
  | nil => intro acc; rfl
  | cons s rest ih =>
    intro acc
    rw [List.foldl_cons, List.foldl_cons, ih, statsStep_locationTypeCounter]

theorem foldl_statsStep_timeCounter (sessions : List FocusSession) :
    ∀ acc : StatsAcc, acc.timeCounter.keys = allTimesOfDay →
      (sessions.foldl statsStep acc).timeCounter
        = sessions.foldl (dimStep timeOfDayOf) acc.timeCounter := by
  induction sessions with
  | nil => intro acc _; rfl
  | cons s rest ih =>
    intro acc hk
    have hk' : (statsStep acc s).timeCounter.keys = allTimesOfDay := by
      cases ha : s.ActualDuration with
      | none => rw [statsStep_timeCounter_skipped acc s ha]; exact hk
      | some a => rw [statsStep_timeCounter_counted acc s a ha, GoMap.keys_update]; exact hk
    rw [List.foldl_cons, List.foldl_cons, ih _ hk', statsStep_timeCounter acc s hk]

theorem DimInv.init {κ : Type} [DecidableEq κ] (category : FocusSession → Option κ)
    (keys : List κ) (hn : keys.Nodup) :
    DimInv category [] (keys.map (fun k => (k, ({} : MetricCounter)))) := by
  refine ⟨?_, ?_, ?_⟩
  · simpa [GoMap.keys, List.map_map, Function.comp_def] using hn
  · intro e he
    obtain ⟨k, -, hk⟩ := List.mem_map.mp he
    subst hk
    simp [sessionsIn, countedSessions]
  · intro c hc
    exact absurd (by simp [sessionsIn, countedSessions]) hc

theorem timeCounter_inv (sessions : List FocusSession) :
    DimInv timeOfDayOf sessions (sessions.foldl statsStep StatsAcc.init).timeCounter := by
  rw [foldl_statsStep_timeCounter sessions StatsAcc.init rfl]
  have h0 : DimInv timeOfDayOf [] StatsAcc.init.timeCounter :=
    DimInv.init timeOfDayOf allTimesOfDay (by decide)
  simpa using foldl_dimStep_inv timeOfDayOf sessions [] _ h0

theorem locationCounter_inv (sessions : List FocusSession) :
    DimInv locationOf sessions (sessions.foldl statsStep StatsAcc.init).locationCounter := by
  rw [foldl_statsStep_locationCounter sessions StatsAcc.init]
  have h0 : DimInv locationOf [] StatsAcc.init.locationCounter :=
    DimInv.init locationOf [] List.nodup_nil
  simpa using foldl_dimStep_inv locationOf sessions [] _ h0

theorem locationTypeCounter_inv (sessions : List FocusSession) :
    DimInv locationTypeOf sessions
      (sessions.foldl statsStep StatsAcc.init).locationTypeCounter := by
  rw [foldl_statsStep_locationTypeCounter sessions StatsAcc.init]
  have h0 : DimInv locationTypeOf [] StatsAcc.init.locationTypeCounter :=
    DimInv.init locationTypeOf [] List.nodup_nil
  simpa using foldl_dimStep_inv locationTypeOf sessions [] _ h0

theorem sessionsIn_dayOf (sessions : List FocusSession) (d : Weekday) :
    sessionsIn (fun s => some s.StartTime.Weekday) sessions d = sessionsOnDay sessions d := by
  simp [sessionsIn, sessionsOnDay]

theorem dayCounter_inv (sessions : List FocusSession) :
    DimInv (fun s => some s.StartTime.Weekday) sessions
      (sessions.foldl statsStep StatsAcc.init).dayCounter := by
  obtain ⟨hk, he⟩ := dayCounter_spec sessions
  refine ⟨by rw [hk]; decide, ?_, ?_⟩
  · intro e hem
    rw [sessionsIn_dayOf]
    exact he e hem
  · intro c _
    rw [hk]; exact mem_allWeekdays c

/-! ### The productivity map of a dimension -/

theorem bestStep_byKey {κ : Type} [DecidableEq κ] (acc : BestAcc κ) (e : κ × MetricCounter) :
    (bestStep acc e).byKey
      = if e.2.Count > 0 then acc.byKey.set e.1 (counterAverage e.2) else acc.byKey := by
  unfold bestStep counterAverage
  by_cases hc : e.2.Count > 0 <;> simp [hc]

theorem foldl_bestStep_byKey {κ : Type} [DecidableEq κ] (V : GoMap κ MetricCounter) (k : κ) :
    V.keys.Nodup → ∀ acc : BestAcc κ,
      (V.foldl bestStep acc).byKey.get? k
        = match V.get? k with
          | some c => if c.Count > 0 then some (counterAverage c) else acc.byKey.get? k
          | none => acc.byKey.get? k := by
  induction V with
  | nil => intro _ acc; rfl
  | cons e rest ih =>
    intro hn acc
    simp only [GoMap.keys, List.map_cons, List.nodup_cons] at hn
    rw [List.foldl_cons, ih hn.2]
    by_cases hek : e.1 = k
    · have hrest : GoMap.get? rest k = none := by
        rw [GoMap.get?_eq_none_iff]
        rw [← hek]; exact hn.1
      simp only [hrest, GoMap.get?, hek, if_true, bestStep_byKey]
      split_ifs with hc
      · simp [GoMap.get?_set]
      · rfl
    · have hacc : (bestStep acc e).byKey.get? k = acc.byKey.get? k := by
        rw [bestStep_byKey]
        split_ifs with hc
        · rw [GoMap.get?_set, if_neg hek]
        · rfl
      simp only [GoMap.get?, hek, if_false, hacc]

theorem dimension_map_spec {κ : Type} [DecidableEq κ] (category : FocusSession → Option κ)
    (sessions : List FocusSession) (M V : GoMap κ MetricCounter) (hperm : V.Perm M)
    (hinv : DimInv category sessions M) (zero : κ) (c : κ) :
    (bestPass zero V).byKey.get? c
      = if sessionsIn category sessions c = [] then none
        else some (averageScore (sessionsIn category sessions c)) := by
  obtain ⟨hn, he, hk⟩ := hinv
  have hnV : V.keys.Nodup := (hperm.map Prod.fst).nodup_iff.mpr hn
  unfold bestPass
  rw [foldl_bestStep_byKey V c hnV]
  cases hg : V.get? c with
  | none =>
    have hc : c ∉ GoMap.keys M := by
      intro hmem
      have hcV : c ∈ GoMap.keys V := (hperm.map Prod.fst).mem_iff.mpr hmem
      exact ((GoMap.get?_eq_none_iff V c).mp hg) hcV
    have hempty : sessionsIn category sessions c = [] := by
      by_contra hne
      exact hc (hk c hne)
    simp [hempty, GoMap.get?]
  | some x =>
    have hxM : (c, x) ∈ M := hperm.mem_iff.mp (GoMap.mem_of_get? V c x hg)
    obtain ⟨hcount, hsum⟩ := he _ hxM
    by_cases hempty : sessionsIn category sessions c = []
    · have : ¬ x.Count > 0 := by
        simp only [] at hcount
        rw [hcount, hempty]; simp
      simp [this, hempty, GoMap.get?]
    · have hpos : x.Count > 0 := by
        simp only [] at hcount
        rw [hcount]
        exact_mod_cast List.length_pos.mpr hempty
      simp only [hpos, if_true, hempty, if_false]
      congr 1
      simp only [] at hcount hsum
      rw [counterAverage, averageScore, hcount, hsum]
      norm_cast

/-- C11: in each of the four dimensions of `GetProductivityStats` a category is a key of
the productivity map if and only if at least one counted session falls in it, and its
value then is the arithmetic mean of `CalculateProductivityScore` over the counted
sessions of the category; a weekday or a day part without counted session is no key.
A session falls in the location category of the name of its location details, and in the
location-type category of their type when that is not empty. -/
theorem C11_productivity_maps (o : RangeOrder) (hv : o.Valid) (sessions : List FocusSession) :
    (∀ d : Weekday, (aggregateStats o sessions).ProductivityByDay.get? d
      = if sessionsOnDay sessions d = [] then none
        else some (averageScore (sessionsOnDay sessions d))) ∧
    (∀ c : TimeOfDay, (aggregateStats o sessions).ProductivityByTime.get? c
      = if sessionsIn timeOfDayOf sessions c = [] then none
        else some (averageScore (sessionsIn timeOfDayOf sessions c))) ∧
    (∀ c : String, (aggregateStats o sessions).ProductivityByLocation.get? c
      = if sessionsIn locationOf sessions c = [] then none
        else some (averageScore (sessionsIn locationOf sessions c))) ∧
    (∀ c : String, (aggregateStats o sessions).ProductivityByLocationType.get? c
      = if sessionsIn locationTypeOf sessions c = [] then none
        else some (averageScore (sessionsIn locationTypeOf sessions c))) := by
  by_cases h0 : sessions.length = 0
  · have hnil : sessions = [] := List.length_eq_zero.mp h0
    subst hnil
    simp [aggregateStats, emptyStats, sessionsOnDay, sessionsIn, countedSessions, GoMap.get?]
  · obtain ⟨hd, ht, hl, hlt⟩ := hv
    simp only [aggregateStats, h0, if_false, finishStats]
    refine ⟨?_, ?_, ?_, ?_⟩
    · intro d
      rw [← sessionsIn_dayOf]
      exact dimension_map_spec _ sessions _ _ (hd _) (dayCounter_inv sessions) _ d
    · intro c
      exact dimension_map_spec _ sessions _ _ (ht _) (timeCounter_inv sessions) _ c
    · intro c
      exact dimension_map_spec _ sessions _ _ (hl _) (locationCounter_inv sessions) _ c
    · intro c
      exact dimension_map_spec _ sessions _ _ (hlt _) (locationTypeCounter_inv sessions) _ c

theorem C11_productivity_maps_witness :
    (aggregateStats RangeOrder.insertion
      [atLocation (mkSession (Date 2024 12 30 10 0 0 0) 50 StatusCompleted (some 50) (some 4)
          none none) "Library" "",
       mkSession (Date 2024 12 31 10 0 0 0) 50 StatusCompleted (some 50) (some 2) none
          none]).ProductivityByLocation.get? "Library"
      = if sessionsIn locationOf
          [atLocation (mkSession (Date 2024 12 30 10 0 0 0) 50 StatusCompleted (some 50)
              (some 4) none none) "Library" "",
           mkSession (Date 2024 12 31 10 0 0 0) 50 StatusCompleted (some 50) (some 2) none
              none] "Library" = [] then none
        else some (averageScore (sessionsIn locationOf
          [atLocation (mkSession (Date 2024 12 30 10 0 0 0) 50 StatusCompleted (some 50)
              (some 4) none none) "Library" "",
           mkSession (Date 2024 12 31 10 0 0 0) 50 StatusCompleted (some 50) (some 2) none
              none] "Library")) :=
  (C11_productivity_maps RangeOrder.insertion RangeOrder.insertion_valid _).2.2.1 "Library"

/-! ### First occurrences and the winner of a loop -/

theorem ensure_keys {κ : Type} [DecidableEq κ] (m : GoMap κ MetricCounter) (k : κ) :
    GoMap.keys (match m.get? k with | some _ => m | none => m.set k {})
      = if k ∈ m.keys then m.keys else m.keys ++ [k] := by
  cases hg : m.get? k with
  | none =>
    have hk : k ∉ m.keys := (GoMap.get?_eq_none_iff m k).mp hg
    simp only [hk, if_false]
    rw [GoMap.keys_set, if_neg hk]
  | some c =>
    have hk : k ∈ m.keys := by
      by_contra hk
      rw [(GoMap.get?_eq_none_iff m k).mpr hk] at hg
      exact Option.noConfusion hg
    simp only [hk, if_true]

theorem categoriesOf_cons {κ : Type} (category : FocusSession → Option κ) (s : FocusSession)
    (rest : List FocusSession) :
    categoriesOf category (s :: rest) = categoriesOf category [s] ++ categoriesOf category rest := by
  simp only [categoriesOf, countedSessions]
  rw [← List.filterMap_append, ← List.filter_append]
  rfl

theorem mem_firstSeenFrom {κ : Type} [DecidableEq κ] (l : List κ) :
    ∀ (seen : List κ) (y : κ), y ∈ firstSeenFrom seen l ↔ y ∈ seen ∨ y ∈ l := by
  induction l with
  | nil => intro seen y; simp [firstSeenFrom]
  | cons a rest ih =>
    intro seen y
    have : firstSeenFrom seen (a :: rest)
        = firstSeenFrom (if a ∈ seen then seen else seen ++ [a]) rest := rfl
    rw [this, ih]
    split_ifs with h
    · constructor
      · rintro (h1 | h1)
        · left; exact h1
        · right; exact List.mem_cons_of_mem _ h1
      · rintro (h1 | h1)
        · left; exact h1
        · rcases List.mem_cons.mp h1 with h2 | h2
          · left; rw [h2]; exact h
          · right; exact h2
    · simp only [List.mem_append, List.mem_singleton, List.mem_cons]
      tauto

theorem mem_categoriesOf {κ : Type} [DecidableEq κ] (category : FocusSession → Option κ)
    (sessions : List FocusSession) (c : κ) :
    c ∈ categoriesOf category sessions ↔ sessionsIn category sessions c ≠ [] := by
  simp only [categoriesOf, sessionsIn, List.mem_filterMap, ne_eq, List.filter_eq_nil_iff,
    decide_eq_true_eq, not_forall, Classical.not_not, exists_prop]

theorem winner_spec {κ : Type} [DecidableEq κ] (zero : κ) (V M : GoMap κ MetricCounter)
    (hperm : V.Perm M) (live : κ → Prop) (avg : κ → ℚ)
    (hM : ∀ e ∈ M, (e.2.Count > 0 ↔ live e.1) ∧ counterAverage e.2 = avg e.1)
    (hentry : ∀ k, live k → ∃ c, (k, c) ∈ M) :
    ((∀ k, live k → avg k ≤ 0) → (bestPass zero V).best = zero) ∧
    ((∃ k, live k ∧ 0 < avg k) →
      live (bestPass zero V).best ∧
      (∀ k, live k → avg k ≤ avg (bestPass zero V).best) ∧
      ∃ l1 x l2, V = l1 ++ ((bestPass zero V).best, x) :: l2 ∧
        ∀ y ∈ l1, live y.1 → avg y.1 < avg (bestPass zero V).best) := by
  obtain ⟨P1, -, P3⟩ := foldl_bestStep_spec V { byKey := [], maxScore := 0, best := zero }
  simp only [] at P1 P3
  unfold bestPass
  constructor
  · intro ha
    rcases P3 with ⟨-, hb⟩ | ⟨hpos, l1, e, l2, hl, hc, hav, hb, -⟩
    · exact hb
    · exfalso
      have heV : e ∈ V := by rw [hl]; simp
      obtain ⟨hlive, havg⟩ := hM e (hperm.mem_iff.mp heV)
      have := ha e.1 (hlive.mp hc)
      rw [← havg, hav] at this
      exact absurd hpos (not_lt.mpr this)
  · rintro ⟨d, hd, hdpos⟩
    obtain ⟨c, hcM⟩ := hentry d hd
    obtain ⟨hdl, hda⟩ := hM (d, c) hcM
    have hmax := P1 (d, c) (hperm.mem_iff.mpr hcM) (hdl.mpr hd)
    rw [hda] at hmax
    rcases P3 with ⟨hm, -⟩ | ⟨-, l1, e, l2, hl, hc, hav, hb, hfirst⟩
    · exfalso
      rw [hm] at hmax
      exact absurd hdpos (not_lt.mpr hmax)
    · have heV : e ∈ V := by rw [hl]; simp
      obtain ⟨hlive, havg⟩ := hM e (hperm.mem_iff.mp heV)
      rw [hb]
      refine ⟨hlive.mp hc, ?_, l1, e.2, l2, hl, ?_⟩
      · intro d' hd'
        obtain ⟨c', hcM'⟩ := hentry d' hd'
        obtain ⟨hdl', hda'⟩ := hM (d', c') hcM'
        have := P1 (d', c') (hperm.mem_iff.mpr hcM') (hdl'.mpr hd')
        rw [hda', ← hav, havg] at this
        exact this
      · intro x hx hxl
        have hxV : x ∈ V := by rw [hl]; exact List.mem_append_left _ hx
        obtain ⟨hxl', hxa⟩ := hM x (hperm.mem_iff.mp hxV)
        have := hfirst x hx (hxl'.mpr hxl)
        rw [hxa, ← hav, havg] at this
        exact this

theorem lastLocationFirst_valid : lastLocationFirst.Valid :=
  ⟨fun _ => List.Perm.refl _, fun _ => List.Perm.refl _, fun m => List.reverse_perm m,
    fun m => List.reverse_perm m⟩

theorem saturdayFirst_valid : saturdayFirst.Valid :=
  ⟨fun m => List.reverse_perm m, fun _ => List.Perm.refl _, fun _ => List.Perm.refl _,
    fun _ => List.Perm.refl _⟩

/-! ### Order of the trend entries -/

theorem trendPeriods_eq (keyOrder : List String → List String) (period : Period)
    (startDate endDate : Time) (sessions : List FocusSession) :
    trendPeriods keyOrder period startDate endDate sessions
      = match groupedPeriods period startDate endDate sessions with
        | none => none
        | some periodMap =>
          some ((sortPeriodKeys periodMap (keyOrder periodMap.keys)).filterMap
            (fun key => periodMap.get? key)) := by
  unfold trendPeriods groupedPeriods seededPeriods
  simp only []
  cases seedPeriods period (truncateFunc period endDate)
    (seedFuel (truncateFunc period startDate) (truncateFunc period endDate))
    (truncateFunc period startDate) [] <;> rfl

theorem foldl_appendPeriod (period : Period) (periods : List PeriodData) :
    ∀ trends : ProductivityTrends,
      periods.foldl (appendPeriod period) trends =
        { Period := trends.Period
          Dates := trends.Dates ++ (entriesOf period periods).Dates
          Durations := trends.Durations ++ (entriesOf period periods).Durations
          Ratings := trends.Ratings ++ (entriesOf period periods).Ratings
          Focus := trends.Focus ++ (entriesOf period periods).Focus
          Energy := trends.Energy ++ (entriesOf period periods).Energy
          Mood := trends.Mood ++ (entriesOf period periods).Mood
          Productivity := trends.Productivity ++ (entriesOf period periods).Productivity } := by
  induction periods with
  | nil => intro trends; simp [entriesOf]
  | cons p rest ih =>
    intro trends
    rw [List.foldl_cons, ih]
    simp [appendPeriod, entriesOf]

theorem buildTrends_eq (keyOrder : List String → List String) (period : Period)
    (startDate endDate : Time) (sessions : List FocusSession) :
    buildTrends keyOrder period startDate endDate sessions
      = (trendPeriods keyOrder period startDate endDate sessions).map (entriesOf period) := by
  unfold buildTrends
  cases trendPeriods keyOrder period startDate endDate sessions with
  | none => rfl
  | some periods =>
    simp only [Option.map_some']
    rw [foldl_appendPeriod]
    simp [entriesOf]

theorem GoMap.nodup_values_set {κ ν α : Type} [DecidableEq κ] (g : ν → α) (m : GoMap κ ν)
    (k : κ) (v : ν) (hv : ∀ e ∈ m, g e.2 ≠ g v) (hn : (m.map (fun e => g e.2)).Nodup) :
    ((m.set k v).map (fun e => g e.2)).Nodup := by
  induction m with
  | nil => simp [GoMap.set]
  | cons e rest ih =>
    simp only [List.map_cons, List.nodup_cons] at hn
    have hrest : ∀ x ∈ rest, g x.2 ≠ g v := fun x hx => hv x (List.mem_cons_of_mem _ hx)
    simp only [GoMap.set]
    split_ifs with h
    · simp only [List.map_cons, List.nodup_cons]
      refine ⟨?_, hn.2⟩
      intro hmem
      obtain ⟨x, hx, hgx⟩ := List.mem_map.mp hmem
      exact hrest x hx hgx
    · simp only [List.map_cons, List.nodup_cons]
      refine ⟨?_, ih hrest hn.2⟩
      intro hmem
      obtain ⟨x, hx, hgx⟩ := List.mem_map.mp hmem
      rcases GoMap.mem_set rest k v x hx with hx | hx
      · rw [hx] at hgx
        exact hv e (List.mem_cons_self _ _) hgx.symm
      · exact hn.1 (List.mem_map.mpr ⟨x, hx, hgx⟩)

theorem seedPeriods_startDates (period : Period) (hp : period.Known) (endTruncated : Time) :
    ∀ (fuel : Nat) (currentDate : Time) (m m' : GoMap String PeriodData),
      (∀ e ∈ m, e.2.StartDate.wall < currentDate.wall) →
      (m.map (fun e => e.2.StartDate.wall)).Nodup →
      seedPeriods period endTruncated fuel currentDate m = some m' →
      (m'.map (fun e => e.2.StartDate.wall)).Nodup := by
  intro fuel
  induction fuel with
  | zero =>
    intro cur m m' _ hn h
    simp only [seedPeriods] at h
    split_ifs at h
    rw [← Option.some.inj h]
    exact hn
  | succ n ih =>
    intro cur m m' hlt hn h
    simp only [seedPeriods] at h
    split_ifs at h
    · have hadv := nextPeriod_advances period hp cur
      have hpos : (0 : Int) < nsPerDay := by decide
      refine ih _ _ _ ?_ ?_ h
      · intro e he
        rcases GoMap.mem_set _ _ _ _ he with he | he
        · subst he
          simp only []
          linarith
        · have := hlt e he
          linarith
      · exact GoMap.nodup_values_set (fun d : PeriodData => d.StartDate.wall) m _ _
          (fun e he => ne_of_lt (hlt e he)) hn
    · rw [← Option.some.inj h]
      exact hn

theorem GoMap.map_update_of_preserve {κ ν α : Type} [DecidableEq κ] (g : ν → α)
    (m : GoMap κ ν) (k : κ) (f : ν → ν) (hf : ∀ v, g (f v) = g v) :
    (m.update k f).map (fun e => g e.2) = m.map (fun e => g e.2) := by
  induction m with
  | nil => rfl
  | cons e rest ih =>
    simp only [GoMap.update]
    split_ifs with h
    · simp [hf]
    · simp only [List.map_cons, ih]

theorem groupStep_startDates (period : Period) (m : GoMap String PeriodData)
    (s : FocusSession) :
    (groupStep period m s).map (fun e => e.2.StartDate.wall)
      = m.map (fun e => e.2.StartDate.wall) := by
  unfold groupStep
  cases s.ActualDuration with
  | none => rfl
  | some a =>
    simp only []
    split_ifs
    · rfl
    · cases m.get? (periodKeyOf period (truncateFunc period s.StartTime)) with
      | none => rfl
      | some d =>
        exact GoMap.map_update_of_preserve (fun d : PeriodData => d.StartDate.wall) m _ _
          (fun v => rfl)

theorem foldl_groupStep_startDates (period : Period) (sessions : List FocusSession) :
    ∀ m : GoMap String PeriodData,
      (sessions.foldl (groupStep period) m).map (fun e => e.2.StartDate.wall)
        = m.map (fun e => e.2.StartDate.wall) := by
  induction sessions with
  | nil => intro m; rfl
  | cons s rest ih =>
    intro m
    rw [List.foldl_cons, ih, groupStep_startDates]

theorem GoMap.filterMap_keys {κ ν : Type} [DecidableEq κ] (m : GoMap κ ν)
    (hn : m.keys.Nodup) : m.keys.filterMap (fun k => m.get? k) = m.map Prod.snd := by
  unfold GoMap.keys
  rw [List.filterMap_map]
  rw [← List.filterMap_eq_map]
  apply List.filterMap_congr
  intro e he
  simp only [Function.comp]
  exact GoMap.get?_of_mem m e.1 e.2 hn he

theorem startDateOf_of_get? (m : GoMap String PeriodData) (key : String) (data : PeriodData)
    (h : m.get? key = some data) : startDateOf m key = data.StartDate := by
  simp only [startDateOf, h]

theorem sortPeriodKeys_sorted (m : GoMap String PeriodData) (keys : List String) :
    (sortPeriodKeys m keys).Pairwise
      (fun a b => (startDateOf m a).wall ≤ (startDateOf m b).wall) := by
  haveI : IsTotal String (fun a b => (startDateOf m a).wall ≤ (startDateOf m b).wall) :=
    ⟨fun a b => le_total _ _⟩
  haveI : IsTrans String (fun a b => (startDateOf m a).wall ≤ (startDateOf m b).wall) :=
    ⟨fun a b c h1 h2 => le_trans h1 h2⟩
  exact List.sorted_insertionSort _ keys

theorem sorted_periods (keyOrder : List String → List String)
    (hk : ∀ l, (keyOrder l).Perm l) (m : GoMap String PeriodData) (hn : m.keys.Nodup)
    (hd : (m.map (fun e => e.2.StartDate.wall)).Nodup) :
    ((sortPeriodKeys m (keyOrder m.keys)).filterMap (fun key => m.get? key)).Perm
      (m.map Prod.snd) ∧
    ((sortPeriodKeys m (keyOrder m.keys)).filterMap (fun key => m.get? key)).Pairwise
      (fun a b => a.StartDate.wall < b.StartDate.wall) := by
  have hperm : ((sortPeriodKeys m (keyOrder m.keys)).filterMap (fun key => m.get? key)).Perm
      (m.map Prod.snd) := by
    rw [← GoMap.filterMap_keys m hn]
    exact (((List.perm_insertionSort _ _).trans (hk m.keys)).filterMap _)
  refine ⟨hperm, ?_⟩
  have hle : ((sortPeriodKeys m (keyOrder m.keys)).filterMap (fun key => m.get? key)).Pairwise
      (fun a b => a.StartDate.wall ≤ b.StartDate.wall) := by
    refine List.Pairwise.filterMap _ ?_ (sortPeriodKeys_sorted m _)
    intro a a' h b hb b' hb'
    rw [startDateOf_of_get? m a b hb, startDateOf_of_get? m a' b' hb'] at h
    exact h
  have hne : ((sortPeriodKeys m (keyOrder m.keys)).filterMap (fun key => m.get? key)).Pairwise
      (fun a b => a.StartDate.wall ≠ b.StartDate.wall) := by
    have h1 : ((m.map Prod.snd).map (fun d : PeriodData => d.StartDate.wall)).Nodup := by
      simpa [List.map_map, Function.comp_def] using hd
    have h2 := (hperm.map (fun d : PeriodData => d.StartDate.wall)).nodup_iff.mpr h1
    exact List.pairwise_map.mp h2
  exact (hle.and hne).imp (fun h => lt_of_le_of_ne h.1 h.2)

theorem groupedPeriods_spec (period : Period) (hp : period.Known) (startDate endDate : Time)
    (sessions : List FocusSession) :
    ∃ periodMap, groupedPeriods period startDate endDate sessions = some periodMap ∧
      periodMap.keys.Nodup ∧ (periodMap.map (fun e => e.2.StartDate.wall)).Nodup := by
  obtain ⟨seeded, hseed⟩ := seedPeriods_isSome period hp (truncateFunc period endDate)
    (seedFuel (truncateFunc period startDate) (truncateFunc period endDate))
    (truncateFunc period startDate) [] (seedFuel_enough _ _)
  have hinv0 := seedPeriods_inv period _ _ _ _ _ (PeriodInv.nil period) hseed
  have hinv := foldl_groupStep_inv period sessions [] seeded hinv0
  have hd0 := seedPeriods_startDates period hp _ _ _ [] seeded
    (fun e he => absurd he (List.not_mem_nil e)) List.nodup_nil hseed
  refine ⟨sessions.foldl (groupStep period) seeded, ?_, hinv.1, ?_⟩
  · simp only [groupedPeriods, seededPeriods, hseed]
  · rw [foldl_groupStep_startDates]; exact hd0

/-- C15: for each of the three periods, every range and every session list the trend pass
returns a result whose seven arrays hold, entry by entry, the values of the periods of the
period map taken in strictly ascending order of their start date: the periods of the
result are a rearrangement of all the periods of the map, each start date is smaller than
the next, and the result is the same in whatever order the `range` loop yields the
keys. -/
theorem C15_entries_ascending (keyOrder : List String → List String)
    (hk : ∀ l, (keyOrder l).Perm l) (period : Period) (hp : period.Known)
    (startDate endDate : Time) (sessions : List FocusSession) :
    ∃ periodMap periods,
      groupedPeriods period startDate endDate sessions = some periodMap ∧
      trendPeriods keyOrder period startDate endDate sessions = some periods ∧
      buildTrends keyOrder period startDate endDate sessions
        = some (entriesOf period periods) ∧
      periods.Perm (periodMap.map Prod.snd) ∧
      periods.Pairwise (fun a b => a.StartDate.wall < b.StartDate.wall) ∧
      buildTrends keyOrder period startDate endDate sessions
        = buildTrends id period startDate endDate sessions := by
  obtain ⟨periodMap, hg, hn, hd⟩ := groupedPeriods_spec period hp startDate endDate sessions
  obtain ⟨hperm, hsorted⟩ := sorted_periods keyOrder hk periodMap hn hd
  obtain ⟨hperm', hsorted'⟩ := sorted_periods id (fun l => List.Perm.refl l) periodMap hn hd
  have ht : trendPeriods keyOrder period startDate endDate sessions
      = some ((sortPeriodKeys periodMap (keyOrder periodMap.keys)).filterMap
          (fun key => periodMap.get? key)) := by
    rw [trendPeriods_eq, hg]
  have ht' : trendPeriods id period startDate endDate sessions
      = some ((sortPeriodKeys periodMap (id periodMap.keys)).filterMap
          (fun key => periodMap.get? key)) := by
    rw [trendPeriods_eq, hg]
  haveI : IsAntisymm PeriodData (fun a b => a.StartDate.wall < b.StartDate.wall) :=
    ⟨fun a b h1 h2 => absurd (lt_trans h1 h2) (lt_irrefl _)⟩
  have heq := List.eq_of_perm_of_sorted (hperm.trans hperm'.symm) hsorted hsorted'
  refine ⟨periodMap, _, hg, ht, ?_, hperm, hsorted, ?_⟩
  · rw [buildTrends_eq, ht]; rfl
  · rw [buildTrends_eq, buildTrends_eq, ht, ht', heq]

theorem C15_entries_ascending_witness :
    ∃ periodMap periods,
      groupedPeriods Weekly (Date 2021 1 1 10 0 0 0) (Date 2021 3 26 10 0 0 0)
        [mkSession (Date 2021 1 5 10 0 0 0) 50 StatusCompleted (some 30) (some 4) none none]
        = some periodMap ∧
      trendPeriods List.reverse Weekly (Date 2021 1 1 10 0 0 0) (Date 2021 3 26 10 0 0 0)
        [mkSession (Date 2021 1 5 10 0 0 0) 50 StatusCompleted (some 30) (some 4) none none]
        = some periods ∧
      buildTrends List.reverse Weekly (Date 2021 1 1 10 0 0 0) (Date 2021 3 26 10 0 0 0)
        [mkSession (Date 2021 1 5 10 0 0 0) 50 StatusCompleted (some 30) (some 4) none none]
        = some (entriesOf Weekly periods) ∧
      periods.Perm (periodMap.map Prod.snd) ∧
      periods.Pairwise (fun a b => a.StartDate.wall < b.StartDate.wall) ∧
      buildTrends List.reverse Weekly (Date 2021 1 1 10 0 0 0) (Date 2021 3 26 10 0 0 0)
        [mkSession (Date 2021 1 5 10 0 0 0) 50 StatusCompleted (some 30) (some 4) none none]
        = buildTrends id Weekly (Date 2021 1 1 10 0 0 0) (Date 2021 3 26 10 0 0 0)
        [mkSession (Date 2021 1 5 10 0 0 0) 50 StatusCompleted (some 30) (some 4) none none] :=
  C15_entries_ascending List.reverse (fun l => List.reverse_perm l) Weekly
    (Or.inr (Or.inl rfl)) _ _ _

/-! ### Sessions that do not reach a period -/

theorem groupStep_keys (period : Period) (m : GoMap String PeriodData) (s : FocusSession) :
    (groupStep period m s).keys = m.keys := by
  unfold groupStep
  cases s.ActualDuration with
  | none => rfl
  | some a =>
    simp only []
    split_ifs
    · rfl
    · cases m.get? (periodKeyOf period (truncateFunc period s.StartTime)) with
      | none => rfl
      | some d => exact GoMap.keys_update _ _ _

theorem foldl_groupStep_keys (period : Period) (sessions : List FocusSession) :
    ∀ m : GoMap String PeriodData, (sessions.foldl (groupStep period) m).keys = m.keys := by
  induction sessions with
  | nil => intro m; rfl
  | cons s rest ih =>
    intro m
    rw [List.foldl_cons, ih, groupStep_keys]

theorem groupStep_of_absent (period : Period) (m : GoMap String PeriodData) (s : FocusSession)
    (h : sessionKey period s ∉ m.keys) : groupStep period m s = m := by
  have hg : m.get? (periodKeyOf period (truncateFunc period s.StartTime)) = none :=
    (GoMap.get?_eq_none_iff m _).mpr h
  unfold groupStep
  cases s.ActualDuration with
  | none => rfl
  | some a =>
    simp only [hg]
    split_ifs <;> rfl

theorem qualifies_eq_false_iff (s : FocusSession) :
    qualifies s = false ↔ s.Status ≠ StatusCompleted ∨ s.ActualDuration = none := by
  unfold qualifies
  cases s.ActualDuration <;> simp

/-- C16: for each of the three periods, adding to the session list, at any place, a
session whose status is not completed, or whose actual duration is absent, or whose start
time is truncated to a period key that is not among the pre-built periods, leaves the
result of the trend pass unchanged, and the pass returns a result. -/
theorem C16_dropped_session_changes_nothing (keyOrder : List String → List String)
    (period : Period) (hp : period.Known) (startDate endDate : Time)
    (before after : List FocusSession) (s : FocusSession)
    (h : s.Status ≠ StatusCompleted ∨ s.ActualDuration = none ∨
      ∃ seeded, seededPeriods period startDate endDate = some seeded ∧
        sessionKey period s ∉ seeded.keys) :
    buildTrends keyOrder period startDate endDate (before ++ s :: after)
      = buildTrends keyOrder period startDate endDate (before ++ after) ∧
    ∃ trends, buildTrends keyOrder period startDate endDate (before ++ s :: after)
      = some trends := by
  have hgroup : groupedPeriods period startDate endDate (before ++ s :: after)
      = groupedPeriods period startDate endDate (before ++ after) := by
    unfold groupedPeriods
    cases hs : seededPeriods period startDate endDate with
    | none => rfl
    | some seeded =>
      simp only [List.foldl_append, List.foldl_cons]
      have hstep : groupStep period (before.foldl (groupStep period) seeded) s
          = before.foldl (groupStep period) seeded := by
        rcases h with h | h | ⟨seeded', hs', hk⟩
        · exact groupStep_skipped period _ s ((qualifies_eq_false_iff s).mpr (Or.inl h))
        · exact groupStep_skipped period _ s ((qualifies_eq_false_iff s).mpr (Or.inr h))
        · rw [hs] at hs'
          have : seeded' = seeded := (Option.some.inj hs').symm
          subst this
          apply groupStep_of_absent
          rw [foldl_groupStep_keys]
          exact hk
      rw [hstep]
  constructor
  · rw [buildTrends_eq, buildTrends_eq, trendPeriods_eq, trendPeriods_eq, hgroup]
  · obtain ⟨periodMap, hg, -, -⟩ :=
      groupedPeriods_spec period hp startDate endDate (before ++ s :: after)
    rw [buildTrends_eq, trendPeriods_eq, hg]
    exact ⟨_, rfl⟩

theorem C16_dropped_session_changes_nothing_witness :
    buildTrends id Daily (Date 2025 2 3 7 0 0 0) (Date 2025 2 5 6 0 0 0)
        ([mkSession (Date 2025 2 3 9 0 0 0) 50 StatusCompleted (some 50) (some 5) none none]
          ++ mkSession (Date 2025 2 4 9 0 0 0) 50 StatusCancelled (some 20) (some 5) none none
          :: [mkSession (Date 2025 2 5 5 0 0 0) 50 StatusCompleted (some 20) (some 5) none none])
      = buildTrends id Daily (Date 2025 2 3 7 0 0 0) (Date 2025 2 5 6 0 0 0)
        ([mkSession (Date 2025 2 3 9 0 0 0) 50 StatusCompleted (some 50) (some 5) none none]
          ++ [mkSession (Date 2025 2 5 5 0 0 0) 50 StatusCompleted (some 20) (some 5) none none]) :=
  (C16_dropped_session_changes_nothing id Daily (Or.inl rfl) _ _ _ _ _
    (Or.inl (by decide))).1

/-! ### Unrecognised periods -/

theorem GetProductivityTrends_isSome (keyOrder : List String → List String) (now : Time)
    (collection : List FocusSession) (userID : Nat) (period : Period) :
    ∃ trends, GetProductivityTrends keyOrder now collection userID period = some trends ∧
      trends.Period = resolvePeriod period := by
  obtain ⟨m, -, hm⟩ := trendPeriods_spec keyOrder (resolvePeriod period)
    (resolvePeriod_known period) (rangeStart period now) now
    (GetSessionsByDateRange collection userID (rangeStart period now) now)
  have hb : GetProductivityTrends keyOrder now collection userID period
      = some (entriesOf (resolvePeriod period)
          ((sortPeriodKeys m (keyOrder m.keys)).filterMap (fun key => m.get? key))) := by
    simp only [GetProductivityTrends, buildTrends_eq, hm, Option.map_some']
  exact ⟨_, hb, rfl⟩

theorem rangeStart_of_unknown (period : Period) (hd : period ≠ Daily) (hw : period ≠ Weekly)
    (hm : period ≠ Monthly) (now : Time) : rangeStart period now = rangeStart Weekly now := by
  have hwd : ¬ (Weekly = Daily) := by decide
  simp [rangeStart, hd, hw, hm, hwd]

theorem resolvePeriod_of_unknown (period : Period) (hd : period ≠ Daily)
    (hw : period ≠ Weekly) (hm : period ≠ Monthly) : resolvePeriod period = Weekly := by
  simp [resolvePeriod, hd, hw, hm]

/-- C21: a period other than daily, weekly and monthly (the empty string included) is
treated as weekly. The repository method returns a result, the same as for weekly on the
same sessions and the same current time, and its `Period` field is weekly; the use case
returns the same response as for weekly. -/
theorem C21_unknown_period_is_weekly (keyOrder : List String → List String) (now : Time)
    (collection : List FocusSession) (period : Period)
    (hd : period ≠ Daily) (hw : period ≠ Weekly) (hm : period ≠ Monthly) :
    (∀ userID : Nat,
      GetProductivityTrends keyOrder now collection userID period
        = GetProductivityTrends keyOrder now collection userID Weekly ∧
      ∃ trends, GetProductivityTrends keyOrder now collection userID period = some trends ∧
        trends.Period = Weekly) ∧
    (∀ (userID : String) (limit : Int),
      UseCase.GetProductivityTrends keyOrder now collection userID ⟨period, limit⟩
        = UseCase.GetProductivityTrends keyOrder now collection userID ⟨Weekly, limit⟩) ∧
    ("" ≠ Daily ∧ "" ≠ Weekly ∧ "" ≠ Monthly) := by
  have hrepo : ∀ userID : Nat, GetProductivityTrends keyOrder now collection userID period
      = GetProductivityTrends keyOrder now collection userID Weekly := by
    intro userID
    simp only [GetProductivityTrends, rangeStart_of_unknown period hd hw hm,
      resolvePeriod_of_unknown period hd hw hm]
    rfl
  refine ⟨fun userID => ⟨hrepo userID, ?_⟩, ?_, by decide⟩
  · obtain ⟨trends, h1, h2⟩ := GetProductivityTrends_isSome keyOrder now collection userID period
    exact ⟨trends, h1, h2.trans (resolvePeriod_of_unknown period hd hw hm)⟩
  · intro userID limit
    unfold UseCase.GetProductivityTrends
    cases ObjectIDFromHex userID with
    | none => rfl
    | some userObjID =>
      by_cases he : period = ""
      · subst he
        simp only [if_pos, hrepo]
        rfl
      · have hwe : ¬ (Weekly = "") := by decide
        simp only [he, hwe, if_false, hrepo]
        split_ifs <;> simp only [hrepo]

/-- C21 at the period `"yearly"`. -/
theorem C21_unknown_period_is_weekly_witness :
    (∀ userID : Nat,
      GetProductivityTrends id ⟨0⟩ [] userID "yearly"
        = GetProductivityTrends id ⟨0⟩ [] userID Weekly ∧
      ∃ trends, GetProductivityTrends id ⟨0⟩ [] userID "yearly" = some trends ∧
        trends.Period = Weekly) ∧
    (∀ (userID : String) (limit : Int),
      UseCase.GetProductivityTrends id ⟨0⟩ [] userID ⟨"yearly", limit⟩
        = UseCase.GetProductivityTrends id ⟨0⟩ [] userID ⟨Weekly, limit⟩) ∧
    ("" ≠ Daily ∧ "" ≠ Weekly ∧ "" ≠ Monthly) :=
  C21_unknown_period_is_weekly id ⟨0⟩ [] "yearly" (by decide) (by decide) (by decide)

/-! ### The score is monotone in each field -/

theorem clamp10_mono {x y : ℚ} (h : x ≤ y) : clamp10 x ≤ clamp10 y :=
  max_le_max le_rfl (min_le_min le_rfl h)

theorem specDurationAdjust_mono (planned a a' : Int) (hp : 0 < planned) (h : a ≤ a') :
    specDurationAdjust planned a ≤ specDurationAdjust planned a' := by
  have hp' : (0 : ℚ) < (planned : ℚ) := by exact_mod_cast hp
  have hq : (a : ℚ) / (planned : ℚ) ≤ (a' : ℚ) / (planned : ℚ) :=
    div_le_div_of_nonneg_right (by exact_mod_cast h) hp'.le
  have hn : ¬ planned ≤ 0 := by omega
  simp only [specDurationAdjust, hn, if_false]
  by_cases h1 : (a : ℚ) / (planned : ℚ) > 6 / 5
  · have h2 : (a' : ℚ) / (planned : ℚ) > 6 / 5 := lt_of_lt_of_le h1 hq
    rw [if_pos h1, if_pos h2]
  · rw [if_neg h1]
    split_ifs <;> norm_num

theorem specDistractionPenalty_nonneg (d : Option Int) : 0 ≤ specDistractionPenalty d := by
  cases d with
  | none => simp [specDistractionPenalty]
  | some d =>
    simp only [specDistractionPenalty]
    split_ifs with h
    · have : (0 : ℚ) ≤ (d : ℚ) / 10 := by
        have : (0 : ℚ) < (d : ℚ) := by exact_mod_cast h
        positivity
      exact le_min this (by norm_num)
    · exact le_rfl

theorem specDistractionPenalty_mono (d d' : Int) (h : d ≤ d') :
    specDistractionPenalty (some d) ≤ specDistractionPenalty (some d') := by
  by_cases hd : d > 0
  · have hd' : d' > 0 := by omega
    simp only [specDistractionPenalty, if_pos hd, if_pos hd']
    have : (d : ℚ) / 10 ≤ (d' : ℚ) / 10 :=
      div_le_div_of_nonneg_right (by exact_mod_cast h) (by norm_num)
    exact min_le_min this le_rfl
  · have h0 : specDistractionPenalty (some d) = 0 := by simp [specDistractionPenalty, hd]
    rw [h0]
    exact specDistractionPenalty_nonneg _

theorem specDistractionPenalty_of_ten_le (d : Int) (h : 10 ≤ d) :
    specDistractionPenalty (some d) = 1 := by
  have hd : d > 0 := by omega
  simp only [specDistractionPenalty, if_pos hd]
  have : (1 : ℚ) ≤ (d : ℚ) / 10 := by
    rw [le_div_iff₀ (by norm_num)]
    exact_mod_cast (by omega : (1 : Int) * 10 ≤ d)
  exact min_eq_right this

theorem specFocusBonus_mono (f f' : Int) (h : f ≤ f') :
    specFocusBonus (some f) ≤ specFocusBonus (some f') := by
  have : (f : ℚ) ≤ (f' : ℚ) := by exact_mod_cast h
  simp only [specFocusBonus]
  linarith

/-- C29: for a completed session with rating `r` and actual duration `a`, changing one
field only: a higher rating or a higher focus never lowers the score, a higher distraction
count never raises it, every count of 10 or more gives the same score, that of a penalty of
1, and with a positive planned duration a longer actual duration never lowers the score. -/
theorem C29_score_monotone (s : FocusSession) (a r : Int)
    (hs : s.Status = StatusCompleted) (ha : s.ActualDuration = some a)
    (hr : s.Rating = some r) :
    (∀ r', r ≤ r' →
      CalculateProductivityScore s ≤ CalculateProductivityScore { s with Rating := some r' }) ∧
    (∀ f f', s.Focus = some f → f ≤ f' →
      CalculateProductivityScore s ≤ CalculateProductivityScore { s with Focus := some f' }) ∧
    (∀ d d', s.Distractions = some d → d ≤ d' →
      CalculateProductivityScore { s with Distractions := some d' }
        ≤ CalculateProductivityScore s) ∧
    (∀ d, 10 ≤ d →
      CalculateProductivityScore { s with Distractions := some d }
        = clamp10 ((r : ℚ) + specDurationAdjust s.Duration a + specFocusBonus s.Focus - 1)) ∧
    (∀ a', 0 < s.Duration → a ≤ a' →
      CalculateProductivityScore s
        ≤ CalculateProductivityScore { s with ActualDuration := some a' }) := by
  have e0 := score_eq_spec s a r hs ha hr
  refine ⟨?_, ?_, ?_, ?_, ?_⟩
  · intro r' h
    rw [e0, score_eq_spec { s with Rating := some r' } a r' hs ha rfl]
    have : (r : ℚ) ≤ (r' : ℚ) := by exact_mod_cast h
    exact clamp10_mono (by simp only []; linarith)
  · intro f f' hf h
    rw [e0, score_eq_spec { s with Focus := some f' } a r hs ha hr]
    simp only [hf]
    have := specFocusBonus_mono f f' h
    exact clamp10_mono (by linarith)
  · intro d d' hd h
    rw [e0, score_eq_spec { s with Distractions := some d' } a r hs ha hr]
    simp only [hd]
    have := specDistractionPenalty_mono d d' h
    exact clamp10_mono (by linarith)
  · intro d h
    rw [score_eq_spec { s with Distractions := some d } a r hs ha hr]
    simp only [specScore, specDistractionPenalty_of_ten_le d h]
  · intro a' hp h
    rw [e0, score_eq_spec { s with ActualDuration := some a' } a' r hs rfl hr]
    have := specDurationAdjust_mono s.Duration a a' hp h
    exact clamp10_mono (by simp only []; linarith)

/-- C29 at the session of the example: rating 4, planned 60, actual 75, focus 8 and
2 distractions. -/
theorem C29_score_monotone_witness :
    let s := mkSession ⟨0⟩ 60 StatusCompleted (some 75) (some 4) (some 8) (some 2)
    (∀ r', (4 : Int) ≤ r' →
      CalculateProductivityScore s ≤ CalculateProductivityScore { s with Rating := some r' }) ∧
    (∀ f f', s.Focus = some f → f ≤ f' →
      CalculateProductivityScore s ≤ CalculateProductivityScore { s with Focus := some f' }) ∧
    (∀ d d', s.Distractions = some d → d ≤ d' →
      CalculateProductivityScore { s with Distractions := some d' }
        ≤ CalculateProductivityScore s) ∧
    (∀ d, 10 ≤ d →
      CalculateProductivityScore { s with Distractions := some d }
        = clamp10 (((4 : Int) : ℚ) + specDurationAdjust s.Duration 75 + specFocusBonus s.Focus
            - 1)) ∧
    (∀ a', 0 < s.Duration → (75 : Int) ≤ a' →
      CalculateProductivityScore s
        ≤ CalculateProductivityScore { s with ActualDuration := some a' }) :=
  C29_score_monotone (mkSession ⟨0⟩ 60 StatusCompleted (some 75) (some 4) (some 8) (some 2))
    75 4 rfl rfl rfl

/-! ### The winner of a dimension is a category of the highest average -/

theorem DimInv.counters {κ : Type} [DecidableEq κ] (category : FocusSession → Option κ)
    (sessions : List FocusSession) (M : GoMap κ MetricCounter)
    (hinv : DimInv category sessions M) :
    (∀ e ∈ M, (e.2.Count > 0 ↔ sessionsIn category sessions e.1 ≠ []) ∧
      counterAverage e.2 = averageScore (sessionsIn category sessions e.1)) ∧
    ∀ k, sessionsIn category sessions k ≠ [] → ∃ c, (k, c) ∈ M := by
  obtain ⟨-, he, hk⟩ := hinv
  constructor
  · intro e hem
    obtain ⟨hc, hs⟩ := he e hem
    refine ⟨?_, by rw [counterAverage, averageScore, hc, hs]; norm_cast⟩
    rw [hc]
    constructor
    · intro h hnil
      rw [hnil] at h
      simp at h
    · intro h
      exact_mod_cast List.length_pos.mpr h
  · intro k hk'
    obtain ⟨e, hem, h1⟩ := List.mem_map.mp (hk k hk')
    exact ⟨e.2, by rw [← h1]; exact hem⟩

theorem dimension_winner {κ : Type} [DecidableEq κ] (category : FocusSession → Option κ)
    (sessions : List FocusSession) (M V : GoMap κ MetricCounter) (hperm : V.Perm M)
    (hinv : DimInv category sessions M) (zero : κ) :
    ((∃ c v, (bestPass zero V).byKey.get? c = some v ∧ 0 < v) →
      ∃ w, (bestPass zero V).byKey.get? (bestPass zero V).best = some w ∧
        ∀ c v, (bestPass zero V).byKey.get? c = some v → v ≤ w) ∧
    ((∀ c v, (bestPass zero V).byKey.get? c = some v → v ≤ 0) →
      (bestPass zero V).best = zero) := by
  have hmap := dimension_map_spec category sessions M V hperm hinv zero
  obtain ⟨hM, hentry⟩ := DimInv.counters category sessions M hinv
  obtain ⟨W1, W2⟩ := winner_spec zero V M hperm
    (fun k => sessionsIn category sessions k ≠ [])
    (fun k => averageScore (sessionsIn category sessions k)) hM hentry
  constructor
  · rintro ⟨c, v, hc, hv⟩
    have hlive : sessionsIn category sessions c ≠ [] := by
      intro hnil
      rw [hmap c, if_pos hnil] at hc
      exact Option.noConfusion hc
    have hval : v = averageScore (sessionsIn category sessions c) := by
      rw [hmap c, if_neg hlive] at hc
      exact (Option.some.inj hc).symm
    obtain ⟨w1, w2, -⟩ := W2 ⟨c, hlive, hval ▸ hv⟩
    refine ⟨averageScore (sessionsIn category sessions (bestPass zero V).best), ?_, ?_⟩
    · rw [hmap, if_neg w1]
    · intro c' v' hc'
      have hlive' : sessionsIn category sessions c' ≠ [] := by
        intro hnil
        rw [hmap c', if_pos hnil] at hc'
        exact Option.noConfusion hc'
      rw [hmap c', if_neg hlive'] at hc'
      rw [← Option.some.inj hc']
      exact w2 c' hlive'
  · intro h
    refine W1 ?_
    intro k hk
    exact h k _ (by rw [hmap k, if_neg hk])

/-- C27: in each of the four dimensions (weekday, day part, location, location type),
whenever a category of the productivity map has a positive average score, the
most-productive field is a key of that map and its average is at least the average of
every key of the map, whatever the order in which the counters are visited. -/
theorem C27_winner_has_highest_average (o : RangeOrder) (hv : o.Valid)
    (sessions : List FocusSession) :
    ((∃ c v, (aggregateStats o sessions).ProductivityByDay.get? c = some v ∧ 0 < v) →
      ∃ w, (aggregateStats o sessions).ProductivityByDay.get?
          (aggregateStats o sessions).MostProductiveDay = some w ∧
        ∀ c v, (aggregateStats o sessions).ProductivityByDay.get? c = some v → v ≤ w) ∧
    ((∃ c v, (aggregateStats o sessions).ProductivityByTime.get? c = some v ∧ 0 < v) →
      ∃ w, (aggregateStats o sessions).ProductivityByTime.get?
          (aggregateStats o sessions).MostProductiveTime = some w ∧
        ∀ c v, (aggregateStats o sessions).ProductivityByTime.get? c = some v → v ≤ w) ∧
    ((∃ c v, (aggregateStats o sessions).ProductivityByLocation.get? c = some v ∧ 0 < v) →
      ∃ w, (aggregateStats o sessions).ProductivityByLocation.get?
          (aggregateStats o sessions).MostProductiveLocation = some w ∧
        ∀ c v, (aggregateStats o sessions).ProductivityByLocation.get? c = some v → v ≤ w) ∧
    ((∃ c v, (aggregateStats o sessions).ProductivityByLocationType.get? c = some v ∧ 0 < v) →
      ∃ w, (aggregateStats o sessions).ProductivityByLocationType.get?
          (aggregateStats o sessions).MostProductiveLocationType = some w ∧
        ∀ c v, (aggregateStats o sessions).ProductivityByLocationType.get? c = some v →
          v ≤ w) := by
  by_cases h0 : sessions.length = 0
  · have hnil : sessions = [] := List.length_eq_zero.mp h0
    subst hnil
    simp [aggregateStats, emptyStats, GoMap.get?]
  · obtain ⟨hd, ht, hl, hlt⟩ := hv
    simp only [aggregateStats, h0, if_false, finishStats]
    exact ⟨(dimension_winner _ sessions _ _ (hd _) (dayCounter_inv sessions) _).1,
      (dimension_winner _ sessions _ _ (ht _) (timeCounter_inv sessions) _).1,
      (dimension_winner _ sessions _ _ (hl _) (locationCounter_inv sessions) _).1,
      (dimension_winner _ sessions _ _ (hlt _) (locationTypeCounter_inv sessions) _).1⟩

/-- C27 at two sessions at two locations, the counters visited from the last inserted
back to the first. -/
theorem C27_winner_has_highest_average_witness :
    let sessions :=
      [atLocation (mkSession ⟨0⟩ 60 StatusCompleted (some 75) (some 4) none none) "Cafe" "",
       atLocation (mkSession ⟨0⟩ 60 StatusCompleted (some 75) (some 3) none none) "Library" ""]
    lastLocationFirst.Valid ∧
    (∃ c v, (aggregateStats lastLocationFirst sessions).ProductivityByLocation.get? c = some v
      ∧ 0 < v) ∧
    ∃ w, (aggregateStats lastLocationFirst sessions).ProductivityByLocation.get?
        (aggregateStats lastLocationFirst sessions).MostProductiveLocation = some w ∧
      ∀ c v, (aggregateStats lastLocationFirst sessions).ProductivityByLocation.get? c
        = some v → v ≤ w := by
  intro sessions
  have hex : ∃ c v,
      (aggregateStats lastLocationFirst sessions).ProductivityByLocation.get? c = some v
        ∧ 0 < v := ⟨"Cafe", 5, by decide!, by norm_num⟩
  exact ⟨lastLocationFirst_valid, hex,
    (C27_winner_has_highest_average lastLocationFirst lastLocationFirst_valid sessions).2.2.1
      hex⟩

/-! ### The order of the sessions -/

theorem countedSessions_perm {l l' : List FocusSession} (h : l.Perm l') :
    (countedSessions l).Perm (countedSessions l') := h.filter _

theorem sessionsIn_perm {κ : Type} [DecidableEq κ] (category : FocusSession → Option κ)
    {l l' : List FocusSession} (h : l.Perm l') (c : κ) :
    (sessionsIn category l c).Perm (sessionsIn category l' c) :=
  (countedSessions_perm h).filter _

theorem averageScore_perm {l l' : List FocusSession} (h : l.Perm l') :
    averageScore l = averageScore l' := by
  unfold averageScore
  rw [(h.map CalculateProductivityScore).sum_eq, h.length_eq]

theorem meanSupplied_perm (f : FocusSession → Option Int) {l l' : List FocusSession}
    (h : l.Perm l') : meanSupplied f l = meanSupplied f l' := by
  have hp : (suppliedValues f l).Perm (suppliedValues f l') := h.filterMap f
  unfold meanSupplied
  rw [hp.sum_eq, hp.length_eq]

theorem dimension_map_perm {κ : Type} [DecidableEq κ] (category : FocusSession → Option κ)
    (sessions sessions' : List FocusSession) (hp : sessions.Perm sessions')
    (M V M' V' : GoMap κ MetricCounter) (hperm : V.Perm M) (hperm' : V'.Perm M')
    (hinv : DimInv category sessions M) (hinv' : DimInv category sessions' M') (zero : κ)
    (c : κ) : (bestPass zero V).byKey.get? c = (bestPass zero V').byKey.get? c := by
  rw [dimension_map_spec category sessions M V hperm hinv zero c,
    dimension_map_spec category sessions' M' V' hperm' hinv' zero c]
  have hs := sessionsIn_perm category hp c
  by_cases h : sessionsIn category sessions c = []
  · have h' : sessionsIn category sessions' c = [] := by
      rw [h] at hs
      exact List.perm_nil.mp hs.symm
    rw [if_pos h, if_pos h']
  · have h' : sessionsIn category sessions' c ≠ [] := by
      intro e
      rw [e] at hs
      exact h (List.perm_nil.mp hs)
    rw [if_neg h, if_neg h', averageScore_perm hs]

theorem dimension_winner_perm {κ : Type} [DecidableEq κ]
    (category : FocusSession → Option κ)
    (sessions sessions' : List FocusSession) (hp : sessions.Perm sessions')
    (M V M' V' : GoMap κ MetricCounter) (hperm : V.Perm M) (hperm' : V'.Perm M')
    (hinv : DimInv category sessions M) (hinv' : DimInv category sessions' M') (zero : κ)
    (hne : (bestPass zero V).best ≠ (bestPass zero V').best) :
    ∃ v, 0 < v ∧ (bestPass zero V).byKey.get? (bestPass zero V).best = some v ∧
      (bestPass zero V).byKey.get? (bestPass zero V').best = some v ∧
      ∀ c u, (bestPass zero V).byKey.get? c = some u → u ≤ v := by
  have hmap := dimension_map_perm category sessions sessions' hp M V M' V' hperm hperm'
    hinv hinv' zero
  obtain ⟨A1, A2⟩ := dimension_winner category sessions M V hperm hinv zero
  obtain ⟨B1, B2⟩ := dimension_winner category sessions' M' V' hperm' hinv' zero
  by_cases hex : ∃ c v, (bestPass zero V).byKey.get? c = some v ∧ 0 < v
  · obtain ⟨c, v, hc, hv⟩ := hex
    obtain ⟨w, hw, hmax⟩ := A1 ⟨c, v, hc, hv⟩
    obtain ⟨w', hw', hmax'⟩ := B1 ⟨c, v, (hmap c) ▸ hc, hv⟩
    have e1 : w' ≤ w := hmax _ _ ((hmap _).symm ▸ hw')
    have e2 : w ≤ w' := hmax' _ _ ((hmap _) ▸ hw)
    have e : w' = w := le_antisymm e1 e2
    refine ⟨w, lt_of_lt_of_le hv (hmax c v hc), hw, ?_, hmax⟩
    rw [hmap, hw', e]
  · have hall : ∀ c v, (bestPass zero V).byKey.get? c = some v → v ≤ 0 := by
      intro c v hc
      by_contra hv
      exact hex ⟨c, v, hc, not_le.mp hv⟩
    have hall' : ∀ c v, (bestPass zero V').byKey.get? c = some v → v ≤ 0 := by
      intro c v hc
      exact hall c v ((hmap c).symm ▸ hc)
    exact absurd ((A2 hall).trans (B2 hall').symm) hne

theorem foldl_statsStep_average (tot cnt : StatsAcc → Int) (f : FocusSession → Option Int)
    (ht : ∀ acc s a, s.ActualDuration = some a →
      tot (statsStep acc s) = addOpt (tot acc) (f s))
    (hc : ∀ acc s a, s.ActualDuration = some a →
      cnt (statsStep acc s) = countOpt (cnt acc) (f s))
    (ht0 : ∀ acc : StatsAcc, tot { acc with cancelledCount := acc.cancelledCount + 1 } = tot acc)
    (hc0 : ∀ acc : StatsAcc, cnt { acc with cancelledCount := acc.cancelledCount + 1 } = cnt acc)
    (hti : tot StatsAcc.init = 0) (hci : cnt StatsAcc.init = 0)
    (sessions : List FocusSession) :
    averageOf (tot (sessions.foldl statsStep StatsAcc.init))
        (cnt (sessions.foldl statsStep StatsAcc.init))
      = meanSupplied f (countedSessions sessions) := by
  have hskip : ∀ (g : StatsAcc → Int),
      (∀ acc : StatsAcc, g { acc with cancelledCount := acc.cancelledCount + 1 } = g acc) →
      ∀ acc s, s.ActualDuration = none → g (statsStep acc s) = g acc := by
    intro g hg acc s h
    rcases statsStep_skipped acc s h with e | e <;> rw [e]
    exact hg acc
  refine averageOf_eq_meanSupplied _ _ _ _ ?_ ?_
  · rw [foldl_statsStep_total tot f ht (hskip tot ht0), hti, zero_add]
  · rw [foldl_statsStep_count cnt f hc (hskip cnt hc0), hci, zero_add]

theorem aggregateStats_averages (o : RangeOrder) (sessions : List FocusSession) :
    (aggregateStats o sessions).AverageRating
      = meanSupplied (fun s => s.Rating) (countedSessions sessions) ∧
    (aggregateStats o sessions).AverageFocus
      = meanSupplied (fun s => s.Focus) (countedSessions sessions) ∧
    (aggregateStats o sessions).AverageEnergy
      = meanSupplied (fun s => s.Energy) (countedSessions sessions) ∧
    (aggregateStats o sessions).AverageMood
      = meanSupplied (fun s => s.Mood) (countedSessions sessions) ∧
    (aggregateStats o sessions).AverageDistractions
      = meanSupplied (fun s => s.Distractions) (countedSessions sessions) := by
  by_cases h0 : sessions.length = 0
  · have hnil : sessions = [] := List.length_eq_zero.mp h0
    subst hnil
    simp [aggregateStats, emptyStats, countedSessions, meanSupplied, suppliedValues]
  · simp only [aggregateStats, h0, if_false, finishStats]
    exact ⟨foldl_statsStep_average (fun a => a.totalRating) (fun a => a.ratingCount)
        (fun s => s.Rating) (fun acc s a h => by simp [statsStep, h])
        (fun acc s a h => by simp [statsStep, h]) (fun _ => rfl) (fun _ => rfl) rfl rfl sessions,
      foldl_statsStep_average (fun a => a.totalFocus) (fun a => a.focusCount)
        (fun s => s.Focus) (fun acc s a h => by simp [statsStep, h])
        (fun acc s a h => by simp [statsStep, h]) (fun _ => rfl) (fun _ => rfl) rfl rfl sessions,
      foldl_statsStep_average (fun a => a.totalEnergy) (fun a => a.energyCount)
        (fun s => s.Energy) (fun acc s a h => by simp [statsStep, h])
        (fun acc s a h => by simp [statsStep, h]) (fun _ => rfl) (fun _ => rfl) rfl rfl sessions,
      foldl_statsStep_average (fun a => a.totalMood) (fun a => a.moodCount)
        (fun s => s.Mood) (fun acc s a h => by simp [statsStep, h])
        (fun acc s a h => by simp [statsStep, h]) (fun _ => rfl) (fun _ => rfl) rfl rfl sessions,
      foldl_statsStep_average (fun a => a.totalDistract) (fun a => a.distractCount)
        (fun s => s.Distractions) (fun acc s a h => by simp [statsStep, h])
        (fun acc s a h => by simp [statsStep, h]) (fun _ => rfl) (fun _ => rfl) rfl rfl
        sessions⟩

theorem aggregateStats_counts (o : RangeOrder) (sessions : List FocusSession) :
    (aggregateStats o sessions).TotalSessions = sessions.length ∧
    (aggregateStats o sessions).CancelledSessions = (cancelledSessions sessions).length ∧
    (aggregateStats o sessions).CompletedSessions = (countedSessions sessions).length ∧
    (aggregateStats o sessions).TotalDuration
      = ((countedSessions sessions).map (fun s => s.ActualDuration.getD 0)).sum := by
  by_cases h0 : sessions.length = 0
  · have hnil : sessions = [] := List.length_eq_zero.mp h0
    subst hnil
    simp [aggregateStats, emptyStats, cancelledSessions, countedSessions]
  · have hL : aggregateStats o sessions
        = finishStats o sessions.length (sessions.foldl statsStep StatsAcc.init) := by
      simp [aggregateStats, h0]
    rw [hL]
    refine ⟨rfl, ?_, ?_, ?_⟩
    · simp [finishStats, foldl_statsStep_cancelledCount, StatsAcc.init]
    · simp [finishStats, foldl_statsStep_completedCount, StatsAcc.init]
    · simp [finishStats, foldl_statsStep_totalDuration, StatsAcc.init]

/-- C28: the statistics of a session list and of any permutation of it, whatever the
order in which each run visits its counters, have the same total, completed and cancelled
counts and total duration, the same five metric averages and, key by key, the same four
productivity maps; their most-productive fields differ under ties only. -/
theorem C28_order_of_sessions (o o' : RangeOrder) (hv : o.Valid) (hv' : o'.Valid)
    (sessions sessions' : List FocusSession) (hp : sessions.Perm sessions') :
    (aggregateStats o sessions).SameFigures (aggregateStats o' sessions') ∧
    (aggregateStats o sessions).WinnersDifferUnderTiesOnly (aggregateStats o' sessions') := by
  have hcp := countedSessions_perm hp
  obtain ⟨a1, a2, a3, a4⟩ := aggregateStats_counts o sessions
  obtain ⟨b1, b2, b3, b4⟩ := aggregateStats_counts o' sessions'
  obtain ⟨a5, a6, a7, a8, a9⟩ := aggregateStats_averages o sessions
  obtain ⟨b5, b6, b7, b8, b9⟩ := aggregateStats_averages o' sessions'
  have hcounts :
      (aggregateStats o sessions).TotalSessions = (aggregateStats o' sessions').TotalSessions ∧
      (aggregateStats o sessions).CompletedSessions
        = (aggregateStats o' sessions').CompletedSessions ∧
      (aggregateStats o sessions).CancelledSessions
        = (aggregateStats o' sessions').CancelledSessions ∧
      (aggregateStats o sessions).TotalDuration
        = (aggregateStats o' sessions').TotalDuration := by
    refine ⟨?_, ?_, ?_, ?_⟩
    · rw [a1, b1, hp.length_eq]
    · rw [a3, b3, hcp.length_eq]
    · rw [a2, b2]
      have : (cancelledSessions sessions).Perm (cancelledSessions sessions') := hp.filter _
      rw [this.length_eq]
    · rw [a4, b4, (hcp.map _).sum_eq]
  have havg :
      (aggregateStats o sessions).AverageRating = (aggregateStats o' sessions').AverageRating ∧
      (aggregateStats o sessions).AverageFocus = (aggregateStats o' sessions').AverageFocus ∧
      (aggregateStats o sessions).AverageEnergy = (aggregateStats o' sessions').AverageEnergy ∧
      (aggregateStats o sessions).AverageMood = (aggregateStats o' sessions').AverageMood ∧
      (aggregateStats o sessions).AverageDistractions
        = (aggregateStats o' sessions').AverageDistractions :=
    ⟨by rw [a5, b5, meanSupplied_perm _ hcp], by rw [a6, b6, meanSupplied_perm _ hcp],
      by rw [a7, b7, meanSupplied_perm _ hcp], by rw [a8, b8, meanSupplied_perm _ hcp],
      by rw [a9, b9, meanSupplied_perm _ hcp]⟩
  by_cases h0 : sessions.length = 0
  · have hnil : sessions = [] := List.length_eq_zero.mp h0
    subst hnil
    have hnil' : sessions' = [] := List.perm_nil.mp hp.symm
    subst hnil'
    simp [ProductivityStats.SameFigures, ProductivityStats.WinnersDifferUnderTiesOnly,
      TiedIfDifferent, aggregateStats, emptyStats]
  · have h0' : ¬ sessions'.length = 0 := by rw [← hp.length_eq]; exact h0
    obtain ⟨c1, c2, c3, c4⟩ := hcounts
    obtain ⟨d1, d2, d3, d4, d5⟩ := havg
    obtain ⟨hd, ht, hl, hlt⟩ := hv
    obtain ⟨hd', ht', hl', hlt'⟩ := hv'
    refine ⟨⟨c1, c2, c3, c4, d1, d2, d3, d4, d5, ?_⟩, ?_⟩
    · simp only [aggregateStats, h0, h0', if_false, finishStats]
      exact ⟨dimension_map_perm _ sessions sessions' hp _ _ _ _ (hd _) (hd' _)
          (dayCounter_inv sessions) (dayCounter_inv sessions') _,
        dimension_map_perm _ sessions sessions' hp _ _ _ _ (ht _) (ht' _)
          (timeCounter_inv sessions) (timeCounter_inv sessions') _,
        dimension_map_perm _ sessions sessions' hp _ _ _ _ (hl _) (hl' _)
          (locationCounter_inv sessions) (locationCounter_inv sessions') _,
        dimension_map_perm _ sessions sessions' hp _ _ _ _ (hlt _) (hlt' _)
          (locationTypeCounter_inv sessions) (locationTypeCounter_inv sessions') _⟩
    · simp only [ProductivityStats.WinnersDifferUnderTiesOnly, TiedIfDifferent, aggregateStats,
        h0, h0', if_false, finishStats]
      exact ⟨dimension_winner_perm _ sessions sessions' hp _ _ _ _ (hd _) (hd' _)
          (dayCounter_inv sessions) (dayCounter_inv sessions') _,
        dimension_winner_perm _ sessions sessions' hp _ _ _ _ (ht _) (ht' _)
          (timeCounter_inv sessions) (timeCounter_inv sessions') _,
        dimension_winner_perm _ sessions sessions' hp _ _ _ _ (hl _) (hl' _)
          (locationCounter_inv sessions) (locationCounter_inv sessions') _,
        dimension_winner_perm _ sessions sessions' hp _ _ _ _ (hlt _) (hlt' _)
          (locationTypeCounter_inv sessions) (locationTypeCounter_inv sessions') _⟩

/-- C28 at two sessions of equal score at two locations, taken in both orders: the
figures agree, and the most productive location, which is the location of the first
session in either order, differs under the tie. -/
theorem C28_order_of_sessions_witness :
    let cafe :=
      atLocation (mkSession ⟨0⟩ 60 StatusCompleted (some 75) (some 4) none none) "Cafe" ""
    let library :=
      atLocation (mkSession ⟨0⟩ 60 StatusCompleted (some 75) (some 4) none none) "Library" ""
    RangeOrder.insertion.Valid ∧ [cafe, library].Perm [library, cafe] ∧
    (aggregateStats RangeOrder.insertion [cafe, library]).MostProductiveLocation = "Cafe" ∧
    (aggregateStats RangeOrder.insertion [library, cafe]).MostProductiveLocation = "Library" ∧
    (aggregateStats RangeOrder.insertion [cafe, library]).SameFigures
      (aggregateStats RangeOrder.insertion [library, cafe]) ∧
    (aggregateStats RangeOrder.insertion [cafe, library]).WinnersDifferUnderTiesOnly
      (aggregateStats RangeOrder.insertion [library, cafe]) := by
  intro cafe library
  have hp : [cafe, library].Perm [library, cafe] := List.Perm.swap _ _ _
  exact ⟨RangeOrder.insertion_valid, hp, by decide!, by decide!,
    C28_order_of_sessions RangeOrder.insertion RangeOrder.insertion RangeOrder.insertion_valid
      RangeOrder.insertion_valid [cafe, library] [library, cafe] hp⟩

/-! ### Location and location type -/

theorem aggregateStats_location_maps (o : RangeOrder) (hv : o.Valid)
    (sessions : List FocusSession) :
    (∀ c : String, (aggregateStats o sessions).ProductivityByLocation.get? c
      = if sessionsIn locationOf sessions c = [] then none
        else some (averageScore (sessionsIn locationOf sessions c))) ∧
    (∀ c : String, (aggregateStats o sessions).ProductivityByLocationType.get? c
      = if sessionsIn locationTypeOf sessions c = [] then none
        else some (averageScore (sessionsIn locationTypeOf sessions c))) := by
  by_cases h0 : sessions.length = 0
  · have hnil : sessions = [] := List.length_eq_zero.mp h0
    subst hnil
    simp [aggregateStats, emptyStats, sessionsIn, countedSessions, GoMap.get?]
  · obtain ⟨-, -, hl, hlt⟩ := hv
    simp only [aggregateStats, h0, if_false, finishStats]
    exact ⟨fun c => dimension_map_spec _ sessions _ _ (hl _) (locationCounter_inv sessions) _ c,
      fun c =>
        dimension_map_spec _ sessions _ _ (hlt _) (locationTypeCounter_inv sessions) _ c⟩

theorem mem_sessionsIn_locationOf (sessions : List FocusSession) (s : FocusSession)
    (c : String) :
    s ∈ sessionsIn locationOf sessions c ↔
      s ∈ countedSessions sessions ∧ ∃ loc, s.LocationDetails = some loc ∧ loc.Name = c := by
  simp only [sessionsIn, List.mem_filter, decide_eq_true_eq, locationOf]
  constructor
  · rintro ⟨h1, h2⟩
    refine ⟨h1, ?_⟩
    cases hl : s.LocationDetails with
    | none => rw [hl] at h2; exact Option.noConfusion h2
    | some loc => rw [hl] at h2; exact ⟨loc, rfl, Option.some.inj h2⟩
  · rintro ⟨h1, loc, hl, hn⟩
    exact ⟨h1, by rw [hl, ← hn]⟩

theorem mem_sessionsIn_locationTypeOf (sessions : List FocusSession) (s : FocusSession)
    (c : String) :
    s ∈ sessionsIn locationTypeOf sessions c ↔
      s ∈ countedSessions sessions ∧
        ∃ loc, s.LocationDetails = some loc ∧ loc.LocType = c ∧ c ≠ "" := by
  simp only [sessionsIn, List.mem_filter, decide_eq_true_eq, locationTypeOf]
  constructor
  · rintro ⟨h1, h2⟩
    refine ⟨h1, ?_⟩
    cases hl : s.LocationDetails with
    | none => rw [hl] at h2; exact Option.noConfusion h2
    | some loc =>
      rw [hl] at h2
      by_cases ht : loc.LocType = ""
      · simp [ht] at h2
      · simp only [ne_eq, ht, not_false_eq_true, if_true] at h2
        have := Option.some.inj h2
        exact ⟨loc, rfl, this, this ▸ ht⟩
  · rintro ⟨h1, loc, hl, hn, hne⟩
    refine ⟨h1, ?_⟩
    rw [hl]
    simp only [ne_eq, hn, hne, not_false_eq_true, if_true]

theorem sessionsIn_insert_of_no_category {κ : Type} [DecidableEq κ]
    (category : FocusSession → Option κ) (before after : List FocusSession)
    (s : FocusSession) (h : category s = none) (c : κ) :
    sessionsIn category (before ++ s :: after) c = sessionsIn category (before ++ after) c := by
  simp only [sessionsIn, countedSessions, List.filter_append, List.filter_cons]
  by_cases ha : s.ActualDuration.isSome = true
  · simp [ha, h]
  · simp [ha]

/-- C22: a counted session whose location details have an empty type is one of the
sessions behind the entry of its location name in `ProductivityByLocation`, and it
contributes to no entry of `ProductivityByLocationType`: it falls in no category there,
and the map is the same, key by key, as without the session. The key `""` never appears
in `ProductivityByLocationType`. The entry of a key is the average over the counted
sessions whose type (or name) is that very string. -/
theorem C22_empty_location_type_is_skipped (o : RangeOrder) (hv : o.Valid) :
    (∀ (before after : List FocusSession) (s : FocusSession) (loc : LocationDetails),
      s.ActualDuration.isSome → s.LocationDetails = some loc → loc.LocType = "" →
      s ∈ sessionsIn locationOf (before ++ s :: after) loc.Name ∧
      (aggregateStats o (before ++ s :: after)).ProductivityByLocation.get? loc.Name
        = some (averageScore (sessionsIn locationOf (before ++ s :: after) loc.Name)) ∧
      (∀ c, s ∉ sessionsIn locationTypeOf (before ++ s :: after) c) ∧
      ∀ c, (aggregateStats o (before ++ s :: after)).ProductivityByLocationType.get? c
        = (aggregateStats o (before ++ after)).ProductivityByLocationType.get? c) ∧
    (∀ sessions, (aggregateStats o sessions).ProductivityByLocationType.get? "" = none) ∧
    (∀ sessions c, (aggregateStats o sessions).ProductivityByLocationType.get? c
      = if sessionsIn locationTypeOf sessions c = [] then none
        else some (averageScore (sessionsIn locationTypeOf sessions c))) ∧
    (∀ sessions c, (aggregateStats o sessions).ProductivityByLocation.get? c
      = if sessionsIn locationOf sessions c = [] then none
        else some (averageScore (sessionsIn locationOf sessions c))) ∧
    (∀ sessions s c, s ∈ sessionsIn locationTypeOf sessions c ↔
      s ∈ countedSessions sessions ∧
        ∃ loc, s.LocationDetails = some loc ∧ loc.LocType = c ∧ c ≠ "") ∧
    (∀ sessions s c, s ∈ sessionsIn locationOf sessions c ↔
      s ∈ countedSessions sessions ∧ ∃ loc, s.LocationDetails = some loc ∧ loc.Name = c) := by
  refine ⟨?_, ?_, fun sessions => (aggregateStats_location_maps o hv sessions).2,
    fun sessions => (aggregateStats_location_maps o hv sessions).1,
    mem_sessionsIn_locationTypeOf, mem_sessionsIn_locationOf⟩
  · intro before after s loc ha hl ht
    have hcounted : s ∈ countedSessions (before ++ s :: after) := by
      simp [countedSessions, ha]
    have hin : s ∈ sessionsIn locationOf (before ++ s :: after) loc.Name :=
      (mem_sessionsIn_locationOf _ _ _).mpr ⟨hcounted, loc, hl, rfl⟩
    have hnone : locationTypeOf s = none := by simp [locationTypeOf, hl, ht]
    refine ⟨hin, ?_, ?_, ?_⟩
    · rw [(aggregateStats_location_maps o hv _).1, if_neg (List.ne_nil_of_mem hin)]
    · intro c hc
      obtain ⟨-, loc', hl', ht', hne⟩ := (mem_sessionsIn_locationTypeOf _ _ _).mp hc
      rw [hl] at hl'
      have : loc = loc' := Option.some.inj hl'
      subst this
      exact hne (ht'.symm.trans ht)
    · intro c
      rw [(aggregateStats_location_maps o hv _).2, (aggregateStats_location_maps o hv _).2,
        sessionsIn_insert_of_no_category locationTypeOf before after s hnone c]
  · intro sessions
    rw [(aggregateStats_location_maps o hv sessions).2, if_pos]
    rw [List.eq_nil_iff_forall_not_mem]
    intro s hs
    obtain ⟨-, -, -, -, hne⟩ := (mem_sessionsIn_locationTypeOf _ _ _).mp hs
    exact hne rfl

/-- C22 at the insertion visiting order, with a session at "Cafe" without a type between
sessions of the types "cafe" and "Cafe", which are two categories. -/
theorem C22_empty_location_type_is_skipped_witness :
    let s := mkSession ⟨0⟩ 60 StatusCompleted (some 75) (some 4) none none
    let sessions := [atLocation s "Desk" "cafe", atLocation s "Cafe" "", atLocation s "Bar" "Cafe"]
    RangeOrder.insertion.Valid ∧
    (aggregateStats RangeOrder.insertion sessions).ProductivityByLocationType
      = [("cafe", 5), ("Cafe", 5)] ∧
    (aggregateStats RangeOrder.insertion sessions).ProductivityByLocation
      = [("Desk", 5), ("Cafe", 5), ("Bar", 5)] ∧
    ∀ sessions,
      (aggregateStats RangeOrder.insertion sessions).ProductivityByLocationType.get? ""
        = none := by
  intro s sessions
  exact ⟨RangeOrder.insertion_valid, by decide!, by decide!,
    (C22_empty_location_type_is_skipped RangeOrder.insertion RangeOrder.insertion_valid).2.1⟩

/-! ### Session use cases -/

/-- C24: `CancelSession` on a stored session of the caller whose status is active fails
with "only active sessions can be cancelled" and writes nothing, and on a session whose
status is cancelled it succeeds: the test is `session.Status != entity.StatusCancelled`
under the comment "Only active session can be canceled". -/
theorem C24_cancel_refuses_active_session :
    ObjectIDFromHex hexOne = some 1 ∧ ObjectIDFromHex hexTwo = some 2 ∧
    UseCase.CancelSession clockZero [storedSession 1 2 StatusActive] hexOne hexTwo
      = (.error "only active sessions can be cancelled", [storedSession 1 2 StatusActive]) ∧
    UseCase.CancelSession clockZero [storedSession 1 2 StatusPlanned] hexOne hexTwo
      = (.error "only active sessions can be cancelled", [storedSession 1 2 StatusPlanned]) ∧
    UseCase.CancelSession clockZero [storedSession 1 2 StatusCancelled] hexOne hexTwo
      = (.ok (ToFocusSessionResponse (storedSession 1 2 StatusCancelled)),
          [storedSession 1 2 StatusCancelled]) :=
  ⟨by decide, by decide, rfl, rfl, rfl⟩

/-- C30: from the empty collection, two calls of `CreateSession` by one user for a
session that is under way leave that user with two sessions of status active, and
`UpdateSession` with the status active gives a user who has an active session a second
one; `StartSession` does so as well when the active session of the caller has its `active`
flag cleared, as every session stored by `CreateSession` has. -/
theorem C30_second_active_session :
    AtMostOneActive [] ∧
    AtMostOneActive
      (UseCase.CreateSession clockOneMinute (fun _ => 7) [] hexTwo sampleCreateRequest).2 ∧
    ((UseCase.CreateSession clockOneMinute (fun _ => 8)
        (UseCase.CreateSession clockOneMinute (fun _ => 7) [] hexTwo sampleCreateRequest).2
        hexTwo sampleCreateRequest).2.map (fun s => (s.ID, s.UserID, s.Status, s.Active))
      = [(7, 2, StatusActive, false), (8, 2, StatusActive, false)]) ∧
    ¬ AtMostOneActive
      (UseCase.CreateSession clockOneMinute (fun _ => 8)
        (UseCase.CreateSession clockOneMinute (fun _ => 7) [] hexTwo sampleCreateRequest).2
        hexTwo sampleCreateRequest).2 ∧
    AtMostOneActive [storedSession 1 2 StatusPlanned, storedSession 3 2 StatusActive] ∧
    ((UseCase.UpdateSession clockZero
        [storedSession 1 2 StatusPlanned, storedSession 3 2 StatusActive] hexOne hexTwo
        activateRequest).2.map (fun s => (s.ID, s.UserID, s.Status, s.Active))
      = [(1, 2, StatusActive, true), (3, 2, StatusActive, true)]) ∧
    ¬ AtMostOneActive
      (UseCase.UpdateSession clockZero
        [storedSession 1 2 StatusPlanned, storedSession 3 2 StatusActive] hexOne hexTwo
        activateRequest).2 ∧
    AtMostOneActive
      [storedSession 1 2 StatusPlanned, { storedSession 3 2 StatusActive with Active := false }] ∧
    ((UseCase.StartSession clockZero
        [storedSession 1 2 StatusPlanned, { storedSession 3 2 StatusActive with Active := false }]
        hexOne hexTwo).2.map (fun s => (s.ID, s.UserID, s.Status, s.Active))
      = [(1, 2, StatusActive, true), (3, 2, StatusActive, false)]) ∧
    ¬ AtMostOneActive
      (UseCase.StartSession clockZero
        [storedSession 1 2 StatusPlanned, { storedSession 3 2 StatusActive with Active := false }]
        hexOne hexTwo).2 := by
  have two : ∀ c : List FocusSession, (activeSessionsOf c 2).length = 2 → ¬ AtMostOneActive c := by
    intro c h hc
    have := hc 2
    omega
  have one : ∀ a b : FocusSession, a.Status ≠ StatusActive → AtMostOneActive [a, b] := by
    intro a b ha u
    simp only [activeSessionsOf, List.filter_cons, ha, decide_False, Bool.and_false,
      Bool.false_eq_true, if_false]
    split_ifs <;> simp
  have single : ∀ a : FocusSession, AtMostOneActive [a] := by
    intro a u
    simp only [activeSessionsOf, List.filter_cons, List.filter_nil]
    split_ifs <;> simp
  refine ⟨fun u => by simp [activeSessionsOf], single _, by decide, two _ (by decide),
    one _ _ (by decide), by decide, two _ (by decide), one _ _ (by decide), by decide,
    two _ (by decide)⟩

/-! ### Sessions of another user -/

/-- C25: for well-formed identifiers and a stored session whose `UserID` differs from the
caller, each of `GetSessionByID`, `UpdateSession`, `EndSession`, `CancelSession` and
`DeleteSession` returns `ErrNoSessionFoundAccessDenied`, no session data, and leaves the
collection as it was; `StartSession` leaves the collection as it was and returns no session
data either, with `ErrAlreadyHaveActiveSession` when the caller has an active session and
`ErrNoSessionFoundAccessDenied` otherwise. -/
theorem C25_session_of_another_user (clock : Nat → Time) (collection : List FocusSession)
    (id userID : String) (sessionID userObjID : Nat) (session : FocusSession)
    (hid : ObjectIDFromHex id = some sessionID) (huid : ObjectIDFromHex userID = some userObjID)
    (hget : Repository.GetByID collection sessionID = .ok session)
    (hne : session.UserID ≠ userObjID) :
    UseCase.GetSessionByID collection id userID = .error ErrNoSessionFoundAccessDenied ∧
    (∀ req, UseCase.UpdateSession clock collection id userID req
      = (.error ErrNoSessionFoundAccessDenied, collection)) ∧
    UseCase.StartSession clock collection id userID
      = (.error (if (Repository.GetActiveByUserID collection userObjID).isSome
          then ErrAlreadyHaveActiveSession else ErrNoSessionFoundAccessDenied), collection) ∧
    (∀ req, UseCase.EndSession clock collection id userID req
      = (.error ErrNoSessionFoundAccessDenied, collection)) ∧
    UseCase.CancelSession clock collection id userID
      = (.error ErrNoSessionFoundAccessDenied, collection) ∧
    UseCase.DeleteSession collection id userID
      = (.error ErrNoSessionFoundAccessDenied, collection) := by
  refine ⟨?_, ?_, ?_, ?_, ?_, ?_⟩
  · simp only [UseCase.GetSessionByID, hid, huid, hget, hne, ne_eq, not_false_eq_true, if_true]
  · intro req
    simp only [UseCase.UpdateSession, hid, huid, hget, hne, ne_eq, not_false_eq_true, if_true]
  · cases hact : Repository.GetActiveByUserID collection userObjID with
    | some a =>
      simp only [UseCase.StartSession, hid, huid, hact, Option.isSome_some, if_true]
    | none =>
      simp only [UseCase.StartSession, hid, huid, hact, hget, hne, ne_eq, not_false_eq_true,
        if_true, Option.isSome_none, Bool.false_eq_true, if_false]
  · intro req
    simp only [UseCase.EndSession, hid, huid, hget, hne, ne_eq, not_false_eq_true, if_true]
  · simp only [UseCase.CancelSession, hid, huid, hget, hne, ne_eq, not_false_eq_true, if_true]
  · simp only [UseCase.DeleteSession, hid, huid, hget, hne, ne_eq, not_false_eq_true, if_true]

/-- C25 at the session 1 of user 3, the caller being user 2, who has no active session. -/
theorem C25_session_of_another_user_witness :
    UseCase.GetSessionByID [storedSession 1 3 StatusActive] hexOne hexTwo
      = .error ErrNoSessionFoundAccessDenied ∧
    (∀ req, UseCase.UpdateSession clockZero [storedSession 1 3 StatusActive] hexOne hexTwo req
      = (.error ErrNoSessionFoundAccessDenied, [storedSession 1 3 StatusActive])) ∧
    UseCase.StartSession clockZero [storedSession 1 3 StatusActive] hexOne hexTwo
      = (.error (if (Repository.GetActiveByUserID [storedSession 1 3 StatusActive] 2).isSome
          then ErrAlreadyHaveActiveSession else ErrNoSessionFoundAccessDenied),
        [storedSession 1 3 StatusActive]) ∧
    (∀ req, UseCase.EndSession clockZero [storedSession 1 3 StatusActive] hexOne hexTwo req
      = (.error ErrNoSessionFoundAccessDenied, [storedSession 1 3 StatusActive])) ∧
    UseCase.CancelSession clockZero [storedSession 1 3 StatusActive] hexOne hexTwo
      = (.error ErrNoSessionFoundAccessDenied, [storedSession 1 3 StatusActive]) ∧
    UseCase.DeleteSession [storedSession 1 3 StatusActive] hexOne hexTwo
      = (.error ErrNoSessionFoundAccessDenied, [storedSession 1 3 StatusActive]) :=
  C25_session_of_another_user clockZero [storedSession 1 3 StatusActive] hexOne hexTwo 1 2
    (storedSession 1 3 StatusActive) (by decide) (by decide) rfl (by decide)

/-- C25 fails for `StartSession`: the caller, user 2, has the active session 3 and asks
to start the session 1 of user 3; the answer is `ErrAlreadyHaveActiveSession`, which is
another error than `ErrNoSessionFoundAccessDenied`. -/
theorem C25_start_reports_active_session_first :
    ObjectIDFromHex hexOne = some 1 ∧ ObjectIDFromHex hexTwo = some 2 ∧
    Repository.GetByID [storedSession 1 3 StatusPlanned, storedSession 3 2 StatusActive] 1
      = .ok (storedSession 1 3 StatusPlanned) ∧
    (storedSession 1 3 StatusPlanned).UserID ≠ 2 ∧
    UseCase.StartSession clockZero
        [storedSession 1 3 StatusPlanned, storedSession 3 2 StatusActive] hexOne hexTwo
      = (.error ErrAlreadyHaveActiveSession,
          [storedSession 1 3 StatusPlanned, storedSession 3 2 StatusActive]) ∧
    ErrAlreadyHaveActiveSession ≠ ErrNoSessionFoundAccessDenied :=
  ⟨by decide, by decide, rfl, by decide, rfl, by decide⟩

/-! ### Calendar: years that begin in March -/

theorem daysFromCivil_eq (y m d : Int) :
    daysFromCivil y m d = marchYearStart (marchYear y m) + marchYearDay m d - 719468 := by
  simp only [daysFromCivil, marchYearStart, marchYear, marchYearDay]
  omega

theorem marchYearStart_succ (y : Int) :
    marchYearStart y + 365 ≤ marchYearStart (y + 1) ∧
    marchYearStart (y + 1) ≤ marchYearStart y + 366 := by
  simp only [marchYearStart]
  omega

theorem marchYearStart_add (y : Int) (k : Nat) :
    marchYearStart y + 365 * k ≤ marchYearStart (y + k) := by
  induction k with
  | zero => simp
  | succ k ih =>
    have := (marchYearStart_succ (y + k)).1
    push_cast
    rw [← add_assoc]
    omega

theorem marchYearStart_mono {a b : Int} (h : a ≤ b) :
    marchYearStart a + 365 * (b - a) ≤ marchYearStart b := by
  obtain ⟨k, hk⟩ := Int.le.dest h
  have := marchYearStart_add a k
  rw [← hk]
  have e : a + (k : Int) - a = k := by ring
  rw [e]
  exact this

theorem marchYearDay_range (m d : Int) (hm1 : 1 ≤ m) (hm12 : m ≤ 12) (hd1 : 1 ≤ d)
    (hd31 : d ≤ 31) : 0 ≤ marchYearDay m d ∧ marchYearDay m d ≤ 367 := by
  simp only [marchYearDay]
  split_ifs <;> omega

theorem civil_day_range (n : Int) :
    1 ≤ (civilFromDays n).2.2 ∧ (civilFromDays n).2.2 ≤ 31 := by
  have hz0 : 0 ≤ (n + 719468) % 146097 := Int.emod_nonneg _ (by norm_num)
  have hz1 : (n + 719468) % 146097 < 146097 := Int.emod_lt_of_pos _ (by norm_num)
  obtain ⟨-, -, b0, b1, -⟩ := yearOfEra_spec _ hz0 hz1
  simp only [civilFromDays]
  generalize (yearOfEra ((n + 719468) % 146097)).2 = doy at *
  simp only [monthOfYear]
  omega

theorem yearOfEra_lt (doe : Int) (h0 : 0 ≤ doe) (h1 : doe < 146097)
    (h : (yearOfEra doe).1 < 399) :
    doe < ((yearOfEra doe).1 + 1) * 365 + ((yearOfEra doe).1 + 1) / 4
      - ((yearOfEra doe).1 + 1) / 100 := by
  revert h
  simp only [yearOfEra]
  generalize hc : min (doe / 36524) 3 = c
  have hc0 : 0 ≤ c ∧ c ≤ 3 ∧ c * 36524 ≤ doe ∧ doe - c * 36524 ≤ 36524 ∧
      (c < 3 → doe - c * 36524 ≤ 36523) := by omega
  generalize hr1 : doe - c * 36524 = r1 at *
  generalize hq : min (r1 / 1461) 24 = q
  have hq0 : 0 ≤ q ∧ q ≤ 24 ∧ q * 1461 ≤ r1 ∧ r1 - q * 1461 ≤ 1460 := by omega
  generalize hr2 : r1 - q * 1461 = r2 at *
  generalize hyr : min (r2 / 365) 3 = yr
  have hy0 : 0 ≤ yr ∧ yr ≤ 3 ∧ yr * 365 ≤ r2 ∧ r2 - yr * 365 ≤ 365 ∧
      (yr < 3 → r2 - yr * 365 ≤ 364) := by omega
  intro h
  have e4 : (c * 100 + q * 4 + yr + 1) / 4 = c * 25 + q + (if yr = 3 then 1 else 0) := by
    split_ifs <;> omega
  have e100 : (c * 100 + q * 4 + yr + 1) / 100
      = c + (if q = 24 ∧ yr = 3 then 1 else 0) := by
    split_ifs <;> omega
  rw [e4, e100]
  split_ifs <;> omega

theorem civil_marchYear_bounds (n : Int) :
    marchYearStart (marchYear (civilFromDays n).1 (civilFromDays n).2.1) ≤ n + 719468 ∧
    n + 719468
      < marchYearStart (marchYear (civilFromDays n).1 (civilFromDays n).2.1 + 1) := by
  have hz0 : 0 ≤ (n + 719468) % 146097 := Int.emod_nonneg _ (by norm_num)
  have hz1 : (n + 719468) % 146097 < 146097 := Int.emod_lt_of_pos _ (by norm_num)
  obtain ⟨a0, a1, b0, b1, hdoe⟩ := yearOfEra_spec _ hz0 hz1
  have hlt := yearOfEra_lt _ hz0 hz1
  simp only [civilFromDays, marchYear, marchYearStart]
  generalize (yearOfEra ((n + 719468) % 146097)).1 = yoe at *
  generalize (yearOfEra ((n + 719468) % 146097)).2 = doy at *
  generalize (monthOfYear doy).1 = m at *
  generalize hE : (n + 719468) / 146097 = E at *
  have hn : n + 719468 = E * 146097 + (n + 719468) % 146097 := by omega
  have hy1 : (if m ≤ 2 then yoe + E * 400 + (if m ≤ 2 then 1 else 0) - 1
      else yoe + E * 400 + (if m ≤ 2 then 1 else 0)) = yoe + E * 400 := by
    split_ifs <;> omega
  rw [hy1]
  have e1 : (yoe + E * 400) / 400 = E := by omega
  have e2 : (yoe + E * 400) % 400 = yoe := by omega
  rw [e1, e2]
  constructor
  · omega
  · by_cases h399 : yoe < 399
    · have := hlt h399
      have e3 : (yoe + E * 400 + 1) / 400 = E := by omega
      have e4 : (yoe + E * 400 + 1) % 400 = yoe + 1 := by omega
      rw [e3, e4]
      omega
    · have e3 : (yoe + E * 400 + 1) / 400 = E + 1 := by omega
      have e4 : (yoe + E * 400 + 1) % 400 = 0 := by omega
      rw [e3, e4]
      omega

theorem marchYear_unique (a b z : Int) (ha : marchYearStart a ≤ z)
    (ha' : z < marchYearStart (a + 1)) (hb : marchYearStart b ≤ z)
    (hb' : z < marchYearStart (b + 1)) : a = b := by
  by_contra hne
  rcases lt_or_gt_of_ne hne with h | h
  · have := marchYearStart_mono (show a + 1 ≤ b by omega)
    omega
  · have := marchYearStart_mono (show b + 1 ≤ a by omega)
    omega

theorem monthOfYear_marchYearDay (m d : Int) (hm1 : 1 ≤ m) (hm12 : m ≤ 12) (hd1 : 1 ≤ d)
    (hd : d ≤ daysIn 0 m) : monthOfYear (marchYearDay m d) = (m, d) := by
  have hcases : m = 1 ∨ m = 2 ∨ m = 3 ∨ m = 4 ∨ m = 5 ∨ m = 6 ∨ m = 7 ∨ m = 8 ∨ m = 9 ∨
      m = 10 ∨ m = 11 ∨ m = 12 := by omega
  rcases hcases with h | h | h | h | h | h | h | h | h | h | h | h <;> subst h <;>
    simp only [daysIn, isLeapYear] at hd <;> norm_num at hd <;>
    simp only [monthOfYear, marchYearDay] <;> norm_num <;>
    refine ⟨?_, ?_⟩ <;> (try split_ifs) <;> omega

theorem daysIn_le (y m : Int) : daysIn y m ≤ daysIn 0 m := by
  have h0 : isLeapYear 0 := by decide
  simp only [daysIn, h0, if_true]
  split_ifs <;> norm_num

theorem marchYearDay_lt (y m d : Int) (hm1 : 1 ≤ m) (hm12 : m ≤ 12) (hd1 : 1 ≤ d)
    (hd : d ≤ daysIn y m) :
    0 ≤ marchYearDay m d ∧
    marchYearStart (marchYear y m) + marchYearDay m d
      < marchYearStart (marchYear y m + 1) := by
  have hcases : m = 1 ∨ m = 2 ∨ m = 3 ∨ m = 4 ∨ m = 5 ∨ m = 6 ∨ m = 7 ∨ m = 8 ∨ m = 9 ∨
      m = 10 ∨ m = 11 ∨ m = 12 := by omega
  rcases hcases with h | h | h | h | h | h | h | h | h | h | h | h <;> subst h <;>
    simp only [daysIn, isLeapYear] at hd <;> norm_num at hd <;>
    simp only [marchYear, marchYearDay, marchYearStart] <;> norm_num <;>
    (try split_ifs at hd) <;> omega

/-- The calendar date of the day number of a date that exists is that date. -/
theorem civilFromDays_daysFromCivil (y m d : Int) (hm1 : 1 ≤ m) (hm12 : m ≤ 12)
    (hd1 : 1 ≤ d) (hd : d ≤ daysIn y m) :
    civilFromDays (daysFromCivil y m d) = (y, m, d) := by
  obtain ⟨v0, v1⟩ := marchYearDay_lt y m d hm1 hm12 hd1 hd
  have hn := daysFromCivil_eq y m d
  obtain ⟨b0, b1⟩ := civil_marchYear_bounds (daysFromCivil y m d)
  have hr := daysFromCivil_civilFromDays (daysFromCivil y m d)
  rw [daysFromCivil_eq (civilFromDays (daysFromCivil y m d)).1] at hr
  have hz0 : 0 ≤ (daysFromCivil y m d + 719468) % 146097 := Int.emod_nonneg _ (by norm_num)
  have hz1 : (daysFromCivil y m d + 719468) % 146097 < 146097 :=
    Int.emod_lt_of_pos _ (by norm_num)
  obtain ⟨-, -, c0, c1, -⟩ := yearOfEra_spec _ hz0 hz1
  obtain ⟨-, -, hdoy⟩ := monthOfYear_spec _ c0 c1
  have hmd : (civilFromDays (daysFromCivil y m d)).2
      = monthOfYear (yearOfEra ((daysFromCivil y m d + 719468) % 146097)).2 := rfl
  generalize civilFromDays (daysFromCivil y m d) = c at *
  have hyear : marchYear y m = marchYear c.1 c.2.1 :=
    marchYear_unique _ _ (daysFromCivil y m d + 719468) (by omega) (by omega) b0 b1
  have hday : marchYearDay c.2.1 c.2.2 = marchYearDay m d := by
    rw [← hyear] at hr
    omega
  have hdoy' : marchYearDay c.2.1 c.2.2
      = (yearOfEra ((daysFromCivil y m d + 719468) % 146097)).2 := by
    rw [hmd]
    exact hdoy
  have hmd' : c.2 = (m, d) := by
    rw [hmd, ← hdoy', hday]
    exact monthOfYear_marchYearDay m d hm1 hm12 hd1 (le_trans hd (daysIn_le y m))
  have hm' : c.2.1 = m := by rw [hmd']
  rw [hm'] at hyear
  have hy : c.1 = y := by
    simp only [marchYear] at hyear
    split_ifs at hyear <;> omega
  exact Prod.ext hy hmd'

theorem marchYearStart_pred (y : Int) :
    marchYearStart y = marchYearStart (y - 1) + (if isLeapYear y then 366 else 365) := by
  have h4 : y % 4 = y % 400 % 4 := by omega
  have h100 : y % 100 = y % 400 % 100 := by omega
  have hr0 : 0 ≤ y % 400 := Int.emod_nonneg _ (by norm_num)
  have hr1 : y % 400 < 400 := Int.emod_lt_of_pos _ (by norm_num)
  have key : marchYearStart y - marchYearStart (y - 1)
      = 365 + (if y % 400 % 4 = 0 then 1 else 0) - (if y % 400 % 100 = 0 then 1 else 0)
        + (if y % 400 = 0 then 1 else 0) := by
    simp only [marchYearStart]
    by_cases h0 : y % 400 = 0
    · have e1 : (y - 1) / 400 = y / 400 - 1 := by omega
      have e2 : (y - 1) % 400 = 399 := by omega
      rw [e1, e2, h0]
      norm_num
      omega
    · have e1 : (y - 1) / 400 = y / 400 := by omega
      have e2 : (y - 1) % 400 = y % 400 - 1 := by omega
      rw [e1, e2]
      generalize y % 400 = r at *
      generalize y / 400 = q at *
      split_ifs <;> omega
  by_cases hl : isLeapYear y
  · rw [if_pos hl]
    simp only [isLeapYear] at hl
    rw [h4, h100] at hl
    split_ifs at key <;> omega
  · rw [if_neg hl]
    simp only [isLeapYear] at hl
    rw [h4, h100] at hl
    split_ifs at key <;> omega

/-- The calendar date of a day number exists: its day is within the month. -/
theorem civil_day_valid (n : Int) :
    (civilFromDays n).2.2 ≤ daysIn (civilFromDays n).1 (civilFromDays n).2.1 := by
  obtain ⟨m1, m12⟩ := civil_month_range n
  obtain ⟨-, b1⟩ := civil_marchYear_bounds n
  have hr := daysFromCivil_civilFromDays n
  rw [daysFromCivil_eq] at hr
  have hz0 : 0 ≤ (n + 719468) % 146097 := Int.emod_nonneg _ (by norm_num)
  have hz1 : (n + 719468) % 146097 < 146097 := Int.emod_lt_of_pos _ (by norm_num)
  obtain ⟨-, -, c0, c1, -⟩ := yearOfEra_spec _ hz0 hz1
  have hM : (civilFromDays n).2.1 = (monthOfYear (yearOfEra ((n + 719468) % 146097)).2).1 := rfl
  have hD : (civilFromDays n).2.2 = (monthOfYear (yearOfEra ((n + 719468) % 146097)).2).2 := rfl
  generalize (yearOfEra ((n + 719468) % 146097)).2 = doy at *
  generalize civilFromDays n = c at *
  obtain ⟨y, m, d⟩ := c
  simp only [monthOfYear] at hM hD
  simp only at m1 m12 b1 hr hM hD ⊢
  have hcases : m = 1 ∨ m = 2 ∨ m = 3 ∨ m = 4 ∨ m = 5 ∨ m = 6 ∨ m = 7 ∨ m = 8 ∨ m = 9 ∨
      m = 10 ∨ m = 11 ∨ m = 12 := by omega
  rcases hcases with h | h | h | h | h | h | h | h | h | h | h | h <;> subst h <;>
    simp only [daysIn, isLeapYear] <;> norm_num <;>
    simp only [marchYear, marchYearDay] at b1 hr <;> norm_num at b1 hr <;>
    (try rw [marchYearStart_pred y] at b1) <;>
    (try split_ifs) <;> (try split_ifs at hM) <;> (try split_ifs at b1) <;>
    first | omega | (simp only [isLeapYear] at *; omega)

/-! ### Display labels -/

theorem dayNumber_add_days (t : Time) (k : Int) :
    (⟨t.wall + k * nsPerDay⟩ : Time).dayNumber = t.dayNumber + k := by
  simp only [Time.dayNumber]
  exact Int.add_mul_ediv_right _ _ (by decide)

theorem AddDate_days_eq (t : Time) (k : Int) : t.AddDate 0 0 k = t.plusDays k := by
  have h := AddDate_days t k
  cases hx : t.AddDate 0 0 k with
  | mk w =>
    rw [hx] at h
    simp only [Time.plusDays]
    exact congrArg Time.mk h

theorem year_eq_of_month_eq (n k : Int) (hk0 : -300 ≤ k) (hk : k ≤ 300)
    (hm : (civilFromDays (n + k)).2.1 = (civilFromDays n).2.1) :
    (civilFromDays (n + k)).1 = (civilFromDays n).1 := by
  obtain ⟨d1, d31⟩ := civil_day_range n
  obtain ⟨e1, e31⟩ := civil_day_range (n + k)
  have hr := daysFromCivil_civilFromDays n
  have hr' := daysFromCivil_civilFromDays (n + k)
  rw [daysFromCivil_eq] at hr hr'
  rw [hm] at hr'
  generalize civilFromDays n = c at *
  generalize civilFromDays (n + k) = c' at *
  have hday : marchYearDay c.2.1 c'.2.2 - marchYearDay c.2.1 c.2.2 = c'.2.2 - c.2.2 := by
    simp only [marchYearDay]
    omega
  have hyear : marchYear c'.1 c.2.1 = marchYear c.1 c.2.1 := by
    by_contra hne
    rcases lt_or_gt_of_ne hne with h | h
    · have := marchYearStart_mono (show marchYear c'.1 c.2.1 + 1 ≤ marchYear c.1 c.2.1 by omega)
      have := (marchYearStart_succ (marchYear c'.1 c.2.1)).1
      omega
    · have := marchYearStart_mono (show marchYear c.1 c.2.1 + 1 ≤ marchYear c'.1 c.2.1 by omega)
      have := (marchYearStart_succ (marchYear c.1 c.2.1)).1
      omega
  simp only [marchYear] at hyear
  split_ifs at hyear <;> omega

theorem sameMonth_plusDays (t : Time) :
    sameMonth t (t.plusDays 6) ↔ t.Month = (t.plusDays 6).Month := by
  constructor
  · exact fun h => h.2
  · intro h
    refine ⟨?_, h⟩
    have hd : (t.plusDays 6).dayNumber = t.dayNumber + 6 := dayNumber_add_days t 6
    simp only [Time.Year, Time.Month, hd] at h ⊢
    exact (year_eq_of_month_eq t.dayNumber 6 (by norm_num) (by norm_num) h.symm).symm

theorem displayDate_eq_specLabel (period : Period) (hp : period.Known) (data : PeriodData) :
    displayDate period data = specLabel period data.StartDate := by
  rcases hp with h | h | h <;> subst h
  · simp [displayDate, specLabel, Time.formatJan02]
  · have h1 : ¬ (Weekly = Daily) := by decide
    have h2 : ¬ (Weekly = Monthly) := by decide
    simp only [displayDate, specLabel, h1, h2, if_false, if_true, AddDate_days_eq,
      Time.formatJan02]
    by_cases hm : data.StartDate.Month = (data.StartDate.plusDays 6).Month
    · rw [if_pos hm, if_pos ((sameMonth_plusDays _).mpr hm)]
    · rw [if_neg hm, if_neg (fun h => hm ((sameMonth_plusDays _).mp h))]
      simp only [String.append_assoc]
  · have h1 : ¬ (Monthly = Daily) := by decide
    have h2 : ¬ (Monthly = Weekly) := by decide
    simp [displayDate, specLabel, h1, h2, Time.formatJan2006]

/-- C23: the `Dates` of the trend output are, period by period in the order of the
result, the labels of the specification: for daily the month name and the two-digit day,
for monthly the month name and the four-digit year, for weekly the month once with the two
day numbers when the start and the start plus 6 days lie in the same month, and month and
two-digit day of both ends otherwise. -/
theorem C23_display_labels (keyOrder : List String → List String) (period : Period)
    (hp : period.Known) (startDate endDate : Time) (sessions : List FocusSession) :
    (∃ periods trends,
      trendPeriods keyOrder period startDate endDate sessions = some periods ∧
      buildTrends keyOrder period startDate endDate sessions = some trends ∧
      trends.Dates = periods.map (fun data => specLabel period data.StartDate)) ∧
    (∀ data, displayDate period data = specLabel period data.StartDate) ∧
    specLabel Daily (Date 2025 1 2 0 0 0 0) = "Jan 02" ∧
    specLabel Monthly (Date 2006 1 1 0 0 0 0) = "Jan 2006" ∧
    specLabel Weekly (Date 2025 1 6 0 0 0 0) = "Jan 6-12" ∧
    specLabel Weekly (Date 2024 1 29 0 0 0 0) = "Jan 29-Feb 04" := by
  refine ⟨?_, displayDate_eq_specLabel period hp, by decide, by decide, by decide, by decide⟩
  obtain ⟨m, -, hm⟩ := trendPeriods_spec keyOrder period hp startDate endDate sessions
  refine ⟨_, _, hm, by rw [buildTrends_eq, hm]; rfl, ?_⟩
  simp only [entriesOf]
  exact List.map_congr_left (fun data _ => displayDate_eq_specLabel period hp data)

/-- C23 at the weekly periods of the twelve weeks before 2025-06-25, without sessions. -/
theorem C23_display_labels_witness :
    (∃ periods trends,
      trendPeriods id Weekly (rangeStart Weekly (Date 2025 6 25 10 0 0 0))
        (Date 2025 6 25 10 0 0 0) [] = some periods ∧
      buildTrends id Weekly (rangeStart Weekly (Date 2025 6 25 10 0 0 0))
        (Date 2025 6 25 10 0 0 0) [] = some trends ∧
      trends.Dates = periods.map (fun data => specLabel Weekly data.StartDate)) ∧
    (∀ data, displayDate Weekly data = specLabel Weekly data.StartDate) ∧
    specLabel Daily (Date 2025 1 2 0 0 0 0) = "Jan 02" ∧
    specLabel Monthly (Date 2006 1 1 0 0 0 0) = "Jan 2006" ∧
    specLabel Weekly (Date 2025 1 6 0 0 0 0) = "Jan 6-12" ∧
    specLabel Weekly (Date 2024 1 29 0 0 0 0) = "Jan 29-Feb 04" :=
  C23_display_labels id Weekly (Or.inr (Or.inl rfl)) _ _ []

/-! ### Printed numbers can be read back -/

theorem digitValue_digitChar (k : Nat) (h : k < 10) :
    digitValue (Nat.digitChar k) = k ∧ (Nat.digitChar k).isDigit = true := by
  interval_cases k <;> exact ⟨by decide, by decide⟩

theorem digitsValue_append_singleton (xs : List Char) (c : Char) :
    digitsValue (xs ++ [c]) = 10 * digitsValue xs + digitValue c := by
  simp [digitsValue, List.foldl_append]

theorem digitsValue_cons (c : Char) (xs : List Char) :
    digitsValue (c :: xs) = digitValue c * 10 ^ xs.length + digitsValue xs := by
  induction xs using List.reverseRecOn with
  | nil => simp [digitsValue]
  | append_singleton xs d ih =>
    rw [← List.cons_append, digitsValue_append_singleton, digitsValue_append_singleton, ih]
    simp only [List.length_append, List.length_singleton, pow_succ]
    ring

theorem toDigitsCore_spec : ∀ (fuel n : Nat) (ds : List Char), n < fuel →
    ∃ xs, Nat.toDigitsCore 10 fuel n ds = xs ++ ds ∧ digitsValue xs = n ∧
      (∀ c ∈ xs, c.isDigit = true) ∧ xs ≠ [] := by
  intro fuel
  induction fuel with
  | zero => intro n ds h; exact absurd h (Nat.not_lt_zero _)
  | succ fuel ih =>
    intro n ds h
    obtain ⟨hv, hd⟩ := digitValue_digitChar (n % 10) (Nat.mod_lt _ (by norm_num))
    by_cases h0 : n / 10 = 0
    · refine ⟨[Nat.digitChar (n % 10)], ?_, ?_, ?_, by simp⟩
      · simp [Nat.toDigitsCore, h0]
      · simp only [digitsValue, List.foldl_cons, List.foldl_nil, hv]
        omega
      · intro c hc
        rw [List.mem_singleton.mp hc]
        exact hd
    · obtain ⟨xs, e, v, dg, -⟩ := ih (n / 10) (Nat.digitChar (n % 10) :: ds) (by omega)
      refine ⟨xs ++ [Nat.digitChar (n % 10)], ?_, ?_, ?_, by simp⟩
      · simp only [Nat.toDigitsCore, h0, if_false, e, List.append_assoc, List.singleton_append]
      · rw [digitsValue_append_singleton, v, hv]
        omega
      · intro c hc
        rcases List.mem_append.mp hc with hc | hc
        · exact dg c hc
        · rw [List.mem_singleton.mp hc]
          exact hd

theorem repr_spec (n : Nat) :
    digitsValue (Nat.repr n).data = n ∧ (∀ c ∈ (Nat.repr n).data, c.isDigit = true) ∧
    (Nat.repr n).data ≠ [] := by
  obtain ⟨xs, e, v, dg, ne⟩ := toDigitsCore_spec (n + 1) n [] (Nat.lt_succ_self n)
  have : (Nat.repr n).data = xs := by
    simp only [Nat.repr, Nat.toDigits, List.asString, e, List.append_nil]
  rw [this]
  exact ⟨v, dg, ne⟩

theorem digitsValue_zeros (k : Nat) (xs : List Char) :
    digitsValue (List.replicate k '0' ++ xs) = digitsValue xs := by
  induction k with
  | zero => simp
  | succ k ih =>
    rw [List.replicate_succ, List.cons_append, digitsValue_cons, ih]
    have : digitValue '0' = 0 := by decide
    rw [this]
    simp

theorem padNat_spec (w n : Nat) :
    digitsValue (padNat w n).data = n ∧ (∀ c ∈ (padNat w n).data, c.isDigit = true) ∧
    (padNat w n).data ≠ [] := by
  obtain ⟨v, dg, ne⟩ := repr_spec n
  have hdata : (padNat w n).data
      = List.replicate (w - (Nat.repr n).length) '0' ++ (Nat.repr n).data := by
    simp [padNat, String.data_append]
  rw [hdata]
  refine ⟨by rw [digitsValue_zeros, v], ?_, ?_⟩
  · intro c hc
    rcases List.mem_append.mp hc with hc | hc
    · rw [(List.mem_replicate.mp hc).2]
      decide
    · exact dg c hc
  · intro h
    exact ne (List.append_eq_nil.mp h).2

theorem signedValue_of_digits (cs : List Char) (h : ∀ c ∈ cs, c.isDigit = true) :
    signedValue cs = (digitsValue cs : Int) := by
  cases cs with
  | nil => rfl
  | cons c rest =>
    have hc : c ≠ '-' := by
      intro e
      have := h c (List.mem_cons_self _ _)
      rw [e] at this
      exact absurd this (by decide)
    unfold signedValue
    split
    · rename_i heq
      exact absurd (List.cons.inj heq).1 hc
    · rfl

/-- A printed integer: a minus sign for a negative number, then the digits of its
absolute value, possibly padded with zeros. -/
theorem signed_spec (x : Int) (p : String) (hv : digitsValue p.data = x.natAbs)
    (hd : ∀ c ∈ p.data, c.isDigit = true) :
    signedValue (if x < 0 then "-" ++ p else p).data = x ∧
    ∀ c ∈ (if x < 0 then "-" ++ p else p).data, c.isDigit = true ∨ c = '-' := by
  by_cases hx : x < 0
  · rw [if_pos hx]
    have hdata : ("-" ++ p).data = '-' :: p.data := by simp [String.data_append]
    rw [hdata]
    refine ⟨?_, ?_⟩
    · simp only [signedValue, hv]
      omega
    · intro c hc
      rcases List.mem_cons.mp hc with hc | hc
      · right; exact hc
      · left; exact hd c hc
  · rw [if_neg hx]
    refine ⟨?_, fun c hc => Or.inl (hd c hc)⟩
    rw [signedValue_of_digits _ hd, hv]
    omega

theorem appendInt_spec (x : Int) (w : Nat) :
    signedValue (appendInt x w).data = x ∧
    ∀ c ∈ (appendInt x w).data, c.isDigit = true ∨ c = '-' := by
  obtain ⟨v, dg, -⟩ := padNat_spec w x.natAbs
  exact signed_spec x _ v dg

theorem sprintfd_spec (x : Int) :
    signedValue (sprintfd x).data = x ∧
    ∀ c ∈ (sprintfd x).data, c.isDigit = true ∨ c = '-' := by
  obtain ⟨v, dg, -⟩ := repr_spec x.natAbs
  exact signed_spec x _ v dg

theorem sprintf02d_spec (x : Int) :
    signedValue (sprintf02d x).data = x ∧
    ∀ c ∈ (sprintf02d x).data, c.isDigit = true ∨ c = '-' := by
  by_cases hx : x < 0
  · obtain ⟨v, dg, -⟩ := padNat_spec 1 x.natAbs
    have := signed_spec x _ v dg
    simp only [hx, if_true] at this
    simp only [sprintf02d, hx, if_true]
    exact this
  · obtain ⟨v, dg, -⟩ := padNat_spec 2 x.natAbs
    have := signed_spec x _ v dg
    simp only [hx, if_false] at this
    simp only [sprintf02d, hx, if_false]
    exact this

theorem appendInt_two_length (x : Int) (h0 : 0 ≤ x) (h99 : x ≤ 99) :
    (appendInt x 2).data.length = 2 := by
  obtain ⟨k, rfl⟩ := Int.eq_ofNat_of_zero_le h0
  have hk : k ≤ 99 := by omega
  interval_cases k <;> rfl

/-! ### Distinct periods have distinct keys -/

theorem appendInt_inj (x y : Int) (w w' : Nat)
    (h : (appendInt x w).data = (appendInt y w').data) : x = y := by
  rw [← (appendInt_spec x w).1, ← (appendInt_spec y w').1, h]

theorem formatYMD_inj (t u : Time) (h : t.formatYMD = u.formatYMD) :
    t.dayNumber = u.dayNumber := by
  obtain ⟨tm1, tm12⟩ := civil_month_range t.dayNumber
  obtain ⟨um1, um12⟩ := civil_month_range u.dayNumber
  obtain ⟨td1, td31⟩ := civil_day_range t.dayNumber
  obtain ⟨ud1, ud31⟩ := civil_day_range u.dayNumber
  have hd := congrArg String.data h
  simp only [Time.formatYMD, String.data_append] at hd
  have lD := appendInt_two_length t.Day (by unfold Time.Day; omega) (by unfold Time.Day; omega)
  have lD' := appendInt_two_length u.Day (by unfold Time.Day; omega) (by unfold Time.Day; omega)
  have lM := appendInt_two_length t.Month (by unfold Time.Month; omega)
    (by unfold Time.Month; omega)
  have lM' := appendInt_two_length u.Month (by unfold Time.Month; omega)
    (by unfold Time.Month; omega)
  obtain ⟨h1, hD⟩ := List.append_inj' hd (by rw [lD, lD'])
  obtain ⟨h2, -⟩ := List.append_inj' h1 rfl
  obtain ⟨h3, hM⟩ := List.append_inj' h2 (by rw [lM, lM'])
  obtain ⟨hY, -⟩ := List.append_inj' h3 rfl
  have eY := appendInt_inj _ _ _ _ hY
  have eM := appendInt_inj _ _ _ _ hM
  have eD := appendInt_inj _ _ _ _ hD
  have rt := daysFromCivil_civilFromDays t.dayNumber
  have ru := daysFromCivil_civilFromDays u.dayNumber
  simp only [Time.Year, Time.Month, Time.Day] at eY eM eD
  rw [← rt, ← ru, eY, eM, eD]

theorem formatYM_inj (t u : Time) (h : t.formatYM = u.formatYM) :
    t.Year = u.Year ∧ t.Month = u.Month := by
  obtain ⟨tm1, tm12⟩ := civil_month_range t.dayNumber
  obtain ⟨um1, um12⟩ := civil_month_range u.dayNumber
  have hd := congrArg String.data h
  simp only [Time.formatYM, String.data_append] at hd
  have lM := appendInt_two_length t.Month (by unfold Time.Month; omega)
    (by unfold Time.Month; omega)
  have lM' := appendInt_two_length u.Month (by unfold Time.Month; omega)
    (by unfold Time.Month; omega)
  obtain ⟨h3, hM⟩ := List.append_inj' hd (by rw [lM, lM'])
  obtain ⟨hY, -⟩ := List.append_inj' h3 rfl
  exact ⟨appendInt_inj _ _ _ _ hY, appendInt_inj _ _ _ _ hM⟩

theorem weeklyKey_inj (t u : Time) (h : periodKeyOf Weekly t = periodKeyOf Weekly u) :
    t.ISOWeek = u.ISOWeek := by
  have hd := congrArg String.data h
  simp only [periodKeyOf, if_true, String.data_append] at hd
  obtain ⟨h1, -⟩ := List.append_inj' hd rfl
  rw [List.append_assoc, List.append_assoc, List.append_assoc, List.append_assoc] at h1
  have h2 := List.append_cancel_left h1
  rw [List.cons_append, List.cons_append] at h2
  have nodigit : ∀ cs : List Char, (∀ c ∈ cs, c.isDigit = true ∨ c = '-') → '%' ∉ cs := by
    intro cs hcs hmem
    rcases hcs _ hmem with hc | hc
    · exact absurd hc (by decide)
    · exact absurd hc (by decide)
  have n1 : '%' ∉ (sprintf02d t.ISOWeek.1).data := nodigit _ (sprintf02d_spec _).2
  have n2 : '%' ∉ ['!', '(', 'E', 'X', 'T', 'R', 'A', ' ', 'i', 'n', 't', '=']
      ++ (sprintfd t.ISOWeek.2).data := by
    intro hmem
    rcases List.mem_append.mp hmem with hc | hc
    · exact absurd hc (by decide)
    · exact nodigit _ (sprintfd_spec _).2 hc
  obtain ⟨hY, -, hW⟩ := (List.append_cons_inj_of_not_mem n1 n2).mp h2
  have hW' := List.append_cancel_left hW
  have eY : t.ISOWeek.1 = u.ISOWeek.1 := by
    rw [← (sprintf02d_spec t.ISOWeek.1).1, ← (sprintf02d_spec u.ISOWeek.1).1, hY]
  have eW : t.ISOWeek.2 = u.ISOWeek.2 := by
    rw [← (sprintfd_spec t.ISOWeek.2).1, ← (sprintfd_spec u.ISOWeek.2).1, hW']
  exact Prod.ext eY eW

/-! ### Number of entries of the trend -/

theorem GoMap.length_set_of_not_mem {κ ν : Type} [DecidableEq κ] (m : GoMap κ ν) (k : κ)
    (v : ν) (h : k ∉ m.keys) :
    (m.set k v).keys = m.keys ++ [k] ∧ (m.set k v).length = m.length + 1 := by
  have hk := GoMap.keys_set m k v
  rw [if_neg h] at hk
  refine ⟨hk, ?_⟩
  have := congrArg List.length hk
  simpa [GoMap.keys] using this

theorem seedPeriods_count (period : Period) (endTruncated : Time) :
    ∀ (n fuel : Nat) (d0 : Time) (m : GoMap String PeriodData), n ≤ fuel →
      (∀ k < n, ((nextPeriod period)^[k] d0).wall ≤ endTruncated.wall) →
      endTruncated.wall < ((nextPeriod period)^[n] d0).wall →
      (∀ k < n, periodKeyOf period ((nextPeriod period)^[k] d0) ∉ m.keys) →
      (∀ i j, i < j → j < n → periodKeyOf period ((nextPeriod period)^[i] d0)
        ≠ periodKeyOf period ((nextPeriod period)^[j] d0)) →
      ∃ m', seedPeriods period endTruncated fuel d0 m = some m' ∧
        m'.length = m.length + n := by
  intro n
  induction n with
  | zero =>
    intro fuel d0 m _ _ hend _ _
    simp only [Function.iterate_zero, id_eq] at hend
    have hc : ¬ (d0.Before endTruncated ∨ d0.Equal endTruncated) := by
      simp only [Time.Before, Time.Equal]
      omega
    cases fuel with
    | zero => exact ⟨m, by simp only [seedPeriods, hc, if_false], rfl⟩
    | succ f => exact ⟨m, by simp only [seedPeriods, hc, if_false], rfl⟩
  | succ n ih =>
    intro fuel d0 m hf hle hend hnew hdist
    cases fuel with
    | zero => omega
    | succ f =>
      have h0 := hle 0 (Nat.succ_pos n)
      simp only [Function.iterate_zero, id_eq] at h0
      have hc : d0.Before endTruncated ∨ d0.Equal endTruncated := by
        simp only [Time.Before, Time.Equal]
        omega
      have hk0 := hnew 0 (Nat.succ_pos n)
      simp only [Function.iterate_zero, id_eq] at hk0
      obtain ⟨hkeys, hlen⟩ := GoMap.length_set_of_not_mem m (periodKeyOf period d0)
        { StartDate := d0, Sessions := [] } hk0
      obtain ⟨m', hm', hl'⟩ := ih f (nextPeriod period d0)
        (m.set (periodKeyOf period d0) { StartDate := d0, Sessions := [] }) (by omega)
        (fun k hk => by
          rw [← Function.iterate_succ_apply]
          exact hle (k + 1) (by omega))
        (by rw [← Function.iterate_succ_apply]; exact hend)
        (fun k hk => by
          rw [← Function.iterate_succ_apply, hkeys, List.mem_append, List.mem_singleton]
          rintro (h | h)
          · exact hnew (k + 1) (by omega) h
          · exact hdist 0 (k + 1) (by omega) (by omega) h.symm)
        (fun i j hij hj => by
          rw [← Function.iterate_succ_apply, ← Function.iterate_succ_apply]
          exact hdist (i + 1) (j + 1) (by omega) (by omega))
      refine ⟨m', ?_, by rw [hl', hlen]; omega⟩
      simp only [seedPeriods, hc, if_true]
      exact hm'

theorem entriesOf_hasEntries (period : Period) (periods : List PeriodData) :
    (entriesOf period periods).HasEntries periods.length := by
  simp [ProductivityTrends.HasEntries, entriesOf]

theorem buildTrends_count (keyOrder : List String → List String)
    (hk : ∀ l, (keyOrder l).Perm l) (period : Period) (hp : period.Known)
    (startDate endDate : Time) (sessions : List FocusSession) (seeded : GoMap String PeriodData)
    (hs : seededPeriods period startDate endDate = some seeded) :
    ∃ trends, buildTrends keyOrder period startDate endDate sessions = some trends ∧
      trends.HasEntries seeded.length := by
  obtain ⟨pm, hg, hn, hd⟩ := groupedPeriods_spec period hp startDate endDate sessions
  have hpm : pm = sessions.foldl (groupStep period) seeded := by
    simp only [groupedPeriods, hs] at hg
    exact (Option.some.inj hg).symm
  have hlen : pm.length = seeded.length := by
    have := congrArg List.length (foldl_groupStep_keys period sessions seeded)
    rw [← hpm] at this
    simpa [GoMap.keys] using this
  obtain ⟨hperm, -⟩ := sorted_periods keyOrder hk pm hn hd
  refine ⟨_, by rw [buildTrends_eq, trendPeriods_eq, hg]; rfl, ?_⟩
  have := entriesOf_hasEntries period
    ((sortPeriodKeys pm (keyOrder pm.keys)).filterMap (fun key => pm.get? key))
  rw [hperm.length_eq, List.length_map, hlen] at this
  exact this

/-! ### Daily periods -/

theorem truncateFunc_daily (t : Time) : truncateFunc Daily t = midnight t.dayNumber := by
  obtain ⟨m1, m12⟩ := civil_month_range t.dayNumber
  simp only [truncateFunc, if_true, midnight]
  rw [Date_midnight _ _ _ (by unfold Time.Month; exact m1) (by unfold Time.Month; exact m12)]
  simp only [Time.Year, Time.Month, Time.Day, daysFromCivil_civilFromDays]

theorem midnight_plusDays (n k : Int) : (midnight n).plusDays k = midnight (n + k) := by
  simp only [midnight, Time.plusDays]
  congr 1
  ring

theorem iterate_plusDays (f : Time → Time) (step : Int) (hf : ∀ t, f t = t.plusDays step)
    (n0 : Int) (k : Nat) : f^[k] (midnight n0) = midnight (n0 + step * k) := by
  induction k with
  | zero => simp
  | succ k ih =>
    rw [Function.iterate_succ_apply', ih, hf, midnight_plusDays]
    congr 1
    push_cast
    ring

theorem nextPeriod_daily (t : Time) : nextPeriod Daily t = t.plusDays 1 := by
  simp only [nextPeriod, if_true, AddDate_days_eq]

theorem midnight_wall_le (a b : Int) : (midnight a).wall ≤ (midnight b).wall ↔ a ≤ b := by
  simp only [midnight]
  have hpos : (0 : Int) < nsPerDay := by decide
  constructor
  · intro h
    by_contra hlt
    have : b * nsPerDay < a * nsPerDay := by nlinarith
    omega
  · intro h
    nlinarith

theorem midnight_wall_lt (a b : Int) : (midnight a).wall < (midnight b).wall ↔ a < b := by
  have := midnight_wall_le b a
  constructor
  · intro h
    by_contra hle
    have := this.mpr (by omega)
    omega
  · intro h
    by_contra hle
    have := this.mp (by omega)
    omega

theorem seedFuel_midnight (a : Int) (n : Nat) :
    seedFuel (midnight a) (midnight (a + n)) = n + 1 := by
  simp only [seedFuel, midnight]
  have : ((a + (n : Int)) * nsPerDay - a * nsPerDay) / nsPerDay = n := by
    have e : (a + (n : Int)) * nsPerDay - a * nsPerDay = (n : Int) * nsPerDay := by ring
    rw [e]
    exact Int.mul_ediv_cancel _ (by decide)
  rw [this]
  simp

theorem seeded_daily (startDate endDate : Time) (n : Nat)
    (h : endDate.dayNumber = startDate.dayNumber + n) :
    ∃ m, seededPeriods Daily startDate endDate = some m ∧ m.length = n + 1 := by
  have hit := iterate_plusDays (nextPeriod Daily) 1 nextPeriod_daily startDate.dayNumber
  simp only [seededPeriods, truncateFunc_daily, h, seedFuel_midnight]
  obtain ⟨m, hm, hl⟩ := seedPeriods_count Daily (midnight (startDate.dayNumber + n)) (n + 1)
    (n + 1) (midnight startDate.dayNumber) [] le_rfl
    (fun k hk => by
      rw [hit, midnight_wall_le]
      have : (k : Int) ≤ n := by exact_mod_cast Nat.lt_succ_iff.mp hk
      omega)
    (by
      rw [hit, midnight_wall_lt]
      push_cast
      omega)
    (fun k _ => by simp [GoMap.keys])
    (fun i j hij _ hkey => by
      rw [hit, hit] at hkey
      have hD : Daily ≠ Weekly := by decide
      simp only [periodKeyOf, hD, if_false, if_true] at hkey
      have := formatYMD_inj _ _ hkey
      simp only [midnight, dayNumber_midnight] at this
      have : (i : Int) = j := by omega
      have : i = j := by exact_mod_cast this
      omega)
  exact ⟨m, hm, by simpa using hl⟩

theorem daily_count (keyOrder : List String → List String) (hk : ∀ l, (keyOrder l).Perm l)
    (now : Time) (collection : List FocusSession) (userID : Nat) :
    ∃ trends, GetProductivityTrends keyOrder now collection userID Daily = some trends ∧
      trends.HasEntries 31 := by
  have hstart : rangeStart Daily now = now.plusDays (-30) := by
    simp only [rangeStart, if_true, AddDate_days_eq]
  have hday : now.dayNumber = (now.plusDays (-30)).dayNumber + (30 : Nat) := by
    have := dayNumber_add_days now (-30)
    simp only [Time.plusDays]
    rw [this]
    push_cast
    ring
  obtain ⟨m, hm, hl⟩ := seeded_daily (now.plusDays (-30)) now 30 hday
  have hres : resolvePeriod Daily = Daily := by simp [resolvePeriod]
  obtain ⟨trends, ht, he⟩ := buildTrends_count keyOrder hk Daily (Or.inl rfl)
    (now.plusDays (-30)) now
    (GetSessionsByDateRange collection userID (now.plusDays (-30)) now) m hm
  refine ⟨trends, ?_, by rw [hl] at he; exact he⟩
  simp only [GetProductivityTrends, hstart, hres]
  exact ht

/-! ### Weekly periods away from the turn of the year -/

theorem Weekday.mod_of_ofInt_eq_Monday (x : Int) (h : Weekday.ofInt x = Weekday.Monday) :
    x % 7 = 1 := by
  have h0 : 0 ≤ x % 7 := Int.emod_nonneg _ (by norm_num)
  have h7 : x % 7 < 7 := Int.emod_lt_of_pos _ (by norm_num)
  unfold Weekday.ofInt at h
  generalize x % 7 = r at *
  have hcases : r = 0 ∨ r = 1 ∨ r = 2 ∨ r = 3 ∨ r = 4 ∨ r = 5 ∨ r = 6 := by omega
  rcases hcases with e | e | e | e | e | e | e <;> subst e <;> first | rfl | (exact absurd h (by decide))

theorem truncateFunc_weekly_midnight (t : Time) (h : t.ISOWeek.1 = t.Year) :
    ∃ monday, truncateFunc Weekly t = midnight monday ∧ (monday + 4) % 7 = 1 ∧
      monday ≤ t.dayNumber ∧ t.dayNumber < monday + 7 := by
  obtain ⟨hw, hns, hle, hlt⟩ := truncateFunc_weekly_of_same_year t h
  generalize truncateFunc Weekly t = T at *
  have hwall := T.wall_eq
  rw [hns, add_zero] at hwall
  have hpos : (0 : Int) < nsPerDay := by decide
  refine ⟨T.dayNumber, ?_, Weekday.mod_of_ofInt_eq_Monday _ hw, ?_, ?_⟩
  · cases T with
    | mk w =>
      simp only [midnight]
      exact congrArg Time.mk hwall.symm
  · rw [← hwall] at hle
    simp only [Time.dayNumber]
    exact Int.le_ediv_of_mul_le hpos hle
  · rw [← hwall] at hlt
    simp only [Time.dayNumber]
    have : t.wall < (T.dayNumber + 7) * nsPerDay := by linarith
    exact Int.ediv_lt_of_lt_mul hpos this

theorem nextPeriod_weekly (t : Time) : nextPeriod Weekly t = t.plusDays 7 := by
  have h : ¬ (Weekly = Daily) := by decide
  simp only [nextPeriod, h, if_false, if_true, AddDate_days_eq]

theorem ISOWeek_monday (n : Int) (h : (n + 4) % 7 = 1) :
    (midnight n).ISOWeek = ((civilFromDays (n + 3)).1, yearDay (n + 3) / 7 + 1) := by
  have hw : (midnight n).Weekday = Weekday.Monday := by
    simp only [Time.Weekday, midnight, dayNumber_midnight]
    exact Weekday.ofInt_eq_Monday _ h
  have hn : (midnight n).dayNumber = n := dayNumber_midnight n
  simp only [Time.ISOWeek, hw, Weekday.toInt, hn]
  norm_num

theorem ISOWeek_mondays_ne (n : Int) (h : (n + 4) % 7 = 1) (i j : Nat) (hij : i < j) :
    (midnight (n + 7 * i)).ISOWeek ≠ (midnight (n + 7 * j)).ISOWeek := by
  rw [ISOWeek_monday _ (by omega), ISOWeek_monday _ (by omega)]
  intro he
  have hy := congrArg Prod.fst he
  have hwk := congrArg Prod.snd he
  simp only at hy hwk
  simp only [yearDay, hy] at hwk
  have : (i : Int) < j := by exact_mod_cast hij
  omega

theorem seeded_weekly (startDate endDate : Time) (a : Int) (n : Nat) (ha : (a + 4) % 7 = 1)
    (hs : truncateFunc Weekly startDate = midnight a)
    (he : truncateFunc Weekly endDate = midnight (a + 7 * n)) :
    ∃ m, seededPeriods Weekly startDate endDate = some m ∧ m.length = n + 1 := by
  have hit := iterate_plusDays (nextPeriod Weekly) 7 nextPeriod_weekly a
  have hfuel : seedFuel (midnight a) (midnight (a + 7 * n)) = 7 * n + 1 := by
    have := seedFuel_midnight a (7 * n)
    push_cast at this
    exact this
  simp only [seededPeriods, hs, he, hfuel]
  obtain ⟨m, hm, hl⟩ := seedPeriods_count Weekly (midnight (a + 7 * n)) (n + 1)
    (7 * n + 1) (midnight a) [] (by omega)
    (fun k hk => by
      rw [hit, midnight_wall_le]
      have : (k : Int) ≤ n := by exact_mod_cast Nat.lt_succ_iff.mp hk
      omega)
    (by
      rw [hit, midnight_wall_lt]
      push_cast
      omega)
    (fun k _ => by simp [GoMap.keys])
    (fun i j hij _ hkey => by
      rw [hit, hit] at hkey
      exact ISOWeek_mondays_ne a ha i j hij (weeklyKey_inj _ _ hkey))
  exact ⟨m, hm, by simpa using hl⟩

theorem weekly_count (keyOrder : List String → List String) (hk : ∀ l, (keyOrder l).Perm l)
    (now : Time) (collection : List FocusSession) (userID : Nat)
    (hnow : now.ISOWeek.1 = now.Year)
    (hstart : (now.plusDays (-84)).ISOWeek.1 = (now.plusDays (-84)).Year) :
    ∃ trends, GetProductivityTrends keyOrder now collection userID Weekly = some trends ∧
      trends.HasEntries 13 := by
  have hrange : rangeStart Weekly now = now.plusDays (-84) := by
    have h : ¬ (Weekly = Daily) := by decide
    simp only [rangeStart, h, if_false, if_true, AddDate_days_eq]
    norm_num
  obtain ⟨a, ha, hmon, ha0, ha7⟩ := truncateFunc_weekly_midnight _ hstart
  obtain ⟨b, hb, hmon', hb0, hb7⟩ := truncateFunc_weekly_midnight _ hnow
  have hday : (now.plusDays (-84)).dayNumber = now.dayNumber + -84 := dayNumber_add_days now (-84)
  have hab : b = a + 7 * (12 : Nat) := by
    push_cast
    omega
  rw [hab] at hb
  obtain ⟨m, hm, hl⟩ := seeded_weekly (now.plusDays (-84)) now a 12 hmon ha hb
  have hres : resolvePeriod Weekly = Weekly := by decide
  obtain ⟨trends, ht, he⟩ := buildTrends_count keyOrder hk Weekly (Or.inr (Or.inl rfl))
    (now.plusDays (-84)) now
    (GetSessionsByDateRange collection userID (now.plusDays (-84)) now) m hm
  refine ⟨trends, ?_, by rw [hl] at he; exact he⟩
  simp only [GetProductivityTrends, hrange, hres]
  exact ht

/-! ### Monthly periods -/

theorem one_le_daysIn (y m : Int) : 1 ≤ daysIn y m := by
  simp only [daysIn]
  split_ifs <;> norm_num

theorem firstOfMonth_date (idx : Int) :
    (firstOfMonth idx).Year = idx / 12 ∧ (firstOfMonth idx).Month = idx % 12 + 1 ∧
    (firstOfMonth idx).Day = 1 ∧ (firstOfMonth idx).nsOfDay = 0 := by
  have h := civilFromDays_daysFromCivil (idx / 12) (idx % 12 + 1) 1 (by omega) (by omega)
    le_rfl (one_le_daysIn _ _)
  have hn : (firstOfMonth idx).dayNumber = daysFromCivil (idx / 12) (idx % 12 + 1) 1 :=
    dayNumber_midnight _
  simp only [Time.Year, Time.Month, Time.Day, hn, h, true_and]
  simp only [Time.nsOfDay, firstOfMonth, midnight]
  exact Int.mul_emod_left _ _

theorem monthIndex_firstOfMonth (idx : Int) : monthIndex (firstOfMonth idx) = idx := by
  obtain ⟨hy, hm, -, -⟩ := firstOfMonth_date idx
  simp only [monthIndex, hy, hm]
  omega

theorem truncateFunc_monthly (t : Time) :
    truncateFunc Monthly t = firstOfMonth (monthIndex t) := by
  obtain ⟨m1, m12⟩ := civil_month_range t.dayNumber
  have h1 : ¬ (Monthly = Daily) := by decide
  have h2 : ¬ (Monthly = Weekly) := by decide
  simp only [truncateFunc, h1, h2, if_false]
  rw [Date_midnight _ _ _ (by unfold Time.Month; exact m1) (by unfold Time.Month; exact m12)]
  have e1 : monthIndex t / 12 = t.Year := by
    simp only [monthIndex, Time.Month]
    omega
  have e2 : monthIndex t % 12 + 1 = t.Month := by
    simp only [monthIndex, Time.Month]
    omega
  simp only [firstOfMonth, midnight, e1, e2]

theorem nextPeriod_monthly (idx : Int) :
    nextPeriod Monthly (firstOfMonth idx) = firstOfMonth (idx + 1) := by
  obtain ⟨hy, hm, hd, hns⟩ := firstOfMonth_date idx
  have h1 : ¬ (Monthly = Daily) := by decide
  have h2 : ¬ (Monthly = Weekly) := by decide
  simp only [nextPeriod, h1, h2, if_false, if_true, Time.AddDate, Date, Time.Hour, Time.Minute,
    Time.Second, Time.Nanosecond, hy, hm, hd, hns]
  simp only [firstOfMonth, midnight]
  have e1 : idx / 12 + 0 + (idx % 12 + 1 + 1 - 1) / 12 = (idx + 1) / 12 := by omega
  have e2 : (idx % 12 + 1 + 1 - 1) % 12 + 1 = (idx + 1) % 12 + 1 := by omega
  rw [e1, e2]
  norm_num

theorem iterate_nextPeriod_monthly (idx : Int) (k : Nat) :
    (nextPeriod Monthly)^[k] (firstOfMonth idx) = firstOfMonth (idx + k) := by
  induction k with
  | zero => simp
  | succ k ih =>
    rw [Function.iterate_succ_apply', ih, nextPeriod_monthly]
    congr 1
    push_cast
    ring

theorem firstOfMonth_day_add (idx : Int) (k : Nat) :
    daysFromCivil (idx / 12) (idx % 12 + 1) 1 + 28 * k
      ≤ daysFromCivil ((idx + k) / 12) ((idx + k) % 12 + 1) 1 := by
  induction k with
  | zero => simp
  | succ k ih =>
    have h := daysFromCivil_next_month ((idx + k) / 12) ((idx + k) % 12 + 1) 1 (by omega)
      (by omega)
    have e1 : (idx + k) / 12 + ((idx + k) % 12 + 1) / 12 = (idx + (k + 1 : Nat)) / 12 := by
      push_cast
      omega
    have e2 : ((idx + k) % 12 + 1) % 12 + 1 = (idx + (k + 1 : Nat)) % 12 + 1 := by
      push_cast
      omega
    rw [e1, e2] at h
    push_cast at h ⊢
    omega

theorem seeded_monthly (startDate endDate : Time) (n : Nat)
    (h : monthIndex endDate = monthIndex startDate + n) :
    ∃ m, seededPeriods Monthly startDate endDate = some m ∧ m.length = n + 1 := by
  have hit := iterate_nextPeriod_monthly (monthIndex startDate)
  have hgap := firstOfMonth_day_add (monthIndex startDate)
  obtain ⟨f, hf⟩ : ∃ f : Nat, daysFromCivil ((monthIndex startDate + n) / 12)
      ((monthIndex startDate + n) % 12 + 1) 1
        = daysFromCivil (monthIndex startDate / 12) (monthIndex startDate % 12 + 1) 1 + f := by
    have hnn : (0 : Int) ≤ daysFromCivil ((monthIndex startDate + n) / 12)
        ((monthIndex startDate + n) % 12 + 1) 1
          - daysFromCivil (monthIndex startDate / 12) (monthIndex startDate % 12 + 1) 1 := by
      have := hgap n
      omega
    obtain ⟨f, hf⟩ := Int.eq_ofNat_of_zero_le hnn
    exact ⟨f, by omega⟩
  have hfn : n ≤ f := by
    have := hgap n
    have h28 : (28 : Int) * n ≤ f := by omega
    have : (n : Int) ≤ f := by omega
    exact_mod_cast this
  have hfuel : seedFuel (firstOfMonth (monthIndex startDate))
      (firstOfMonth (monthIndex startDate + n)) = f + 1 := by
    simp only [firstOfMonth, hf]
    exact seedFuel_midnight _ f
  simp only [seededPeriods, truncateFunc_monthly, h, hfuel]
  obtain ⟨m, hm, hl⟩ := seedPeriods_count Monthly (firstOfMonth (monthIndex startDate + n))
    (n + 1) (f + 1) (firstOfMonth (monthIndex startDate)) [] (by omega)
    (fun k hk => by
      rw [hit]
      have hkn : k ≤ n := Nat.lt_succ_iff.mp hk
      obtain ⟨j, hj⟩ := Nat.exists_eq_add_of_le hkn
      have := firstOfMonth_day_add (monthIndex startDate + k) j
      have e : monthIndex startDate + (k : Int) + (j : Int) = monthIndex startDate + n := by
        rw [hj]
        push_cast
        ring
      rw [e] at this
      simp only [firstOfMonth]
      rw [midnight_wall_le]
      omega)
    (by
      rw [hit]
      have := firstOfMonth_day_add (monthIndex startDate + n) 1
      have e : monthIndex startDate + (n : Int) + ((1 : Nat) : Int)
          = monthIndex startDate + ((n + 1 : Nat) : Int) := by
        push_cast
        ring
      rw [e] at this
      simp only [firstOfMonth]
      rw [midnight_wall_lt]
      push_cast at this ⊢
      omega)
    (fun k _ => by simp [GoMap.keys])
    (fun i j hij _ hkey => by
      rw [hit, hit] at hkey
      have h1 : ¬ (Monthly = Daily) := by decide
      have h2 : ¬ (Monthly = Weekly) := by decide
      simp only [periodKeyOf, h1, h2, if_false] at hkey
      obtain ⟨ey, em⟩ := formatYM_inj _ _ hkey
      have e1 : monthIndex (firstOfMonth (monthIndex startDate + i))
          = monthIndex (firstOfMonth (monthIndex startDate + j)) := by
        show 12 * (firstOfMonth _).Year + ((firstOfMonth _).Month - 1)
          = 12 * (firstOfMonth _).Year + ((firstOfMonth _).Month - 1)
        rw [ey, em]
      rw [monthIndex_firstOfMonth, monthIndex_firstOfMonth] at e1
      have : (i : Int) = j := by omega
      have : i = j := by exact_mod_cast this
      omega)
  exact ⟨m, hm, by simpa using hl⟩

theorem dayNumber_of_clock (n r : Int) (h0 : 0 ≤ r) (h1 : r < nsPerDay) :
    (⟨n * nsPerDay + r⟩ : Time).dayNumber = n := by
  simp only [Time.dayNumber]
  have hpos : (0 : Int) < nsPerDay := by decide
  rw [add_comm, Int.add_mul_ediv_right _ _ (ne_of_gt hpos), Int.ediv_eq_zero_of_lt h0 h1,
    zero_add]

theorem rangeStart_monthly_dayNumber (now : Time) :
    rangeStart Monthly now = now.AddDate (-1) 0 0 ∧
    (now.AddDate (-1) 0 0).dayNumber = daysFromCivil (now.Year - 1) now.Month now.Day := by
  have h1 : ¬ (Monthly = Daily) := by decide
  have h2 : ¬ (Monthly = Weekly) := by decide
  refine ⟨by simp only [rangeStart, h1, h2, if_false, if_true], ?_⟩
  obtain ⟨m1, m12⟩ := civil_month_range now.dayNumber
  have e1 : (now.Month - 1) / 12 = 0 := by unfold Time.Month; omega
  have e2 : (now.Month - 1) % 12 + 1 = now.Month := by unfold Time.Month; omega
  have hc := clock_sum now
  have hw : (now.AddDate (-1) 0 0)
      = ⟨daysFromCivil (now.Year - 1) now.Month now.Day * nsPerDay + now.nsOfDay⟩ := by
    simp only [Time.AddDate, Date, add_zero]
    rw [e1, e2]
    congr 1
    have : now.Year + -1 + 0 = now.Year - 1 := by ring
    rw [this]
    linarith
  rw [hw]
  exact dayNumber_of_clock _ _ (Int.emod_nonneg _ (by decide)) (Int.emod_lt_of_pos _ (by decide))

theorem monthIndex_year_before (now : Time) :
    monthIndex now = monthIndex (now.AddDate (-1) 0 0)
      + ((if now.Month = 2 ∧ now.Day = 29 then 11 else 12 : Nat) : Int) := by
  obtain ⟨-, hday⟩ := rangeStart_monthly_dayNumber now
  obtain ⟨m1, m12⟩ := civil_month_range now.dayNumber
  obtain ⟨d1, d31⟩ := civil_day_range now.dayNumber
  have hvalid := civil_day_valid now.dayNumber
  have hY : (civilFromDays now.dayNumber).1 = now.Year := rfl
  have hM : (civilFromDays now.dayNumber).2.1 = now.Month := rfl
  have hD : (civilFromDays now.dayNumber).2.2 = now.Day := rfl
  rw [hY, hM, hD] at hvalid
  rw [hM] at m1 m12
  rw [hD] at d1 d31
  by_cases hfeb : now.Month = 2 ∧ now.Day = 29
  · obtain ⟨hm, hd⟩ := hfeb
    have hleap : isLeapYear now.Year := by
      rw [hm, hd] at hvalid
      by_contra hn
      simp only [daysIn, hn, if_true, if_false] at hvalid
      omega
    have hnot : ¬ isLeapYear (now.Year - 1) := by
      simp only [isLeapYear] at hleap ⊢
      omega
    have hsame : daysFromCivil (now.Year - 1) 2 29 = daysFromCivil (now.Year - 1) 3 1 := by
      rw [daysFromCivil_eq, daysFromCivil_eq]
      have hp := marchYearStart_pred (now.Year - 1)
      rw [if_neg hnot] at hp
      simp only [marchYear, marchYearDay]
      norm_num
      have e : now.Year - 1 - 1 = now.Year - 1 - 1 := rfl
      omega
    have hciv : civilFromDays (now.AddDate (-1) 0 0).dayNumber = (now.Year - 1, 3, 1) := by
      rw [hday, hm, hd, hsame]
      exact civilFromDays_daysFromCivil _ 3 1 (by norm_num) (by norm_num) le_rfl
        (one_le_daysIn _ _)
    have e1 : (now.AddDate (-1) 0 0).Year = now.Year - 1 := by
      simp only [Time.Year, hciv]
    have e2 : (now.AddDate (-1) 0 0).Month = 3 := by
      simp only [Time.Month, hciv]
    rw [if_pos ⟨hm, hd⟩]
    simp only [monthIndex]
    rw [e1, e2, hm]
    push_cast
    ring
  · have hd' : now.Day ≤ daysIn (now.Year - 1) now.Month := by
      by_cases hm : now.Month = 2
      · have : now.Day ≠ 29 := fun h => hfeb ⟨hm, h⟩
        rw [hm] at hvalid ⊢
        have h29 := daysIn_le now.Year 2
        have h0 : isLeapYear 0 := by decide
        simp only [daysIn, h0, if_true] at h29 hvalid ⊢
        split_ifs <;> split_ifs at hvalid <;> omega
      · simp only [daysIn, hm, if_false] at hvalid ⊢
        exact hvalid
    have hciv : civilFromDays (now.AddDate (-1) 0 0).dayNumber
        = (now.Year - 1, now.Month, now.Day) := by
      rw [hday]
      exact civilFromDays_daysFromCivil _ _ _ m1 m12 d1 hd'
    rw [if_neg hfeb]
    simp only [monthIndex]
    have e1 : (now.AddDate (-1) 0 0).Year = now.Year - 1 := by
      simp only [Time.Year, hciv]
    have e2 : (now.AddDate (-1) 0 0).Month = now.Month := by
      simp only [Time.Month, hciv]
    rw [e1, e2]
    push_cast
    ring

theorem monthly_count (keyOrder : List String → List String) (hk : ∀ l, (keyOrder l).Perm l)
    (now : Time) (collection : List FocusSession) (userID : Nat) :
    ∃ trends, GetProductivityTrends keyOrder now collection userID Monthly = some trends ∧
      trends.HasEntries (if now.Month = 2 ∧ now.Day = 29 then 12 else 13) := by
  obtain ⟨hrange, -⟩ := rangeStart_monthly_dayNumber now
  obtain ⟨m, hm, hl⟩ := seeded_monthly (now.AddDate (-1) 0 0) now _ (monthIndex_year_before now)
  have hres : resolvePeriod Monthly = Monthly := by decide
  obtain ⟨trends, ht, he⟩ := buildTrends_count keyOrder hk Monthly (Or.inr (Or.inr rfl))
    (now.AddDate (-1) 0 0) now
    (GetSessionsByDateRange collection userID (now.AddDate (-1) 0 0) now) m hm
  refine ⟨trends, ?_, ?_⟩
  · simp only [GetProductivityTrends, hrange, hres]
    exact ht
  · rw [hl] at he
    split_ifs at he ⊢ <;> exact he

/-- C26: `GetProductivityTrends` takes its range from `now`: 30 days back for daily, 12*7
days back for weekly, one year back (`AddDate(-1, 0, 0)`) for monthly. It returns exactly
31 entries for daily. For monthly it returns exactly 13 entries, unless `now` is
29 February, when it returns exactly 12. For weekly it returns exactly 13 entries when the
ISO week-year of `now` and that of `now` minus 84 days are their calendar years. -/
theorem C26_entry_counts (keyOrder : List String → List String)
    (hk : ∀ l, (keyOrder l).Perm l) (now : Time) (collection : List FocusSession)
    (userID : Nat) :
    (rangeStart Daily now = now.plusDays (-30) ∧ rangeStart Weekly now = now.plusDays (-12 * 7) ∧
      rangeStart Monthly now = now.AddDate (-1) 0 0) ∧
    (∃ trends, GetProductivityTrends keyOrder now collection userID Daily = some trends ∧
      trends.HasEntries 31) ∧
    (∃ trends, GetProductivityTrends keyOrder now collection userID Monthly = some trends ∧
      trends.HasEntries (if now.Month = 2 ∧ now.Day = 29 then 12 else 13)) ∧
    (now.ISOWeek.1 = now.Year →
      (now.plusDays (-84)).ISOWeek.1 = (now.plusDays (-84)).Year →
      ∃ trends, GetProductivityTrends keyOrder now collection userID Weekly = some trends ∧
        trends.HasEntries 13) := by
  have hwd : ¬ (Weekly = Daily) := by decide
  refine ⟨⟨?_, ?_, (rangeStart_monthly_dayNumber now).1⟩,
    daily_count keyOrder hk now collection userID,
    monthly_count keyOrder hk now collection userID,
    weekly_count keyOrder hk now collection userID⟩
  · simp only [rangeStart, if_true, AddDate_days_eq]
  · simp only [rangeStart, hwd, if_false, if_true, AddDate_days_eq]

/-- C26 at 25 June 2025, 10:00, with an empty collection. -/
theorem C26_entry_counts_witness :
    (∃ trends, GetProductivityTrends id (Date 2025 6 25 10 0 0 0) [] 0 Daily = some trends ∧
      trends.HasEntries 31) ∧
    (∃ trends, GetProductivityTrends id (Date 2025 6 25 10 0 0 0) [] 0 Monthly = some trends ∧
      trends.HasEntries 13) ∧
    (∃ trends, GetProductivityTrends id (Date 2025 6 25 10 0 0 0) [] 0 Weekly = some trends ∧
      trends.HasEntries 13) :=
  ⟨(C26_entry_counts id (fun l => List.Perm.refl l) (Date 2025 6 25 10 0 0 0) [] 0).2.1,
    (C26_entry_counts id (fun l => List.Perm.refl l) (Date 2025 6 25 10 0 0 0) [] 0).2.2.1,
    (C26_entry_counts id (fun l => List.Perm.refl l) (Date 2025 6 25 10 0 0 0) [] 0).2.2.2
      (by decide) (by decide)⟩

/-- C26 fails on 29 February and in a week that straddles a year boundary: on
29 February 2024 the monthly trend has 12 entries, March 2023 to February 2024; on Tuesday
31 December 2024, in the week from 30 December 2024 to 5 January 2025, the weekly trend has
65 entries, and on Saturday 2 January 2021 it has none. -/
theorem C26_counts_on_leap_day_and_year_boundary :
    (Date 2024 2 29 12 0 0 0).Month = 2 ∧ (Date 2024 2 29 12 0 0 0).Day = 29 ∧
    (GetProductivityTrends id (Date 2024 2 29 12 0 0 0) [] 0 Monthly).map
      (fun trends => (trends.Dates.length, trends.Dates.head?, trends.Dates.getLast?))
      = some (12, some "Mar 2023", some "Feb 2024") ∧
    (GetProductivityTrends id (Date 2024 12 31 10 0 0 0) [] 0 Weekly).map
      (fun trends => trends.Dates.length) = some 65 ∧
    (GetProductivityTrends id (Date 2021 1 2 10 0 0 0) [] 0 Weekly).map
      (fun trends => trends.Dates.length) = some 0 := by
  refine ⟨?_, ?_, ?_, ?_, ?_⟩ <;> decide!



/-! ### Binary64: what the rounding returns

For a number `q` other than 0, with `e` the exponent of its leading binary digit and `k`
the larger of `e - 52` and `-1074`, `F64.round q` is an integer multiple `m * 2 ^ k` of
`2 ^ k` with `|m| ≤ 2 ^ 53`, which is a binary64 number; no multiple of `2 ^ k` is nearer
to `q`; and if `q` lies half way between two multiples, `m` is even (`F64_round_spec`). A
multiple of `2 ^ k` is returned as it is, so the conversion of an integer below `2 ^ 53`
in absolute value is exact. -/

theorem binaryDigits_zero (fuel : Nat) : binaryDigits fuel 0 = 0 := by
  cases fuel <;> simp [binaryDigits]

theorem binaryDigits_spec (fuel : Nat) : ∀ n : Nat, 0 < n → n ≤ fuel →
    2 ^ (binaryDigits fuel n - 1) ≤ n ∧ n < 2 ^ binaryDigits fuel n := by
  induction fuel with
  | zero => intro n h1 h2; omega
  | succ f ih =>
    intro n h1 h2
    have hn : n ≠ 0 := by omega
    simp only [binaryDigits, hn, if_false, Nat.add_sub_cancel]
    by_cases h : n / 2 = 0
    · rw [h, binaryDigits_zero]
      have : n = 1 := by omega
      subst this
      simp
    · have hpos : 0 < n / 2 := Nat.pos_of_ne_zero h
      have hle : n / 2 ≤ f := by omega
      obtain ⟨a, b⟩ := ih (n / 2) hpos hle
      have hd : binaryDigits f (n / 2) ≠ 0 := by
        intro h0
        rw [h0] at b
        simp at b
        omega
      obtain ⟨d, hd'⟩ := Nat.exists_eq_succ_of_ne_zero hd
      rw [hd'] at a b ⊢
      simp only [Nat.succ_eq_add_one, Nat.add_sub_cancel] at a b ⊢
      rw [pow_succ] at b ⊢
      rw [pow_succ]
      constructor <;> omega

theorem binaryExponent_spec (q : ℚ) (hq : q ≠ 0) :
    (2 : ℚ) ^ binaryExponent q ≤ |q| ∧ |q| < (2 : ℚ) ^ (binaryExponent q + 1) := by
  have hN : 0 < q.num.natAbs := Int.natAbs_pos.mpr (Rat.num_ne_zero.mpr hq)
  have hD : 0 < q.den := q.den_pos
  obtain ⟨a1, a2⟩ := binaryDigits_spec q.num.natAbs q.num.natAbs hN le_rfl
  obtain ⟨b1, b2⟩ := binaryDigits_spec q.den q.den hD le_rfl
  have habs : |q| = (q.num.natAbs : ℚ) / (q.den : ℚ) := by
    have h1 : |q| = |(q.num : ℚ)| / (q.den : ℚ) := by
      conv_lhs => rw [← Rat.num_div_den q]
      rw [abs_div, abs_of_pos (by exact_mod_cast hD : (0 : ℚ) < (q.den : ℚ))]
    rw [h1]
    rw [Nat.cast_natAbs, Int.cast_abs]
  have hDq : (0 : ℚ) < (q.den : ℚ) := by exact_mod_cast hD
  have h2 : (0 : ℚ) < 2 := by norm_num
  have ha : binaryDigits q.num.natAbs q.num.natAbs ≠ 0 := by
    intro h0
    rw [h0, pow_zero] at a2
    omega
  have hb : binaryDigits q.den q.den ≠ 0 := by
    intro h0
    rw [h0, pow_zero] at b2
    omega
  obtain ⟨a, ha'⟩ := Nat.exists_eq_succ_of_ne_zero ha
  obtain ⟨b, hb'⟩ := Nat.exists_eq_succ_of_ne_zero hb
  unfold binaryExponent
  simp only []
  rw [ha'] at a1 a2 ⊢
  rw [hb'] at b1 b2 ⊢
  simp only [Nat.succ_eq_add_one, Nat.add_sub_cancel] at a1 a2 b1 b2 ⊢
  have a1q : (2 : ℚ) ^ a ≤ (q.num.natAbs : ℚ) := by exact_mod_cast a1
  have a2q : (q.num.natAbs : ℚ) < (2 : ℚ) ^ (a + 1) := by exact_mod_cast a2
  have b1q : (2 : ℚ) ^ b ≤ (q.den : ℚ) := by exact_mod_cast b1
  have b2q : (q.den : ℚ) < (2 : ℚ) ^ (b + 1) := by exact_mod_cast b2
  have hpa : (0 : ℚ) < (2 : ℚ) ^ a := by positivity
  have hpb : (0 : ℚ) < (2 : ℚ) ^ b := by positivity
  rw [habs]
  split_ifs with hc
  · have hcq : (q.num.natAbs : ℚ) * (2 : ℚ) ^ (b + 1) < (q.den : ℚ) * (2 : ℚ) ^ (a + 1) := by
      exact_mod_cast hc
    have e1 : ((a + 1 : Nat) : Int) - ((b + 1 : Nat) : Int) - 1 = (a : Int) - ((b : Int) + 1) := by
      push_cast; ring
    have e2 : ((a + 1 : Nat) : Int) - ((b + 1 : Nat) : Int) - 1 + 1
        = ((a : Int) + 1) - ((b : Int) + 1) := by
      push_cast; ring
    rw [e2, e1, zpow_sub₀ (ne_of_gt h2), zpow_sub₀ (ne_of_gt h2)]
    have x1 : (2 : ℚ) ^ (a : Int) = (2 : ℚ) ^ a := zpow_natCast 2 a
    have x2 : (2 : ℚ) ^ ((b : Int) + 1) = (2 : ℚ) ^ (b + 1) := by
      rw [← zpow_natCast]; push_cast; rfl
    have x3 : (2 : ℚ) ^ ((a : Int) + 1) = (2 : ℚ) ^ (a + 1) := by
      rw [← zpow_natCast]; push_cast; rfl
    rw [x1, x2, x3]
    constructor
    · rw [div_le_div_iff₀ (by positivity) hDq]
      nlinarith
    · rw [div_lt_div_iff₀ hDq (by positivity)]
      linarith
  · have hcq : (q.den : ℚ) * (2 : ℚ) ^ (a + 1) ≤ (q.num.natAbs : ℚ) * (2 : ℚ) ^ (b + 1) := by
      exact_mod_cast not_lt.mp hc
    have e1 : ((a + 1 : Nat) : Int) - ((b + 1 : Nat) : Int) = ((a : Int) + 1) - ((b : Int) + 1) := by
      push_cast; ring
    have e2 : ((a + 1 : Nat) : Int) - ((b + 1 : Nat) : Int) + 1
        = ((a : Int) + 1 + 1) - ((b : Int) + 1) := by
      push_cast; ring
    rw [e2, e1, zpow_sub₀ (ne_of_gt h2), zpow_sub₀ (ne_of_gt h2)]
    have x2 : (2 : ℚ) ^ ((b : Int) + 1) = (2 : ℚ) ^ (b + 1) := by
      rw [← zpow_natCast]; push_cast; rfl
    have x3 : (2 : ℚ) ^ ((a : Int) + 1) = (2 : ℚ) ^ (a + 1) := by
      rw [← zpow_natCast]; push_cast; rfl
    have x4 : (2 : ℚ) ^ ((a : Int) + 1 + 1) = (2 : ℚ) ^ (a + 1 + 1) := by
      rw [← zpow_natCast]; push_cast; rfl
    rw [x2, x3, x4]
    constructor
    · rw [div_le_div_iff₀ (by positivity) hDq]
      linarith
    · rw [div_lt_div_iff₀ hDq (by positivity)]
      have : (2 : ℚ) ^ (a + 1 + 1) = 2 * (2 : ℚ) ^ (a + 1) := by ring
      have : (2 : ℚ) ^ (b + 1) = 2 * (2 : ℚ) ^ b := by ring
      nlinarith

theorem nearestEven_spec (n : Int) (d : Nat) (hd : 0 < d) :
    2 * |n - nearestEven n d * d| ≤ d ∧
    (2 * |n - nearestEven n d * d| = d → nearestEven n d % 2 = 0) := by
  have hd' : (0 : Int) < d := by exact_mod_cast hd
  have hdiv := Int.emod_add_ediv n d
  have h0 := Int.emod_nonneg n (ne_of_gt hd')
  have h1 := Int.emod_lt_of_pos n hd'
  have k1 : n - n / (d : Int) * d = n % (d : Int) := by linarith [mul_comm (n / (d : Int)) (d : Int)]
  have k2 : n - (n / (d : Int) + 1) * d = n % (d : Int) - d := by
    linarith [mul_comm (n / (d : Int)) (d : Int), add_mul (n / (d : Int)) 1 (d : Int)]
  unfold nearestEven
  simp only []
  split_ifs with c1 c2 c3
  · rw [k1, abs_of_nonneg h0]
    exact ⟨by omega, fun h => by omega⟩
  · rw [k2, abs_of_nonpos (by omega)]
    exact ⟨by omega, fun h => by omega⟩
  · rw [k1, abs_of_nonneg h0]
    exact ⟨by omega, fun _ => c3⟩
  · rw [k2, abs_of_nonpos (by omega)]
    exact ⟨by omega, fun _ => by omega⟩

theorem nearestEven_nearest (n : Int) (d : Nat) (hd : 0 < d) (m : Int) :
    |n - nearestEven n d * d| ≤ |n - m * d| := by
  have hd' : (0 : Int) < d := by exact_mod_cast hd
  have h := (nearestEven_spec n d hd).1
  rcases lt_trichotomy m (nearestEven n d) with hlt | heq | hgt
  · have hm : m * d ≤ (nearestEven n d - 1) * d :=
      Int.mul_le_mul_of_nonneg_right (by omega) (le_of_lt hd')
    have := le_abs_self (n - m * d)
    have := neg_abs_le (n - nearestEven n d * d)
    linarith [sub_mul (nearestEven n d) 1 (d : Int)]
  · rw [heq]
  · have hm : (nearestEven n d + 1) * d ≤ m * d :=
      Int.mul_le_mul_of_nonneg_right (by omega) (le_of_lt hd')
    have := neg_abs_le (n - m * d)
    have := le_abs_self (n - nearestEven n d * d)
    linarith [add_mul (nearestEven n d) 1 (d : Int)]

theorem nearestEven_scaled (n : Int) (d : Nat) (hd : 0 < d) (q s : ℚ) (hs : 0 < s)
    (h : q = (n : ℚ) / (d : ℚ) * s) :
    2 * |q - (nearestEven n d : ℚ) * s| ≤ s ∧
    (2 * |q - (nearestEven n d : ℚ) * s| = s → nearestEven n d % 2 = 0) ∧
    ∀ m : Int, |q - (nearestEven n d : ℚ) * s| ≤ |q - (m : ℚ) * s| := by
  have hdq : (0 : ℚ) < (d : ℚ) := by exact_mod_cast hd
  have hsd : 0 < s / d := div_pos hs hdq
  have key : ∀ m : Int, |q - (m : ℚ) * s| = ((|n - m * d| : Int) : ℚ) * (s / d) := by
    intro m
    have : q - (m : ℚ) * s = (((n - m * d : Int)) : ℚ) * (s / d) := by
      rw [h]
      push_cast
      field_simp
      ring
    rw [this, abs_mul, abs_of_pos hsd, Int.cast_abs]
  have hds : (d : ℚ) * (s / d) = s := by field_simp
  obtain ⟨h1, h2⟩ := nearestEven_spec n d hd
  refine ⟨?_, ?_, ?_⟩
  · rw [key]
    have h1q : (2 : ℚ) * ((|n - nearestEven n d * d| : Int) : ℚ) ≤ (d : ℚ) := by
      exact_mod_cast h1
    have := mul_le_mul_of_nonneg_right h1q (le_of_lt hsd)
    rw [hds] at this
    linarith
  · intro he
    apply h2
    rw [key] at he
    have h3 : (2 * ((|n - nearestEven n d * d| : Int) : ℚ)) * (s / d) = (d : ℚ) * (s / d) := by
      rw [hds]
      linarith
    have := mul_right_cancel₀ (ne_of_gt hsd) h3
    exact_mod_cast this
  · intro m
    rw [key, key]
    apply mul_le_mul_of_nonneg_right _ (le_of_lt hsd)
    exact_mod_cast nearestEven_nearest n d hd m

theorem nearestEven_significand (q : ℚ) (hq : q ≠ 0) (n : Int) (d : Nat) (hd : 0 < d)
    (k : Int) (hk : binaryExponent q - 52 ≤ k) (h : q = (n : ℚ) / (d : ℚ) * (2 : ℚ) ^ k) :
    |nearestEven n d| ≤ 2 ^ 53 := by
  have hs : (0 : ℚ) < (2 : ℚ) ^ k := by positivity
  obtain ⟨h1, -, -⟩ := nearestEven_scaled n d hd q _ hs h
  obtain ⟨-, e2⟩ := binaryExponent_spec q hq
  have hle : (2 : ℚ) ^ (binaryExponent q + 1) ≤ (2 : ℚ) ^ (k + 53) :=
    zpow_le_zpow_right₀ (by norm_num) (by omega)
  have hsplit : (2 : ℚ) ^ (k + 53) = (2 : ℚ) ^ k * 2 ^ 53 := by
    rw [zpow_add₀ (by norm_num : (2 : ℚ) ≠ 0)]
    norm_cast
  have hm : |((nearestEven n d : Int) : ℚ)| * (2 : ℚ) ^ k
      = |(nearestEven n d : ℚ) * (2 : ℚ) ^ k| := by
    rw [abs_mul, abs_of_pos hs]
  have htri : |(nearestEven n d : ℚ) * (2 : ℚ) ^ k|
      ≤ |q| + |q - (nearestEven n d : ℚ) * (2 : ℚ) ^ k| := by
    have := abs_sub_abs_le_abs_sub ((nearestEven n d : ℚ) * (2 : ℚ) ^ k) q
    rw [abs_sub_comm] at this
    linarith
  by_contra hcon
  have hge : (2 : Int) ^ 53 + 1 ≤ |nearestEven n d| := by omega
  have hgeq : (2 : ℚ) ^ 53 + 1 ≤ |((nearestEven n d : Int) : ℚ)| := by
    rw [← Int.cast_abs]
    exact_mod_cast hge
  have := mul_le_mul_of_nonneg_right hgeq (le_of_lt hs)
  nlinarith

theorem F64_round_spec (q : ℚ) (hq : q ≠ 0) :
    (2 : ℚ) ^ binaryExponent q ≤ |q| ∧ |q| < (2 : ℚ) ^ (binaryExponent q + 1) ∧
    ∃ m : Int,
      F64.round q = (m : ℚ) * (2 : ℚ) ^ max (binaryExponent q - 52) (-1074) ∧
      |m| ≤ 2 ^ 53 ∧
      2 * |q - (m : ℚ) * (2 : ℚ) ^ max (binaryExponent q - 52) (-1074)|
        ≤ (2 : ℚ) ^ max (binaryExponent q - 52) (-1074) ∧
      (2 * |q - (m : ℚ) * (2 : ℚ) ^ max (binaryExponent q - 52) (-1074)|
          = (2 : ℚ) ^ max (binaryExponent q - 52) (-1074) → m % 2 = 0) ∧
      ∀ m' : Int, |q - (m : ℚ) * (2 : ℚ) ^ max (binaryExponent q - 52) (-1074)|
        ≤ |q - (m' : ℚ) * (2 : ℚ) ^ max (binaryExponent q - 52) (-1074)| := by
  refine ⟨(binaryExponent_spec q hq).1, (binaryExponent_spec q hq).2, ?_⟩
  have hk : binaryExponent q - 52 ≤ max (binaryExponent q - 52) (-1074) := le_max_left _ _
  have hr : F64.round q =
      if max (binaryExponent q - 52) (-1074) ≥ 0 then
        ((nearestEven q.num (q.den * 2 ^ (max (binaryExponent q - 52) (-1074)).toNat)
          * (2 ^ (max (binaryExponent q - 52) (-1074)).toNat : Nat) : Int) : ℚ)
      else
        (nearestEven (q.num * (2 ^ (-(max (binaryExponent q - 52) (-1074))).toNat : Nat))
            q.den : ℚ)
          / ((2 ^ (-(max (binaryExponent q - 52) (-1074))).toNat : Nat) : ℚ) := by
    simp only [F64.round, hq, if_false]
  rw [hr]
  generalize max (binaryExponent q - 52) (-1074) = k at hk
  have hD : 0 < q.den := q.den_pos
  have hDq : (0 : ℚ) < (q.den : ℚ) := by exact_mod_cast hD
  have hs : (0 : ℚ) < (2 : ℚ) ^ k := by positivity
  have hqd : q * (q.den : ℚ) = (q.num : ℚ) := Rat.mul_den_eq_num q
  by_cases hk0 : k ≥ 0
  · obtain ⟨K, rfl⟩ := Int.eq_ofNat_of_zero_le hk0
    have hd : 0 < q.den * 2 ^ K := Nat.mul_pos hD (by positivity)
    have hpow : (2 : ℚ) ^ ((K : Nat) : Int) = (2 : ℚ) ^ K := zpow_natCast 2 K
    have h : q = (q.num : ℚ) / ((q.den * 2 ^ K : Nat) : ℚ) * (2 : ℚ) ^ ((K : Nat) : Int) := by
      rw [hpow]
      push_cast
      have hp : (0 : ℚ) < (2 : ℚ) ^ K := by positivity
      field_simp
      linear_combination ((2 : ℚ) ^ K) * hqd
    have hround : (if ((K : Nat) : Int) ≥ 0 then
        ((nearestEven q.num (q.den * 2 ^ (((K : Nat) : Int)).toNat)
          * (2 ^ (((K : Nat) : Int)).toNat : Nat) : Int) : ℚ)
      else
        (nearestEven (q.num * (2 ^ (-(((K : Nat) : Int))).toNat : Nat)) q.den : ℚ)
          / ((2 ^ (-(((K : Nat) : Int))).toNat : Nat) : ℚ))
        = (nearestEven q.num (q.den * 2 ^ K) : ℚ) * (2 : ℚ) ^ ((K : Nat) : Int) := by
      rw [hpow, if_pos hk0]
      simp only [Int.toNat_ofNat]
      push_cast
      rfl
    obtain ⟨s1, s2, s3⟩ := nearestEven_scaled q.num (q.den * 2 ^ K) hd q _ hs h
    exact ⟨_, hround, nearestEven_significand q hq _ _ hd _ hk h, s1, s2, s3⟩
  · have hneg : 0 ≤ -k := by omega
    obtain ⟨K, hK⟩ := Int.eq_ofNat_of_zero_le hneg
    have hkK : k = -((K : Nat) : Int) := by omega
    subst hkK
    have hpow : (2 : ℚ) ^ (-((K : Nat) : Int)) = ((2 : ℚ) ^ K)⁻¹ := by
      rw [zpow_neg, zpow_natCast]
    have hp : (0 : ℚ) < (2 : ℚ) ^ K := by positivity
    have h : q = ((q.num * (2 ^ K : Nat) : Int) : ℚ) / (q.den : ℚ)
        * (2 : ℚ) ^ (-((K : Nat) : Int)) := by
      rw [hpow]
      push_cast
      field_simp
      linear_combination ((2 : ℚ) ^ K) * hqd
    have hround : (if -((K : Nat) : Int) ≥ 0 then
        ((nearestEven q.num (q.den * 2 ^ (-((K : Nat) : Int)).toNat)
          * (2 ^ (-((K : Nat) : Int)).toNat : Nat) : Int) : ℚ)
      else
        (nearestEven (q.num * (2 ^ (-(-((K : Nat) : Int))).toNat : Nat)) q.den : ℚ)
          / ((2 ^ (-(-((K : Nat) : Int))).toNat : Nat) : ℚ))
        = (nearestEven (q.num * (2 ^ K : Nat)) q.den : ℚ)
            * (2 : ℚ) ^ (-((K : Nat) : Int)) := by
      rw [hpow, if_neg hk0]
      simp only [neg_neg, Int.toNat_ofNat]
      rw [div_eq_mul_inv]
      push_cast
      rfl
    obtain ⟨s1, s2, s3⟩ := nearestEven_scaled (q.num * (2 ^ K : Nat)) q.den hD q _ hs h
    exact ⟨_, hround, nearestEven_significand q hq _ _ hD _ hk h, s1, s2, s3⟩

theorem F64_round_of_multiple (q : ℚ) (hq : q ≠ 0) (m : Int)
    (h : q = (m : ℚ) * (2 : ℚ) ^ max (binaryExponent q - 52) (-1074)) : F64.round q = q := by
  obtain ⟨-, -, m0, h1, -, -, -, h5⟩ := F64_round_spec q hq
  have h6 := h5 m
  rw [← h, sub_self, abs_zero] at h6
  have h0 := abs_eq_zero.mp (le_antisymm h6 (abs_nonneg _))
  rw [h1]
  linarith

theorem F64_ofInt_exact (x : Int) (hx : |x| < 2 ^ 53) : F64.ofInt x = (x : ℚ) := by
  unfold F64.ofInt
  by_cases h0 : x = 0
  · subst h0
    simp [F64.round]
  · have hq : (x : ℚ) ≠ 0 := by exact_mod_cast h0
    obtain ⟨e1, -⟩ := binaryExponent_spec (x : ℚ) hq
    have he : binaryExponent (x : ℚ) < 53 := by
      by_contra hc
      have h1 : (2 : ℚ) ^ (53 : Int) ≤ (2 : ℚ) ^ binaryExponent (x : ℚ) :=
        zpow_le_zpow_right₀ (by norm_num) (by omega)
      have hxq : |(x : ℚ)| < 2 ^ 53 := by
        rw [← Int.cast_abs]
        exact_mod_cast hx
      have h2 : (2 : ℚ) ^ (53 : Int) = 2 ^ 53 := by norm_cast
      linarith
    have hk : max (binaryExponent (x : ℚ) - 52) (-1074) ≤ 0 :=
      max_le (by omega) (by norm_num)
    obtain ⟨K, hK⟩ := Int.eq_ofNat_of_zero_le (neg_nonneg.mpr hk)
    have hkK : max (binaryExponent (x : ℚ) - 52) (-1074) = -((K : Nat) : Int) := by omega
    apply F64_round_of_multiple _ hq (x * 2 ^ K)
    rw [hkK, zpow_neg, zpow_natCast]
    push_cast
    have hp : (0 : ℚ) < (2 : ℚ) ^ K := by positivity
    field_simp

/-! ### Binary64: the rounding on sample values -/

theorem F64_round_samples :
    F64.round (1 / 10) = 3602879701896397 / 36028797018963968 ∧
    F64.round (6 / 5) = 5404319552844595 / 4503599627370496 ∧
    F64.round (32 / 5) = 3602879701896397 / 562949953421312 ∧
    F64.round (1 / 3) = 6004799503160661 / 18014398509481984 ∧
    F64.round (-1 / 3) = -6004799503160661 / 18014398509481984 ∧
    F64.round 9007199254740993 = 9007199254740992 ∧
    F64.round 9007199254740995 = 9007199254740996 ∧
    F64.round 9000000000000000001 = 9000000000000000000 ∧
    F64.round (1 / 2 ^ 1075) = 0 ∧
    F64.round (3 / 2 ^ 1075) = 1 / 2 ^ 1073 ∧
    F64.round (1 / 2) = 1 / 2 ∧
    F64.round 10 = 10 := by
  refine ⟨?_, ?_, ?_, ?_, ?_, ?_, ?_, ?_, ?_, ?_, ?_, ?_⟩ <;> decide!

/-! ### Score in binary64 -/

theorem score_eq_spec_f64 (s : FocusSession) (a r : Int)
    (hs : s.Status = StatusCompleted) (ha : s.ActualDuration = some a) (hr : s.Rating = some r) :
    F64.CalculateProductivityScore s = F64.specScore r s.Duration a s.Focus s.Distractions := by
  unfold F64.CalculateProductivityScore F64.specScore clamp10 F64.specAdjusted
  rw [ha, hr]
  simp only [hs, ne_eq, not_true_eq_false, if_false]
  cases hf : s.Focus <;> cases hdi : s.Distractions <;>
    simp only [F64.specPlusFocus, F64.specMinusDistractions] <;>
    split_ifs <;>
    first
      | rfl
      | (exfalso; omega)

/-! ### Score in binary64: bounds and zero cases -/

theorem score_bounds_f64 (s : FocusSession) :
    0 ≤ F64.CalculateProductivityScore s ∧ F64.CalculateProductivityScore s ≤ 10 := by
  unfold F64.CalculateProductivityScore
  split
  · split_ifs <;>
      first
        | exact ⟨le_refl _, by norm_num⟩
        | exact ⟨le_max_left _ _, max_le (by norm_num) (min_le_left _ _)⟩
  · exact ⟨le_refl _, by norm_num⟩

theorem score_zero_f64 (s : FocusSession)
    (h : s.Status ≠ StatusCompleted ∨ s.Rating = none ∨ s.ActualDuration = none) :
    F64.CalculateProductivityScore s = 0 := by
  unfold F64.CalculateProductivityScore
  split
  · next actual rating ha hr =>
    rcases h with h | h | h
    · simp [h]
    · simp [hr] at h
    · simp [ha] at h
  · rfl

/-- C1 (as amended): for a completed session with actual duration and rating present the
score is the clamp to [0, 10] of the following binary64 number, each operation rounded in
this order: the rating; plus 1 when the planned duration is positive and the binary64
quotient of actual by planned duration exceeds the binary64 constant 1.2, minus 1 when it
is positive and the quotient does not (also at ratio exactly 1.2: planned 50, actual 60);
plus `(focus / 10) * 2` when a focus is present; minus the smaller of `distractions / 10`
and 1 when distractions are present and positive. Rating 4, planned 60, actual 75, focus
8, distractions 2 gives 6.3999999999999995, the binary64 number just below 6.4; rating 3,
planned 50, actual 50, no focus, no distractions gives 2. -/
theorem C1_score_formula (s : FocusSession) (a r : Int)
    (hs : s.Status = StatusCompleted) (ha : s.ActualDuration = some a) (hr : s.Rating = some r) :
    F64.CalculateProductivityScore s = F64.specScore r s.Duration a s.Focus s.Distractions ∧
    F64.specAdjusted 3 50 60 = 2 ∧
    F64.CalculateProductivityScore
      (mkSession ⟨0⟩ 50 StatusCompleted (some 60) (some 3) none none) = 2 ∧
    F64.CalculateProductivityScore
      (mkSession ⟨0⟩ 60 StatusCompleted (some 75) (some 4) (some 8) (some 2))
      = 7205759403792793 / 1125899906842624 ∧
    F64.CalculateProductivityScore
      (mkSession ⟨0⟩ 50 StatusCompleted (some 50) (some 3) none none) = 2 := by
  refine ⟨score_eq_spec_f64 s a r hs ha hr, ?_, ?_, ?_, ?_⟩ <;> decide!

theorem C1_score_formula_witness :
    (mkSession ⟨0⟩ 60 StatusCompleted (some 75) (some 4) (some 8) (some 2)).Status
      = StatusCompleted ∧
    F64.CalculateProductivityScore
      (mkSession ⟨0⟩ 60 StatusCompleted (some 75) (some 4) (some 8) (some 2))
      = F64.specScore 4 60 75 (some 8) (some 2) :=
  ⟨rfl, (C1_score_formula
    (mkSession ⟨0⟩ 60 StatusCompleted (some 75) (some 4) (some 8) (some 2)) 75 4
    rfl rfl rfl).1⟩

/-- C1 (as stated) fails. At rating 4, planned 60, actual 75, focus 8, distractions 2 the
formula is worth 32/5 in exact arithmetic, and the score is 6.3999999999999995, which is
neither 32/5 nor the binary64 number 6.4 but the binary64 number before it. At rating 3,
planned 7500000000000000000, actual 9000000000000000001 the ratio exceeds 1.2 and the
formula is worth 4, and the score is 2: the conversion of the actual duration to binary64
rounds it to 9000000000000000000, and the quotient is the binary64 constant 1.2. -/
theorem C1_example_is_below_6_4 :
    (specScore 4 60 75 (some 8) (some 2) = 32 / 5 ∧
     F64.round (32 / 5) = 3602879701896397 / 562949953421312 ∧
     F64.CalculateProductivityScore
       (mkSession ⟨0⟩ 60 StatusCompleted (some 75) (some 4) (some 8) (some 2))
       = 7205759403792793 / 1125899906842624 ∧
     F64.CalculateProductivityScore
       (mkSession ⟨0⟩ 60 StatusCompleted (some 75) (some 4) (some 8) (some 2)) < F64.round (32 / 5) ∧
     F64.round (32 / 5) - F64.CalculateProductivityScore
       (mkSession ⟨0⟩ 60 StatusCompleted (some 75) (some 4) (some 8) (some 2)) = 1 / 2 ^ 50) ∧
    ((6 : ℚ) / 5 < (9000000000000000001 : ℚ) / 7500000000000000000 ∧
     specScore 3 7500000000000000000 9000000000000000001 none none = 4 ∧
     F64.ofInt 9000000000000000001 = 9000000000000000000 ∧
     F64.div (F64.ofInt 9000000000000000001) (F64.ofInt 7500000000000000000)
       = F64.round (6 / 5) ∧
     F64.CalculateProductivityScore
       (mkSession ⟨0⟩ 7500000000000000000 StatusCompleted (some 9000000000000000001) (some 3)
         none none) = 2) := by
  refine ⟨⟨?_, ?_, ?_, ?_, ?_⟩, ?_, ?_, ?_, ?_, ?_⟩ <;> decide!

/-! ### Binary64 sums -/

theorem sum_append_singleton_f64 (l : List ℚ) (x : ℚ) :
    F64.sum (l ++ [x]) = F64.add (F64.sum l) x := by
  simp [F64.sum, List.foldl_append]

theorem sum_nil_f64 : F64.sum [] = 0 := rfl

/-! ### The counter map of a dimension in binary64 -/

theorem DimInv_frame_f64 {κ : Type} [DecidableEq κ] (category : FocusSession → Option κ)
    (done : List FocusSession) (m : GoMap κ MetricCounter) (s : FocusSession)
    (hs : ∀ c, ¬ (s.ActualDuration.isSome = true ∧ category s = some c))
    (h : F64.DimInv category done m) : F64.DimInv category (done ++ [s]) m := by
  have he : ∀ c, sessionsIn category (done ++ [s]) c = sessionsIn category done c := by
    intro c
    rw [sessionsIn_append_singleton, if_neg (hs c), List.append_nil]
  obtain ⟨h1, h2, h3⟩ := h
  refine ⟨h1, ?_, ?_⟩
  · intro e hem; rw [he]; exact h2 e hem
  · intro c hc; rw [he] at hc; exact h3 c hc

theorem DimInv_ensure_f64 {κ : Type} [DecidableEq κ] (category : FocusSession → Option κ)
    (done : List FocusSession) (m : GoMap κ MetricCounter) (k : κ)
    (h : F64.DimInv category done m) :
    F64.DimInv category done (match m.get? k with | some _ => m | none => m.set k {}) ∧
    k ∈ GoMap.keys (match m.get? k with | some _ => m | none => m.set k {}) := by
  obtain ⟨h1, h2, h3⟩ := h
  cases hg : m.get? k with
  | some c =>
    have hk : k ∈ m.keys := by
      by_contra hk
      rw [(GoMap.get?_eq_none_iff m k).mpr hk] at hg
      exact Option.noConfusion hg
    exact ⟨⟨h1, h2, h3⟩, hk⟩
  | none =>
    have hk : k ∉ m.keys := (GoMap.get?_eq_none_iff m k).mp hg
    have hkeys : (m.set k ({} : MetricCounter)).keys = m.keys ++ [k] := by
      rw [GoMap.keys_set, if_neg hk]
    have hempty : sessionsIn category done k = [] := by
      by_contra hne
      exact hk (h3 k hne)
    refine ⟨⟨GoMap.nodup_set _ _ _ h1, ?_, ?_⟩, ?_⟩
    · intro e hem
      rcases (GoMap.mem_set_iff m k {} hk e).mp hem with hem | hem
      · exact h2 e hem
      · subst hem
        simp [hempty, F64.sum]
    · intro c hc
      rw [hkeys]
      exact List.mem_append_left _ (h3 c hc)
    · rw [hkeys]; simp

theorem DimInv_record_f64 {κ : Type} [DecidableEq κ] (category : FocusSession → Option κ)
    (done : List FocusSession) (m : GoMap κ MetricCounter) (s : FocusSession) (a : Int)
    (k : κ) (ha : s.ActualDuration = some a) (hk : category s = some k) (hmem : k ∈ m.keys)
    (h : F64.DimInv category done m) :
    F64.DimInv category (done ++ [s])
      (m.update k (fun c => F64.record c s a (F64.CalculateProductivityScore s))) := by
  obtain ⟨h1, h2, h3⟩ := h
  have hsome : s.ActualDuration.isSome = true := by simp [ha]
  refine ⟨by rw [GoMap.keys_update]; exact h1, ?_, ?_⟩
  · intro e hem
    rw [GoMap.mem_update _ _ _ h1] at hem
    rw [sessionsIn_append_singleton]
    rcases hem with ⟨hne, hem⟩ | ⟨heq, c, hc, h2'⟩
    · have hno : ¬ (s.ActualDuration.isSome = true ∧ category s = some e.1) := by
        rintro ⟨-, hc⟩
        rw [hk] at hc
        exact hne (Option.some.inj hc).symm
      rw [if_neg hno, List.append_nil]
      exact h2 e hem
    · have hyes : s.ActualDuration.isSome = true ∧ category s = some e.1 := by
        rw [heq]; exact ⟨hsome, hk⟩
      obtain ⟨hcc, hcs⟩ := h2 _ hc
      rw [if_pos hyes, h2', heq]
      simp only [F64.record, List.length_append, List.length_singleton,
        List.map_append, List.map_cons, List.map_nil, sum_append_singleton_f64]
      constructor
      · rw [hcc]; push_cast; ring
      · rw [hcs]
  · intro c hc
    rw [GoMap.keys_update]
    rw [sessionsIn_append_singleton] at hc
    by_cases hcase : s.ActualDuration.isSome = true ∧ category s = some c
    · have : c = k := by
        have := hcase.2
        rw [hk] at this
        exact (Option.some.inj this).symm
      rw [this]; exact hmem
    · rw [if_neg hcase, List.append_nil] at hc
      exact h3 c hc

theorem dimStep_inv_f64 {κ : Type} [DecidableEq κ] (category : FocusSession → Option κ)
    (done : List FocusSession) (m : GoMap κ MetricCounter) (s : FocusSession)
    (h : F64.DimInv category done m) :
    F64.DimInv category (done ++ [s]) (F64.dimStep category m s) := by
  unfold F64.dimStep
  cases ha : s.ActualDuration with
  | none =>
    exact DimInv_frame_f64 category done m s (fun c hc => by simp [ha] at hc) h
  | some a =>
    cases hk : category s with
    | none =>
      exact DimInv_frame_f64 category done m s (fun c hc => by simp [hk] at hc) h
    | some k =>
      obtain ⟨he, hmem⟩ := DimInv_ensure_f64 category done m k h
      exact DimInv_record_f64 category done _ s a k ha hk hmem he

theorem foldl_dimStep_inv_f64 {κ : Type} [DecidableEq κ] (category : FocusSession → Option κ)
    (sessions : List FocusSession) :
    ∀ (done : List FocusSession) (m : GoMap κ MetricCounter), F64.DimInv category done m →
      F64.DimInv category (done ++ sessions) (sessions.foldl (F64.dimStep category) m) := by
  induction sessions with
  | nil => intro done m h; simpa using h
  | cons s rest ih =>
    intro done m h
    have := ih (done ++ [s]) (F64.dimStep category m s) (dimStep_inv_f64 category done m s h)
    simpa using this

theorem DimInv_init_f64 {κ : Type} [DecidableEq κ] (category : FocusSession → Option κ)
    (keys : List κ) (hn : keys.Nodup) :
    F64.DimInv category [] (keys.map (fun k => (k, ({} : MetricCounter)))) := by
  refine ⟨?_, ?_, ?_⟩
  · simpa [GoMap.keys, List.map_map, Function.comp_def] using hn
  · intro e he
    obtain ⟨k, -, hk⟩ := List.mem_map.mp he
    subst hk
    simp [sessionsIn, countedSessions, F64.sum]
  · intro c hc
    exact absurd (by simp [sessionsIn, countedSessions]) hc

theorem dimStep_keys_f64 {κ : Type} [DecidableEq κ] (category : FocusSession → Option κ)
    (m : GoMap κ MetricCounter) (s : FocusSession) :
    (F64.dimStep category m s).keys = firstSeenFrom m.keys (categoriesOf category [s]) := by
  unfold F64.dimStep
  cases ha : s.ActualDuration with
  | none => simp [categoriesOf, countedSessions, ha, firstSeenFrom]
  | some a =>
    cases hk : category s with
    | none => simp [categoriesOf, countedSessions, ha, hk, firstSeenFrom]
    | some k =>
      refine (GoMap.keys_update _ _ _).trans ((ensure_keys m k).trans ?_)
      simp [categoriesOf, countedSessions, ha, hk, firstSeenFrom]

theorem foldl_dimStep_keys_f64 {κ : Type} [DecidableEq κ]
    (category : FocusSession → Option κ) (sessions : List FocusSession) :
    ∀ m : GoMap κ MetricCounter, (sessions.foldl (F64.dimStep category) m).keys
      = firstSeenFrom m.keys (categoriesOf category sessions) := by
  induction sessions with
  | nil => intro m; simp [categoriesOf, countedSessions, firstSeenFrom]
  | cons s rest ih =>
    intro m
    rw [List.foldl_cons, ih, categoriesOf_cons category s rest, dimStep_keys_f64]
    simp only [firstSeenFrom, List.foldl_append]

/-! ### The statistics loop in binary64, dimension by dimension -/

theorem statsStep_locationCounter_f64 (acc : StatsAcc) (s : FocusSession) :
    (F64.statsStep acc s).locationCounter = F64.dimStep locationOf acc.locationCounter s := by
  unfold F64.statsStep F64.dimStep locationOf ensureCounter
  cases ha : s.ActualDuration with
  | none => simp only []; split_ifs <;> rfl
  | some a => cases hl : s.LocationDetails <;> rfl

theorem statsStep_locationTypeCounter_f64 (acc : StatsAcc) (s : FocusSession) :
    (F64.statsStep acc s).locationTypeCounter
      = F64.dimStep locationTypeOf acc.locationTypeCounter s := by
  unfold F64.statsStep F64.dimStep locationTypeOf ensureCounter
  cases ha : s.ActualDuration with
  | none => simp only []; split_ifs <;> rfl
  | some a =>
    cases hl : s.LocationDetails with
    | none => rfl
    | some loc =>
      simp only []
      split_ifs <;> rfl

theorem statsStep_dayCounter_skipped_f64 (acc : StatsAcc) (s : FocusSession)
    (h : s.ActualDuration = none) : (F64.statsStep acc s).dayCounter = acc.dayCounter := by
  simp only [F64.statsStep, h]
  split_ifs <;> rfl

theorem statsStep_dayCounter_counted_f64 (acc : StatsAcc) (s : FocusSession) (a : Int)
    (h : s.ActualDuration = some a) :
    (F64.statsStep acc s).dayCounter = acc.dayCounter.update s.StartTime.Weekday
      (fun c => F64.record c s a (F64.CalculateProductivityScore s)) := by
  simp only [F64.statsStep, h]

theorem statsStep_dayCounter_f64 (acc : StatsAcc) (s : FocusSession)
    (hk : acc.dayCounter.keys = allWeekdays) :
    (F64.statsStep acc s).dayCounter
      = F64.dimStep (fun s => some s.StartTime.Weekday) acc.dayCounter s := by
  cases ha : s.ActualDuration with
  | none =>
    rw [statsStep_dayCounter_skipped_f64 acc s ha]
    simp [F64.dimStep, ha]
  | some a =>
    rw [statsStep_dayCounter_counted_f64 acc s a ha]
    have hmem : s.StartTime.Weekday ∈ acc.dayCounter.keys := by
      rw [hk]; exact mem_allWeekdays _
    cases hg : acc.dayCounter.get? s.StartTime.Weekday with
    | none => exact absurd hmem ((GoMap.get?_eq_none_iff _ _).mp hg)
    | some c => simp only [F64.dimStep, ha, hg]

theorem foldl_statsStep_locationCounter_f64 (sessions : List FocusSession) :
    ∀ acc : StatsAcc, (sessions.foldl F64.statsStep acc).locationCounter
      = sessions.foldl (F64.dimStep locationOf) acc.locationCounter := by
  induction sessions with
  | nil => intro acc; rfl
  | cons s rest ih =>
    intro acc
    rw [List.foldl_cons, List.foldl_cons, ih, statsStep_locationCounter_f64]

theorem foldl_statsStep_locationTypeCounter_f64 (sessions : List FocusSession) :
    ∀ acc : StatsAcc, (sessions.foldl F64.statsStep acc).locationTypeCounter
      = sessions.foldl (F64.dimStep locationTypeOf) acc.locationTypeCounter := by
  induction sessions with
  | nil => intro acc; rfl
  | cons s rest ih =>
    intro acc
    rw [List.foldl_cons, List.foldl_cons, ih, statsStep_locationTypeCounter_f64]

theorem foldl_statsStep_dayCounter_f64 (sessions : List FocusSession) :
    ∀ acc : StatsAcc, acc.dayCounter.keys = allWeekdays →
      (sessions.foldl F64.statsStep acc).dayCounter
        = sessions.foldl (F64.dimStep (fun s => some s.StartTime.Weekday)) acc.dayCounter := by
  induction sessions with
  | nil => intro acc _; rfl
  | cons s rest ih =>
    intro acc hk
    have hk' : (F64.statsStep acc s).dayCounter.keys = allWeekdays := by
      cases ha : s.ActualDuration with
      | none => rw [statsStep_dayCounter_skipped_f64 acc s ha]; exact hk
      | some a =>
        rw [statsStep_dayCounter_counted_f64 acc s a ha, GoMap.keys_update]; exact hk
    rw [List.foldl_cons, List.foldl_cons, ih _ hk', statsStep_dayCounter_f64 acc s hk]

theorem dayCounter_keys_f64 (sessions : List FocusSession) :
    ∀ acc : StatsAcc, acc.dayCounter.keys = allWeekdays →
      (sessions.foldl F64.statsStep acc).dayCounter.keys = allWeekdays := by
  induction sessions with
  | nil => intro acc hk; exact hk
  | cons s rest ih =>
    intro acc hk
    rw [List.foldl_cons]
    apply ih
    cases ha : s.ActualDuration with
    | none => rw [statsStep_dayCounter_skipped_f64 acc s ha]; exact hk
    | some a =>
      rw [statsStep_dayCounter_counted_f64 acc s a ha, GoMap.keys_update]; exact hk

theorem dayCounter_inv_f64 (sessions : List FocusSession) :
    F64.DimInv (fun s => some s.StartTime.Weekday) sessions
      (sessions.foldl F64.statsStep StatsAcc.init).dayCounter := by
  rw [foldl_statsStep_dayCounter_f64 sessions StatsAcc.init rfl]
  have h0 : F64.DimInv (fun s => some s.StartTime.Weekday) [] StatsAcc.init.dayCounter :=
    DimInv_init_f64 _ allWeekdays (by decide)
  simpa using foldl_dimStep_inv_f64 _ sessions [] _ h0

theorem locationCounter_inv_f64 (sessions : List FocusSession) :
    F64.DimInv locationOf sessions
      (sessions.foldl F64.statsStep StatsAcc.init).locationCounter := by
  rw [foldl_statsStep_locationCounter_f64 sessions StatsAcc.init]
  have h0 : F64.DimInv locationOf [] StatsAcc.init.locationCounter :=
    DimInv_init_f64 locationOf [] List.nodup_nil
  simpa using foldl_dimStep_inv_f64 locationOf sessions [] _ h0

theorem locationTypeCounter_inv_f64 (sessions : List FocusSession) :
    F64.DimInv locationTypeOf sessions
      (sessions.foldl F64.statsStep StatsAcc.init).locationTypeCounter := by
  rw [foldl_statsStep_locationTypeCounter_f64 sessions StatsAcc.init]
  have h0 : F64.DimInv locationTypeOf [] StatsAcc.init.locationTypeCounter :=
    DimInv_init_f64 locationTypeOf [] List.nodup_nil
  simpa using foldl_dimStep_inv_f64 locationTypeOf sessions [] _ h0

/-! ### The "Calculate productivity by ..." loops in binary64 -/

theorem bestStep_maxScore_f64 {κ : Type} [DecidableEq κ] (acc : BestAcc κ)
    (e : κ × MetricCounter) :
    (F64.bestStep acc e).maxScore
      = if e.2.Count > 0 ∧ F64.counterAverage e.2 > acc.maxScore then F64.counterAverage e.2
        else acc.maxScore := by
  unfold F64.bestStep F64.counterAverage
  by_cases hc : e.2.Count > 0 <;>
    by_cases h : F64.div e.2.TotalScore (F64.ofInt e.2.Count) > acc.maxScore <;>
    simp [hc, h]

theorem bestStep_best_f64 {κ : Type} [DecidableEq κ] (acc : BestAcc κ)
    (e : κ × MetricCounter) :
    (F64.bestStep acc e).best
      = if e.2.Count > 0 ∧ F64.counterAverage e.2 > acc.maxScore then e.1 else acc.best := by
  unfold F64.bestStep F64.counterAverage
  by_cases hc : e.2.Count > 0 <;>
    by_cases h : F64.div e.2.TotalScore (F64.ofInt e.2.Count) > acc.maxScore <;>
    simp [hc, h]

theorem foldl_bestStep_spec_f64 {κ : Type} [DecidableEq κ] (l : GoMap κ MetricCounter) :
    ∀ acc : BestAcc κ,
      (∀ e ∈ l, e.2.Count > 0 →
        F64.counterAverage e.2 ≤ (l.foldl F64.bestStep acc).maxScore) ∧
      acc.maxScore ≤ (l.foldl F64.bestStep acc).maxScore ∧
      (((l.foldl F64.bestStep acc).maxScore = acc.maxScore ∧
          (l.foldl F64.bestStep acc).best = acc.best) ∨
        (acc.maxScore < (l.foldl F64.bestStep acc).maxScore ∧
          ∃ l1 e l2, l = l1 ++ e :: l2 ∧ e.2.Count > 0 ∧
            F64.counterAverage e.2 = (l.foldl F64.bestStep acc).maxScore ∧
            (l.foldl F64.bestStep acc).best = e.1 ∧
            ∀ x ∈ l1, x.2.Count > 0 →
              F64.counterAverage x.2 < (l.foldl F64.bestStep acc).maxScore)) := by
  induction l with
  | nil =>
    intro acc
    exact ⟨fun e he => absurd he (List.not_mem_nil e), le_refl _, Or.inl ⟨rfl, rfl⟩⟩
  | cons e rest ih =>
    intro acc
    rw [List.foldl_cons]
    obtain ⟨ih1, ih2, ih3⟩ := ih (F64.bestStep acc e)
    have hmono : acc.maxScore ≤ (F64.bestStep acc e).maxScore := by
      rw [bestStep_maxScore_f64]
      split_ifs with h
      · exact le_of_lt h.2
      · exact le_refl _
    have hle : e.2.Count > 0 → F64.counterAverage e.2 ≤ (F64.bestStep acc e).maxScore := by
      intro hc
      rw [bestStep_maxScore_f64]
      split_ifs with h
      · exact le_refl _
      · exact not_lt.mp (fun hlt => h ⟨hc, hlt⟩)
    have hcase : ((F64.bestStep acc e).maxScore = acc.maxScore ∧
          (F64.bestStep acc e).best = acc.best) ∨
        (e.2.Count > 0 ∧ acc.maxScore < F64.counterAverage e.2 ∧
          (F64.bestStep acc e).maxScore = F64.counterAverage e.2 ∧
          (F64.bestStep acc e).best = e.1) := by
      rw [bestStep_maxScore_f64, bestStep_best_f64]
      split_ifs with h
      · right; exact ⟨h.1, h.2, rfl, rfl⟩
      · left; exact ⟨rfl, rfl⟩
    refine ⟨?_, le_trans hmono ih2, ?_⟩
    · intro x hx hc
      rcases List.mem_cons.mp hx with hx | hx
      · subst hx
        exact le_trans (hle hc) ih2
      · exact ih1 x hx hc
    · rcases ih3 with ⟨h1, h2⟩ | ⟨h1, l1, x, l2, hl, hc, hav, hb, hfirst⟩
      · rcases hcase with ⟨c1, c2⟩ | ⟨c1, c2, c3, c4⟩
        · left; exact ⟨h1.trans c1, h2.trans c2⟩
        · right
          refine ⟨by rw [h1, c3]; exact c2, [], e, rest, rfl, c1, by rw [h1, c3],
            h2.trans c4, ?_⟩
          intro y hy
          exact absurd hy (List.not_mem_nil y)
      · right
        refine ⟨lt_of_le_of_lt hmono h1, e :: l1, x, l2, by rw [hl]; rfl, hc, hav, hb, ?_⟩
        intro y hy hyc
        rcases List.mem_cons.mp hy with hy | hy
        · subst hy
          exact lt_of_le_of_lt (hle hyc) h1
        · exact hfirst y hy hyc

theorem winner_spec_f64 {κ : Type} [DecidableEq κ] (zero : κ) (V M : GoMap κ MetricCounter)
    (hperm : V.Perm M) (live : κ → Prop) (avg : κ → ℚ)
    (hM : ∀ e ∈ M, (e.2.Count > 0 ↔ live e.1) ∧ F64.counterAverage e.2 = avg e.1)
    (hentry : ∀ k, live k → ∃ c, (k, c) ∈ M) :
    ((∀ k, live k → avg k ≤ 0) → (F64.bestPass zero V).best = zero) ∧
    ((∃ k, live k ∧ 0 < avg k) →
      live (F64.bestPass zero V).best ∧
      (∀ k, live k → avg k ≤ avg (F64.bestPass zero V).best) ∧
      ∃ l1 x l2, V = l1 ++ ((F64.bestPass zero V).best, x) :: l2 ∧
        ∀ y ∈ l1, live y.1 → avg y.1 < avg (F64.bestPass zero V).best) := by
  obtain ⟨P1, -, P3⟩ := foldl_bestStep_spec_f64 V { byKey := [], maxScore := 0, best := zero }
  simp only [] at P1 P3
  unfold F64.bestPass
  constructor
  · intro ha
    rcases P3 with ⟨-, hb⟩ | ⟨hpos, l1, e, l2, hl, hc, hav, hb, -⟩
    · exact hb
    · exfalso
      have heV : e ∈ V := by rw [hl]; simp
      obtain ⟨hlive, havg⟩ := hM e (hperm.mem_iff.mp heV)
      have := ha e.1 (hlive.mp hc)
      rw [← havg, hav] at this
      exact absurd hpos (not_lt.mpr this)
  · rintro ⟨d, hd, hdpos⟩
    obtain ⟨c, hcM⟩ := hentry d hd
    obtain ⟨hdl, hda⟩ := hM (d, c) hcM
    have hmax := P1 (d, c) (hperm.mem_iff.mpr hcM) (hdl.mpr hd)
    rw [hda] at hmax
    rcases P3 with ⟨hm, -⟩ | ⟨-, l1, e, l2, hl, hc, hav, hb, hfirst⟩
    · exfalso
      rw [hm] at hmax
      exact absurd hdpos (not_lt.mpr hmax)
    · have heV : e ∈ V := by rw [hl]; simp
      obtain ⟨hlive, havg⟩ := hM e (hperm.mem_iff.mp heV)
      rw [hb]
      refine ⟨hlive.mp hc, ?_, l1, e.2, l2, hl, ?_⟩
      · intro d' hd'
        obtain ⟨c', hcM'⟩ := hentry d' hd'
        obtain ⟨hdl', hda'⟩ := hM (d', c') hcM'
        have := P1 (d', c') (hperm.mem_iff.mpr hcM') (hdl'.mpr hd')
        rw [hda', ← hav, havg] at this
        exact this
      · intro x hx hxl
        have hxV : x ∈ V := by rw [hl]; exact List.mem_append_left _ hx
        obtain ⟨hxl', hxa⟩ := hM x (hperm.mem_iff.mp hxV)
        have := hfirst x hx (hxl'.mpr hxl)
        rw [hxa, ← hav, havg] at this
        exact this

theorem DimInv_counters_f64 {κ : Type} [DecidableEq κ] (category : FocusSession → Option κ)
    (sessions : List FocusSession) (M : GoMap κ MetricCounter)
    (hinv : F64.DimInv category sessions M) :
    (∀ e ∈ M, (e.2.Count > 0 ↔ sessionsIn category sessions e.1 ≠ []) ∧
      F64.counterAverage e.2 = F64.averageScore (sessionsIn category sessions e.1)) ∧
    ∀ k, sessionsIn category sessions k ≠ [] → ∃ c, (k, c) ∈ M := by
  obtain ⟨hn, he, hk⟩ := hinv
  constructor
  · intro e hem
    obtain ⟨hc, hs⟩ := he e hem
    refine ⟨?_, by rw [F64.counterAverage, F64.averageScore, hc, hs]⟩
    rw [hc]
    constructor
    · intro h hnil
      rw [hnil] at h
      simp at h
    · intro h
      exact_mod_cast List.length_pos.mpr h
  · intro k hk'
    obtain ⟨e, hem, h1⟩ := List.mem_map.mp (hk k hk')
    exact ⟨e.2, by rw [← h1]; exact hem⟩

theorem open_winner_spec_f64 (category : FocusSession → Option String)
    (sessions : List FocusSession) (M V : GoMap String MetricCounter) (hperm : V.Perm M)
    (hinv : F64.DimInv category sessions M)
    (hkeys : M.keys = firstSeen (categoriesOf category sessions))
    (insertionOrder : Prop) (hins : insertionOrder → V = M) :
    F64.OpenWinnerSpec category sessions V insertionOrder (F64.bestPass "" V).best := by
  obtain ⟨hM, hentry⟩ := DimInv_counters_f64 category sessions M hinv
  obtain ⟨W1, W2⟩ := winner_spec_f64 "" V M hperm
    (fun k => sessionsIn category sessions k ≠ [])
    (fun k => F64.averageScore (sessionsIn category sessions k)) hM hentry
  generalize (F64.bestPass "" V).best = w at W1 W2 ⊢
  refine ⟨W1, ?_⟩
  intro hex
  obtain ⟨w1, w2, l1, x, l2, hl, hfirst⟩ := W2 hex
  refine ⟨w1, w2, ⟨l1, x, l2, hl, hfirst⟩, ?_⟩
  intro hio
  have hVM := hins hio
  refine ⟨l1.map Prod.fst, l2.map Prod.fst, ?_, ?_⟩
  · rw [← hkeys, ← hVM, hl]
    simp [GoMap.keys]
  · intro y hy
    obtain ⟨e, hel, hey⟩ := List.mem_map.mp hy
    have hylive : sessionsIn category sessions y ≠ [] := by
      have hyk : y ∈ M.keys := by
        rw [← hVM, hl]
        simp only [GoMap.keys, List.map_append, List.mem_append]
        left; exact hy
      rw [hkeys, firstSeen, mem_firstSeenFrom] at hyk
      rcases hyk with h | h
      · exact absurd h (List.not_mem_nil _)
      · exact (mem_categoriesOf category sessions y).mp h
    have := hfirst e hel (by rw [hey]; exact hylive)
    rw [hey] at this
    exact this

theorem OpenWinnerSpec_empty_f64 (category : FocusSession → Option String)
    (visited : GoMap String MetricCounter) (insertionOrder : Prop) :
    F64.OpenWinnerSpec category [] visited insertionOrder "" := by
  refine ⟨fun _ => rfl, ?_⟩
  rintro ⟨c, hc, -⟩
  exact absurd (by simp [sessionsIn, countedSessions]) hc

/-! ### Most productive day -/

/-- C5 (as amended): when some weekday with a counted session has a positive average
score, `MostProductiveDay` is a weekday with a counted session whose average is the highest
among the weekdays with at least one counted session; of several weekdays with that
average it is the one that the `range` loop over the counters visits first, hence the one
earliest in Sunday..Saturday order when the counters are visited in that order. When no
weekday has a positive average (every counted session scores 0) it is Sunday, the zero
value, whether or not Sunday has a counted session. The averages are the binary64 numbers
the pass forms and compares: the sum of the scores in the order of the session list,
divided by their number. -/
theorem C5_most_productive_day (o : RangeOrder) (hv : o.Valid)
    (sessions : List FocusSession) :
    ((∀ d, sessionsOnDay sessions d ≠ [] → F64.averageScore (sessionsOnDay sessions d) ≤ 0) →
      (F64.aggregateStats o sessions).MostProductiveDay = Weekday.Sunday) ∧
    ((∃ d, sessionsOnDay sessions d ≠ [] ∧ 0 < F64.averageScore (sessionsOnDay sessions d)) →
      sessionsOnDay sessions (F64.aggregateStats o sessions).MostProductiveDay ≠ [] ∧
      (∀ d, sessionsOnDay sessions d ≠ [] →
        F64.averageScore (sessionsOnDay sessions d)
          ≤ F64.averageScore
              (sessionsOnDay sessions (F64.aggregateStats o sessions).MostProductiveDay)) ∧
      (∃ l1 c l2, o.day (sessions.foldl F64.statsStep StatsAcc.init).dayCounter
          = l1 ++ ((F64.aggregateStats o sessions).MostProductiveDay, c) :: l2 ∧
        ∀ x ∈ l1, sessionsOnDay sessions x.1 ≠ [] →
          F64.averageScore (sessionsOnDay sessions x.1)
            < F64.averageScore
                (sessionsOnDay sessions (F64.aggregateStats o sessions).MostProductiveDay)) ∧
      ((∀ m, o.day m = m) → ∀ d, sessionsOnDay sessions d ≠ [] →
        F64.averageScore (sessionsOnDay sessions d)
          = F64.averageScore
              (sessionsOnDay sessions (F64.aggregateStats o sessions).MostProductiveDay) →
        (F64.aggregateStats o sessions).MostProductiveDay.toInt ≤ d.toInt)) := by
  by_cases h0 : sessions.length = 0
  · have hnil : sessions = [] := List.length_eq_zero.mp h0
    subst hnil
    refine ⟨fun _ => by simp [F64.aggregateStats, emptyStats], ?_⟩
    rintro ⟨d, hd, -⟩
    exact absurd (by simp [sessionsOnDay, countedSessions]) hd
  · have hL : (F64.aggregateStats o sessions).MostProductiveDay
        = (F64.bestPass Weekday.Sunday
            (o.day (sessions.foldl F64.statsStep StatsAcc.init).dayCounter)).best := by
      simp [F64.aggregateStats, h0, F64.finishStats]
    rw [hL]
    have hperm := hv.1 (sessions.foldl F64.statsStep StatsAcc.init).dayCounter
    have hinv := dayCounter_inv_f64 sessions
    have hk := dayCounter_keys_f64 sessions StatsAcc.init rfl
    obtain ⟨hM, hentry⟩ := DimInv_counters_f64 _ sessions _ hinv
    simp only [sessionsIn_dayOf] at hM hentry
    obtain ⟨W1, W2⟩ := winner_spec_f64 Weekday.Sunday _ _ hperm
      (fun d => sessionsOnDay sessions d ≠ [])
      (fun d => F64.averageScore (sessionsOnDay sessions d)) hM hentry
    generalize (F64.bestPass Weekday.Sunday
      (o.day (sessions.foldl F64.statsStep StatsAcc.init).dayCounter)).best = w at W1 W2 ⊢
    refine ⟨W1, ?_⟩
    intro hex
    obtain ⟨w1, w2, l1, x, l2, hl, hfirst⟩ := W2 hex
    refine ⟨w1, w2, ⟨l1, x, l2, hl, hfirst⟩, ?_⟩
    intro hid d hd htie
    obtain ⟨c, hcM⟩ := hentry d hd
    rw [hid] at hl
    rw [hl] at hcM hk
    have hpw : List.Pairwise (fun a b : Weekday => a.toInt < b.toInt) allWeekdays := by
      decide
    rw [← hk] at hpw
    simp only [GoMap.keys, List.map_append, List.map_cons] at hpw
    obtain ⟨-, hpw2, -⟩ := List.pairwise_append.mp hpw
    have hpw3 := (List.pairwise_cons.mp hpw2).1
    rcases List.mem_append.mp hcM with hin | hin
    · exfalso
      have := hfirst (d, c) hin hd
      simp only [] at this
      rw [htie] at this
      exact lt_irrefl _ this
    · rcases List.mem_cons.mp hin with hin | hin
      · have : d = w := congrArg Prod.fst hin
        rw [this]
      · exact le_of_lt (hpw3 d (List.mem_map.mpr ⟨(d, c), hin, rfl⟩))

theorem C5_most_productive_day_witness :
    RangeOrder.insertion.Valid ∧
    (∃ d, sessionsOnDay nearTie d ≠ [] ∧ 0 < F64.averageScore (sessionsOnDay nearTie d)) ∧
    sessionsOnDay nearTie
      (F64.aggregateStats RangeOrder.insertion nearTie).MostProductiveDay ≠ [] ∧
    ∀ d, sessionsOnDay nearTie d ≠ [] →
      F64.averageScore (sessionsOnDay nearTie d)
        ≤ F64.averageScore (sessionsOnDay nearTie
            (F64.aggregateStats RangeOrder.insertion nearTie).MostProductiveDay) :=
  have h : ∃ d, sessionsOnDay nearTie d ≠ [] ∧
      0 < F64.averageScore (sessionsOnDay nearTie d) :=
    ⟨Weekday.Monday, by decide!, by decide!⟩
  ⟨RangeOrder.insertion_valid, h,
    ((C5_most_productive_day RangeOrder.insertion RangeOrder.insertion_valid nearTie).2 h).1,
    ((C5_most_productive_day RangeOrder.insertion RangeOrder.insertion_valid nearTie).2 h).2.1⟩

/-- C5 (as stated) fails three times; the sessions are the caller's, stored, completed and
inside the range. A single counted session, on a Monday, with score 0: the highest
average is 0 and `MostProductiveDay` is Sunday, a day without session. Two sessions with
the same score 3, one on Sunday and one on Monday, the counters visited from Saturday back
to Sunday: `MostProductiveDay` is Monday, not the earlier Sunday. A Sunday session and a
Monday session whose scores are both 32/5 in exact arithmetic: the pass compares
6.3999999999999995 with 6.4 and `MostProductiveDay` is Monday in both visiting orders. -/
theorem C5_most_productive_day_fails :
    (sessionsOnDay zeroScored Weekday.Sunday = [] ∧
     sessionsOnDay zeroScored Weekday.Monday ≠ [] ∧
     F64.averageScore (sessionsOnDay zeroScored Weekday.Monday) = 0 ∧
     (F64.GetProductivityStats RangeOrder.insertion zeroScored 0 (Date 2024 12 1 0 0 0 0)
       (Date 2024 12 31 0 0 0 0)).MostProductiveDay = Weekday.Sunday) ∧
    (F64.averageScore (sessionsOnDay exactTie Weekday.Sunday) = 3 ∧
     F64.averageScore (sessionsOnDay exactTie Weekday.Monday) = 3 ∧
     (F64.GetProductivityStats saturdayFirst exactTie 0 (Date 2024 12 1 0 0 0 0)
       (Date 2024 12 31 0 0 0 0)).MostProductiveDay = Weekday.Monday) ∧
    (averageScore (sessionsOnDay nearTie Weekday.Sunday) = 32 / 5 ∧
     averageScore (sessionsOnDay nearTie Weekday.Monday) = 32 / 5 ∧
     F64.averageScore (sessionsOnDay nearTie Weekday.Sunday)
       = 7205759403792793 / 1125899906842624 ∧
     F64.averageScore (sessionsOnDay nearTie Weekday.Monday)
       = 3602879701896397 / 562949953421312 ∧
     (F64.GetProductivityStats RangeOrder.insertion nearTie 0 (Date 2024 12 1 0 0 0 0)
       (Date 2024 12 31 0 0 0 0)).MostProductiveDay = Weekday.Monday ∧
     (F64.GetProductivityStats saturdayFirst nearTie 0 (Date 2024 12 1 0 0 0 0)
       (Date 2024 12 31 0 0 0 0)).MostProductiveDay = Weekday.Monday) := by
  refine ⟨⟨?_, ?_, ?_, ?_⟩, ⟨?_, ?_, ?_⟩, ?_, ?_, ?_, ?_, ?_, ?_⟩ <;> decide!

/-! ### Most productive location and location type -/

/-- C14 (as amended): when some location has a positive average score,
`MostProductiveLocation` is a location with a counted session whose average score is the
highest, and of several locations with that average the one that the `range` loop over the
counter map visits first; this is the one whose first session comes earliest in the list if
the loop visits the map in insertion order, which Go does not promise. When no location has
a positive average it is the empty string. The same holds of `MostProductiveLocationType`
with the non-empty location types. The averages are the binary64 numbers the pass forms
and compares: the sum of the scores in the order of the session list, divided by their
number. -/
theorem C14_most_productive_location (o : RangeOrder) (hv : o.Valid)
    (sessions : List FocusSession) :
    F64.OpenWinnerSpec locationOf sessions
      (o.location (sessions.foldl F64.statsStep StatsAcc.init).locationCounter)
      (∀ m, o.location m = m) (F64.aggregateStats o sessions).MostProductiveLocation ∧
    F64.OpenWinnerSpec locationTypeOf sessions
      (o.locationType (sessions.foldl F64.statsStep StatsAcc.init).locationTypeCounter)
      (∀ m, o.locationType m = m)
      (F64.aggregateStats o sessions).MostProductiveLocationType := by
  by_cases h0 : sessions.length = 0
  · have hnil : sessions = [] := List.length_eq_zero.mp h0
    subst hnil
    simp only [F64.aggregateStats, List.length_nil, if_true, emptyStats]
    exact ⟨OpenWinnerSpec_empty_f64 _ _ _, OpenWinnerSpec_empty_f64 _ _ _⟩
  · obtain ⟨-, -, hl, hlt⟩ := hv
    simp only [F64.aggregateStats, h0, if_false, F64.finishStats]
    constructor
    · refine open_winner_spec_f64 locationOf sessions _ _ (hl _)
        (locationCounter_inv_f64 sessions) ?_ _ (fun h => h _)
      rw [foldl_statsStep_locationCounter_f64, foldl_dimStep_keys_f64]
      rfl
    · refine open_winner_spec_f64 locationTypeOf sessions _ _ (hlt _)
        (locationTypeCounter_inv_f64 sessions) ?_ _ (fun h => h _)
      rw [foldl_statsStep_locationTypeCounter_f64, foldl_dimStep_keys_f64]
      rfl

theorem C14_most_productive_location_witness :
    RangeOrder.insertion.Valid ∧
    F64.OpenWinnerSpec locationOf nearTie
      (RangeOrder.insertion.location
        (nearTie.foldl F64.statsStep StatsAcc.init).locationCounter)
      (∀ m, RangeOrder.insertion.location m = m)
      (F64.aggregateStats RangeOrder.insertion nearTie).MostProductiveLocation :=
  ⟨RangeOrder.insertion_valid,
    (C14_most_productive_location RangeOrder.insertion RangeOrder.insertion_valid nearTie).1⟩

/-- C14 (as stated) fails three times; the sessions are the caller's, stored, completed
and inside the range. Two sessions with the same score 3, the first at "Cafe" and the
second at "Library", the counters visited from the last inserted back to the first:
`MostProductiveLocation` is "Library" and `MostProductiveLocationType` is "library", not
the location and the type of the earlier session; visited in insertion order they are
"Cafe" and "coffee shop", so the winner depends on the visiting order. A single session
with score 0 at "Cafe": the highest average is 0 and both fields are the empty string. A
session at "A" followed by a session at "B" whose scores are both 32/5 in exact
arithmetic: the pass compares 6.3999999999999995 with 6.4 and `MostProductiveLocation` is
"B" in both visiting orders, not the location of the earlier session. -/
theorem C14_winner_depends_on_visiting_order :
    ((F64.GetProductivityStats lastLocationFirst exactTie 0 (Date 2024 12 1 0 0 0 0)
       (Date 2024 12 31 0 0 0 0)).MostProductiveLocation = "Library" ∧
     (F64.GetProductivityStats lastLocationFirst exactTie 0 (Date 2024 12 1 0 0 0 0)
       (Date 2024 12 31 0 0 0 0)).MostProductiveLocationType = "library" ∧
     (F64.GetProductivityStats RangeOrder.insertion exactTie 0 (Date 2024 12 1 0 0 0 0)
       (Date 2024 12 31 0 0 0 0)).MostProductiveLocation = "Cafe" ∧
     (F64.GetProductivityStats RangeOrder.insertion exactTie 0 (Date 2024 12 1 0 0 0 0)
       (Date 2024 12 31 0 0 0 0)).MostProductiveLocationType = "coffee shop" ∧
     (F64.GetProductivityStats RangeOrder.insertion exactTie 0 (Date 2024 12 1 0 0 0 0)
       (Date 2024 12 31 0 0 0 0)).ProductivityByLocation = [("Cafe", 3), ("Library", 3)]) ∧
    ((F64.GetProductivityStats RangeOrder.insertion zeroScored 0 (Date 2024 12 1 0 0 0 0)
       (Date 2024 12 31 0 0 0 0)).ProductivityByLocation = [("Cafe", 0)] ∧
     (F64.GetProductivityStats RangeOrder.insertion zeroScored 0 (Date 2024 12 1 0 0 0 0)
       (Date 2024 12 31 0 0 0 0)).MostProductiveLocation = "" ∧
     (F64.GetProductivityStats RangeOrder.insertion zeroScored 0 (Date 2024 12 1 0 0 0 0)
       (Date 2024 12 31 0 0 0 0)).MostProductiveLocationType = "") ∧
    (averageScore (sessionsIn locationOf nearTie "A") = 32 / 5 ∧
     averageScore (sessionsIn locationOf nearTie "B") = 32 / 5 ∧
     (F64.GetProductivityStats RangeOrder.insertion nearTie 0 (Date 2024 12 1 0 0 0 0)
       (Date 2024 12 31 0 0 0 0)).ProductivityByLocation
       = [("A", 7205759403792793 / 1125899906842624),
          ("B", 3602879701896397 / 562949953421312)] ∧
     (F64.GetProductivityStats RangeOrder.insertion nearTie 0 (Date 2024 12 1 0 0 0 0)
       (Date 2024 12 31 0 0 0 0)).MostProductiveLocation = "B" ∧
     (F64.GetProductivityStats lastLocationFirst nearTie 0 (Date 2024 12 1 0 0 0 0)
       (Date 2024 12 31 0 0 0 0)).MostProductiveLocation = "B") := by
  refine ⟨⟨?_, ?_, ?_, ?_, ?_⟩, ⟨?_, ?_, ?_⟩, ?_, ?_, ?_, ?_, ?_⟩ <;> decide!

/-! ### What the period map holds in binary64 -/

theorem positiveScores_append_singleton_f64 (l : List FocusSession) (s : FocusSession) :
    F64.positiveScores (l ++ [s]) = F64.positiveScores l ++
      (if F64.CalculateProductivityScore s > 0 then [F64.CalculateProductivityScore s]
        else []) := by
  simp only [F64.positiveScores, List.map_append, List.filter_append, List.map_cons,
    List.map_nil]
  congr 1
  by_cases h : F64.CalculateProductivityScore s > 0 <;> simp [List.filter_cons, h]

theorem PeriodInv_nil_f64 (period : Period) : F64.PeriodInv period [] [] :=
  ⟨List.nodup_nil, fun e he => absurd he (List.not_mem_nil e)⟩

theorem seedPeriods_inv_f64 (period : Period) (endTruncated : Time) :
    ∀ (fuel : Nat) (currentDate : Time) (m m' : GoMap String PeriodData),
      F64.PeriodInv period [] m →
      seedPeriods period endTruncated fuel currentDate m = some m' →
      F64.PeriodInv period [] m' := by
  intro fuel
  induction fuel with
  | zero =>
    intro cur m m' hinv h
    simp only [seedPeriods] at h
    split_ifs at h
    rw [← Option.some.inj h]
    exact hinv
  | succ n ih =>
    intro cur m m' hinv h
    simp only [seedPeriods] at h
    split_ifs at h
    · refine ih _ _ _ ?_ h
      refine ⟨GoMap.nodup_set _ _ _ hinv.1, ?_⟩
      intro e he
      rcases GoMap.mem_set _ _ _ _ he with he | he
      · subst he
        simp [sessionsOfKey, F64.positiveScores, F64.sum]
      · exact hinv.2 e he
    · rw [← Option.some.inj h]
      exact hinv

theorem groupStep_skipped_f64 (period : Period) (m : GoMap String PeriodData)
    (s : FocusSession) (h : qualifies s = false) : F64.groupStep period m s = m := by
  unfold F64.groupStep
  cases ha : s.ActualDuration with
  | none => rfl
  | some a =>
    have hs : s.Status ≠ StatusCompleted := by
      intro hc
      simp [qualifies, hc, ha] at h
    simp [hs]

theorem groupStep_qualified_f64 (period : Period) (m : GoMap String PeriodData)
    (s : FocusSession) (h : qualifies s = true) :
    ∃ a, s.ActualDuration = some a ∧
      F64.groupStep period m s =
        match m.get? (sessionKey period s) with
        | some _ => m.update (sessionKey period s) (fun data => F64.accumulate data s a)
        | none => m := by
  simp only [qualifies, Bool.and_eq_true, decide_eq_true_eq] at h
  obtain ⟨hs, ha⟩ := h
  obtain ⟨a, ha⟩ := Option.isSome_iff_exists.mp ha
  refine ⟨a, ha, ?_⟩
  simp only [F64.groupStep, ha, hs, ne_eq, not_true_eq_false, if_false, sessionKey]

theorem accumulate_inv_f64 (period : Period) (done : List FocusSession) (key : String)
    (c : PeriodData) (s : FocusSession) (a : Int)
    (hq : qualifies s = true) (hk : sessionKey period s = key)
    (hc : key = periodKeyOf period c.StartDate ∧
      c.Sessions = sessionsOfKey period done key ∧
      c.TotalProductivity = F64.sum (F64.positiveScores c.Sessions) ∧
      c.ProductivityCount = ((F64.positiveScores c.Sessions).length : Int)) :
    key = periodKeyOf period (F64.accumulate c s a).StartDate ∧
      (F64.accumulate c s a).Sessions = sessionsOfKey period (done ++ [s]) key ∧
      (F64.accumulate c s a).TotalProductivity
        = F64.sum (F64.positiveScores (F64.accumulate c s a).Sessions) ∧
      (F64.accumulate c s a).ProductivityCount
        = ((F64.positiveScores (F64.accumulate c s a).Sessions).length : Int) := by
  obtain ⟨h1, h2, h3, h4⟩ := hc
  have hS : (F64.accumulate c s a).Sessions = c.Sessions ++ [s] := rfl
  refine ⟨h1, ?_, ?_, ?_⟩
  · rw [hS, sessionsOfKey_append_singleton, h2]
    simp [hq, hk]
  · rw [hS, positiveScores_append_singleton_f64]
    simp only [F64.accumulate]
    split_ifs with hp
    · rw [h3, sum_append_singleton_f64]
    · rw [h3]; simp
  · rw [hS, positiveScores_append_singleton_f64]
    simp only [F64.accumulate]
    split_ifs with hp
    · rw [h4]; simp
    · rw [h4]; simp

theorem groupStep_inv_f64 (period : Period) (done : List FocusSession)
    (m : GoMap String PeriodData) (s : FocusSession) (hinv : F64.PeriodInv period done m) :
    F64.PeriodInv period (done ++ [s]) (F64.groupStep period m s) := by
  obtain ⟨hn, he⟩ := hinv
  by_cases hq : qualifies s = true
  · obtain ⟨a, ha, hstep⟩ := groupStep_qualified_f64 period m s hq
    rw [hstep]
    cases hg : m.get? (sessionKey period s) with
    | none =>
      refine ⟨hn, ?_⟩
      intro e hem
      obtain ⟨h1, h2, h3, h4⟩ := he e hem
      have hne : ¬ (qualifies s = true ∧ sessionKey period s = e.1) :=
        fun h => GoMap.not_mem_of_get?_none m _ hg e hem h.2.symm
      refine ⟨h1, ?_, h3, h4⟩
      rw [sessionsOfKey_append_singleton, if_neg hne, List.append_nil]
      exact h2
    | some d =>
      refine ⟨by rw [GoMap.keys_update]; exact hn, ?_⟩
      intro e hem
      rw [GoMap.mem_update _ _ _ hn] at hem
      rcases hem with ⟨hk, hem⟩ | ⟨hk, c, hc, h2⟩
      · obtain ⟨h1, h2, h3, h4⟩ := he e hem
        have hne : ¬ (qualifies s = true ∧ sessionKey period s = e.1) :=
          fun h => hk h.2.symm
        refine ⟨h1, ?_, h3, h4⟩
        rw [sessionsOfKey_append_singleton, if_neg hne, List.append_nil]
        exact h2
      · have hcinv := he _ hc
        have := accumulate_inv_f64 period done (sessionKey period s) c s a hq rfl hcinv
        rw [hk, h2]
        exact this
  · have hq' : qualifies s = false := by simpa using hq
    rw [groupStep_skipped_f64 period m s hq']
    refine ⟨hn, ?_⟩
    intro e hem
    obtain ⟨h1, h2, h3, h4⟩ := he e hem
    refine ⟨h1, ?_, h3, h4⟩
    rw [sessionsOfKey_append_singleton]
    simp only [hq', Bool.false_eq_true, false_and, if_false, List.append_nil]
    exact h2

theorem foldl_groupStep_inv_f64 (period : Period) (sessions : List FocusSession) :
    ∀ (done : List FocusSession) (m : GoMap String PeriodData),
      F64.PeriodInv period done m →
      F64.PeriodInv period (done ++ sessions) (sessions.foldl (F64.groupStep period) m) := by
  induction sessions with
  | nil => intro done m h; simpa using h
  | cons s rest ih =>
    intro done m h
    have := ih (done ++ [s]) (F64.groupStep period m s) (groupStep_inv_f64 period done m s h)
    simpa using this

theorem foldl_appendPeriod_Productivity_f64 (period : Period) (periods : List PeriodData) :
    ∀ trends : ProductivityTrends,
      (periods.foldl (F64.appendPeriod period) trends).Productivity
        = trends.Productivity ++ periods.map (fun data =>
            if data.ProductivityCount > 0 then
              F64.div data.TotalProductivity (F64.ofInt data.ProductivityCount) else 0) := by
  induction periods with
  | nil => intro trends; simp
  | cons p rest ih =>
    intro trends
    rw [List.foldl_cons, ih]
    simp [F64.appendPeriod]

theorem trendPeriods_spec_f64 (keyOrder : List String → List String) (period : Period)
    (hp : period.Known) (startDate endDate : Time) (sessions : List FocusSession) :
    ∃ periodMap, F64.PeriodInv period sessions periodMap ∧
      F64.trendPeriods keyOrder period startDate endDate sessions
        = some ((sortPeriodKeys periodMap (keyOrder periodMap.keys)).filterMap
            (fun key => periodMap.get? key)) := by
  obtain ⟨seeded, hseed⟩ := seedPeriods_isSome period hp (truncateFunc period endDate)
    (seedFuel (truncateFunc period startDate) (truncateFunc period endDate))
    (truncateFunc period startDate) [] (seedFuel_enough _ _)
  have hinv0 := seedPeriods_inv_f64 period _ _ _ _ _ (PeriodInv_nil_f64 period) hseed
  have hinv := foldl_groupStep_inv_f64 period sessions [] seeded hinv0
  rw [List.nil_append] at hinv
  refine ⟨sessions.foldl (F64.groupStep period) seeded, hinv, ?_⟩
  simp only [F64.trendPeriods, hseed]

theorem productivity_entry_eq_f64 (data : PeriodData)
    (h3 : data.TotalProductivity = F64.sum (F64.positiveScores data.Sessions))
    (h4 : data.ProductivityCount = ((F64.positiveScores data.Sessions).length : Int)) :
    (if data.ProductivityCount > 0 then
      F64.div data.TotalProductivity (F64.ofInt data.ProductivityCount) else 0)
      = F64.positiveMean data.Sessions := by
  unfold F64.positiveMean
  rw [h3, h4]
  by_cases h : (F64.positiveScores data.Sessions).length > 0
  · have h' : ((F64.positiveScores data.Sessions).length : Int) > 0 := by exact_mod_cast h
    simp only [h, h', if_true]
  · have h' : ¬ ((F64.positiveScores data.Sessions).length : Int) > 0 := by
      intro hc; exact h (by exact_mod_cast hc)
    simp only [h, h', if_false]

/-! ### Productivity entry of a period -/

/-- C10 (as amended): the trend pass returns a result for each of the three periods, and
for every period of the result the productivity entry is the mean of
`CalculateProductivityScore` over those sessions of the period whose score is greater than
0, and 0 if there is none; the sessions of a period are the completed sessions with an
actual duration whose period key is the key of the period, in the order of the session
list. A session whose score is 0 (unrated, or rated and clamped to 0) is left out of the
mean. Scores, sum and quotient are the binary64 numbers the pass forms, the sum taken in
the order of the sessions: a session with rating 0, actual duration equal to planned, focus
8 and distractions 6, whose score is 0 in exact arithmetic, scores `2 ^ (-53)` and counts;
with a session of score 4 it gives the entry 2. -/
theorem C10_productivity_entry (keyOrder : List String → List String) (period : Period)
    (hp : period.Known) (startDate endDate : Time) (sessions : List FocusSession) :
    (∃ periods trends,
      F64.trendPeriods keyOrder period startDate endDate sessions = some periods ∧
      F64.buildTrends keyOrder period startDate endDate sessions = some trends ∧
      trends.Productivity = periods.map (fun data => F64.positiveMean data.Sessions) ∧
      ∀ data ∈ periods,
        data.Sessions
          = sessionsOfKey period sessions (periodKeyOf period data.StartDate)) ∧
    (CalculateProductivityScore
      (mkSession (Date 2025 2 3 9 0 0 0) 50 StatusCompleted (some 50) (some 0) (some 8)
        (some 6)) = 0 ∧
     F64.CalculateProductivityScore
      (mkSession (Date 2025 2 3 9 0 0 0) 50 StatusCompleted (some 50) (some 0) (some 8)
        (some 6)) = 1 / 2 ^ 53 ∧
     (F64.buildTrends id Daily (Date 2025 2 3 7 0 0 0) (Date 2025 2 3 20 0 0 0)
      [mkSession (Date 2025 2 3 9 0 0 0) 50 StatusCompleted (some 50) (some 0) (some 8)
        (some 6),
       mkSession (Date 2025 2 3 11 0 0 0) 50 StatusCompleted (some 50) (some 5) none none]).map
      (fun trends => trends.Productivity) = some [2]) := by
  refine ⟨?_, ?_, ?_, ?_⟩
  · obtain ⟨periodMap, hinv, hper⟩ :=
      trendPeriods_spec_f64 keyOrder period hp startDate endDate sessions
    have hmem : ∀ data ∈ (sortPeriodKeys periodMap (keyOrder periodMap.keys)).filterMap
        (fun key => periodMap.get? key), ∃ key, (key, data) ∈ periodMap := by
      intro data hd
      obtain ⟨key, -, hk⟩ := List.mem_filterMap.mp hd
      exact ⟨key, GoMap.mem_of_get? _ _ _ hk⟩
    have hb : F64.buildTrends keyOrder period startDate endDate sessions
        = some (((sortPeriodKeys periodMap (keyOrder periodMap.keys)).filterMap
            (fun key => periodMap.get? key)).foldl (F64.appendPeriod period)
            { Period := period, Dates := [], Durations := [], Ratings := [], Focus := [],
              Energy := [], Mood := [], Productivity := [] }) := by
      simp only [F64.buildTrends, hper]
    refine ⟨_, _, hper, hb, ?_, ?_⟩
    · rw [foldl_appendPeriod_Productivity_f64, List.nil_append]
      apply List.map_congr_left
      intro data hd
      obtain ⟨key, hk⟩ := hmem data hd
      obtain ⟨-, -, h3, h4⟩ := hinv.2 _ hk
      exact productivity_entry_eq_f64 data h3 h4
    · intro data hd
      obtain ⟨key, hk⟩ := hmem data hd
      obtain ⟨h1, h2, -, -⟩ := hinv.2 _ hk
      rw [h2, h1]
  · decide!
  · decide!
  · decide!

theorem C10_productivity_entry_witness :
    Period.Known Daily ∧
    ∃ periods trends,
      F64.trendPeriods id Daily (Date 2025 2 3 7 0 0 0) (Date 2025 2 3 20 0 0 0)
        [mkSession (Date 2025 2 3 9 0 0 0) 50 StatusCompleted (some 50) (some 1) none none,
         mkSession (Date 2025 2 3 11 0 0 0) 50 StatusCompleted (some 50) (some 5) none none]
        = some periods ∧
      F64.buildTrends id Daily (Date 2025 2 3 7 0 0 0) (Date 2025 2 3 20 0 0 0)
        [mkSession (Date 2025 2 3 9 0 0 0) 50 StatusCompleted (some 50) (some 1) none none,
         mkSession (Date 2025 2 3 11 0 0 0) 50 StatusCompleted (some 50) (some 5) none none]
        = some trends ∧
      trends.Productivity = periods.map (fun data => F64.positiveMean data.Sessions) ∧
      ∀ data ∈ periods,
        data.Sessions = sessionsOfKey Daily
          [mkSession (Date 2025 2 3 9 0 0 0) 50 StatusCompleted (some 50) (some 1) none none,
           mkSession (Date 2025 2 3 11 0 0 0) 50 StatusCompleted (some 50) (some 5) none none]
          (periodKeyOf Daily data.StartDate) :=
  ⟨Or.inl rfl, (C10_productivity_entry id Daily (Or.inl rfl) _ _ _).1⟩

/-- C10 (as stated) fails: on 2025-02-03 the caller has two stored completed rated
sessions, one with rating 1 and actual duration equal to the planned one (score clamped to
0) and one with rating 5 (score 4). The daily trend read that evening has 31 entries, and
the productivity entry of the day is 4, the mean over the second session alone; the mean
over both is 2. -/
theorem C10_zero_score_left_out :
    F64.CalculateProductivityScore
      (mkSession (Date 2025 2 3 9 0 0 0) 50 StatusCompleted (some 50) (some 1) none none) = 0 ∧
    F64.CalculateProductivityScore
      (mkSession (Date 2025 2 3 11 0 0 0) 50 StatusCompleted (some 50) (some 5) none none) = 4 ∧
    F64.averageScore
      [mkSession (Date 2025 2 3 11 0 0 0) 50 StatusCompleted (some 50) (some 5) none none,
       mkSession (Date 2025 2 3 9 0 0 0) 50 StatusCompleted (some 50) (some 1) none none] = 2 ∧
    (F64.GetProductivityTrends id (Date 2025 2 3 20 0 0 0)
      [mkSession (Date 2025 2 3 9 0 0 0) 50 StatusCompleted (some 50) (some 1) none none,
       mkSession (Date 2025 2 3 11 0 0 0) 50 StatusCompleted (some 50) (some 5) none none]
      0 Daily).map
      (fun trends => (trends.Productivity.length, trends.Dates.getLast?,
        trends.Durations.getLast?, trends.Ratings.getLast?, trends.Productivity.getLast?))
      = some (31, some "Feb 03", some 100, some 3, some 4) := by
  refine ⟨?_, ?_, ?_, ?_⟩ <;> decide!

/-! ### Statistics in binary64: which sessions count -/

theorem statsStep_core_skipped_f64 (acc : StatsAcc) (s : FocusSession)
    (h : s.ActualDuration = none) :
    (F64.statsStep acc s).core = acc.core := by
  simp only [F64.statsStep, h]
  split_ifs <;> rfl

theorem statsStep_core_f64 (acc : StatsAcc) (s : FocusSession) :
    (F64.statsStep acc s).core = (F64.statsStep acc.core s).core := by
  cases ha : s.ActualDuration with
  | none =>
    rw [statsStep_core_skipped_f64 acc s ha, statsStep_core_skipped_f64 acc.core s ha]; rfl
  | some a => simp [F64.statsStep, ha, StatsAcc.core]

theorem foldl_statsStep_core_inv_f64 (l : List FocusSession) :
    ∀ acc : StatsAcc,
      (l.foldl F64.statsStep acc).core = (l.foldl F64.statsStep acc.core).core := by
  induction l with
  | nil => intro acc; rfl
  | cons s rest ih =>
    intro acc
    rw [List.foldl_cons, List.foldl_cons, ih (F64.statsStep acc s),
      ih (F64.statsStep acc.core s), statsStep_core_f64 acc s]

theorem foldl_statsStep_core_f64 (sessions : List FocusSession) :
    ∀ acc : StatsAcc, (sessions.foldl F64.statsStep acc).core
      = ((countedSessions sessions).foldl F64.statsStep acc).core := by
  induction sessions with
  | nil => intro acc; rfl
  | cons s rest ih =>
    intro acc
    cases ha : s.ActualDuration with
    | some a =>
      have hf : countedSessions (s :: rest) = s :: countedSessions rest := by
        simp [countedSessions, List.filter_cons, ha]
      rw [hf, List.foldl_cons, List.foldl_cons, ih]
    | none =>
      have hf : countedSessions (s :: rest) = countedSessions rest := by
        simp [countedSessions, List.filter_cons, ha]
      rw [hf, List.foldl_cons, foldl_statsStep_core_inv_f64 rest (F64.statsStep acc s),
        statsStep_core_skipped_f64 acc s ha, ← foldl_statsStep_core_inv_f64 rest acc, ih]

theorem statsStep_cancelledCount_f64 (acc : StatsAcc) (s : FocusSession) :
    (F64.statsStep acc s).cancelledCount = acc.cancelledCount
      + (cancelledSessions [s]).length := by
  cases ha : s.ActualDuration with
  | some a => simp [F64.statsStep, ha, cancelledSessions]
  | none =>
    simp only [F64.statsStep, ha, cancelledSessions]
    split_ifs with hc <;> simp [List.filter_cons, ha, hc]

theorem foldl_statsStep_cancelledCount_f64 (sessions : List FocusSession) :
    ∀ acc : StatsAcc, (sessions.foldl F64.statsStep acc).cancelledCount
      = acc.cancelledCount + (cancelledSessions sessions).length := by
  induction sessions with
  | nil => intro acc; simp [cancelledSessions]
  | cons s rest ih =>
    intro acc
    rw [List.foldl_cons, ih, statsStep_cancelledCount_f64]
    simp only [cancelledSessions, List.filter_cons, List.filter_nil]
    split_ifs <;> simp only [List.length_cons, List.length_nil] <;> omega

theorem foldl_bestStep_of_no_count_f64 {κ : Type} [DecidableEq κ] (l : GoMap κ MetricCounter)
    (h : ∀ e ∈ l, ¬ e.2.Count > 0) :
    ∀ acc : BestAcc κ, l.foldl F64.bestStep acc = acc := by
  induction l with
  | nil => intro acc; rfl
  | cons e rest ih =>
    intro acc
    have he : ¬ e.2.Count > 0 := h e (List.mem_cons_self _ _)
    rw [List.foldl_cons]
    have hs : F64.bestStep acc e = acc := by simp [F64.bestStep, he]
    rw [hs]
    exact ih (fun x hx => h x (List.mem_cons_of_mem _ hx)) acc

theorem bestPass_of_no_count_f64 {κ : Type} [DecidableEq κ] (zero : κ)
    (l m : GoMap κ MetricCounter) (hp : l.Perm m) (h : ∀ e ∈ m, ¬ e.2.Count > 0) :
    F64.bestPass zero l = { byKey := [], maxScore := 0, best := zero } :=
  foldl_bestStep_of_no_count_f64 l (fun e he => h e (hp.mem_iff.mp he)) _

theorem finishStats_metrics_congr_f64 (o : RangeOrder) (n n' : Int) (acc acc' : StatsAcc)
    (h : acc.core = acc'.core) :
    (F64.finishStats o n acc).metrics = (F64.finishStats o n' acc').metrics := by
  simp only [StatsAcc.core, StatsAcc.mk.injEq] at h
  obtain ⟨h1, h2, h3, h4, h5, -, h7, h8, h9, h10, h11, h12, h13, h14, h15, h16, h17⟩ := h
  simp only [F64.finishStats, ProductivityStats.metrics, emptyStats, h1, h2, h3, h4, h5, h7,
    h8, h9, h10, h11, h12, h13, h14, h15, h16, h17]

theorem finishStats_init_f64 (o : RangeOrder) (hv : o.Valid) (n n' : Int) :
    (F64.finishStats o n StatsAcc.init).metrics = (emptyStats n').metrics := by
  obtain ⟨hd, ht, hl, hlt⟩ := hv
  have e1 := bestPass_of_no_count_f64 Weekday.Sunday _ _ (hd StatsAcc.init.dayCounter)
    (by simp [StatsAcc.init, allWeekdays])
  have e2 := bestPass_of_no_count_f64 ("" : TimeOfDay) _ _ (ht StatsAcc.init.timeCounter)
    (by simp [StatsAcc.init])
  have e3 := bestPass_of_no_count_f64 ("" : String) _ _ (hl StatsAcc.init.locationCounter)
    (by simp [StatsAcc.init])
  have e4 := bestPass_of_no_count_f64 ("" : String) _ _
    (hlt StatsAcc.init.locationTypeCounter) (by simp [StatsAcc.init])
  simp only [F64.finishStats, e1, e2, e3, e4]
  simp [ProductivityStats.metrics, emptyStats, StatsAcc.init, F64.averageOf]

theorem foldl_statsStep_completedCount_f64 (sessions : List FocusSession) :
    ∀ acc : StatsAcc, (sessions.foldl F64.statsStep acc).completedCount
      = acc.completedCount + (countedSessions sessions).length := by
  induction sessions with
  | nil => intro acc; simp [countedSessions]
  | cons s rest ih =>
    intro acc
    rw [List.foldl_cons, ih]
    cases ha : s.ActualDuration with
    | some a => simp [F64.statsStep, ha, countedSessions, List.filter_cons]; omega
    | none =>
      have hstep : (F64.statsStep acc s).completedCount = acc.completedCount := by
        simp only [F64.statsStep, ha]
        split_ifs <;> rfl
      have hf : countedSessions (s :: rest) = countedSessions rest := by
        simp [countedSessions, List.filter_cons, ha]
      rw [hstep, hf]

theorem foldl_statsStep_totalDuration_f64 (sessions : List FocusSession) :
    ∀ acc : StatsAcc, (sessions.foldl F64.statsStep acc).totalDuration
      = acc.totalDuration
        + ((countedSessions sessions).map (fun s => s.ActualDuration.getD 0)).sum := by
  induction sessions with
  | nil => intro acc; simp [countedSessions]
  | cons s rest ih =>
    intro acc
    rw [List.foldl_cons, ih]
    cases ha : s.ActualDuration with
    | some a => simp [F64.statsStep, ha, countedSessions, List.filter_cons]; omega
    | none =>
      have hstep : (F64.statsStep acc s).totalDuration = acc.totalDuration := by
        simp only [F64.statsStep, ha]
        split_ifs <;> rfl
      have hf : countedSessions (s :: rest) = countedSessions rest := by
        simp [countedSessions, List.filter_cons, ha]
      rw [hstep, hf]

theorem aggregateStats_counted_only_f64 (o : RangeOrder) (hv : o.Valid)
    (sessions : List FocusSession) :
    (F64.aggregateStats o sessions).TotalSessions = sessions.length ∧
    (F64.aggregateStats o sessions).CancelledSessions = (cancelledSessions sessions).length ∧
    (F64.aggregateStats o sessions).CompletedSessions = (countedSessions sessions).length ∧
    (F64.aggregateStats o sessions).TotalDuration
      = ((countedSessions sessions).map (fun s => s.ActualDuration.getD 0)).sum ∧
    (F64.aggregateStats o sessions).metrics
      = (F64.aggregateStats o (countedSessions sessions)).metrics := by
  by_cases h0 : sessions.length = 0
  · have hnil : sessions = [] := List.length_eq_zero.mp h0
    subst hnil
    simp [F64.aggregateStats, emptyStats, cancelledSessions, countedSessions]
  · have hL : F64.aggregateStats o sessions
        = F64.finishStats o sessions.length (sessions.foldl F64.statsStep StatsAcc.init) := by
      simp [F64.aggregateStats, h0]
    rw [hL]
    refine ⟨rfl, ?_, ?_, ?_, ?_⟩
    · simp [F64.finishStats, foldl_statsStep_cancelledCount_f64, StatsAcc.init]
    · simp [F64.finishStats, foldl_statsStep_completedCount_f64, StatsAcc.init]
    · simp [F64.finishStats, foldl_statsStep_totalDuration_f64, StatsAcc.init]
    · have hc := foldl_statsStep_core_f64 sessions StatsAcc.init
      by_cases h1 : (countedSessions sessions).length = 0
      · have hnil : countedSessions sessions = [] := List.length_eq_zero.mp h1
        rw [hnil] at hc ⊢
        have hR : F64.aggregateStats o [] = emptyStats 0 := by simp [F64.aggregateStats]
        rw [hR, ← finishStats_init_f64 o hv 0 0]
        exact finishStats_metrics_congr_f64 o _ _ _ _ hc
      · have hR : F64.aggregateStats o (countedSessions sessions)
            = F64.finishStats o (countedSessions sessions).length
                ((countedSessions sessions).foldl F64.statsStep StatsAcc.init) := by
          simp [F64.aggregateStats, h1]
        rw [hR]
        exact finishStats_metrics_congr_f64 o _ _ _ _ hc

/-! ### The sessions the query hands to the loop -/

theorem statsQuery_completed (collection : List FocusSession) (userID : Nat)
    (startDate endDate : Time) :
    ∀ s ∈ statsQuery collection userID startDate endDate, s.Status = StatusCompleted := by
  intro s hs
  simp only [statsQuery, List.mem_filter, Bool.and_eq_true, decide_eq_true_eq] at hs
  exact hs.2.1.2

theorem countedSessions_of_completed (sessions : List FocusSession)
    (hq : ∀ s ∈ sessions, s.Status = StatusCompleted) :
    countedSessions sessions = sessions.filter qualifies := by
  unfold countedSessions
  apply List.filter_congr
  intro s hs
  simp [qualifies, hq s hs]

theorem cancelled_of_completed (sessions : List FocusSession)
    (hq : ∀ s ∈ sessions, s.Status = StatusCompleted) :
    cancelledSessions sessions = [] ∧
    sessions.filter (fun s => decide (s.Status = StatusCancelled)) = [] := by
  have hne : StatusCompleted ≠ StatusCancelled := by decide
  constructor
  · unfold cancelledSessions
    rw [List.filter_eq_nil_iff]
    intro s hs
    simp [hq s hs, hne]
  · rw [List.filter_eq_nil_iff]
    intro s hs
    simp [hq s hs, hne]

theorem onlyQualifyingCount_of_completed (aggregate : List FocusSession → ProductivityStats)
    (sessions : List FocusSession) (hq : ∀ s ∈ sessions, s.Status = StatusCompleted)
    (h : (aggregate sessions).TotalSessions = sessions.length ∧
      (aggregate sessions).CancelledSessions = (cancelledSessions sessions).length ∧
      (aggregate sessions).CompletedSessions = (countedSessions sessions).length ∧
      (aggregate sessions).TotalDuration
        = ((countedSessions sessions).map (fun s => s.ActualDuration.getD 0)).sum ∧
      (aggregate sessions).metrics = (aggregate (countedSessions sessions)).metrics) :
    OnlyQualifyingCount aggregate sessions := by
  obtain ⟨h1, h2, h3, h4, h5⟩ := h
  rw [countedSessions_of_completed sessions hq] at h3 h4 h5
  rw [(cancelled_of_completed sessions hq).1] at h2
  exact ⟨h1, by rw [h2, (cancelled_of_completed sessions hq).2], h3, h4, h5⟩

/-- C4: the loop of `GetProductivityStats` is given the sessions the query fetched, which
are completed sessions of the caller. Of such a list only the sessions with an actual
duration contribute to `CompletedSessions`, `TotalDuration`, the five averages, the four
productivity maps and the most-productive fields: these are the statistics of the sublist
of the completed sessions with an actual duration. Every session of the list counts in
`TotalSessions`, and `CancelledSessions` is the number of cancelled sessions of the list,
with or without an actual duration; the list holds none, nor a planned or an active
session, so the count is 0. This holds with the scores taken exactly and with the scores
in binary64. A stored cancelled session that carries an actual duration is not fetched
and changes no figure. -/
theorem C4_only_completed_sessions_with_duration_count (o : RangeOrder) (hv : o.Valid)
    (collection : List FocusSession) (userID : Nat) (startDate endDate : Time)
    (sessions : List FocusSession)
    (hq : sessions = statsQuery collection userID startDate endDate) :
    (GetProductivityStats o collection userID startDate endDate = aggregateStats o sessions ∧
     F64.GetProductivityStats o collection userID startDate endDate
       = F64.aggregateStats o sessions) ∧
    (∀ s ∈ sessions, s.Status = StatusCompleted) ∧
    (OnlyQualifyingCount (aggregateStats o) sessions ∧
     OnlyQualifyingCount (F64.aggregateStats o) sessions) ∧
    ((aggregateStats o sessions).CancelledSessions = 0 ∧
     (F64.aggregateStats o sessions).CancelledSessions = 0) ∧
    (statsQuery sampleCollection 0 (Date 2024 12 1 0 0 0 0) (Date 2024 12 31 0 0 0 0)
       = sampleCollection.take 2 ∧
     (F64.GetProductivityStats RangeOrder.insertion sampleCollection 0
        (Date 2024 12 1 0 0 0 0) (Date 2024 12 31 0 0 0 0)).TotalSessions = 2 ∧
     (F64.GetProductivityStats RangeOrder.insertion sampleCollection 0
        (Date 2024 12 1 0 0 0 0) (Date 2024 12 31 0 0 0 0)).CompletedSessions = 1 ∧
     (F64.GetProductivityStats RangeOrder.insertion sampleCollection 0
        (Date 2024 12 1 0 0 0 0) (Date 2024 12 31 0 0 0 0)).CancelledSessions = 0 ∧
     (F64.GetProductivityStats RangeOrder.insertion sampleCollection 0
        (Date 2024 12 1 0 0 0 0) (Date 2024 12 31 0 0 0 0)).TotalDuration = 40 ∧
     (F64.GetProductivityStats RangeOrder.insertion sampleCollection 0
        (Date 2024 12 1 0 0 0 0) (Date 2024 12 31 0 0 0 0)).AverageRating = 3) := by
  have hc : ∀ s ∈ sessions, s.Status = StatusCompleted := by
    rw [hq]; exact statsQuery_completed collection userID startDate endDate
  have h1 := onlyQualifyingCount_of_completed (aggregateStats o) sessions hc
    (aggregateStats_counted_only o hv sessions)
  have h2 := onlyQualifyingCount_of_completed (F64.aggregateStats o) sessions hc
    (aggregateStats_counted_only_f64 o hv sessions)
  have hz := (cancelled_of_completed sessions hc).2
  refine ⟨⟨by rw [hq]; rfl, by rw [hq]; rfl⟩, hc, ⟨h1, h2⟩, ⟨?_, ?_⟩, ?_, ?_, ?_, ?_, ?_, ?_⟩
  · rw [h1.2.1, hz]; rfl
  · rw [h2.2.1, hz]; rfl
  all_goals decide!

theorem C4_only_completed_sessions_with_duration_count_witness :
    RangeOrder.insertion.Valid ∧
    OnlyQualifyingCount (aggregateStats RangeOrder.insertion)
      (statsQuery sampleCollection 0 (Date 2024 12 1 0 0 0 0) (Date 2024 12 31 0 0 0 0)) ∧
    OnlyQualifyingCount (F64.aggregateStats RangeOrder.insertion)
      (statsQuery sampleCollection 0 (Date 2024 12 1 0 0 0 0) (Date 2024 12 31 0 0 0 0)) :=
  ⟨RangeOrder.insertion_valid,
    (C4_only_completed_sessions_with_duration_count RangeOrder.insertion
      RangeOrder.insertion_valid sampleCollection 0 (Date 2024 12 1 0 0 0 0)
      (Date 2024 12 31 0 0 0 0) _ rfl).2.2.1⟩

end FocusSpot
